import Mathlib

/-! # Virtual terminal of the Final Cut toolkit (fvterm.cpp)

A shallow embedding of the surface operations and of the compositor of
`src/src/fvterm.cpp`, together with the character comparison of
`src/src/include/final/foptiattr.h`.

Conventions of the embedding

* C++ `int` values are `Int`; `uInt` values are `Nat` below `2^32`, and every
  conversion or unsigned operation that can wrap is written with an explicit
  `% 2^32` (`toUInt`, `toInt`, `uInc`, `uDec`, `uSub`).
* A heap array reached through a pointer (`area->data`, `area->changes`) is an
  `Option (List _)`: `none` is the null pointer.  Reading outside the array
  yields the default element and writing outside the array does nothing; the
  theorems carry the hypotheses under which every access is inside the array.
* Functions of other translation units (column width of a character, window
  layers, terminal capabilities) are parameters collected in environment
  structures.
-/

namespace finalcut

/-! ## Machine integers -/

/-- Conversion `uInt(i)` of an `int` to a 32 bit unsigned value. -/
def toUInt (i : Int) : Nat := (i % 2 ^ 32).toNat

/-- Conversion `int(u)` of a 32 bit unsigned value to a (two's complement) `int`. -/
def toInt (u : Nat) : Int :=
  if u % 2 ^ 32 < 2 ^ 31 then ((u % 2 ^ 32 : Nat) : Int) else ((u % 2 ^ 32 : Nat) : Int) - 2 ^ 32

/-- Unsigned increment `u++`. -/
def uInc (u : Nat) : Nat := (u + 1) % 2 ^ 32

/-- Unsigned decrement `u--`. -/
def uDec (u : Nat) : Nat := (u + (2 ^ 32 - 1)) % 2 ^ 32

/-- Unsigned addition. -/
def uAdd (a b : Nat) : Nat := (a + b) % 2 ^ 32

/-- Unsigned subtraction. -/
def uSub (a b : Nat) : Nat := (a % 2 ^ 32 + (2 ^ 32 - b % 2 ^ 32)) % 2 ^ 32

/-! ## Cells -/

/-- Modelled from the spec: the cell type `FChar` is declared in
`final/ftypes.h`, which is not part of the sources at hand.  The fields are
the ones `fvterm.cpp` and `foptiattr.h` use: code point, encoded code point,
colours, and the three attribute bytes.  Attribute byte 0 holds `bold` ..
`invisible`, byte 1 holds `protect` .. `inherit_bg`, byte 2 holds
`no_changes`, `printed`, `fullwidth_padding` and the two bit `char_width`. -/
structure FChar where
  ch : Int
  encoded_char : Int
  fg_color : Nat
  bg_color : Nat
  bold : Bool
  dim : Bool
  italic : Bool
  underline : Bool
  blink : Bool
  reverse : Bool
  standout : Bool
  invisible : Bool
  protect : Bool
  crossed_out : Bool
  dbl_underline : Bool
  alt_charset : Bool
  pc_charset : Bool
  transparent : Bool
  trans_shadow : Bool
  inherit_bg : Bool
  no_changes : Bool
  printed : Bool
  fullwidth_padding : Bool
  char_width : Nat
deriving DecidableEq, Repr

/-- Value initialised cell `FChar{}`: every member zero. -/
def FChar.zero : FChar :=
  { ch := 0, encoded_char := 0, fg_color := 0, bg_color := 0,
    bold := false, dim := false, italic := false, underline := false,
    blink := false, reverse := false, standout := false, invisible := false,
    protect := false, crossed_out := false, dbl_underline := false,
    alt_charset := false, pc_charset := false, transparent := false,
    trans_shadow := false, inherit_bg := false,
    no_changes := false, printed := false, fullwidth_padding := false,
    char_width := 0 }

instance : Inhabited FChar := ⟨FChar.zero⟩

/-- Attribute byte 0 of a cell, as the list of its eight flags. -/
def FChar.byte0 (c : FChar) : List Bool :=
  [c.bold, c.dim, c.italic, c.underline, c.blink, c.reverse, c.standout, c.invisible]

/-- Attribute byte 1 of a cell, as the list of its eight flags. -/
def FChar.byte1 (c : FChar) : List Bool :=
  [c.protect, c.crossed_out, c.dbl_underline, c.alt_charset, c.pc_charset,
   c.transparent, c.trans_shadow, c.inherit_bg]

/-- The comparison `operator ==` on cells (foptiattr.h, lines 340-350). -/
def FChar.eq (lhs rhs : FChar) : Bool :=
  decide (lhs.ch = rhs.ch)
  && decide (lhs.fg_color = rhs.fg_color)
  && decide (lhs.bg_color = rhs.bg_color)
  && decide (lhs.byte0 = rhs.byte0)
  && decide (lhs.byte1 = rhs.byte1)
  && decide (lhs.fullwidth_padding = rhs.fullwidth_padding)

/-- The comparison `operator !=` on cells (foptiattr.h, lines 353-355). -/
def FChar.ne (lhs rhs : FChar) : Bool := !(FChar.eq lhs rhs)

/-- A cell counts for `trans_count` when one of the flags `transparent`,
`trans_shadow`, `inherit_bg` is set. -/
def FChar.isTrans (c : FChar) : Bool := c.transparent || c.trans_shadow || c.inherit_bg

/-! ## Arrays behind pointers -/

/-- Number of elements of the array behind a pointer (0 for the null pointer). -/
def bufSize {α : Type} (b : Option (List α)) : Nat :=
  match b with
  | some l => l.length
  | none => 0

/-- Read of `b[i]`. -/
def bufGet {α : Type} [Inhabited α] (b : Option (List α)) (i : Int) : α :=
  match b with
  | some l => if 0 ≤ i then l.getD i.toNat default else default
  | none => default

/-- Write `b[i] = v`. -/
def bufSet {α : Type} (b : Option (List α)) (i : Int) (v : α) : Option (List α) :=
  match b with
  | some l => if 0 ≤ i then some (l.set i.toNat v) else some l
  | none => none

/-- The call `std::fill_n (&b[start], n, v)`: nothing is written for `n <= 0`. -/
def fill_n {α : Type} (b : Option (List α)) (start n : Int) (v : α) : Option (List α) :=
  (List.range n.toNat).foldl (fun acc (k : Nat) => bufSet acc (start + (k : Int)) v) b

/-! ## Surfaces -/

/-- Dirty range of one row, `FLineChanges` (three `uInt` members). -/
structure FLineChanges where
  xmin : Nat
  xmax : Nat
  trans_count : Nat
deriving DecidableEq, Repr

instance : Inhabited FLineChanges := ⟨⟨0, 0, 0⟩⟩

/-- Modelled from the spec: the surface type `FTermArea` is declared in
`final/fvterm.h`, which is not part of the sources at hand.  The fields are
the members `fvterm.cpp` reads and writes.  `widget` is the identity of the
owning widget (`none` for a null pointer) and `preproc_list` lists the
identities of the registered pre-render handlers. -/
structure FTermArea where
  offset_left : Int
  offset_top : Int
  width : Int
  height : Int
  right_shadow : Int
  bottom_shadow : Int
  cursor_x : Int
  cursor_y : Int
  input_cursor_x : Int
  input_cursor_y : Int
  widget : Option Nat
  preproc_list : List Nat
  input_cursor_visible : Bool
  has_changes : Bool
  visible : Bool
  changes : Option (List FLineChanges)
  data : Option (List FChar)
deriving DecidableEq, Repr

/-- The cell `area->data[i]`. -/
def FTermArea.cell (a : FTermArea) (i : Int) : FChar := bufGet a.data i

/-- The row record `area->changes[y]`. -/
def FTermArea.line (a : FTermArea) (y : Int) : FLineChanges := bufGet a.changes y

/-- Total row length `width + right_shadow`. -/
def FTermArea.lineLen (a : FTermArea) : Int := a.width + a.right_shadow

/-- Total number of rows `height + bottom_shadow`. -/
def FTermArea.rows (a : FTermArea) : Int := a.height + a.bottom_shadow

/-- The cell in column `x` of row `y` (both counted from 0). -/
def FTermArea.at (a : FTermArea) (x y : Int) : FChar := a.cell (y * a.lineLen + x)

/-! ## Printing (fvterm.cpp, lines 406-579 and 2673-2724) -/

/-- Services of other translation units used while printing:
`getColumnWidth (FChar&)` (returns the column width and may update the cell
it is handed by reference), `getEncoding() == fc::UTF8`, `getTabstop()`. -/
structure PrintEnv where
  getColumnWidth : FChar → Nat × FChar
  isUTF8 : Bool
  getTabstop : Nat

/-- The adjustment of `trans_count` in `print (FTermArea*, FChar&)` (lines
532-546) for the stored cell `ac` and the new cell `nc`. -/
def printTransCount (ac nc : FChar) (c0 : FLineChanges) : FLineChanges :=
  let c1 :=
    if (!ac.transparent && nc.transparent)
        || (!ac.trans_shadow && nc.trans_shadow)
        || (!ac.inherit_bg && nc.inherit_bg) then
      { c0 with trans_count := uInc c0.trans_count }
    else c0
  if (ac.transparent && !nc.transparent)
      || (ac.trans_shadow && !nc.trans_shadow)
      || (ac.inherit_bg && !nc.inherit_bg) then
    { c1 with trans_count := uDec c1.trans_count }
  else c1

/-- The widening of the dirty range in `print (FTermArea*, FChar&)` (lines
551-555) by the column `ax`. -/
def printDirtyRange (ax : Int) (c2 : FLineChanges) : FLineChanges :=
  let c3 := if ax < toInt c2.xmin then { c2 with xmin := toUInt ax } else c2
  if ax > toInt c3.xmax then { c3 with xmax := toUInt ax } else c3

/-- The block of `print (FTermArea*, FChar&)` guarded by the cursor test
(lines 522-557): compare the cell under the cursor with `nc` and, when they
differ, adjust `trans_count`, store `nc` and widen the dirty range. -/
def printStore (area : FTermArea) (nc : FChar) : FTermArea :=
  let ax := area.cursor_x - 1
  let ay := area.cursor_y - 1
  if area.cursor_x > 0 ∧ area.cursor_y > 0
      ∧ ax < area.width + area.right_shadow
      ∧ ay < area.height + area.bottom_shadow then
    let line_len := area.width + area.right_shadow
    let idx := ay * line_len + ax
    let ac := bufGet area.data idx
    if FChar.ne ac nc then
      let c2 := printTransCount ac nc (bufGet area.changes ay)
      let data := bufSet area.data idx nc
      { area with data := data, changes := bufSet area.changes ay (printDirtyRange ax c2) }
    else area
  else area

/-- The padding cell built by `printPaddingCharacter` (lines 2705-2720). -/
def paddingChar (env : PrintEnv) (term_char : FChar) : FChar :=
  if env.isUTF8 then
    { term_char with ch := 0, fullwidth_padding := true, char_width := 0 }
  else
    { term_char with ch := 46, char_width := 1 }

/-- The function `print (FTermArea*, FChar&)` for a non-null surface (lines
504-579).  The result is the returned `int` and the surface afterwards.
The recursion through `printPaddingCharacter` is bounded by `fuel`; `none`
means the fuel ran out. -/
def print (env : PrintEnv) : Nat → FTermArea → FChar → Option (Int × FTermArea)
  | 0, _, _ => none
  | fuel + 1, area, term_char =>
    let width := area.width
    let height := area.height
    let rsh := area.right_shadow
    let bsh := area.bottom_shadow
    let char_width := (env.getColumnWidth term_char).1
    let nc := (env.getColumnWidth term_char).2
    if char_width = 0 ∧ nc.fullwidth_padding = false then some (0, area)
    else
      let area1 := printStore area nc
      let area2 := { area1 with cursor_x := area1.cursor_x + 1, has_changes := true }
      let after : Option FTermArea :=
        if area2.cursor_x > width + rsh then
          some { area2 with cursor_x := 1, cursor_y := area2.cursor_y + 1 }
        else if char_width = 2 then
          (print env fuel area2 (paddingChar env nc)).map Prod.snd
        else some area2
      after.bind fun area3 =>
        if area3.cursor_y > height + bsh then
          some (-1, { area3 with cursor_y := area3.cursor_y - 1 })
        else some (1, area3)

/-- The function `printWrap` (lines 2673-2696): result and surface afterwards. -/
def printWrap (area : FTermArea) : Bool × FTermArea :=
  let width := area.width
  let height := area.height
  let rsh := area.right_shadow
  let bsh := area.bottom_shadow
  let area1 :=
    if area.cursor_x > width + rsh then
      { area with cursor_x := 1, cursor_y := area.cursor_y + 1 }
    else area
  if area1.cursor_y > height + bsh then
    (true, { area1 with cursor_y := area1.cursor_y - 1 })
  else (false, area1)

/-- The column assigned by the tab case of `print` (lines 431-435):
`int (uInt(cursor_x) + tabstop - uInt(cursor_x) + 1 % tabstop)`, where
`1 % tabstop` binds first and the sum is unsigned. -/
def tabColumn (tabstop : Nat) (cursor_x : Int) : Int :=
  toInt (uAdd (uSub (uAdd (toUInt cursor_x) tabstop) (toUInt cursor_x)) (1 % tabstop))

/-- The loop of `print (FTermArea*, const std::vector<FChar>&)` (lines
417-458) over the remaining cells, with the running count `len`. -/
def printLoop (env : PrintEnv) (fuel : Nat) :
    List FChar → Int → FTermArea → Option (Int × FTermArea)
  | [], len, area => some (len, area)
  | fchar :: rest, len, area =>
    if fchar.ch = 10 ∨ fchar.ch = 13 ∨ fchar.ch = 9 ∨ fchar.ch = 8 ∨ fchar.ch = 7 then
      let area1 :=
        if fchar.ch = 10 then { area with cursor_y := area.cursor_y + 1, cursor_x := 1 }
        else if fchar.ch = 13 then { area with cursor_x := 1 }
        else if fchar.ch = 9 then
          { area with cursor_x := tabColumn env.getTabstop area.cursor_x }
        else if fchar.ch = 8 then { area with cursor_x := area.cursor_x - 1 }
        else area
      let wrapped := printWrap area1
      if wrapped.1 then some (len, wrapped.2)
      else printLoop env fuel rest (len + 1) wrapped.2
    else
      match print env fuel area fchar with
      | none => none
      | some r => printLoop env fuel rest (len + 1) r.2

/-- The function `print (FTermArea*, const std::vector<FChar>&)` for a
non-null surface (lines 406-461). -/
def printString (env : PrintEnv) (fuel : Nat) (area : FTermArea)
    (term_string : List FChar) : Option (Int × FTermArea) :=
  if term_string = [] then some (0, area)
  else printLoop env fuel term_string 0 area

/-! ## The process-wide state -/

/-- A top-level window of the window list: its widget identity and the
surface returned by `getVWin()` (`none` for a null pointer). -/
structure FWindow where
  ident : Nat
  vwin : Option FTermArea
deriving DecidableEq, Repr

/-- A pointer to a surface other than the full-screen buffer: the desktop
surface `vdesktop`, the surface of the window at a position of the window
list, or the surface of a child widget. -/
inductive AreaRef where
  | desktop
  | window (i : Nat)
  | child (i : Nat)
deriving DecidableEq, Repr

/-- The static members of `FVTerm` used by the embedded functions and the
surfaces they point to.  `window_list` is `FWidget::getWindowList()`, the
empty list standing for a null or an empty list alike; `term_out` collects
what `flushOutputBuffer` has handed to the terminal. -/
structure World where
  vterm : FTermArea
  vdesktop : FTermArea
  window_list : List FWindow
  child_areas : List FTermArea
  active_area : Option AreaRef
  next_attribute : FChar
  term_attribute : FChar
  term_pos : Int × Int
  output_buffer : List Int
  term_out : List Int
deriving DecidableEq, Repr

/-- The surface a pointer refers to (`none` for a dangling or null pointer). -/
def World.area? (w : World) (r : AreaRef) : Option FTermArea :=
  match r with
  | .desktop => some w.vdesktop
  | .window i =>
    match w.window_list[i]? with
    | some win_obj => win_obj.vwin
    | none => none
  | .child i => w.child_areas[i]?

/-- Store through a surface pointer. -/
def World.setArea (w : World) (r : AreaRef) (a : FTermArea) : World :=
  match r with
  | .desktop => { w with vdesktop := a }
  | .window i =>
    match w.window_list[i]? with
    | some win_obj =>
      { w with window_list := w.window_list.set i { win_obj with vwin := some a } }
    | none => w
  | .child i => { w with child_areas := w.child_areas.set i a }

/-! ## Geometry -/

/-- Modelled from the spec: `FRect::contains` belongs to `frect.cpp`, which
is not part of the sources at hand.  A rectangle built from a corner
`(x, y)` and a size `w`, `h` spans the columns `x .. x + w - 1` and the rows
`y .. y + h - 1`, both ends included. -/
def rectContains (x y w h : Int) (pos : Int × Int) : Bool :=
  decide (pos.1 ≥ x) && decide (pos.1 ≤ x + w - 1)
  && decide (pos.2 ≥ y) && decide (pos.2 ≤ y + h - 1)

/-- The rectangle `geometry` of a window surface (lines 1395-1398): corner
at the offsets, size including the shadow. -/
def FTermArea.contains (win : FTermArea) (pos : Int × Int) : Bool :=
  rectContains win.offset_left win.offset_top
    (win.width + win.right_shadow) (win.height + win.bottom_shadow) pos

/-! ## Coverage (fvterm.cpp, lines 1369-1424) -/

/-- The enumeration `covered_state`. -/
inductive covered_state where
  | non_covered
  | half_covered
  | fully_covered
deriving DecidableEq, Repr

/-- The loop of `isCovered` over the rest of the window list.  `i` is the
position of the head of the rest in the whole list, so that `area == win`
holds exactly for the pointer `AreaRef.window i`. -/
def isCoveredLoop (area : AreaRef) (pos : Int × Int) :
    List FWindow → Nat → Bool → covered_state → covered_state
  | [], _, _, is_covered => is_covered
  | win_obj :: rest, i, found, is_covered =>
    match win_obj.vwin with
    | none => isCoveredLoop area pos rest (i + 1) found is_covered
    | some win =>
      if win.visible = false then isCoveredLoop area pos rest (i + 1) found is_covered
      else
        let win_x := win.offset_left
        let win_y := win.offset_top
        let width := win.width + win.right_shadow
        let tmp := win.cell ((pos.2 - win_y) * width + (pos.1 - win_x))
        let found1 := if area = AreaRef.window i then true else found
        if found && win.contains pos then
          if tmp.trans_shadow then
            isCoveredLoop area pos rest (i + 1) found1 covered_state.half_covered
          else if tmp.transparent = false then covered_state.fully_covered
          else isCoveredLoop area pos rest (i + 1) found1 is_covered
        else isCoveredLoop area pos rest (i + 1) found1 is_covered

/-- The function `isCovered` for a non-null surface pointer. -/
def isCovered (w : World) (pos : Int × Int) (area : AreaRef) : covered_state :=
  isCoveredLoop area pos w.window_list 0 (decide (area = AreaRef.desktop))
    covered_state.non_covered

/-! ## Character lookup below and above a widget (lines 1779-1857, 2014-2047) -/

/-- The enumeration `character_type`. -/
inductive character_type where
  | overlapped_character
  | covered_character
deriving DecidableEq, Repr

/-- Collaborators of the compositor that live in other translation units:
`FWindow::getWindowLayer`, the block glyph constants of `fc.h`, the
registered pre-render handler functions (by identity) and the terminal size
`getColumnNumber()`, `getLineNumber()`. -/
structure CompEnv where
  getWindowLayer : Option Nat → Int
  LowerHalfBlock : Int
  UpperHalfBlock : Int
  LeftHalfBlock : Int
  RightHalfBlock : Int
  MediumShade : Int
  FullBlock : Int
  handlers : Nat → World → World
  columnNumber : Nat
  lineNumber : Nat

/-- The function `getAreaCharacter`.  The pointer `cc` is represented by the
cell it points to and by whether it points to the static cell `i_ch`: in the
`inherit_bg` case `i_ch` is overwritten with `tmp` before `cc->bg_color` is
read, so a pointer to `i_ch` then yields the colour of `tmp`. -/
def getAreaCharacter (pos : Int × Int) (area : FTermArea) (cc : FChar × Bool) :
    FChar × Bool :=
  let area_x := area.offset_left
  let area_y := area.offset_top
  let line_len := area.width + area.right_shadow
  let tmp := area.cell ((pos.2 - area_y) * line_len + (pos.1 - area_x))
  if tmp.transparent = false then
    if tmp.trans_shadow then
      ({ cc.1 with fg_color := tmp.fg_color, bg_color := tmp.bg_color,
                   reverse := false, standout := false }, false)
    else if tmp.inherit_bg then
      ({ tmp with bg_color := if cc.2 then tmp.bg_color else cc.1.bg_color }, true)
    else (tmp, false)
  else cc

/-- The loop of `getCharacter` over the rest of the window list. -/
def getCharacterLoop (env : CompEnv) (char_type : character_type) (x y : Int)
    (obj : Option Nat) (layer : Int) : List FWindow → FChar × Bool → FChar × Bool
  | [], cc => cc
  | win_obj :: rest, cc =>
    let significant_char : Bool :=
      if char_type = character_type.covered_character then
        decide (layer ≥ env.getWindowLayer (some win_obj.ident))
      else decide (layer < env.getWindowLayer (some win_obj.ident))
    if obj.isSome && decide (some win_obj.ident ≠ obj) && significant_char then
      match win_obj.vwin with
      | none => getCharacterLoop env char_type x y obj layer rest cc
      | some win =>
        if win.visible = false then getCharacterLoop env char_type x y obj layer rest cc
        else if win.contains (x, y) then
          getCharacterLoop env char_type x y obj layer rest (getAreaCharacter (x, y) win cc)
        else getCharacterLoop env char_type x y obj layer rest cc
    else if char_type = character_type.covered_character then cc
    else getCharacterLoop env char_type x y obj layer rest cc

/-- The function `getCharacter`. -/
def getCharacter (env : CompEnv) (w : World) (char_type : character_type)
    (pos : Int × Int) (obj : Option Nat) : FChar :=
  let x := pos.1 - 1
  let y := pos.2 - 1
  let xx0 := if x < 0 then 0 else x
  let yy0 := if y < 0 then 0 else y
  let xx := if xx0 ≥ w.vterm.width then w.vterm.width - 1 else xx0
  let yy := if yy0 ≥ w.vterm.height then w.vterm.height - 1 else yy0
  let cc := w.vdesktop.cell (yy * w.vdesktop.width + xx)
  if w.window_list = [] then cc
  else
    let layer := env.getWindowLayer obj
    (getCharacterLoop env char_type x y obj layer w.window_list (cc, false)).1

/-- The function `getCoveredCharacter`. -/
def getCoveredCharacter (env : CompEnv) (w : World) (pos : Int × Int) (obj : Option Nat) :
    FChar :=
  getCharacter env w character_type.covered_character pos obj

/-- The function `getOverlappedCharacter`. -/
def getOverlappedCharacter (env : CompEnv) (w : World) (pos : Int × Int)
    (obj : Option Nat) : FChar :=
  getCharacter env w character_type.overlapped_character pos obj

/-! ## Writing one cell of the full-screen buffer (lines 1427-1607) -/

/-- The replacement of the block glyphs by a space in the shadow blend. -/
def blendGlyph (env : CompEnv) (ch : Int) : Int :=
  if ch = env.LowerHalfBlock ∨ ch = env.UpperHalfBlock ∨ ch = env.LeftHalfBlock
      ∨ ch = env.RightHalfBlock ∨ ch = env.MediumShade ∨ ch = env.FullBlock then 32
  else ch

/-- Store `c` into `vterm->data[i]`. -/
def World.setVTermCell (w : World) (i : Int) (c : FChar) : World :=
  { w with vterm := { w.vterm with data := bufSet w.vterm.data i c } }

/-- The function `updateOverlappedColor`. -/
def updateOverlappedColor (env : CompEnv) (w : World) (area : FTermArea)
    (area_pos terminal_pos : Int × Int) : World :=
  let width := area.width + area.right_shadow
  let ac := area.cell (area_pos.2 * width + area_pos.1)
  let ti := terminal_pos.2 * w.vterm.width + terminal_pos.1
  let tc := w.vterm.cell ti
  let oc := getOverlappedCharacter env w (terminal_pos.1 + 1, terminal_pos.2 + 1) area.widget
  let nc := { ac with fg_color := oc.fg_color, bg_color := oc.bg_color,
                      reverse := false, standout := false, ch := blendGlyph env ac.ch }
  w.setVTermCell ti { nc with no_changes := tc.printed && FChar.eq tc nc }

/-- The function `updateOverlappedCharacter`. -/
def updateOverlappedCharacter (env : CompEnv) (w : World) (area : FTermArea)
    (terminal_pos : Int × Int) : World :=
  let ti := terminal_pos.2 * w.vterm.width + terminal_pos.1
  let tc := w.vterm.cell ti
  let oc := getCoveredCharacter env w (terminal_pos.1 + 1, terminal_pos.2 + 1) area.widget
  w.setVTermCell ti { oc with no_changes := tc.printed && FChar.eq tc oc }

/-- The function `updateShadedCharacter`. -/
def updateShadedCharacter (env : CompEnv) (w : World) (area : FTermArea)
    (area_pos terminal_pos : Int × Int) : World :=
  let width := area.width + area.right_shadow
  let ac := area.cell (area_pos.2 * width + area_pos.1)
  let ti := terminal_pos.2 * w.vterm.width + terminal_pos.1
  let tc := w.vterm.cell ti
  let oc0 := getCoveredCharacter env w (terminal_pos.1 + 1, terminal_pos.2 + 1) area.widget
  let oc := { oc0 with fg_color := ac.fg_color, bg_color := ac.bg_color,
                       reverse := false, standout := false, ch := blendGlyph env oc0.ch }
  w.setVTermCell ti { oc with no_changes := tc.printed && FChar.eq tc oc }

/-- The function `updateInheritBackground`. -/
def updateInheritBackground (env : CompEnv) (w : World) (area : FTermArea)
    (area_pos terminal_pos : Int × Int) : World :=
  let width := area.width + area.right_shadow
  let ac := area.cell (area_pos.2 * width + area_pos.1)
  let ti := terminal_pos.2 * w.vterm.width + terminal_pos.1
  let tc := w.vterm.cell ti
  let cc := getCoveredCharacter env w (terminal_pos.1 + 1, terminal_pos.2 + 1) area.widget
  let nc := { ac with bg_color := cc.bg_color }
  w.setVTermCell ti { nc with no_changes := tc.printed && FChar.eq tc nc }

/-- The function `updateCharacter`: the surface cell is copied over the
full-screen cell first, and `no_changes` is computed from the copy. -/
def updateCharacter (w : World) (area : FTermArea) (area_pos terminal_pos : Int × Int) :
    World :=
  let width := area.width + area.right_shadow
  let ac := area.cell (area_pos.2 * width + area_pos.1)
  let ti := terminal_pos.2 * w.vterm.width + terminal_pos.1
  let w1 := w.setVTermCell ti ac
  let tc := w1.vterm.cell ti
  if tc.printed && FChar.eq tc ac then w1.setVTermCell ti { tc with no_changes := true }
  else w1.setVTermCell ti { tc with no_changes := false }

/-- The function `updateVTermCharacter` for a surface pointer: the result is
the returned `bool` and the state afterwards. -/
def updateVTermCharacter (env : CompEnv) (w : World) (r : AreaRef)
    (area_pos terminal_pos : Int × Int) : Bool × World :=
  match w.area? r with
  | none => (false, w)
  | some area =>
    let width := area.width + area.right_shadow
    let ac := area.cell (area_pos.2 * width + area_pos.1)
    let is_covered := isCovered w terminal_pos r
    if is_covered = covered_state.fully_covered then (false, w)
    else if is_covered = covered_state.half_covered then
      (true, updateOverlappedColor env w area area_pos terminal_pos)
    else if ac.transparent then (true, updateOverlappedCharacter env w area terminal_pos)
    else if ac.trans_shadow then (true, updateShadedCharacter env w area area_pos terminal_pos)
    else if ac.inherit_bg then (true, updateInheritBackground env w area area_pos terminal_pos)
    else (true, updateCharacter w area area_pos terminal_pos)

/-! ## Compositing a surface, `putArea (FTermArea*)` (lines 919-1001) -/

/-- The function `callPreprocessingHandler`: the registered handlers run in
the order of the list. -/
def callPreprocessingHandler (env : CompEnv) (w : World) (r : AreaRef) : World :=
  match w.area? r with
  | none => w
  | some area => area.preproc_list.foldl (fun acc h => env.handlers h acc) w

/-- The function `isInsideArea`. -/
def isInsideArea (pos : Int × Int) (area : FTermArea) : Bool :=
  rectContains 0 0 area.width area.height pos

/-- The function `isInsideTerminal`. -/
def isInsideTerminal (env : CompEnv) (pos : Int × Int) : Bool :=
  rectContains 0 0 env.columnNumber env.lineNumber pos

/-- The function `updateVTermCursor` for a surface pointer. -/
def updateVTermCursor (env : CompEnv) (w : World) (r : AreaRef) : Bool × World :=
  match w.area? r with
  | none => (false, w)
  | some area =>
    if w.active_area ≠ some r then (false, w)
    else if area.visible = false then (false, w)
    else
      let x := area.offset_left + area.input_cursor_x
      let y := area.offset_top + area.input_cursor_y
      if area.input_cursor_visible
          && isInsideArea (area.input_cursor_x, area.input_cursor_y) area
          && isInsideTerminal env (x, y)
          && decide (isCovered w (x, y) r = covered_state.non_covered) then
        (true, { w with vterm := { w.vterm with input_cursor_x := x, input_cursor_y := y,
                                                input_cursor_visible := true,
                                                has_changes := true } })
      else (false, { w with vterm := { w.vterm with input_cursor_visible := false } })

/-- Loop state of the column loop of `putArea`: the state of the process,
the flag `modified` and the variable `line_xmin`. -/
structure ColumnLoop where
  world : World
  modified : Bool
  line_xmin : Int

/-- One pass through the body of the column loop of `putArea` (lines
967-980) for the column `x` of row `y`. -/
def putAreaColumn (env : CompEnv) (r : AreaRef) (ax ay ol y : Int) (st : ColumnLoop)
    (x : Int) : ColumnLoop :=
  let tx := ax + x
  let ty := ay + y
  if tx < 0 ∨ ty < 0 then st
  else
    let res := updateVTermCharacter env st.world r (x, y) (tx - ol, ty)
    let modified := st.modified || res.1
    { world := res.2, modified := modified,
      line_xmin := if modified = false then st.line_xmin + 1 else st.line_xmin }

/-- The values `first, first + 1, .., last` taken by the variable of a loop
`for (x = first; x <= last; x++)`. -/
def forRange (first last : Int) : List Int :=
  (List.range (last - first + 1).toNat).map fun (k : Nat) => first + (k : Int)

/-- Store into the row record `area->changes[y]` of a surface. -/
def FTermArea.setLine (a : FTermArea) (y : Int) (c : FLineChanges) : FTermArea :=
  { a with changes := bufSet a.changes y c }

/-- The column loop of `putArea` (lines 965-981) for the row `y`, from the
column `line_xmin` to the column `line_xmax`. -/
def columnLoop (env : CompEnv) (r : AreaRef) (ax ay ol y : Int) (w : World)
    (line_xmin line_xmax : Int) : ColumnLoop :=
  (forRange line_xmin line_xmax).foldl (putAreaColumn env r ax ay ol y)
    { world := w, modified := false, line_xmin := line_xmin }

/-- The widening of the dirty range of row `row` of the full-screen buffer
at the end of the line loop of `putArea` (lines 983-993). -/
def putAreaDirtyRange (vterm : FTermArea) (row xmin xmax0 : Int) : FTermArea :=
  let vt1 :=
    if xmin < toInt (vterm.line row).xmin then
      vterm.setLine row { vterm.line row with xmin := toUInt xmin }
    else vterm
  let xmax := if xmax0 ≥ vt1.width then vt1.width - 1 else xmax0
  if xmax > toInt (vt1.line row).xmax then
    vt1.setLine row { vt1.line row with xmax := toUInt xmax }
  else vt1

/-- One pass through the body of the line loop of `putArea` (lines 949-996)
for the row `y`; `width` is the total row length read before the loop. -/
def putAreaRow (env : CompEnv) (r : AreaRef) (ax ay ol width : Int) (w : World) (y : Int) :
    World :=
  match w.area? r with
  | none => w
  | some area =>
    let line_xmin0 := toInt (area.line y).xmin
    let line_xmax0 := toInt (area.line y).xmax
    if line_xmin0 > line_xmax0 then w
    else
      let line_xmin1 := if ax = 0 then ol else line_xmin0
      let line_xmax := if width + ax - ol ≥ w.vterm.width then w.vterm.width + ol - ax - 1
                       else line_xmax0
      if ax + line_xmin1 ≥ w.vterm.width then w
      else
        let st := columnLoop env r ax ay ol y w line_xmin1 line_xmax
        let w2 := { st.world with
                    vterm := putAreaDirtyRange st.world.vterm (ay + y)
                               (ax + st.line_xmin - ol) (ax + line_xmax) }
        match w2.area? r with
        | none => w2
        | some area2 =>
          w2.setArea r (area2.setLine y { area2.line y with xmin := toUInt width, xmax := 0 })

/-- The function `putArea (FTermArea*)` for a surface pointer. -/
def putArea (env : CompEnv) (w : World) (r : AreaRef) : World :=
  match w.area? r with
  | none => w
  | some area =>
    if area.visible = false then w
    else
      let ax0 := area.offset_left
      let ay := area.offset_top
      let width := area.width + area.right_shadow
      let height := area.height + area.bottom_shadow
      let w1 := callPreprocessingHandler env w r
      let ol := if ax0 < 0 then |ax0| else 0
      let ax := if ax0 < 0 then 0 else ax0
      let y_end := if height + ay > w1.vterm.height then w1.vterm.height - ay else height
      let w2 := (forRange 0 (y_end - 1)).foldl (putAreaRow env r ax ay ol width) w1
      let w3 := { w2 with vterm := { w2.vterm with has_changes := true } }
      (updateVTermCursor env w3 r).2

/-! ## Terminal output used by `clearTerm` (lines 117-149, 1282-1292, 2050-2094, 2949-2958, 3031-3053) -/

/-- Collaborators of the output side that live in other translation units:
the terminal size, the capability strings `TCAP(..)` (`none` for a missing
capability), `FTermcap::background_color_erase`, `FTerm::isNormal`,
`FTerm::changeAttribute` (returns the sequence and the two cells it was
handed by reference), `FTerm::moveCursorString`, the expansion done by
`tputs` and the constant `TERMINAL_OUTPUT_BUFFER_SIZE`. -/
structure TermEnv where
  columnNumber : Nat
  lineNumber : Nat
  t_clear_screen : Option (List Int)
  t_clr_eos : Option (List Int)
  t_clr_eol : Option (List Int)
  background_color_erase : Bool
  isNormal : FChar → Bool
  changeAttribute : FChar → FChar → Option (List Int) × FChar × FChar
  moveCursorString : Int → Int → Int → Int → Option (List Int)
  tputs : List Int → List Int
  bufferSize : Nat

/-- The function `flushOutputBuffer`. -/
def flushOutputBuffer (w : World) : World :=
  { w with term_out := w.term_out ++ w.output_buffer, output_buffer := [] }

/-- The function `appendOutputBuffer (int)`. -/
def appendOutputChar (env : TermEnv) (w : World) (ch : Int) : World :=
  let w1 := { w with output_buffer := w.output_buffer ++ [ch] }
  if w1.output_buffer.length ≥ env.bufferSize then flushOutputBuffer w1 else w1

/-- The function `appendOutputBuffer (const char[])`. -/
def appendOutputBuffer (env : TermEnv) (w : World) (s : List Int) : World :=
  (env.tputs s).foldl (appendOutputChar env) w

/-- The pattern `if ( str ) appendOutputBuffer (str);` for a sequence that
may be missing. -/
def appendOutputOption (env : TermEnv) (w : World) (s : Option (List Int)) : World :=
  match s with
  | some str => appendOutputBuffer env w str
  | none => w

/-- The function `appendAttributes`, called on `next_attribute`. -/
def appendAttributesNext (env : TermEnv) (w : World) : World :=
  let res := env.changeAttribute w.term_attribute w.next_attribute
  let w1 := { w with term_attribute := res.2.1, next_attribute := res.2.2 }
  appendOutputOption env w1 res.1

/-- The function `setTermXY`. -/
def setTermXY (env : TermEnv) (w : World) (x y : Int) : World :=
  if w.term_pos.1 = x ∧ w.term_pos.2 = y then w
  else
    let term_width : Int := env.columnNumber
    let term_height : Int := env.lineNumber
    let y1 := if x ≥ term_width ∧ term_width > 0 then y + x / term_width else y
    let x1 := if x ≥ term_width ∧ term_width > 0 then x % term_width else x
    let w1 := if w.term_pos.2 ≥ term_height then
                { w with term_pos := (w.term_pos.1, term_height - 1) }
              else w
    let y2 := if y1 ≥ term_height then term_height - 1 else y1
    let w2 := appendOutputOption env w1 (env.moveCursorString w1.term_pos.1 w1.term_pos.2 x1 y2)
    { flushOutputBuffer w2 with term_pos := (x1, y2) }

/-- The function `clearTerm`: the returned `bool` and the state afterwards. -/
def clearTerm (env : TermEnv) (w : World) (fillchar : Int) : Bool × World :=
  let normal := env.isNormal w.next_attribute
  let w1 := appendAttributesNext env w
  let has_cap := env.t_clear_screen.isSome || env.t_clr_eos.isSome || env.t_clr_eol.isSome
  if !(has_cap && (normal || env.background_color_erase)) || decide (fillchar ≠ 32) then
    (false, w1)
  else
    let w2 :=
      match env.t_clear_screen, env.t_clr_eos, env.t_clr_eol with
      | some cl, _, _ => { appendOutputBuffer env w1 cl with term_pos := (0, 0) }
      | none, some cd, _ =>
        { appendOutputBuffer env (setTermXY env w1 0 0) cd with term_pos := (-1, -1) }
      | none, none, some cb =>
        let w3 := (List.range env.lineNumber).foldl
          (fun acc (i : Nat) => appendOutputBuffer env (setTermXY env acc 0 (i : Int)) cb)
          { w1 with term_pos := (-1, -1) }
        setTermXY env w3 0 0
      | none, none, none => w1
    (true, flushOutputBuffer w2)

/-! ## Clearing a surface (lines 1188-1238 and 2097-2149) -/

/-- A loop `for (i = 0; i < count; i++) area->changes[first + i] = c` that
stores the same three members into `count` consecutive row records. -/
def markRows (area : FTermArea) (first count : Int) (c : FLineChanges) : FTermArea :=
  (forRange 0 (count - 1)).foldl (fun acc i => acc.setLine (first + i) c) area

/-- The function `clearFullArea` for a surface pointer: the returned `bool`
and the state afterwards. -/
def clearFullArea (env : TermEnv) (w : World) (r : AreaRef) (nc : FChar) : Bool × World :=
  match w.area? r with
  | none => (false, w)
  | some area =>
    let area_size := area.width * area.height
    let w1 := w.setArea r { area with data := fill_n area.data 0 area_size nc }
    if r ≠ AreaRef.desktop then (false, w1)
    else
      let res := clearTerm env w1 nc.ch
      if res.1 then
        (true, { res.2 with vterm := { res.2.vterm with
                   data := fill_n res.2.vterm.data 0 area_size { nc with printed := true } } })
      else
        let d := markRows res.2.vdesktop 0 res.2.vdesktop.height
          { xmin := 0, xmax := uSub (toUInt res.2.vdesktop.width) 1, trans_count := 0 }
        (true, { res.2 with vdesktop := { d with has_changes := true } })

/-- The function `clearAreaWithShadow`. -/
def clearAreaWithShadow (area : FTermArea) (nc : FChar) : FTermArea :=
  let t_char := { nc with transparent := true }
  let total_width := area.width + area.right_shadow
  let d1 := (forRange 0 (area.height - 1)).foldl
    (fun d y => fill_n (fill_n d (y * total_width) total_width nc)
                  (y * total_width + area.width) area.right_shadow t_char)
    area.data
  let d2 := (forRange 0 (area.bottom_shadow - 1)).foldl
    (fun d y => fill_n d (total_width * (y + area.height)) total_width t_char) d1
  { area with data := d2 }

/-- The two loops at the end of `clearArea` (lines 1214-1235) that mark the
rows; `w` is the unsigned total row length and `nc` the fill cell.  The
loops write row records only, so the geometry is read from `area`. -/
def clearAreaMarkRows (area : FTermArea) (w : Nat) (nc : FChar) : FTermArea :=
  let a1 := markRows area 0 area.height
      { xmin := 0, xmax := uSub w 1,
        trans_count :=
          if nc.transparent || nc.trans_shadow || nc.inherit_bg then w
          else if area.right_shadow ≠ 0 then toUInt area.right_shadow
          else 0 }
  markRows a1 area.height area.bottom_shadow { xmin := 0, xmax := uSub w 1, trans_count := w }

/-- The function `clearArea (FTermArea*, int)` for a surface pointer. -/
def clearArea (env : TermEnv) (w : World) (r : AreaRef) (fillchar : Int) : World :=
  let nc := { w.next_attribute with ch := fillchar }
  match w.area? r with
  | none => (clearTerm env w fillchar).2
  | some area =>
    if area.data = none then (clearTerm env w fillchar).2
    else
      let wd := toUInt (area.width + area.right_shadow)
      let res : Bool × World :=
        if area.right_shadow = 0 then clearFullArea env w r nc
        else (false, w.setArea r (clearAreaWithShadow area nc))
      if res.1 then res.2
      else
        match res.2.area? r with
        | none => res.2
        | some area1 =>
          res.2.setArea r { clearAreaMarkRows area1 wd nc with has_changes := true }

/-! ## Auxiliary notions used in the statements -/

/-- A surface whose geometry passes the assertions of `resizeArea` (lines
654-658), whose sizes fit an `int`, and whose two arrays are allocated with
the lengths `resizeArea` gives them. -/
def FTermArea.Sized (a : FTermArea) : Prop :=
  0 < a.width ∧ 0 < a.height ∧ 0 ≤ a.right_shadow ∧ 0 ≤ a.bottom_shadow
  ∧ a.width + a.right_shadow < 2 ^ 31 ∧ a.height + a.bottom_shadow < 2 ^ 31
  ∧ (bufSize a.data : Int) = a.lineLen * a.rows
  ∧ (bufSize a.changes : Int) = a.rows

instance (a : FTermArea) : Decidable a.Sized := by
  unfold FTermArea.Sized; infer_instance

/-- A cell that the sequence form of `print` hands to the single cell form:
its code point is none of newline, carriage return, tab, backspace, bell. -/
def FChar.printable (c : FChar) : Prop :=
  c.ch ≠ 10 ∧ c.ch ≠ 13 ∧ c.ch ≠ 9 ∧ c.ch ≠ 8 ∧ c.ch ≠ 7

instance (c : FChar) : Decidable c.printable := by
  unfold FChar.printable; infer_instance

/-- The surface after `print` of one single-width cell that causes no line
break: the cell is stored by `printStore`, the cursor moves right by one and
`has_changes` is set. -/
def printOne (env : PrintEnv) (area : FTermArea) (c : FChar) : FTermArea :=
  { printStore area (env.getColumnWidth c).2 with
      cursor_x := area.cursor_x + 1, has_changes := true }

/-! ## Sample data -/

/-- A blank cell: a space with every other member zero. -/
def sampleBlank : FChar := { FChar.zero with ch := 32 }

/-- The letter `A` with every other member zero. -/
def sampleLetter : FChar := { FChar.zero with ch := 65 }

/-- A print environment in which every cell is one column wide. -/
def sampleEnv : PrintEnv :=
  { getColumnWidth := fun c => (1, { c with char_width := 1 }), isUTF8 := true, getTabstop := 8 }

/-- A visible surface of the given placement and size whose cells are all
blank and whose rows are all in the canonical clean state, with the write
cursor at `(1, 1)`. -/
def sampleArea (left top width height rsh bsh : Int) : FTermArea :=
  { offset_left := left, offset_top := top, width := width, height := height,
    right_shadow := rsh, bottom_shadow := bsh, cursor_x := 1, cursor_y := 1,
    input_cursor_x := 0, input_cursor_y := 0, widget := none, preproc_list := [],
    input_cursor_visible := false, has_changes := false, visible := true,
    changes := some (List.replicate (height + bsh).toNat
                 { xmin := toUInt (width + rsh), xmax := 0, trans_count := 0 }),
    data := some (List.replicate ((width + rsh) * (height + bsh)).toNat sampleBlank) }

/-- Two states hold the same surfaces: the full-screen buffer, the desktop,
the window list, the child surfaces and the active surface agree. -/
def World.sameAreas (w w1 : World) : Prop :=
  w1.vterm = w.vterm ∧ w1.vdesktop = w.vdesktop ∧ w1.window_list = w.window_list
  ∧ w1.child_areas = w.child_areas ∧ w1.active_area = w.active_area

/-- An output environment without clear capabilities. -/
def sampleTermEnv : TermEnv :=
  { columnNumber := 10, lineNumber := 4, t_clear_screen := none, t_clr_eos := none,
    t_clr_eol := none, background_color_erase := false, isNormal := fun _ => true,
    changeAttribute := fun term next => (none, term, next),
    moveCursorString := fun _ _ _ _ => none, tputs := fun s => s, bufferSize := 512 }

/-- A state with a 10 x 4 terminal, a blank desktop and the given window list. -/
def sampleWorld (windows : List FWindow) : World :=
  { vterm := sampleArea 0 0 10 4 0 0, vdesktop := sampleArea 0 0 10 4 0 0,
    window_list := windows, child_areas := [], active_area := none,
    next_attribute := FChar.zero, term_attribute := FChar.zero, term_pos := (-1, -1),
    output_buffer := [], term_out := [] }

/-- Number of cells of row `y` that have `transparent`, `trans_shadow` or
`inherit_bg` set. -/
def FTermArea.transCells (a : FTermArea) (y : Int) : Nat :=
  ((List.range a.lineLen.toNat).filter fun (x : Nat) => (a.at (x : Int) y).isTrans).length

/-- The invariant on `trans_count`: in every row it equals the number of
cells that have `transparent`, `trans_shadow` or `inherit_bg` set. -/
def FTermArea.TransCountOK (a : FTermArea) : Prop :=
  ∀ y ∈ List.range a.rows.toNat, (a.line (y : Int)).trans_count = a.transCells (y : Int)

instance (a : FTermArea) : Decidable a.TransCountOK := by
  unfold FTermArea.TransCountOK; infer_instance

/-- A 2 x 1 surface whose first cell is a transparent blank, counted by the
`trans_count` of its row, with the write cursor on that cell. -/
def sampleTransArea : FTermArea :=
  { sampleArea 0 0 2 1 0 0 with
      changes := some [{ xmin := 2, xmax := 0, trans_count := 1 }],
      data := some [{ sampleBlank with transparent := true }, sampleBlank] }

/-! ## Coverage as the specification words it -/

/-- The windows that come after the surface `area` in the window list: every
window when `area` is the desktop, the windows behind position `i` when
`area` is the surface of the window at position `i`, none for a surface
that is not in the list. -/
def windowsAfter (w : World) (area : AreaRef) : List FWindow :=
  match area with
  | .desktop => w.window_list
  | .window i => w.window_list.drop (i + 1)
  | .child _ => []

/-- The window is visible, contains `pos`, and its cell there has neither
`trans_shadow` nor `transparent` set. -/
def coversOpaque (pos : Int × Int) (win_obj : FWindow) : Bool :=
  match win_obj.vwin with
  | none => false
  | some win =>
    let tmp := win.cell ((pos.2 - win.offset_top) * (win.width + win.right_shadow)
                          + (pos.1 - win.offset_left))
    win.visible && win.contains pos && !tmp.trans_shadow && !tmp.transparent

/-- The window is visible, contains `pos`, and its cell there has
`trans_shadow` set. -/
def coversShadow (pos : Int × Int) (win_obj : FWindow) : Bool :=
  match win_obj.vwin with
  | none => false
  | some win =>
    let tmp := win.cell ((pos.2 - win.offset_top) * (win.width + win.right_shadow)
                          + (pos.1 - win.offset_left))
    win.visible && win.contains pos && tmp.trans_shadow

/-- The covered state as the specification words it: `fully_covered` when
some later window covers `pos` with an opaque cell, otherwise `half_covered`
when some later window covers `pos` with a shadow cell, otherwise
`non_covered`. -/
def coveredStateSpec (w : World) (pos : Int × Int) (area : AreaRef) : covered_state :=
  if (windowsAfter w area).any (coversOpaque pos) then covered_state.fully_covered
  else if (windowsAfter w area).any (coversShadow pos) then covered_state.half_covered
  else covered_state.non_covered

/-- Replace the cell array of the full-screen buffer. -/
def World.setVTermData (w : World) (d : Option (List FChar)) : World :=
  { w with vterm := { w.vterm with data := d } }

/-- The terminal column at which `putArea` starts to composite row `y` of a
surface: the left terminal edge for a surface that starts at or left of it
(the row is then composited from its first visible cell), otherwise the
column of the first dirty cell. -/
def putAreaFirstColumn (area : FTermArea) (y : Int) : Int :=
  if area.offset_left ≤ 0 then -area.offset_left
  else area.offset_left + toInt (area.line y).xmin

/-- A compositor environment with the block glyphs of Unicode, no handlers
and a 10 x 4 terminal. -/
def sampleCompEnv : CompEnv :=
  { getWindowLayer := fun _ => 0, LowerHalfBlock := 0x2584, UpperHalfBlock := 0x2580,
    LeftHalfBlock := 0x258c, RightHalfBlock := 0x2590, MediumShade := 0x2592,
    FullBlock := 0x2588, handlers := fun _ w => w, columnNumber := 10, lineNumber := 4 }

/-- The surface `sampleArea` with every row dirty over its full width. -/
def sampleDirtyArea (left top width height rsh bsh : Int) : FTermArea :=
  { sampleArea left top width height rsh bsh with
      changes := some (List.replicate (height + bsh).toNat
                   { xmin := 0, xmax := toUInt (width + rsh - 1), trans_count := 0 }) }

/-- Every row record keeps its dirty range inside the row: `xmin` is at most
the total row length (its value in the clean state) and `xmax` is below it. -/
def FTermArea.RangesInside (a : FTermArea) : Prop :=
  ∀ c ∈ a.changes.getD [], (c.xmin : Int) ≤ a.lineLen ∧ (c.xmax : Int) < a.lineLen

instance (a : FTermArea) : Decidable a.RangesInside := by
  unfold FTermArea.RangesInside; infer_instance

/-- A print environment for UTF-8 in which the code point 0 has no width,
code points from U+1100 on are two columns wide and every other cell is one
column wide. -/
def sampleWideEnv : PrintEnv :=
  { getColumnWidth := fun c =>
      if c.ch = 0 then (0, { c with char_width := 0 })
      else if c.ch ≥ 0x1100 then (2, { c with char_width := 2 })
      else (1, { c with char_width := 1 }),
    isUTF8 := true, getTabstop := 8 }

/-- The full-width glyph U+4E2D with every other member zero. -/
def sampleWide : FChar := { FChar.zero with ch := 0x4e2d }

/-! ## Copying a surface to a position, `putArea (const FPoint&, FTermArea*)` (lines 1004-1070, 1960-2007) -/

/-- The call `std::memcpy (&dst[di], &src[si], sizeof(FChar) * unsigned(n))`
on ranges that do not overlap: the source cells are read from `src` as it
is before the call.  Nothing is copied for `n <= 0`. -/
def memcpyCells (dst : Option (List FChar)) (di : Int) (src : Option (List FChar))
    (si n : Int) : Option (List FChar) :=
  (List.range n.toNat).foldl
    (fun acc (k : Nat) => bufSet acc (di + (k : Int)) (bufGet src (si + (k : Int)))) dst

/-- The function `putAreaCharacter`; the pointer `tc` is the index `ti` into
the cell array of the full-screen buffer. -/
def putAreaCharacter (env : CompEnv) (w : World) (pos : Int × Int) (obj : Option Nat)
    (ac : FChar) (ti : Int) : World :=
  if ac.transparent then w.setVTermCell ti (getCoveredCharacter env w pos obj)
  else if ac.trans_shadow then
    let ch := getCoveredCharacter env w pos obj
    w.setVTermCell ti { ch with fg_color := ac.fg_color, bg_color := ac.bg_color,
                                reverse := false, standout := false,
                                ch := blendGlyph env ch.ch }
  else if ac.inherit_bg then
    let cc := getCoveredCharacter env w pos obj
    w.setVTermCell ti { ac with bg_color := cc.bg_color }
  else w.setVTermCell ti ac

/-- The widening of the dirty range of row `row` of the full-screen buffer
at the end of the line loop of `putArea (pos, area)` (lines 1062-1066). -/
def putAreaAtDirtyRange (vterm : FTermArea) (row ax length : Int) : FTermArea :=
  let vt1 :=
    if ax < toInt (vterm.line row).xmin then
      vterm.setLine row { vterm.line row with xmin := toUInt ax }
    else vterm
  if ax + length - 1 > toInt (vt1.line row).xmax then
    vt1.setLine row { vt1.line row with xmax := toUInt (ax + length - 1) }
  else vt1

/-- One pass through the body of the line loop of `putArea (pos, area)`
(lines 1040-1067) for the row `y` of the surface `area`.  The loop writes
the full-screen buffer only, so the surface is the one read before the
loop. -/
def putAreaAtRow (env : CompEnv) (area : FTermArea) (ax ay ol width length : Int)
    (w : World) (y : Int) : World :=
  let w1 :=
    if (area.line y).trans_count = 0 then
      { w with vterm := { w.vterm with
          data := memcpyCells w.vterm.data ((ay + y) * w.vterm.width + ax)
                    area.data (y * width + ol) length } }
    else
      (forRange 0 (length - 1)).foldl
        (fun acc x =>
          putAreaCharacter env acc (ax + x + 1, ay + y + 1) area.widget
            (area.cell (y * width + ol + x)) ((ay + y) * acc.vterm.width + (ax + x)))
        w
  { w1 with vterm := putAreaAtDirtyRange w1.vterm (ay + y) ax length }

/-- The function `putArea (const FPoint&, FTermArea*)` for a surface pointer. -/
def putAreaAt (env : CompEnv) (w : World) (pos : Int × Int) (r : AreaRef) : World :=
  match w.area? r with
  | none => w
  | some area =>
    if area.visible = false then w
    else
      let ax0 := pos.1 - 1
      let ay := pos.2 - 1
      let width := area.width + area.right_shadow
      let height := area.height + area.bottom_shadow
      let ol := if ax0 < 0 then |ax0| else 0
      let ax := if ax0 < 0 then 0 else ax0
      let y_end := if ay + height > w.vterm.height then w.vterm.height - ay else height
      let length := if width - ol + ax > w.vterm.width then w.vterm.width - ax else width - ol
      if length < 1 then w
      else
        let w1 := (forRange 0 (y_end - 1)).foldl (putAreaAtRow env area ax ay ol width length) w
        { w1 with vterm := { w1.vterm with has_changes := true } }

/-! ## Scrolling a surface (lines 1073-1185) -/

/-- Collaborators of the scroll functions: the output side, the compositor,
the capabilities `TCAP(fc::t_scroll_forward)` and `TCAP(fc::t_scroll_reverse)`
(`none` for a missing capability) and what `FTerm::scrollTermForward()` and
`FTerm::scrollTermReverse()`, declared in `fterm.h`, write to the
terminal. -/
structure ScrollEnv where
  term : TermEnv
  comp : CompEnv
  t_scroll_forward : Option (List Int)
  t_scroll_reverse : Option (List Int)
  scrollTermForward : List Int
  scrollTermReverse : List Int

/-- One pass through the first loop of `scrollAreaForward` (lines 1092-1101):
the interior of row `y + 1` is copied over the interior of row `y`, whose
dirty range becomes `[0, width - 1]`. -/
def scrollForwardRow (length total_width : Int) (a : FTermArea) (y : Int) : FTermArea :=
  let pos1 := y * total_width
  let pos2 := (y + 1) * total_width
  let a1 := { a with data := memcpyCells a.data pos1 a.data pos2 length }
  a1.setLine y { a1.line y with xmin := 0, xmax := toUInt (a1.width - 1) }

/-- One pass through the first loop of `scrollAreaReverse` (lines 1150-1159):
the interior of row `y - 1` is copied over the interior of row `y`, whose
dirty range becomes `[0, width - 1]`. -/
def scrollReverseRow (length total_width : Int) (a : FTermArea) (y : Int) : FTermArea :=
  let pos1 := (y - 1) * total_width
  let pos2 := y * total_width
  let a1 := { a with data := memcpyCells a.data pos2 a.data pos1 length }
  a1.setLine y { a1.line y with xmin := 0, xmax := toUInt (a1.width - 1) }

/-- The loops `area->changes[y].xmin = uInt(area->width - 1);
area->changes[y].xmax = 0;` over the rows `first .. last` at the end of the
scroll functions (lines 1120-1124 and 1178-1182). -/
def scrollAvoidRows (a : FTermArea) (first last : Int) : FTermArea :=
  (forRange first last).foldl
    (fun acc y => acc.setLine y { acc.line y with xmin := toUInt (acc.width - 1), xmax := 0 }) a

/-- The surface after the part of `scrollAreaForward` that works on the
surface alone (lines 1088-1109), for `height > 1`. -/
def scrollForwardArea (area : FTermArea) : FTermArea :=
  let length := area.width
  let total_width := area.width + area.right_shadow
  let y_max := area.height - 1
  let a1 := (forRange 0 (y_max - 1)).foldl (scrollForwardRow length total_width) area
  let lc := a1.cell (y_max * total_width - a1.right_shadow - 1)
  let nc := { lc with ch := 32 }
  let a2 := { a1 with data := fill_n a1.data (y_max * total_width) a1.width nc }
  let a3 := a2.setLine y_max { a2.line y_max with xmin := 0, xmax := toUInt (a2.width - 1) }
  { a3 with has_changes := true }

/-- The function `scrollAreaForward` for a surface pointer. -/
def scrollAreaForward (env : ScrollEnv) (w : World) (r : AreaRef) : World :=
  match w.area? r with
  | none => w
  | some area =>
    if area.height ≤ 1 then w
    else
      let y_max := area.height - 1
      let w1 := w.setArea r (scrollForwardArea area)
      if r = AreaRef.desktop then
        if env.t_scroll_forward.isSome then
          let w2 := setTermXY env.term w1 0 w1.vdesktop.height
          let w3 := { w2 with term_out := w2.term_out ++ env.scrollTermForward }
          let w4 := putAreaAt env.comp w3 (1, 1) AreaRef.desktop
          match w4.area? r with
          | none => w4
          | some a5 => w4.setArea r (scrollAvoidRows a5 0 (y_max - 1))
        else w1
      else w1

/-- The surface after the part of `scrollAreaReverse` that works on the
surface alone (lines 1146-1167), for `height > 1`. -/
def scrollReverseArea (area : FTermArea) : FTermArea :=
  let length := area.width
  let total_width := area.width + area.right_shadow
  let y_max := area.height - 1
  let a1 := (forRange 1 y_max).reverse.foldl (scrollReverseRow length total_width) area
  let lc := a1.cell total_width
  let nc := { lc with ch := 32 }
  let a2 := { a1 with data := fill_n a1.data 0 a1.width nc }
  let a3 := a2.setLine 0 { a2.line 0 with xmin := 0, xmax := toUInt (a2.width - 1) }
  { a3 with has_changes := true }

/-- The function `scrollAreaReverse` for a surface pointer. -/
def scrollAreaReverse (env : ScrollEnv) (w : World) (r : AreaRef) : World :=
  match w.area? r with
  | none => w
  | some area =>
    if area.height ≤ 1 then w
    else
      let y_max := area.height - 1
      let w1 := w.setArea r (scrollReverseArea area)
      if r = AreaRef.desktop then
        if env.t_scroll_reverse.isSome then
          let w2 := setTermXY env.term w1 0 0
          let w3 := { w2 with term_out := w2.term_out ++ env.scrollTermReverse }
          let w4 := putAreaAt env.comp w3 (1, 1) AreaRef.desktop
          match w4.area? r with
          | none => w4
          | some a5 => w4.setArea r (scrollAvoidRows a5 1 y_max)
        else w1
      else w1

/-- A scroll environment with both scroll capabilities. -/
def sampleScrollEnv : ScrollEnv :=
  { term := sampleTermEnv, comp := sampleCompEnv,
    t_scroll_forward := some [27, 68], t_scroll_reverse := some [27, 77],
    scrollTermForward := [27, 68], scrollTermReverse := [27, 77] }

/-- A state whose terminal and desktop are one column wide and two rows
high, with no windows. -/
def sampleNarrowWorld : World :=
  { sampleWorld [] with vterm := sampleArea 0 0 1 2 0 0, vdesktop := sampleArea 0 0 1 2 0 0 }

/-! ## The cells `putArea (FTermArea*)` writes -/

/-- The column loop of `putArea` with a record of its writes: next to the
loop state of `putAreaColumn`, the terminal positions `(tx, ty)` for which
`updateVTermCharacter` has returned `true`, the latest first. -/
def putAreaColumnLog (env : CompEnv) (r : AreaRef) (ax ay ol y : Int)
    (s : ColumnLoop × List (Int × Int)) (x : Int) : ColumnLoop × List (Int × Int) :=
  (putAreaColumn env r ax ay ol y s.1 x,
   if ¬ (ax + x < 0 ∨ ay + y < 0)
        ∧ (updateVTermCharacter env s.1.world r (x, y) (ax + x - ol, ay + y)).1 = true
   then (ax + x - ol, ay + y) :: s.2 else s.2)

/-- The terminal positions written by one pass through the line loop of
`putArea` for the row `y`, under the guards of `putAreaRow`. -/
def putAreaRowWrites (env : CompEnv) (r : AreaRef) (ax ay ol width : Int) (w : World)
    (y : Int) : List (Int × Int) :=
  match w.area? r with
  | none => []
  | some area =>
    let line_xmin0 := toInt (area.line y).xmin
    let line_xmax0 := toInt (area.line y).xmax
    if line_xmin0 > line_xmax0 then []
    else
      let line_xmin1 := if ax = 0 then ol else line_xmin0
      let line_xmax := if width + ax - ol ≥ w.vterm.width then w.vterm.width + ol - ax - 1
                       else line_xmax0
      if ax + line_xmin1 ≥ w.vterm.width then []
      else
        ((forRange line_xmin1 line_xmax).foldl (putAreaColumnLog env r ax ay ol y)
          ({ world := w, modified := false, line_xmin := line_xmin1 }, [])).2

/-- The line loop of `putArea` with a record of its writes. -/
def putAreaRowLog (env : CompEnv) (r : AreaRef) (ax ay ol width : Int)
    (s : World × List (Int × Int)) (y : Int) : World × List (Int × Int) :=
  (putAreaRow env r ax ay ol width s.1 y, putAreaRowWrites env r ax ay ol width s.1 y ++ s.2)

/-- The terminal positions of the cells of the full-screen buffer that
`putArea (FTermArea*)` writes: those for which `updateVTermCharacter`
returns `true` in the course of the two loops. -/
def putAreaWrites (env : CompEnv) (w : World) (r : AreaRef) : List (Int × Int) :=
  match w.area? r with
  | none => []
  | some area =>
    if area.visible = false then []
    else
      let ax0 := area.offset_left
      let ay := area.offset_top
      let width := area.width + area.right_shadow
      let height := area.height + area.bottom_shadow
      let w1 := callPreprocessingHandler env w r
      let ol := if ax0 < 0 then |ax0| else 0
      let ax := if ax0 < 0 then 0 else ax0
      let y_end := if height + ay > w1.vterm.height then w1.vterm.height - ay else height
      ((forRange 0 (y_end - 1)).foldl (putAreaRowLog env r ax ay ol width) (w1, [])).2

/-- The full-screen buffer has a positive width that fits an `int` and one
row record for each of its rows. -/
def World.VTermRows (w : World) : Prop :=
  0 < w.vterm.width ∧ w.vterm.width < 2 ^ 31
  ∧ (bufSize w.vterm.changes : Int) = w.vterm.height

instance (w : World) : Decidable w.VTermRows := by
  unfold World.VTermRows; infer_instance

/-! ## The renderer (fvterm.cpp, lines 2152-2790 and 2873-3053) -/

/-- Unsigned multiplication. -/
def uMul (a b : Nat) : Nat := (a * b) % 2 ^ 32

/-- The character encodings `fc::encoding` that `charsetChanges` tells
apart; `other` stands for every further one. -/
inductive Encoding where
  | UTF8
  | VT100
  | PC
  | ASCII
  | other
deriving DecidableEq, Repr

/-- Collaborators of the renderer that live in other translation units: the
output side and the compositor, the capabilities `TCAP(..)` (`none` for a
missing capability; a capability that goes through `tparm` is a function of
the parameters handed over), the flags `FTermcap::automatic_right_margin` and
`FTermcap::eat_nl_glitch`, the five lengths set by `init_characterLengths`,
`isNewFont`, `isReverseNewFontchar`, the encoding, `FTerm::charEncode` with
one and with the second argument `fc::ASCII`, `isPuttyTerminal`,
`isXTerminal`, `hasUTF8`, the character substitution map,
`FTerm::cursorsVisibilityString`, the child print area of the instance a
pre-render handler was registered for (`none` when the instance or its
`child_print_area` is null) and three glyph constants of `fc.h`. -/
structure RenderEnv where
  term : TermEnv
  comp : CompEnv
  t_clr_bol : Option (List Int)
  t_erase_chars : Option (Nat → List Int)
  t_repeat_char : Option (Int → Nat → List Int)
  t_cursor_left : Option (List Int)
  t_parm_right_cursor : Option (Nat → List Int)
  t_enter_am_mode : Option (List Int)
  t_exit_am_mode : Option (List Int)
  t_parm_ich : Option (Nat → List Int)
  t_enter_insert_mode : Option (List Int)
  t_exit_insert_mode : Option (List Int)
  t_insert_padding : Option (List Int)
  t_insert_character : Option (List Int)
  automatic_right_margin : Bool
  eat_nl_glitch : Bool
  erase_char_length : Nat
  repeat_char_length : Nat
  clr_bol_length : Nat
  clr_eol_length : Nat
  cursor_address_length : Nat
  isNewFont : Bool
  isReverseNewFontchar : Int → Bool
  encoding : Encoding
  charEncode : Int → Int
  charEncodeASCII : Int → Int
  isPuttyTerminal : Bool
  isXTerminal : Bool
  hasUTF8 : Bool
  charSubstitution : Int → Option Int
  cursorsVisibilityString : Bool → Option (List Int)
  childPrintArea : Nat → Option Nat
  SingleLeftAngleQuotationMark : Int
  SingleRightAngleQuotationMark : Int
  HorizontalEllipsis : Int

/-- The index `line * uInt(vterm->width) + pos` of a cell of the full-screen
buffer, computed in `uInt`. -/
def vtIndex (w : World) (pos line : Nat) : Int :=
  ((uAdd (uMul line (toUInt w.vterm.width)) pos : Nat) : Int)

/-- The function `markAsPrinted (uInt pos, uInt line)`. -/
def markAsPrinted (w : World) (pos line : Nat) : World :=
  w.setVTermCell (vtIndex w pos line) { w.vterm.cell (vtIndex w pos line) with printed := true }

/-- The function `markAsPrinted (uInt from, uInt to, uInt line)`, for
`to < UINT_MAX`. -/
def markAsPrintedRange (w : World) (first last line : Nat) : World :=
  (List.range' first (last + 1 - first)).foldl (fun acc x => markAsPrinted acc x line) w

/-- The function `newFontChanges` on the cell behind the pointer. -/
def newFontChanges (env : RenderEnv) (c : FChar) : FChar :=
  if env.isNewFont = false then c
  else if c.ch = env.comp.LowerHalfBlock then
    { c with ch := env.comp.UpperHalfBlock, reverse := true }
  else if env.isReverseNewFontchar c.ch then { c with reverse := true }
  else c

/-- The function `charsetChanges` on the cell behind the pointer. -/
def charsetChanges (env : RenderEnv) (c : FChar) : FChar :=
  let c1 := { c with encoded_char := c.ch }
  if env.encoding = Encoding.UTF8 then c1
  else
    let ch_enc := env.charEncode c.ch
    if ch_enc = c.ch then c1
    else if ch_enc = 0 then { c1 with encoded_char := env.charEncodeASCII c.ch }
    else
      let c2 := { c1 with encoded_char := ch_enc }
      if env.encoding = Encoding.VT100 then { c2 with alt_charset := true }
      else if env.encoding = Encoding.PC then
        let c3 := { c2 with pc_charset := true }
        if env.isPuttyTerminal then c3
        else if env.isXTerminal ∧ ch_enc < 0x20 then
          if env.hasUTF8 then { c3 with encoded_char := env.charEncodeASCII c.ch }
          else { c3 with encoded_char := c3.encoded_char + 0x5f, alt_charset := true }
        else c3
      else c2

/-- The function `characterFilter` on the cell behind the pointer. -/
def characterFilter (env : RenderEnv) (c : FChar) : FChar :=
  match env.charSubstitution c.encoded_char with
  | some e => { c with encoded_char := e }
  | none => c

/-- The function `appendAttributes` for a pointer to the cell `i` of the
full-screen buffer: `changeAttribute` is handed the cell by reference. -/
def appendAttributes (env : RenderEnv) (w : World) (i : Int) : World :=
  let res := env.term.changeAttribute w.term_attribute (w.vterm.cell i)
  let w1 := ({ w with term_attribute := res.2.1 } : World).setVTermCell i res.2.2
  appendOutputOption env.term w1 res.1

/-- The function `appendChar` for a pointer to the cell `i`. -/
def appendChar (env : RenderEnv) (w : World) (i : Int) : World :=
  let w1 := w.setVTermCell i (charsetChanges env (newFontChanges env (w.vterm.cell i)))
  let w2 := appendAttributes env w1 i
  let w3 := w2.setVTermCell i (characterFilter env (w2.vterm.cell i))
  appendOutputChar env.term w3 (w3.vterm.cell i).encoded_char

/-- The statement `term_pos->x_ref() += d`. -/
def World.moveTermX (w : World) (d : Int) : World :=
  { w with term_pos := (w.term_pos.1 + d, w.term_pos.2) }

/-- The function `appendLowerRight`: the state afterwards and the pointer
`screen_char`, which the last branch decrements for the caller too. -/
def appendLowerRight (env : RenderEnv) (w : World) (i : Int) : World × Int :=
  if env.automatic_right_margin = false then (appendChar env w i, i)
  else
    match env.t_enter_am_mode, env.t_exit_am_mode with
    | some SA, some RA =>
      (appendOutputBuffer env.term (appendChar env (appendOutputBuffer env.term w RA) i) SA, i)
    | _, _ =>
      let x : Int := (env.term.columnNumber : Int) - 2
      let y : Int := (env.term.lineNumber : Int) - 1
      let w1 := setTermXY env.term w x y
      let w2 := (appendChar env w1 i).moveTermX 1
      let w3 := setTermXY env.term w2 x y
      let j := i - 1
      match env.t_parm_ich with
      | some IC => (appendChar env (appendOutputBuffer env.term w3 (IC 1)) j, j)
      | none =>
        match env.t_enter_insert_mode, env.t_exit_insert_mode with
        | some im, some ei =>
          let w4 := appendChar env (appendOutputBuffer env.term w3 im) j
          (appendOutputBuffer env.term (appendOutputOption env.term w4 env.t_insert_padding) ei,
           j)
        | _, _ =>
          match env.t_insert_character with
          | some ic =>
            let w4 := appendChar env (appendOutputBuffer env.term w3 ic) j
            (appendOutputOption env.term w4 env.t_insert_padding, j)
          | none => (w3, j)

/-- The function `appendCharacter`: the state afterwards and the pointer
`next_char` as the callee leaves it. -/
def appendCharacter (env : RenderEnv) (w : World) (i : Int) : World × Int :=
  let term_width := w.vterm.width - 1
  let term_height := w.vterm.height - 1
  let res :=
    if w.term_pos.1 = term_width ∧ w.term_pos.2 = term_height then appendLowerRight env w i
    else (appendChar env w i, i)
  (res.1.moveTermX 1, res.2)

/-- Number of leading positions `x` of the list for which `p x` holds: the
count of a loop `for (x : xs) { if ( p(x) ) count++; else break; }`. -/
def countWhile (p : Nat → Bool) : List Nat → Nat
  | [] => 0
  | x :: rest => if p x then countWhile p rest + 1 else 0

/-- The function `isFullWidthChar`. -/
def isFullWidthChar (c : FChar) : Bool := decide (c.char_width = 2)

/-- The function `isFullWidthPaddingChar`. -/
def isFullWidthPaddingChar (c : FChar) : Bool := c.fullwidth_padding

/-- The function `canClearToEOL`. -/
def canClearToEOL (env : RenderEnv) (w : World) (xmin y : Nat) : Bool :=
  let min_char := w.vterm.cell (vtIndex w xmin y)
  if env.term.t_clr_eol.isSome ∧ min_char.ch = 32 then
    let normal := env.term.isNormal min_char
    let width := toUInt w.vterm.width
    let beginning_whitespace :=
      uAdd 1 (countWhile (fun x => FChar.eq min_char (w.vterm.cell (vtIndex w x y)))
                (List.range' (uInc xmin) (width - uInc xmin)))
    decide (beginning_whitespace = uSub width xmin)
      && (env.term.background_color_erase || normal)
      && decide (env.clr_eol_length < beginning_whitespace)
  else false

/-- The function `canClearLeadingWS`: the returned `bool` and `xmin`, which
is handed over by reference. -/
def canClearLeadingWS (env : RenderEnv) (w : World) (xmin y : Nat) : Bool × Nat :=
  let first_char := w.vterm.cell (vtIndex w 0 y)
  if env.t_clr_bol.isSome ∧ first_char.ch = 32 then
    let normal := env.term.isNormal first_char
    let width := toUInt w.vterm.width
    let leading_whitespace :=
      uAdd 1 (countWhile (fun x => FChar.eq first_char (w.vterm.cell (vtIndex w x y)))
                (List.range' 1 (width - 1)))
    if leading_whitespace > xmin ∧ (env.term.background_color_erase || normal) = true
        ∧ env.clr_bol_length < leading_whitespace then
      (true, uSub leading_whitespace 1)
    else (false, xmin)
  else (false, xmin)

/-- The function `canClearTrailingWS`: the returned `bool` and `xmax`, which
is handed over by reference.  The loop starts at the last column, so the
last cell is compared with itself, and the length compared is
`clr_bol_length`. -/
def canClearTrailingWS (env : RenderEnv) (w : World) (xmax y : Nat) : Bool × Nat :=
  let width := toUInt w.vterm.width
  let last_char := w.vterm.cell ((uSub (uMul (uInc y) width) 1 : Nat) : Int)
  if env.term.t_clr_eol.isSome ∧ last_char.ch = 32 then
    let normal := env.term.isNormal last_char
    let trailing_whitespace :=
      uAdd 1 (countWhile (fun x => FChar.eq last_char (w.vterm.cell (vtIndex w x y)))
                (List.range' 1 (uSub width 1)).reverse)
    if trailing_whitespace > uSub width xmax ∧ (env.term.background_color_erase || normal) = true
        ∧ env.clr_bol_length < trailing_whitespace then
      (true, uSub width trailing_whitespace)
    else (false, xmax)
  else (false, xmax)

/-- The function `skipUnchangedCharacters`: the returned `bool`, the state
afterwards and `x`, which is handed over by reference. -/
def skipUnchangedCharacters (env : RenderEnv) (w : World) (x xmax y : Nat) :
    Bool × World × Nat :=
  let w1 := markAsPrinted w x y
  if (w1.vterm.cell (vtIndex w1 x y)).no_changes then
    let count :=
      uAdd 1 (countWhile (fun i => (w1.vterm.cell (vtIndex w1 i y)).no_changes)
                (List.range' (uInc x) (xmax + 1 - uInc x)))
    if count > env.cursor_address_length then
      (true, setTermXY env.term w1 (toInt (uAdd x count)) (toInt y), uSub (uAdd x count) 1)
    else (false, w1, x)
  else (false, w1, x)

/-- The function `replaceNonPrintableFullwidth` for the cell in column `x`
behind the pointer `i`. -/
def replaceNonPrintableFullwidth (env : RenderEnv) (w : World) (x : Nat) (i : Int) : World :=
  let c := w.vterm.cell i
  if x = 0 ∧ isFullWidthPaddingChar c = true then
    w.setVTermCell i { c with ch := env.SingleLeftAngleQuotationMark, fullwidth_padding := false }
  else if x = toUInt (w.vterm.width - 1) ∧ isFullWidthChar c = true then
    w.setVTermCell i { c with ch := env.SingleRightAngleQuotationMark, char_width := 1 }
  else w

/-- The function `skipPaddingCharacter`: the state afterwards and `x`. -/
def skipPaddingCharacter (w : World) (x y : Nat) (i : Int) : World × Nat :=
  if isFullWidthChar (w.vterm.cell i) then
    (markAsPrinted (w.moveTermX 1) (uInc x) y, uInc x)
  else (w, x)

/-- The statements `appendAttributes (c); appendOutputBuffer
(fc::HorizontalEllipsis); term_pos->x_ref()++; markAsPrinted (x, y);` that
print an ellipsis in place of the cell `i` in column `x`. -/
def printEllipsis (env : RenderEnv) (w : World) (x y : Nat) (i : Int) : World :=
  let w1 := appendAttributes env w i
  let w2 := appendOutputChar env.term w1 env.HorizontalEllipsis
  markAsPrinted (w2.moveTermX 1) x y

/-- The test of `printFullWidthCharacter` and
`printFullWidthPaddingCharacter`: the two cells have the same attribute
bytes 0 and 1 and the same colours, the first is full-width and the second
is a padding cell. -/
def fullWidthPair (first second : FChar) : Bool :=
  decide (first.byte0 = second.byte0) && decide (first.byte1 = second.byte1)
  && decide (first.fg_color = second.fg_color) && decide (first.bg_color = second.bg_color)
  && isFullWidthChar first && isFullWidthPaddingChar second

/-- The function `printFullWidthCharacter`: the state afterwards and `x`. -/
def printFullWidthCharacter (env : RenderEnv) (w : World) (x y : Nat) (i : Int) :
    World × Nat :=
  let next := ((uAdd (uAdd (uMul y (toUInt w.vterm.width)) x) 1 : Nat) : Int)
  if fullWidthPair (w.vterm.cell i) (w.vterm.cell next) then
    let res := appendCharacter env w i
    skipPaddingCharacter (markAsPrinted res.1 x y) x y res.2
  else
    let w1 := printEllipsis env w x y i
    if isFullWidthPaddingChar (w1.vterm.cell next) then
      (printEllipsis env w1 (uInc x) y next, uInc x)
    else (w1, x)

/-- The sequence that moves the cursor one column to the left:
`TCAP(fc::t_cursor_left)`, else `tparm(TCAP(fc::t_parm_right_cursor), 1, ..)`. -/
def cursorLeft (env : RenderEnv) : Option (List Int) :=
  match env.t_cursor_left with
  | some le => some le
  | none => env.t_parm_right_cursor.map fun RI => RI 1

/-- The function `printFullWidthPaddingCharacter`: the state afterwards and
`x`. -/
def printFullWidthPaddingCharacter (env : RenderEnv) (w : World) (x y : Nat) (i : Int) :
    World × Nat :=
  let prev := ((uSub (uAdd (uMul y (toUInt w.vterm.width)) x) 1 : Nat) : Int)
  if fullWidthPair (w.vterm.cell prev) (w.vterm.cell i) then
    match cursorLeft env with
    | none => skipPaddingCharacter w x y prev
    | some seq =>
      let w1 := (appendOutputBuffer env.term w seq).moveTermX (-1)
      let res := appendCharacter env w1 prev
      skipPaddingCharacter (markAsPrinted res.1 (uDec x) y) (uDec x) y res.2
  else (printEllipsis env w x y i, x)

/-- The function `printHalfCovertFullWidthCharacter`: the state afterwards
and `x`. -/
def printHalfCovertFullWidthCharacter (env : RenderEnv) (w : World) (x y : Nat) (i : Int) :
    World × Nat :=
  let prev := ((uSub (uAdd (uMul y (toUInt w.vterm.width)) x) 1 : Nat) : Int)
  let w1 :=
    if isFullWidthChar (w.vterm.cell prev) && !isFullWidthPaddingChar (w.vterm.cell i) then
      match cursorLeft env with
      | none => w
      | some seq =>
        printEllipsis env ((appendOutputBuffer env.term w seq).moveTermX (-1)) (uDec x) y i
    else w
  let x1 :=
    if (isFullWidthChar (w.vterm.cell prev) && !isFullWidthPaddingChar (w.vterm.cell i))
        && (cursorLeft env).isSome then uInc (uDec x)
    else x
  (markAsPrinted (appendCharacter env w1 i).1 x1 y, x1)

/-- The function `printCharacter`: the state afterwards and `x`. -/
def printCharacter (env : RenderEnv) (w : World) (x y : Nat) (min_and_not_max : Bool)
    (i : Int) : World × Nat :=
  let c := w.vterm.cell i
  if x < toUInt (w.vterm.width - 1) ∧ isFullWidthChar c = true then
    printFullWidthCharacter env w x y i
  else if x > 0 ∧ x < toUInt (w.vterm.width - 1) ∧ isFullWidthPaddingChar c = true then
    printFullWidthPaddingCharacter env w x y i
  else if x > 0 ∧ min_and_not_max = true then
    printHalfCovertFullWidthCharacter env w x y i
  else (markAsPrinted (appendCharacter env w i).1 x y, x)

/-- The enumeration `exit_state`. -/
inductive exit_state where
  | not_used
  | used
  | line_completely_printed
deriving DecidableEq, Repr

/-- A loop `for (i = 0; i < n; i++) appendCharacter (print_char);`: the
state and the pointer afterwards. -/
def appendCharacterN (env : RenderEnv) (n : Nat) (s : World × Int) : World × Int :=
  (List.range n).foldl (fun acc _ => appendCharacter env acc.1 acc.2) s

/-- The function `eraseCharacters`: the returned state, the state of the
process afterwards and `x`, which is handed over by reference. -/
def eraseCharacters (env : RenderEnv) (w : World) (x xmax y : Nat) (draw_trailing_ws : Bool) :
    exit_state × World × Nat :=
  let i := vtIndex w x y
  let c := w.vterm.cell i
  match env.t_erase_chars with
  | none => (exit_state.not_used, w, x)
  | some ec =>
    if c.ch ≠ 32 then (exit_state.not_used, w, x)
    else
      let normal := env.term.isNormal c
      let whitespace :=
        uAdd 1 (countWhile (fun k => FChar.eq c (w.vterm.cell (vtIndex w k y)))
                  (List.range' (uInc x) (xmax + 1 - uInc x)))
      if whitespace = 1 then
        (exit_state.used, markAsPrinted (appendCharacter env w i).1 x y, x)
      else if whitespace > uAdd env.erase_char_length env.cursor_address_length
          ∧ (env.term.background_color_erase || normal) = true then
        let w1 := appendOutputBuffer env.term (appendAttributes env w i) (ec whitespace)
        if uSub (uAdd x whitespace) 1 < xmax ∨ draw_trailing_ws = true then
          let w2 := setTermXY env.term w1 (toInt (uAdd x whitespace)) (toInt y)
          (exit_state.used, markAsPrintedRange w2 x (uSub (uAdd x whitespace) 1) y,
           uSub (uAdd x whitespace) 1)
        else (exit_state.line_completely_printed, w1, x)
      else
        let res := appendCharacterN env whitespace (w, i)
        (exit_state.used, markAsPrintedRange res.1 x (uAdd (uDec x) whitespace) y,
         uAdd (uDec x) whitespace)

/-- The function `repeatCharacter`: the returned state, the state of the
process afterwards and `x`, which is handed over by reference. -/
def repeatCharacter (env : RenderEnv) (w : World) (x xmax y : Nat) :
    exit_state × World × Nat :=
  let i := vtIndex w x y
  let c := w.vterm.cell i
  match env.t_repeat_char with
  | none => (exit_state.not_used, w, x)
  | some rp =>
    let repetitions :=
      uAdd 1 (countWhile (fun k => FChar.eq c (w.vterm.cell (vtIndex w k y)))
                (List.range' (uInc x) (xmax + 1 - uInc x)))
    if repetitions = 1 then
      (exit_state.used, markAsPrinted (appendCharacter env w i).1 x y, x)
    else if repetitions > env.repeat_char_length ∧ c.ch < 128 then
      let w1 := w.setVTermCell i (charsetChanges env (newFontChanges env c))
      let w2 := appendAttributes env w1 i
      let w3 := appendOutputBuffer env.term w2 (rp (w2.vterm.cell i).ch repetitions)
      let w4 := w3.moveTermX (toInt repetitions)
      (exit_state.used, markAsPrintedRange w4 x (uSub (uAdd x repetitions) 1) y,
       uSub (uAdd x repetitions) 1)
    else
      let res := appendCharacterN env repetitions (w, i)
      (exit_state.used, markAsPrintedRange res.1 x (uAdd (uDec x) repetitions) y,
       uAdd (uDec x) repetitions)

/-- The loop of `printRange` from the column `x` on.  The body moves `x`
itself, so the passes are counted by `fuel`; `none` means the fuel ran out
before `x` passed `xmax`. -/
def printRangeLoop (env : RenderEnv) (xmin xmax y : Nat) (draw_trailing_ws : Bool) :
    Nat → World → Nat → Option World
  | 0, w, x => if x ≤ xmax then none else some w
  | fuel + 1, w, x =>
    if x ≤ xmax then
      let i := vtIndex w x y
      let w1 := w.setVTermCell i { w.vterm.cell i with printed := true }
      let w2 := replaceNonPrintableFullwidth env w1 x i
      let skip := skipUnchangedCharacters env w2 x xmax y
      if skip.1 then printRangeLoop env xmin xmax y draw_trailing_ws fuel skip.2.1 (uInc skip.2.2)
      else if env.t_erase_chars.isSome ∧ (skip.2.1.vterm.cell i).ch = 32 then
        let res := eraseCharacters env skip.2.1 skip.2.2 xmax y draw_trailing_ws
        if res.1 = exit_state.line_completely_printed then some res.2.1
        else printRangeLoop env xmin xmax y draw_trailing_ws fuel res.2.1 (uInc res.2.2)
      else if env.t_repeat_char.isSome then
        let res := repeatCharacter env skip.2.1 skip.2.2 xmax y
        printRangeLoop env xmin xmax y draw_trailing_ws fuel res.2.1 (uInc res.2.2)
      else
        let res := printCharacter env skip.2.1 skip.2.2 y
          (decide (skip.2.2 = xmin) && decide (xmin ≠ xmax)) i
        printRangeLoop env xmin xmax y draw_trailing_ws fuel res.1 (uInc res.2)
    else some w

/-- The function `printRange`. -/
def printRange (env : RenderEnv) (fuel : Nat) (w : World) (xmin xmax y : Nat)
    (draw_trailing_ws : Bool) : Option World :=
  printRangeLoop env xmin xmax y draw_trailing_ws fuel w xmin

/-- The function `cursorWrap`. -/
def cursorWrap (env : RenderEnv) (w : World) : World :=
  if w.term_pos.1 ≥ w.vterm.width then
    if w.term_pos.2 = w.vterm.height - 1 then w.moveTermX (-1)
    else if env.eat_nl_glitch then { w with term_pos := (-1, -1) }
    else if env.automatic_right_margin then { w with term_pos := (0, w.term_pos.2 + 1) }
    else w.moveTermX (-1)
  else w

/-- The block of `updateTerminalLine` for a row that has changes (lines
2737-2786).  `xmin` and `xmax` are references to the row record; the
functions called in between do not read the row records, so the values are
kept in variables here and stored by the reset at the end. -/
def updateTerminalLineDirty (env : RenderEnv) (fuel : Nat) (w : World) (y : Nat) :
    Option World :=
  let xmin := (w.vterm.line (y : Int)).xmin
  let xmax := (w.vterm.line (y : Int)).xmax
  let width := toUInt w.vterm.width
  let first_char := vtIndex w 0 y
  let last_char : Int := ((uSub (uMul (uInc y) width) 1 : Nat) : Int)
  let min_char := vtIndex w xmin y
  let is_eol_clean := canClearToEOL env w xmin y
  let lead := if is_eol_clean then (false, xmin) else canClearLeadingWS env w xmin y
  let trail := if is_eol_clean then (false, xmax) else canClearTrailingWS env w xmax y
  let w1 := setTermXY env.term w (toInt lead.2) (toInt y)
  let printed : Option World :=
    if is_eol_clean then
      let w2 := appendOutputOption env.term (appendAttributes env w1 min_char) env.term.t_clr_eol
      some (markAsPrintedRange w2 lead.2 (toUInt (w2.vterm.width - 1)) y)
    else
      let w2 :=
        if lead.1 then
          let w3 := appendOutputOption env.term (appendAttributes env w1 first_char) env.t_clr_bol
          markAsPrintedRange w3 0 lead.2 y
        else w1
      (printRange env fuel w2 lead.2 trail.2 y trail.1).map fun w4 =>
        if trail.1 then
          let w5 := appendOutputOption env.term (appendAttributes env w4 last_char)
                      env.term.t_clr_eol
          markAsPrintedRange w5 (uInc trail.2) (toUInt (w5.vterm.width - 1)) y
        else w4
  printed.map fun w6 =>
    let reset : FLineChanges :=
      { w6.vterm.line (y : Int) with xmin := toUInt w6.vterm.width, xmax := 0 }
    { w6 with vterm := w6.vterm.setLine (y : Int) reset }

/-- The function `updateTerminalLine`. -/
def updateTerminalLine (env : RenderEnv) (fuel : Nat) (w : World) (y : Nat) : Option World :=
  let changed : Option World :=
    if (w.vterm.line (y : Int)).xmin ≤ (w.vterm.line (y : Int)).xmax then
      updateTerminalLineDirty env fuel w y
    else some w
  changed.map (cursorWrap env)

/-- The function `hideCursor (bool)`. -/
def hideCursor (env : RenderEnv) (w : World) (enable : Bool) : World :=
  flushOutputBuffer (appendOutputOption env.term w (env.cursorsVisibilityString enable))

/-- The function `updateTerminalCursor`; `showCursor ()` is
`hideCursor (false)` and `hideCursor ()` is `hideCursor (true)`. -/
def updateTerminalCursor (env : RenderEnv) (w : World) : Bool × World :=
  if w.vterm.input_cursor_visible then
    let x := w.vterm.input_cursor_x
    let y := w.vterm.input_cursor_y
    if isInsideTerminal env.comp (x, y) then
      (true, hideCursor env (setTermXY env.term w x y) false)
    else (false, w)
  else (false, hideCursor env w true)

/-- The function `hasChildAreaChanges`. -/
def hasChildAreaChanges (env : RenderEnv) (w : World) (area : FTermArea) : Bool :=
  area.preproc_list.any fun h =>
    match env.childPrintArea h with
    | none => false
    | some c =>
      match w.child_areas[c]? with
      | none => false
      | some child => child.has_changes

/-- The function `clearChildAreaChanges`. -/
def clearChildAreaChanges (env : RenderEnv) (w : World) (area : FTermArea) : World :=
  area.preproc_list.foldl
    (fun acc h =>
      match env.childPrintArea h with
      | none => acc
      | some c =>
        match acc.child_areas[c]? with
        | none => acc
        | some child => acc.setArea (AreaRef.child c) { child with has_changes := false })
    w

/-- The statement `area->has_changes = false` through a surface pointer. -/
def World.clearHasChanges (w : World) (r : AreaRef) : World :=
  match w.area? r with
  | none => w
  | some area => w.setArea r { area with has_changes := false }

/-- One pass through the loop of `updateVTerm` over the window list (lines
1624-1641), for the window at position `i`. -/
def updateVTermWindow (env : RenderEnv) (w : World) (i : Nat) : World :=
  match w.area? (AreaRef.window i) with
  | none => w
  | some v_win =>
    if v_win.visible = false then w
    else if v_win.has_changes then
      (putArea env.comp w (AreaRef.window i)).clearHasChanges (AreaRef.window i)
    else if hasChildAreaChanges env w v_win then
      let w1 := putArea env.comp w (AreaRef.window i)
      match w1.area? (AreaRef.window i) with
      | none => w1
      | some v_win1 => clearChildAreaChanges env w1 v_win1
    else w

/-- The function `updateVTerm`. -/
def updateVTerm (env : RenderEnv) (w : World) : World :=
  let w1 :=
    if w.vdesktop.has_changes then
      (putArea env.comp w AreaRef.desktop).clearHasChanges AreaRef.desktop
    else w
  if w1.window_list = [] then w1
  else (List.range w1.window_list.length).foldl (updateVTermWindow env) w1

/-- What the surroundings answer when `updateTerminal` asks them:
`FApplication::isQuit`, `keyboard->isInputDataPending ()`,
`data->hasTermResized ()` and `isTermSizeChanged ()`. -/
structure TerminalProbe where
  isQuit : Bool
  isInputDataPending : Bool
  hasTermResized : Bool
  isTermSizeChanged : Bool

/-- The state of the process together with the scheduler flags of `FVTerm`
and the number of `SIGWINCH` signals raised. -/
structure UpdateState where
  world : World
  terminal_update_complete : Bool
  terminal_update_pending : Bool
  force_terminal_update : Bool
  stop_terminal_updates : Bool
  skipped_terminal_update : Int
  sigwinch_raised : Nat

/-- The loop `for (y = 0; y < uInt(vterm->height); y++) updateTerminalLine (y);`
of `updateTerminal` over the rows that remain. -/
def updateTerminalLines (env : RenderEnv) (fuel : Nat) : List Nat → World → Option World
  | [], w => some w
  | y :: rest, w =>
    match updateTerminalLine env fuel w y with
    | none => none
    | some w1 => updateTerminalLines env fuel rest w1

/-- The function `updateTerminal ()`; `none` means the fuel of a
`printRange` ran out. -/
def updateTerminal (env : RenderEnv) (probe : TerminalProbe) (fuel : Nat) (s : UpdateState) :
    Option UpdateState :=
  if s.stop_terminal_updates || probe.isQuit then some s
  else if s.force_terminal_update = false ∧ s.terminal_update_complete = false then some s
  else if s.force_terminal_update = false ∧ probe.isInputDataPending = true then
    some { s with terminal_update_pending := true }
  else if probe.hasTermResized then some s
  else if probe.isTermSizeChanged then some { s with sigwinch_raised := s.sigwinch_raised + 1 }
  else
    let w1 := updateVTerm env s.world
    if w1.vterm.has_changes = false then some { s with world := w1 }
    else
      (updateTerminalLines env fuel (List.range (toUInt w1.vterm.height)) w1).map fun w2 =>
        let w3 := { w2 with vterm := { w2.vterm with has_changes := false } }
        { s with world := (updateTerminalCursor env w3).2 }

/-- The function `processTerminalUpdate`. -/
def processTerminalUpdate (env : RenderEnv) (probe : TerminalProbe) (fuel : Nat)
    (s : UpdateState) : Option UpdateState :=
  let max_skip : Int := 8
  if s.terminal_update_pending = false then some s
  else if probe.isInputDataPending = false then
    (updateTerminal env probe fuel s).map fun s1 =>
      { s1 with terminal_update_pending := false, skipped_terminal_update := 0 }
  else if s.skipped_terminal_update > max_skip then
    (updateTerminal env probe fuel { s with force_terminal_update := true }).map fun s1 =>
      { s1 with force_terminal_update := false, terminal_update_pending := false,
                skipped_terminal_update := 0 }
  else some { s with skipped_terminal_update := s.skipped_terminal_update + 1 }

/-- A number of consecutive calls of `processTerminalUpdate` with the same
answers of the surroundings. -/
def processTerminalUpdates (env : RenderEnv) (probe : TerminalProbe) (fuel : Nat) :
    Nat → UpdateState → Option UpdateState
  | 0, s => some s
  | n + 1, s =>
    match processTerminalUpdate env probe fuel s with
    | none => none
    | some s1 => processTerminalUpdates env probe fuel n s1

/-- A renderer environment for UTF-8 without optional capabilities, with
the lengths `init_characterLengths` sets when there is no `FOptiMove`. -/
def sampleRenderEnv : RenderEnv :=
  { term := sampleTermEnv, comp := sampleCompEnv, t_clr_bol := none, t_erase_chars := none,
    t_repeat_char := none, t_cursor_left := none, t_parm_right_cursor := none,
    t_enter_am_mode := none, t_exit_am_mode := none, t_parm_ich := none,
    t_enter_insert_mode := none, t_exit_insert_mode := none, t_insert_padding := none,
    t_insert_character := none, automatic_right_margin := false, eat_nl_glitch := false,
    erase_char_length := 2147483647, repeat_char_length := 2147483647,
    clr_bol_length := 2147483647, clr_eol_length := 2147483647,
    cursor_address_length := 2147483647, isNewFont := false,
    isReverseNewFontchar := fun _ => false, encoding := Encoding.UTF8,
    charEncode := fun ch => ch, charEncodeASCII := fun ch => ch, isPuttyTerminal := false,
    isXTerminal := false, hasUTF8 := true, charSubstitution := fun _ => none,
    cursorsVisibilityString := fun _ => none, childPrintArea := fun _ => none,
    SingleLeftAngleQuotationMark := 0x2039, SingleRightAngleQuotationMark := 0x203a,
    HorizontalEllipsis := 0x2026 }

/-- Answers of the surroundings: no quit, no resize, and keyboard input
pending or not. -/
def sampleProbe (pending : Bool) : TerminalProbe :=
  { isQuit := false, isInputDataPending := pending, hasTermResized := false,
    isTermSizeChanged := false }

/-- A scheduler state over the given state of the process: the printing
phase is complete, a terminal update is pending, nothing has been skipped. -/
def samplePending (w : World) : UpdateState :=
  { world := w, terminal_update_complete := true, terminal_update_pending := true,
    force_terminal_update := false, stop_terminal_updates := false,
    skipped_terminal_update := 0, sigwinch_raised := 0 }

/-- Everything the renderer leaves alone: the full-screen buffer without
its cell array, the desktop, the window list, the child surfaces and the
active surface. -/
def World.skeleton (w : World) :
    FTermArea × FTermArea × List FWindow × List FTermArea × Option AreaRef :=
  ({ w.vterm with data := none }, w.vdesktop, w.window_list, w.child_areas, w.active_area)

/-- The state `w1` has kept the shape of `w`: the full-screen buffer has the
same size and as many row records, and every surface of `w1` is a surface
of `w` with the same visibility and the same pre-render handlers that has
changes only if it had them in `w`. -/
def World.Kept (w w1 : World) : Prop :=
  w1.vterm.width = w.vterm.width ∧ w1.vterm.height = w.vterm.height
  ∧ bufSize w1.vterm.changes = bufSize w.vterm.changes
  ∧ ∀ (r : AreaRef) (a1 : FTermArea), w1.area? r = some a1 →
      ∃ a, w.area? r = some a ∧ a1.visible = a.visible ∧ a1.preproc_list = a.preproc_list
        ∧ (a1.has_changes = true → a.has_changes = true)

/-- No pre-render handler is registered on the desktop or on the surface of
a window. -/
def World.NoHooks (w : World) : Prop :=
  w.vdesktop.preproc_list = []
  ∧ ∀ win ∈ w.window_list, ∀ a ∈ win.vwin, a.preproc_list = []

instance (w : World) : Decidable w.NoHooks := by
  unfold World.NoHooks; infer_instance

/-- A scheduler state over the 10 x 4 terminal whose desktop is dirty over
its full size and carries one dirty window of 3 x 2 cells at column 2,
row 1; the printing phase is complete and nothing is pending. -/
def sampleDirtyState : UpdateState :=
  { world :=
      { sampleWorld [⟨1, some { sampleDirtyArea 2 1 3 2 0 0 with has_changes := true }⟩] with
        vdesktop := { sampleDirtyArea 0 0 10 4 0 0 with has_changes := true } },
    terminal_update_complete := true, terminal_update_pending := false,
    force_terminal_update := false, stop_terminal_updates := false,
    skipped_terminal_update := 0, sigwinch_raised := 0 }

/-- A scheduler state over the 10 x 4 terminal in the middle of a printing
phase: `terminal_update_complete` is false and no terminal update is
pending. -/
def samplePrinting : UpdateState :=
  { world := sampleWorld [], terminal_update_complete := false,
    terminal_update_pending := false, force_terminal_update := false,
    stop_terminal_updates := false, skipped_terminal_update := 0, sigwinch_raised := 0 }

/-! ## Creating and resizing a surface (fvterm.cpp, lines 620-708 and 1297-1366) -/

/-- Conversion `std::size_t(i)` of an `int` to a 64 bit unsigned value. -/
def toSize (i : Int) : Nat := (i % 2 ^ 64).toNat

/-- Addition of two `std::size_t` values. -/
def sAdd (a b : Nat) : Nat := (a + b) % 2 ^ 64

/-- Multiplication of two `std::size_t` values. -/
def sMul (a b : Nat) : Nat := (a * b) % 2 ^ 64

/-- Collaborators of the allocation of a surface: the object `new FTermArea`
returns (its members have the initial values given in `final/fvterm.h`),
the arrays `new FLineChanges[n]` and `new FChar[n]` return, each `none` when
`std::bad_alloc` is thrown; the value of the local `FChar default_char` of
`setTextToDefault` before its members are assigned; and the colour constant
`fc::Default` of `fc.h`. -/
structure AllocEnv where
  newArea : Option FTermArea
  newChanges : Nat → Option (List FLineChanges)
  newData : Nat → Option (List FChar)
  default_char : FChar
  Default : Nat

/-- The cell `default_char` that `setTextToDefault` builds (lines 1300-1308):
a space in the default colours with the three attribute bytes zero. -/
def defaultChar (env : AllocEnv) : FChar :=
  { env.default_char with
    ch := 32, fg_color := env.Default, bg_color := env.Default,
    bold := false, dim := false, italic := false, underline := false,
    blink := false, reverse := false, standout := false, invisible := false,
    protect := false, crossed_out := false, dbl_underline := false,
    alt_charset := false, pc_charset := false, transparent := false,
    trans_shadow := false, inherit_bg := false,
    no_changes := false, printed := false, fullwidth_padding := false, char_width := 0 }

/-- The function `setTextToDefault`; `width` and `height` are the members
of the `FSize` handed over. -/
def setTextToDefault (env : AllocEnv) (area : FTermArea) (width height : Nat) : FTermArea :=
  let a1 := { area with data := fill_n area.data 0 ((sMul width height : Nat) : Int)
                                  (defaultChar env) }
  { a1 with changes := fill_n a1.changes 0 (height : Int)
                         { xmin := width % 2 ^ 32, xmax := 0, trans_count := 0 } }

/-- The function `reallocateTextArea (FTermArea*, std::size_t, std::size_t)`:
the returned `bool` and the surface afterwards.  An array that has been
deleted is gone and is modelled as `none`, although the pointer keeps its
stale value; the second `new` is not reached when the first one throws. -/
def reallocateTextArea (env : AllocEnv) (area : FTermArea) (height size : Nat) :
    Bool × FTermArea :=
  let a1 := { area with changes := none, data := none }
  match env.newChanges height with
  | none => (false, a1)
  | some c =>
    match env.newData size with
    | none => (false, { a1 with changes := some c })
    | some d => (true, { a1 with changes := some c, data := some d })

/-- The function `reallocateTextArea (FTermArea*, std::size_t)`: the
returned `bool` and the surface afterwards. -/
def reallocateTextData (env : AllocEnv) (area : FTermArea) (size : Nat) : Bool × FTermArea :=
  let a1 := { area with data := none }
  match env.newData size with
  | none => (false, a1)
  | some d => (true, { a1 with data := some d })

/-- The part of `resizeArea` behind the assertions and the null test (lines
663-707), for a surface that exists. -/
def resizeAreaBody (env : AllocEnv) (offset_left offset_top width height rsw bsh : Int)
    (area : FTermArea) : FTermArea :=
  if width = area.width ∧ height = area.height ∧ rsw = area.right_shadow
      ∧ bsh = area.bottom_shadow then
    let a1 := if offset_left ≠ area.offset_left then { area with offset_left := offset_left }
              else area
    if offset_top ≠ a1.offset_top then { a1 with offset_top := offset_top } else a1
  else
    let full_width := sAdd (toSize width) (toSize rsw)
    let full_height := sAdd (toSize height) (toSize bsh)
    let area_size := sMul full_width full_height
    let res : Option (Bool × FTermArea) :=
      if area.height + area.bottom_shadow ≠ toInt full_height then
        some (reallocateTextArea env area full_height area_size)
      else if area.width + area.right_shadow ≠ toInt full_width then
        some (reallocateTextData env area area_size)
      else none
    match res with
    | none => area
    | some (false, a1) => a1
    | some (true, a1) =>
      setTextToDefault env
        { a1 with offset_left := offset_left, offset_top := offset_top, width := width,
                  height := height, right_shadow := rsw, bottom_shadow := bsh,
                  has_changes := false }
        full_width full_height

/-- The function `resizeArea`.  The box and the shadow are given by the six
`int` values read from them at the top of the function; `area` is the
surface behind the pointer, `none` for a null pointer.  The result is `none`
when one of the assertions fails, otherwise the surface afterwards. -/
def resizeArea (env : AllocEnv) (offset_left offset_top width height rsw bsh : Int)
    (area : Option FTermArea) : Option (Option FTermArea) :=
  if ¬ (offset_top ≥ 0) then none
  else if ¬ (width > 0 ∧ width + rsw > 0) then none
  else if ¬ (height > 0 ∧ height + bsh > 0) then none
  else if ¬ (rsw ≥ 0) then none
  else if ¬ (bsh ≥ 0) then none
  else
    match area with
    | none => some none
    | some a => some (some (resizeAreaBody env offset_left offset_top width height rsw bsh a))

/-- The function `createArea` called by the object `this`; `area` is the
value the pointer handed over by reference has before the call.  The result
is `none` when an assertion of `resizeArea` fails, otherwise the value of
the pointer afterwards. -/
def createArea (env : AllocEnv) (this : Nat)
    (offset_left offset_top width height rsw bsh : Int) (area : Option FTermArea) :
    Option (Option FTermArea) :=
  match env.newArea with
  | none => some area
  | some fresh =>
    resizeArea env offset_left offset_top width height rsw bsh
      (some { fresh with widget := some this })

/-- A cell is the default blank: a space in the colour `dflt` for foreground
and background with all three attribute bytes zero. -/
def FChar.DefaultBlank (dflt : Nat) (c : FChar) : Prop :=
  c.ch = 32 ∧ c.fg_color = dflt ∧ c.bg_color = dflt
  ∧ c.byte0 = List.replicate 8 false ∧ c.byte1 = List.replicate 8 false
  ∧ c.no_changes = false ∧ c.printed = false ∧ c.fullwidth_padding = false ∧ c.char_width = 0

instance (dflt : Nat) (c : FChar) : Decidable (c.DefaultBlank dflt) := by
  unfold FChar.DefaultBlank; infer_instance

/-- A surface in the state `setTextToDefault` leaves behind: both arrays
have the length the geometry asks for, every cell, shadow included, is the
default blank, every row record is `(total row length, 0, 0)`, and
`has_changes` is false. -/
def FTermArea.Default (dflt : Nat) (a : FTermArea) : Prop :=
  (bufSize a.data : Int) = a.lineLen * a.rows ∧ (bufSize a.changes : Int) = a.rows
  ∧ a.has_changes = false
  ∧ (∀ i : Int, 0 ≤ i → i < a.lineLen * a.rows → (a.cell i).DefaultBlank dflt)
  ∧ ∀ y : Int, 0 ≤ y → y < a.rows →
      a.line y = { xmin := toUInt a.lineLen, xmax := 0, trans_count := 0 }

/-- An allocator that never fails and hands out arrays of zeroed elements.
The surface it hands out has no size yet (width and height -1), no arrays
and is not visible; `fc::Default` is taken as 65535. -/
def sampleAllocEnv : AllocEnv :=
  { newArea := some
      { offset_left := 0, offset_top := 0, width := -1, height := -1, right_shadow := 0,
        bottom_shadow := 0, cursor_x := 0, cursor_y := 0, input_cursor_x := -1,
        input_cursor_y := -1, widget := none, preproc_list := [],
        input_cursor_visible := false, has_changes := false, visible := false,
        changes := none, data := none },
    newChanges := fun n => some (List.replicate n default),
    newData := fun n => some (List.replicate n default),
    default_char := FChar.zero, Default := 65535 }

/-- The allocator `sampleAllocEnv` out of memory for cell arrays: every
`new FChar[n]` throws. -/
def sampleNoMemory : AllocEnv :=
  { sampleAllocEnv with newData := fun _ => none }

/-- The output environment `sampleTermEnv` with a clear-to-end-of-line
capability (`ESC [ K`). -/
def sampleClearEnv : TermEnv :=
  { sampleTermEnv with t_clr_eol := some [27, 91, 75] }

/-- Everything handed to the output so far, in order: what has been flushed
to the terminal followed by what still waits in the output buffer. -/
def World.emitted (w : World) : List Int := w.term_out ++ w.output_buffer

/-- What `appendOutputBuffer` appends for a sequence that may be missing:
the expansion `tputs` makes of it, nothing for a null pointer. -/
def TermEnv.expand (env : TermEnv) (s : Option (List Int)) : List Int :=
  match s with
  | some str => env.tputs str
  | none => []

/-- The renderer environment `sampleRenderEnv` on a terminal that can hide
(`ESC [ ? 25 l`) and show (`ESC [ ? 25 h`) its cursor. -/
def sampleCursorEnv : RenderEnv :=
  { sampleRenderEnv with
    cursorsVisibilityString := fun enable =>
      some (if enable then [27, 91, 63, 50, 53, 108] else [27, 91, 63, 50, 53, 104]) }

/-- The state `sampleWorld []` with the input cursor of the full-screen
buffer flagged visible at the given position. -/
def sampleCursorWorld (x y : Int) : World :=
  { sampleWorld [] with
    vterm := { (sampleWorld []).vterm with
               input_cursor_x := x, input_cursor_y := y, input_cursor_visible := true } }

/-- The renderer environment `sampleRenderEnv` on a terminal with the
capabilities clear-to-end-of-line (`ESC [ K`, 3 bytes) and
clear-to-beginning-of-line (`ESC [ 1 K`, 4 bytes). -/
def sampleTrimEnv : RenderEnv :=
  { sampleRenderEnv with
    term := sampleClearEnv, t_clr_bol := some [27, 91, 49, 75],
    clr_bol_length := 4, clr_eol_length := 3 }

/-- The state `sampleWorld []` with the letter `A` in column 5 of row 1 of
the full-screen buffer and the columns 6 to 9 of that row marked dirty. -/
def sampleRowWorld : World :=
  { sampleWorld [] with
    vterm := { (sampleWorld []).vterm with
               data := bufSet (sampleWorld []).vterm.data 15 sampleLetter,
               changes := bufSet (sampleWorld []).vterm.changes 1
                            { xmin := 6, xmax := 9, trans_count := 0 } } }

/-- The renderer environment `sampleTrimEnv` on a terminal whose
clear-to-end-of-line capability is padded to 12 bytes, while
clear-to-beginning-of-line takes 4 bytes. -/
def sampleSlowEolEnv : RenderEnv :=
  { sampleTrimEnv with
    term := { sampleTermEnv with t_clr_eol := some [27, 91, 75, 0, 0, 0, 0, 0, 0, 0, 0, 0] },
    clr_bol_length := 4, clr_eol_length := 12 }

/-- The renderer environment `sampleRenderEnv` on a terminal with the
repeat-character capability (`<ch> ESC [ <n> b`). -/
def sampleRepeatEnv : RenderEnv :=
  { sampleRenderEnv with
    t_repeat_char := some fun ch n => [ch, 27, 91, (n : Int), 98], repeat_char_length := 5 }

/-- A full-width glyph as it stands in the full-screen buffer: the code
point U+4E2D with `char_width` 2. -/
def sampleWideCell : FChar := { sampleWide with char_width := 2 }

/-- The padding cell that follows `sampleWideCell`: code point 0 with
`fullwidth_padding` set, in the same colours and attributes. -/
def samplePaddingCell : FChar := { FChar.zero with fullwidth_padding := true }

/-- The state `sampleWorld []` with `sampleWideCell` in column 2 and its
padding cell in column 3 of row 1 of the full-screen buffer, the two columns
marked dirty. -/
def sampleWideWorld : World :=
  { sampleWorld [] with
    vterm := { (sampleWorld []).vterm with
               data := bufSet (bufSet (sampleWorld []).vterm.data 12 sampleWideCell) 13
                         samplePaddingCell,
               changes := bufSet (sampleWorld []).vterm.changes 1
                            { xmin := 2, xmax := 3, trans_count := 0 } } }

/-- A 2 x 2 surface without shadow whose only cell with `transparent` set is
the first cell of the given row, with `trans_count` 1 in that row and 0 in
the other: `trans_count` equals the number of such cells in both rows. -/
def sampleTransRows (row : Int) : FTermArea :=
  { sampleArea 0 0 2 2 0 0 with
    data := bufSet (sampleArea 0 0 2 2 0 0).data (row * 2)
              { sampleBlank with transparent := true },
    changes := bufSet (sampleArea 0 0 2 2 0 0).changes row
                 { xmin := 2, xmax := 0, trans_count := 1 } }

/-- The renderer environment `sampleRenderEnv` on a terminal with the
erase-characters capability (`ESC [ <n> X`), which takes 4 bytes there,
and a cursor addressing of 3 bytes. -/
def sampleEraseEnv : RenderEnv :=
  { sampleRenderEnv with
    t_erase_chars := some fun n => [27, 91, (n : Int), 88],
    erase_char_length := 4, cursor_address_length := 3 }

/-- The state `sampleWorld []` with row 1 of the full-screen buffer, ten
blanks that are not printed yet, marked dirty over its full width. -/
def sampleBlankRowWorld : World :=
  { sampleWorld [] with
    vterm := { (sampleWorld []).vterm with
               changes := bufSet (sampleWorld []).vterm.changes 1
                            { xmin := 0, xmax := 9, trans_count := 0 } } }

/-! ## Copying from the full-screen buffer into a surface (fvterm.cpp, lines 836-916) -/

/-- One pass through the line loop of `getArea (const FPoint&, FTermArea*)`
(lines 856-868) for the row `y`.  The count handed to `memcpy` is
`unsigned(length)`. -/
def getAreaAtRow (w : World) (ax ay length : Int) (area : FTermArea) (y : Int) : FTermArea :=
  let a1 := { area with
              data := memcpyCells area.data (y * area.width) w.vterm.data
                        ((ay + y) * w.vterm.width + ax) ((toUInt length : Nat) : Int) }
  let a2 := if toInt (a1.line y).xmin > 0 then a1.setLine y { a1.line y with xmin := 0 }
            else a1
  if toInt (a2.line y).xmax < length - 1 then
    a2.setLine y { a2.line y with xmax := toUInt (length - 1) }
  else a2

/-- The value of `y_end` in `getArea (const FPoint&, FTermArea*)` (lines
846-849). -/
def getAreaAtEnd (w : World) (pos : Int × Int) (area : FTermArea) : Int :=
  if area.height + (pos.2 - 1) > w.vterm.height then area.height - (pos.2 - 1)
  else area.height

/-- The value of `length` in `getArea (const FPoint&, FTermArea*)` (lines
851-854). -/
def getAreaAtLength (w : World) (pos : Int × Int) (area : FTermArea) : Int :=
  if area.width + (pos.1 - 1) > w.vterm.width then w.vterm.width - (pos.1 - 1)
  else area.width

/-- The function `getArea (const FPoint&, FTermArea*)` for a surface
pointer. -/
def getAreaAt (w : World) (pos : Int × Int) (r : AreaRef) : World :=
  match w.area? r with
  | none => w
  | some area =>
    let ax := pos.1 - 1
    let ay := pos.2 - 1
    let y_end := getAreaAtEnd w pos area
    let length := getAreaAtLength w pos area
    w.setArea r ((forRange 0 (y_end - 1)).foldl (getAreaAtRow w ax ay length) area)

/-- The line loop of `getArea (const FPoint&, FTermArea*)` with a record of
its reads: next to the surface, for every pass the terminal row, the first
terminal column and the number of cells of the block `memcpy` reads from the
full-screen buffer, the latest first. -/
def getAreaAtRowLog (w : World) (ax ay length : Int) (st : FTermArea × List (Int × Int × Int))
    (y : Int) : FTermArea × List (Int × Int × Int) :=
  (getAreaAtRow w ax ay length st.1 y, (ay + y, ax, length) :: st.2)

/-- The blocks of the full-screen buffer `getArea (const FPoint&,
FTermArea*)` reads: row, first column and length, the latest first. -/
def getAreaAtReads (w : World) (pos : Int × Int) (r : AreaRef) : List (Int × Int × Int) :=
  match w.area? r with
  | none => []
  | some area =>
    ((forRange 0 (getAreaAtEnd w pos area - 1)).foldl
      (getAreaAtRowLog w (pos.1 - 1) (pos.2 - 1) (getAreaAtLength w pos area)) (area, [])).2

/-- One pass through the line loop of `getArea (const FRect&, FTermArea*)`
(lines 902-914) for the row `_y` of the box. -/
def getAreaBoxRow (w : World) (x y dx dy length : Int) (area : FTermArea) (row : Int) :
    FTermArea :=
  let line_len := area.width + area.right_shadow
  let a1 := { area with
              data := memcpyCells area.data ((dy + row) * line_len + dx) w.vterm.data
                        ((y + row - 1) * w.vterm.width + x - 1) ((toUInt length : Nat) : Int) }
  let a2 := if toInt (a1.line (dy + row)).xmin > dx then
              a1.setLine (dy + row) { a1.line (dy + row) with xmin := toUInt dx }
            else a1
  if toInt (a2.line (dy + row)).xmax < dx + length - 1 then
    a2.setLine (dy + row) { a2.line (dy + row) with xmax := toUInt (dx + length - 1) }
  else a2

/-- The function `getArea (const FRect&, FTermArea*)` for a surface pointer;
the box is given by the four `int` values read from it. -/
def getAreaBox (w : World) (x y width height : Int) (r : AreaRef) : World :=
  match w.area? r with
  | none => w
  | some area =>
    let dx := x - area.offset_left + 1
    let dy := y - area.offset_top + 1
    if x < 0 ∨ y < 0 then w
    else
      let y_end := if y - 1 + height > w.vterm.height then w.vterm.height - y + 1
                   else height - 1
      let length := if x - 1 + width > w.vterm.width then w.vterm.width - x + 1 else width
      if length < 1 then w
      else w.setArea r ((forRange 0 (y_end - 1)).foldl (getAreaBoxRow w x y dx dy length) area)

/-! ## The 256-colour approximation of an RGB colour (fvterm.cpp, lines 175-183) -/

/-- The function `rgb2ColorIndex`.  The parameters are `uInt8`, so each
argument is taken modulo 256.  The arithmetic is done in `int` after the
integral promotion, where no value exceeds 255 * 5 + 127; the three values
stored in an `FColor` are at most 180 and the sum is at most 231, inside
the colour numbers an `FColor` holds, so no conversion changes a value. -/
def rgb2ColorIndex (r g b : Nat) : Nat :=
  let ri := (((r % 256) * 5 + 127) / 255) * 36
  let gi := (((g % 256) * 5 + 127) / 255) * 6
  let bi := ((b % 256) * 5 + 127) / 255
  16 + ri + gi + bi

/-! ## The two row paths of `putArea (const FPoint&, FTermArea*)` (fvterm.cpp, lines 1040-1059 and 1960-1966) -/

/-- The function `putAreaLine` with `ac = &src[si]` and
`tc = &vterm->data[ti]`; the count handed to `memcpy` is
`unsigned(length)`. -/
def putAreaLine (w : World) (src : Option (List FChar)) (si ti length : Int) : World :=
  { w with vterm := { w.vterm with
      data := memcpyCells w.vterm.data ti src si ((toUInt length : Nat) : Int) } }

/-- The column loop of `putArea (pos, area)` (lines 1052-1059) for the row
`y` of the surface `area`: `putAreaCharacter` for each of the `length`
cells. -/
def putAreaAtColumns (env : CompEnv) (area : FTermArea) (ax ay ol width length : Int)
    (w : World) (y : Int) : World :=
  (forRange 0 (length - 1)).foldl
    (fun acc x =>
      putAreaCharacter env acc (ax + x + 1, ay + y + 1) area.widget
        (area.cell (y * width + ol + x)) ((ay + y) * acc.vterm.width + (ax + x)))
    w

/-- A surface of one row of three opaque cells, the middle one holding the
letter `A`. -/
def sampleOpaqueArea : FTermArea :=
  { sampleArea 0 0 3 1 0 0 with data := some [sampleBlank, sampleLetter, sampleBlank] }

/-- A surface cell of a transparent shadow: a medium-shade glyph with the
colours 7 and 1, `reverse`, `standout` and `trans_shadow` set. -/
def sampleShadeCell : FChar :=
  { FChar.zero with ch := 0x2592, fg_color := 7, bg_color := 1, reverse := true,
                    standout := true, trans_shadow := true }

/-- The surface of the window 2: one cell, `sampleShadeCell`, at the
terminal position (0, 0). -/
def sampleShadeArea : FTermArea :=
  { sampleArea 0 0 1 1 0 0 with widget := some 2, data := some [sampleShadeCell] }

/-- A full-block glyph with the colours 2 and 5 and `reverse` set. -/
def sampleBlockCell : FChar :=
  { FChar.zero with ch := 0x2588, fg_color := 2, bg_color := 5, reverse := true }

/-- The surface of the window 1: one row of two opaque cells at the
terminal position (0, 0), the first one `sampleBlockCell`. -/
def sampleUnderArea : FTermArea :=
  { sampleArea 0 0 2 1 0 0 with widget := some 1, data := some [sampleBlockCell, sampleLetter] }

/-- The compositor environment `sampleCompEnv` with the layer of a window
equal to its identity, and layer 0 for a null pointer. -/
def sampleLayerEnv : CompEnv :=
  { sampleCompEnv with getWindowLayer := fun o => ((o.getD 0 : Nat) : Int) }

/-- The 10 x 4 terminal with two windows: window 1 with the surface
`sampleUnderArea` and above it window 2 with the surface `sampleShadeArea`,
whose shadow cell lies over the first cell of window 1. -/
def sampleShadeWorld : World :=
  sampleWorld [⟨1, some sampleUnderArea⟩, ⟨2, some sampleShadeArea⟩]

/-- A blank 4 x 2 surface with the write cursor at `(1, 1)`: a full-width
glyph and its padding cell fit into the row. -/
def sampleWideRoom : FTermArea := sampleArea 0 0 4 2 0 0

/-- A blank 2 x 2 surface with the write cursor at `(2, 1)`, the last
column of the first row. -/
def sampleWideLast : FTermArea := { sampleArea 0 0 2 2 0 0 with cursor_x := 2 }

/-! ## One pass of the loop of `printRange` (fvterm.cpp, lines 2300-2331) -/

/-- The body of the loop of `printRange` from the call of
`skipUnchangedCharacters` on, for the cell `i` in the column `x`: the state
afterwards and the value the body leaves in `x`, or `none` for `x` when the
body leaves the loop with `break`. -/
def printRangeRest (env : RenderEnv) (xmin xmax y : Nat) (draw_trailing_ws : Bool)
    (w : World) (x : Nat) (i : Int) : World × Option Nat :=
  let skip := skipUnchangedCharacters env w x xmax y
  if skip.1 then (skip.2.1, some skip.2.2)
  else if env.t_erase_chars.isSome ∧ (skip.2.1.vterm.cell i).ch = 32 then
    let res := eraseCharacters env skip.2.1 skip.2.2 xmax y draw_trailing_ws
    if res.1 = exit_state.line_completely_printed then (res.2.1, none)
    else (res.2.1, some res.2.2)
  else if env.t_repeat_char.isSome then
    let res := repeatCharacter env skip.2.1 skip.2.2 xmax y
    (res.2.1, some res.2.2)
  else
    let res := printCharacter env skip.2.1 skip.2.2 y
      (decide (skip.2.2 = xmin) && decide (xmin ≠ xmax)) i
    (res.1, some res.2)

/-- The cell in column `x` of row `y` marked as printed and, at the edge of
the buffer, replaced by `replaceNonPrintableFullwidth`: the first statements
of the body of the loop of `printRange`. -/
def printRangeMark (env : RenderEnv) (w : World) (x y : Nat) : World :=
  let i := vtIndex w x y
  replaceNonPrintableFullwidth env
    (w.setVTermCell i { w.vterm.cell i with printed := true }) x i

/-- One pass through the body of the loop of `printRange` in the column
`x`: the state afterwards and the value the body leaves in `x`, or `none`
for `x` when the body leaves the loop with `break`. -/
def printRangePass (env : RenderEnv) (xmin xmax y : Nat) (draw_trailing_ws : Bool)
    (w : World) (x : Nat) : World × Option Nat :=
  printRangeRest env xmin xmax y draw_trailing_ws (printRangeMark env w x y) x (vtIndex w x y)

/-- The part of the loop variant of `printRange` that the cells contribute: 1
when the column `x` has a left neighbour in row `y` that is a full-width
cell, else 0. -/
def leftFullWidth (w : World) (x y : Nat) : Nat :=
  if 0 < x ∧ isFullWidthChar (w.vterm.cell (vtIndex w (x - 1) y)) = true then 1 else 0

/-- Every row record of the full-screen buffer ends inside the row: `xmax`
is below the width of the buffer. -/
def World.RowsInside (w : World) : Prop :=
  ∀ y1 : Int, ((w.vterm.line y1).xmax : Int) < w.vterm.width

/-! # Theorems -/

/-! ## Machine integers and arrays -/
theorem toInt_of_lt {u : Nat} (h : u < 2 ^ 31) : toInt u = (u : Int) := by
  unfold toInt
  have h1 : u % 2 ^ 32 = u := Nat.mod_eq_of_lt (by omega)
  rw [h1, if_pos h]

theorem toUInt_of_nonneg {i : Int} (h0 : 0 ≤ i) (h : i < 2 ^ 32) : toUInt i = i.toNat := by
  unfold toUInt
  rw [Int.emod_eq_of_lt h0 h]

theorem toUInt_cast {i : Int} (h0 : 0 ≤ i) (h : i < 2 ^ 32) : ((toUInt i : Nat) : Int) = i := by
  rw [toUInt_of_nonneg h0 h]; omega

theorem bufSize_bufSet {α : Type} (b : Option (List α)) (i : Int) (v : α) :
    bufSize (bufSet b i v) = bufSize b := by
  cases b with
  | none => rfl
  | some l =>
    unfold bufSet
    by_cases h : 0 ≤ i <;> simp [h, bufSize]

theorem bufGet_bufSet_ne {α : Type} [Inhabited α] (b : Option (List α)) {i j : Int} (v : α)
    (h : i ≠ j) : bufGet (bufSet b i v) j = bufGet b j := by
  cases b with
  | none => rfl
  | some l =>
    unfold bufSet bufGet
    by_cases hi : 0 ≤ i
    · by_cases hj : 0 ≤ j
      · have hne : i.toNat ≠ j.toNat := by omega
        simp [hi, hj, List.getD_eq_getElem?_getD, List.getElem?_set, hne]
      · simp [hi, hj]
    · simp [hi]

theorem bufGet_bufSet_eq {α : Type} [Inhabited α] (b : Option (List α)) {i : Int} (v : α)
    (h0 : 0 ≤ i) (h : i < bufSize b) : bufGet (bufSet b i v) i = v := by
  cases b with
  | none => simp [bufSize] at h; omega
  | some l =>
    have hl : i.toNat < l.length := by simp [bufSize] at h; omega
    simp [bufSet, bufGet, h0, List.getD_eq_getElem?_getD, List.getElem?_set, hl]

theorem cell_index_bounds {x y l r : Int} (hx0 : 0 ≤ x) (hx : x < l) (hy0 : 0 ≤ y)
    (hy : y < r) : 0 ≤ y * l + x ∧ y * l + x < l * r := by
  constructor
  · have := mul_nonneg hy0 (by omega : (0 : Int) ≤ l)
    omega
  · have h1 : (y + 1) * l ≤ r * l := by
      apply mul_le_mul_of_nonneg_right <;> omega
    have h2 : (y + 1) * l = y * l + l := by ring
    have h3 : r * l = l * r := mul_comm r l
    omega

/-! ## Printing -/

theorem printStore_cursor_x (a : FTermArea) (nc : FChar) :
    (printStore a nc).cursor_x = a.cursor_x := by
  unfold printStore; simp only []; split_ifs <;> rfl

theorem printStore_cursor_y (a : FTermArea) (nc : FChar) :
    (printStore a nc).cursor_y = a.cursor_y := by
  unfold printStore; simp only []; split_ifs <;> rfl

theorem print_single (env : PrintEnv) (fuel : Nat) (area : FTermArea) (c : FChar)
    (hw : (env.getColumnWidth c).1 = 1)
    (hx : area.cursor_x + 1 ≤ area.width + area.right_shadow)
    (hy : area.cursor_y ≤ area.height + area.bottom_shadow) :
    print env (fuel + 1) area c = some (1, printOne env area c) := by
  have h1 : ¬ (area.cursor_x + 1 > area.width + area.right_shadow) := by omega
  have h2 : ¬ (area.cursor_y > area.height + area.bottom_shadow) := by omega
  simp [print, hw, printOne, printStore_cursor_x, printStore_cursor_y, h1, h2]

theorem print_single_buffers (env : PrintEnv) (fuel : Nat) (area : FTermArea) (c : FChar)
    (hw : (env.getColumnWidth c).1 = 1) :
    ∃ res area1, print env (fuel + 1) area c = some (res, area1)
      ∧ area1.data = (printStore area (env.getColumnWidth c).2).data
      ∧ area1.changes = (printStore area (env.getColumnWidth c).2).changes
      ∧ area1.lineLen = (printStore area (env.getColumnWidth c).2).lineLen := by
  have hne : ¬ ((env.getColumnWidth c).1 = 0 ∧ (env.getColumnWidth c).2.fullwidth_padding = false) := by
    rw [hw]; simp
  have h2 : ¬ ((env.getColumnWidth c).1 = 2) := by rw [hw]; decide
  simp only [print, if_neg hne, if_neg h2]
  split_ifs <;> simp only [Option.some_bind] <;> split_ifs <;> exact ⟨_, _, rfl, rfl, rfl, rfl⟩

theorem printTransCount_xmin (ac nc : FChar) (c : FLineChanges) :
    (printTransCount ac nc c).xmin = c.xmin := by
  unfold printTransCount; simp only []; split_ifs <;> rfl

theorem printTransCount_xmax (ac nc : FChar) (c : FLineChanges) :
    (printTransCount ac nc c).xmax = c.xmax := by
  unfold printTransCount; simp only []; split_ifs <;> rfl

theorem printDirtyRange_spec (ax : Int) (c : FLineChanges) (h0 : 0 ≤ ax) (h31 : ax < 2 ^ 31)
    (hmin : c.xmin < 2 ^ 31) (hmax : c.xmax < 2 ^ 31) :
    (printDirtyRange ax c).xmin = min c.xmin ax.toNat
    ∧ (printDirtyRange ax c).xmax = max c.xmax ax.toNat
    ∧ (printDirtyRange ax c).trans_count = c.trans_count := by
  have e1 : toUInt ax = ax.toNat := toUInt_of_nonneg h0 (by omega)
  have e2 := toInt_of_lt hmin
  have e3 := toInt_of_lt hmax
  unfold printDirtyRange
  simp only [e1, e2, e3]
  split_ifs with h1 h2 h2 <;> simp only [e3] at h2 <;> refine ⟨?_, ?_, ?_⟩ <;>
    (try dsimp only) <;> first | rfl | omega

theorem printStore_lineLen (a : FTermArea) (nc : FChar) :
    (printStore a nc).lineLen = a.lineLen := by
  unfold printStore; simp only []; split_ifs <;> rfl

theorem printStore_of_eq (a : FTermArea) (nc : FChar)
    (h : FChar.ne (a.at (a.cursor_x - 1) (a.cursor_y - 1)) nc = false) :
    printStore a nc = a := by
  unfold printStore
  simp only [FTermArea.at, FTermArea.cell, FTermArea.lineLen] at h
  simp only [h]
  split_ifs <;> first | rfl | simp_all

theorem printStore_of_ne (a : FTermArea) (nc : FChar) (hsz : a.Sized)
    (hx : 1 ≤ a.cursor_x ∧ a.cursor_x ≤ a.width + a.right_shadow)
    (hy : 1 ≤ a.cursor_y ∧ a.cursor_y ≤ a.height + a.bottom_shadow)
    (hmin : (a.line (a.cursor_y - 1)).xmin < 2 ^ 31)
    (hmax : (a.line (a.cursor_y - 1)).xmax < 2 ^ 31)
    (h : FChar.ne (a.at (a.cursor_x - 1) (a.cursor_y - 1)) nc = true) :
    (printStore a nc).cell ((a.cursor_y - 1) * a.lineLen + (a.cursor_x - 1)) = nc
    ∧ ((printStore a nc).line (a.cursor_y - 1)).xmin
        = min (a.line (a.cursor_y - 1)).xmin (a.cursor_x - 1).toNat
    ∧ ((printStore a nc).line (a.cursor_y - 1)).xmax
        = max (a.line (a.cursor_y - 1)).xmax (a.cursor_x - 1).toNat := by
  obtain ⟨hw0, hh0, hr0, hb0, hw31, hh31, hdata, hchg⟩ := hsz
  have hidx := cell_index_bounds (x := a.cursor_x - 1) (y := a.cursor_y - 1)
    (l := a.lineLen) (r := a.rows) (by omega) (by unfold FTermArea.lineLen; omega) (by omega)
    (by unfold FTermArea.rows; omega)
  have hcond : a.cursor_x > 0 ∧ a.cursor_y > 0 ∧ a.cursor_x - 1 < a.width + a.right_shadow
      ∧ a.cursor_y - 1 < a.height + a.bottom_shadow := by omega
  simp only [FTermArea.at, FTermArea.cell, FTermArea.lineLen] at h
  unfold printStore
  simp only [if_pos hcond, h, if_true, FTermArea.cell, FTermArea.line, FTermArea.lineLen]
  have hrow : (a.cursor_y - 1 : Int) < bufSize a.changes := by
    rw [hchg]; unfold FTermArea.rows; omega
  refine ⟨?_, ?_, ?_⟩
  · apply bufGet_bufSet_eq
    · exact hidx.1
    · rw [hdata]; exact hidx.2
  · rw [bufGet_bufSet_eq _ _ (by omega) hrow]
    exact (printDirtyRange_spec _ _ (by omega) (by omega)
      (by rw [printTransCount_xmin]; exact hmin) (by rw [printTransCount_xmax]; exact hmax)).1.trans
      (by rw [printTransCount_xmin])
  · rw [bufGet_bufSet_eq _ _ (by omega) hrow]
    exact (printDirtyRange_spec _ _ (by omega) (by omega)
      (by rw [printTransCount_xmin]; exact hmin) (by rw [printTransCount_xmax]; exact hmax)).2.1.trans
      (by rw [printTransCount_xmax])

/-- C2: `print (area, cell)` for a single-width cell with the cursor inside
the surface returns, and if the cell differs from the stored one under
`operator !=` the stored cell becomes the printed cell and the dirty range of
the cursor row becomes `[min xmin col, max xmax col]`; if it does not differ,
the cell array and all row records (dirty range, `trans_count`) are left
unchanged. -/
theorem C2_print_single_width_cell (env : PrintEnv) (fuel : Nat) (area : FTermArea)
    (term_char : FChar)
    (hw : (env.getColumnWidth term_char).1 = 1)
    (hsz : area.Sized)
    (hx : 1 ≤ area.cursor_x ∧ area.cursor_x ≤ area.width + area.right_shadow)
    (hy : 1 ≤ area.cursor_y ∧ area.cursor_y ≤ area.height + area.bottom_shadow)
    (hmin : (area.line (area.cursor_y - 1)).xmin < 2 ^ 31)
    (hmax : (area.line (area.cursor_y - 1)).xmax < 2 ^ 31) :
    ∃ res area1, print env (fuel + 1) area term_char = some (res, area1)
      ∧ (FChar.ne (area.at (area.cursor_x - 1) (area.cursor_y - 1))
            (env.getColumnWidth term_char).2 = true →
          area1.at (area.cursor_x - 1) (area.cursor_y - 1) = (env.getColumnWidth term_char).2
          ∧ (area1.line (area.cursor_y - 1)).xmin
              = min (area.line (area.cursor_y - 1)).xmin (area.cursor_x - 1).toNat
          ∧ (area1.line (area.cursor_y - 1)).xmax
              = max (area.line (area.cursor_y - 1)).xmax (area.cursor_x - 1).toNat)
      ∧ (FChar.ne (area.at (area.cursor_x - 1) (area.cursor_y - 1))
            (env.getColumnWidth term_char).2 = false →
          area1.data = area.data ∧ area1.changes = area.changes) := by
  obtain ⟨res, area1, hp, hd, hc, hl⟩ := print_single_buffers env fuel area term_char hw
  refine ⟨res, area1, hp, ?_, ?_⟩
  · intro hne
    have h := printStore_of_ne area _ hsz hx hy hmin hmax hne
    rw [printStore_lineLen] at hl
    simp only [FTermArea.at, FTermArea.cell, FTermArea.line, hd, hc, hl] at h ⊢
    exact h
  · intro heq
    rw [printStore_of_eq area _ heq] at hd hc
    exact ⟨hd, hc⟩

theorem C2_print_single_width_cell_witness :
    (sampleEnv.getColumnWidth sampleLetter).1 = 1 ∧ (sampleArea 0 0 3 2 1 1).Sized
    ∧ ∃ res area1, print sampleEnv 1 (sampleArea 0 0 3 2 1 1) sampleLetter = some (res, area1)
      ∧ (FChar.ne ((sampleArea 0 0 3 2 1 1).at 0 0) (sampleEnv.getColumnWidth sampleLetter).2 = true →
          area1.at 0 0 = (sampleEnv.getColumnWidth sampleLetter).2
          ∧ (area1.line 0).xmin = min ((sampleArea 0 0 3 2 1 1).line 0).xmin 0
          ∧ (area1.line 0).xmax = max ((sampleArea 0 0 3 2 1 1).line 0).xmax 0)
      ∧ (FChar.ne ((sampleArea 0 0 3 2 1 1).at 0 0) (sampleEnv.getColumnWidth sampleLetter).2 = false →
          area1.data = (sampleArea 0 0 3 2 1 1).data ∧ area1.changes = (sampleArea 0 0 3 2 1 1).changes) :=
  ⟨by decide, by decide,
   C2_print_single_width_cell sampleEnv 0 (sampleArea 0 0 3 2 1 1) sampleLetter
     (by decide) (by decide) (by decide) (by decide) (by decide) (by decide)⟩

theorem printOne_cursor_x (env : PrintEnv) (a : FTermArea) (c : FChar) :
    (printOne env a c).cursor_x = a.cursor_x + 1 := rfl

theorem printOne_cursor_y (env : PrintEnv) (a : FTermArea) (c : FChar) :
    (printOne env a c).cursor_y = a.cursor_y := by
  unfold printOne; exact printStore_cursor_y a _

theorem printStore_dims (a : FTermArea) (nc : FChar) :
    (printStore a nc).width = a.width ∧ (printStore a nc).height = a.height
    ∧ (printStore a nc).right_shadow = a.right_shadow
    ∧ (printStore a nc).bottom_shadow = a.bottom_shadow
    ∧ (printStore a nc).offset_left = a.offset_left
    ∧ (printStore a nc).offset_top = a.offset_top
    ∧ (printStore a nc).visible = a.visible
    ∧ (printStore a nc).preproc_list = a.preproc_list
    ∧ (printStore a nc).widget = a.widget := by
  unfold printStore; simp only []; split_ifs <;> simp

theorem printOne_dims (env : PrintEnv) (a : FTermArea) (c : FChar) :
    (printOne env a c).width = a.width ∧ (printOne env a c).height = a.height
    ∧ (printOne env a c).right_shadow = a.right_shadow
    ∧ (printOne env a c).bottom_shadow = a.bottom_shadow
    ∧ (printOne env a c).offset_left = a.offset_left
    ∧ (printOne env a c).offset_top = a.offset_top
    ∧ (printOne env a c).visible = a.visible
    ∧ (printOne env a c).preproc_list = a.preproc_list
    ∧ (printOne env a c).widget = a.widget := by
  unfold printOne; exact printStore_dims a _

theorem printLoop_single_width (env : PrintEnv) (fuel : Nat) (cells : List FChar) :
    ∀ (len : Int) (area : FTermArea),
      (∀ c ∈ cells, (env.getColumnWidth c).1 = 1 ∧ c.printable) →
      area.cursor_x + cells.length ≤ area.width + area.right_shadow →
      area.cursor_y ≤ area.height + area.bottom_shadow →
      printLoop env (fuel + 1) cells len area
        = some (len + cells.length, cells.foldl (printOne env) area) := by
  induction cells with
  | nil => intro len area _ _ _; simp [printLoop]
  | cons c rest ih =>
    intro len area hc hx hy
    have hc1 := hc c (List.mem_cons_self c rest)
    obtain ⟨hw, h10, h13, h9, h8, h7⟩ := hc1
    have hctl : ¬ (c.ch = 10 ∨ c.ch = 13 ∨ c.ch = 9 ∨ c.ch = 8 ∨ c.ch = 7) := by
      simp [h10, h13, h9, h8, h7]
    have hlen : ((c :: rest).length : Int) = rest.length + 1 := by simp
    have hp := print_single env fuel area c hw (by omega) hy
    obtain ⟨dw, dh, dr, db, _⟩ := printOne_dims env area c
    rw [printLoop, if_neg hctl, hp]
    simp only []
    rw [ih (len + 1) (printOne env area c) (fun d hd => hc d (List.mem_cons_of_mem c hd))
      (by rw [printOne_cursor_x, dw, dr]; omega) (by rw [printOne_cursor_y, dh, db]; exact hy)]
    simp only [List.foldl_cons, hlen]
    congr 2
    omega

theorem foldl_printOne_cursor (env : PrintEnv) (cells : List FChar) :
    ∀ area : FTermArea,
      (cells.foldl (printOne env) area).cursor_x = area.cursor_x + cells.length
      ∧ (cells.foldl (printOne env) area).cursor_y = area.cursor_y := by
  induction cells with
  | nil => intro area; simp
  | cons c rest ih =>
    intro area
    obtain ⟨h1, h2⟩ := ih (printOne env area c)
    simp only [List.foldl_cons, h1, h2, printOne_cursor_x, printOne_cursor_y, List.length_cons]
    constructor
    · push_cast; omega
    · trivial

/-- C3: for every surface and every cursor position `(cx, cy)` inside it,
printing a sequence of `N` single-width printable cells with
`cx + N <= width + right_shadow` returns `N` and leaves the write cursor at
`(cx + N, cy)`.  Of the cursor being inside the surface only
`cy <= height + bottom_shadow` is needed. -/
theorem C3_print_sequence_cursor (env : PrintEnv) (fuel : Nat) (area : FTermArea)
    (cells : List FChar)
    (hcells : ∀ c ∈ cells, (env.getColumnWidth c).1 = 1 ∧ c.printable)
    (hy : area.cursor_y ≤ area.height + area.bottom_shadow)
    (hn : area.cursor_x + cells.length ≤ area.width + area.right_shadow) :
    ∃ area1, printString env (fuel + 1) area cells = some ((cells.length : Int), area1)
      ∧ area1.cursor_x = area.cursor_x + cells.length
      ∧ area1.cursor_y = area.cursor_y := by
  by_cases hnil : cells = []
  · subst hnil
    exact ⟨area, by simp [printString], by simp, rfl⟩
  · refine ⟨cells.foldl (printOne env) area, ?_, foldl_printOne_cursor env cells area⟩
    rw [printString, if_neg hnil, printLoop_single_width env fuel cells 0 area hcells hn hy]
    simp

theorem C3_print_sequence_cursor_witness :
    (∀ c ∈ [sampleLetter, sampleBlank, sampleLetter],
        (sampleEnv.getColumnWidth c).1 = 1 ∧ c.printable)
    ∧ ∃ area1, printString sampleEnv 1 (sampleArea 2 1 3 2 1 1)
          [sampleLetter, sampleBlank, sampleLetter] = some (3, area1)
        ∧ area1.cursor_x = 4 ∧ area1.cursor_y = 1 :=
  ⟨by decide,
   C3_print_sequence_cursor sampleEnv 0 (sampleArea 2 1 3 2 1 1)
     [sampleLetter, sampleBlank, sampleLetter] (by decide) (by decide) (by decide)⟩

/-! ## Loops -/

theorem range_foldl_inv {σ : Type} (step : σ → Nat → σ) (Inv : Nat → σ → Prop) (s0 : σ)
    (n : Nat) (h0 : Inv 0 s0)
    (hstep : ∀ k s, k < n → Inv k s → Inv (k + 1) (step s k)) :
    Inv n ((List.range n).foldl step s0) := by
  induction n with
  | zero => simpa using h0
  | succ m ih =>
    rw [List.range_succ, List.foldl_append]
    simp only [List.foldl_cons, List.foldl_nil]
    exact hstep m _ (Nat.lt_succ_self m)
      (ih (fun k s hk hi => hstep k s (Nat.lt_succ_of_lt hk) hi))

theorem forRange_foldl_inv {σ : Type} (step : σ → Int → σ) (first last : Int)
    (Inv : Nat → σ → Prop) (s0 : σ) (h0 : Inv 0 s0)
    (hstep : ∀ (k : Nat) s, (k : Int) < last - first + 1 → Inv k s →
      Inv (k + 1) (step s (first + (k : Int)))) :
    Inv (last - first + 1).toNat ((forRange first last).foldl step s0) := by
  unfold forRange
  rw [List.foldl_map]
  apply range_foldl_inv (fun s (k : Nat) => step s (first + (k : Int))) Inv s0 _ h0
  intro k s hk hi
  exact hstep k s (by omega) hi

theorem bufGet_bufSet {α : Type} [Inhabited α] (b : Option (List α)) (i j : Int) (v : α) :
    bufGet (bufSet b i v) j
      = if i = j ∧ 0 ≤ i ∧ i < bufSize b then v else bufGet b j := by
  by_cases hij : i = j
  · subst hij
    by_cases hb : 0 ≤ i ∧ i < bufSize b
    · rw [if_pos ⟨rfl, hb⟩]; exact bufGet_bufSet_eq b v hb.1 hb.2
    · rw [if_neg (fun h => hb h.2)]
      cases b with
      | none => rfl
      | some l =>
        unfold bufSet bufGet
        by_cases h0 : 0 ≤ i
        · have hl : l.length ≤ i.toNat := by
            simp only [bufSize] at hb; omega
          have hl2 : ¬ (i.toNat < l.length) := by omega
          have hl3 : l[i.toNat]? = none := List.getElem?_eq_none hl
          simp [h0, List.getD_eq_getElem?_getD, List.getElem?_set, hl2, hl3]
        · simp [h0]
  · rw [if_neg (fun h => hij h.1)]; exact bufGet_bufSet_ne b v hij

theorem fill_n_spec {α : Type} [Inhabited α] (b : Option (List α)) (s n : Int) (v : α) :
    bufSize (fill_n b s n v) = bufSize b
    ∧ ((fill_n b s n v).isSome = b.isSome)
    ∧ ∀ j, bufGet (fill_n b s n v) j
        = if s ≤ j ∧ j < s + n ∧ 0 ≤ j ∧ j < bufSize b then v else bufGet b j := by
  unfold fill_n
  have key := range_foldl_inv (fun acc (k : Nat) => bufSet acc (s + (k : Int)) v)
    (fun k b1 => bufSize b1 = bufSize b ∧ b1.isSome = b.isSome
      ∧ ∀ j, bufGet b1 j
        = if s ≤ j ∧ j < s + (k : Int) ∧ 0 ≤ j ∧ j < bufSize b then v else bufGet b j)
    b n.toNat ⟨rfl, rfl, fun j => by rw [if_neg]; push_cast; omega⟩
    (by
      intro k b1 _ ⟨hs, hsome, hg⟩
      refine ⟨by rw [bufSize_bufSet, hs], ?_, ?_⟩
      · rw [← hsome]; cases b1 <;> simp [bufSet]; split_ifs <;> rfl
      · intro j
        rw [bufGet_bufSet, hg j, hs]
        by_cases h1 : s + (k : Int) = j
        · by_cases h2 : 0 ≤ j ∧ j < (bufSize b : Int)
          · rw [if_pos (by omega), if_pos (by omega)]
          · rw [if_neg (by omega), if_neg (by omega), if_neg (by omega)]
        · rw [if_neg (by omega)]
          by_cases h3 : s ≤ j ∧ j < s + (k : Int) ∧ 0 ≤ j ∧ j < (bufSize b : Int)
          · rw [if_pos h3, if_pos (by omega)]
          · rw [if_neg h3, if_neg (by omega)])
  obtain ⟨k1, k2, k3⟩ := key
  refine ⟨k1, k2, fun j => ?_⟩
  rw [k3 j]
  by_cases hn : 0 ≤ n
  · rw [Int.toNat_of_nonneg hn]
  · rw [if_neg (by omega), if_neg (by omega)]

/-! ## Surfaces inside the state -/

theorem area?_setArea (w : World) (r : AreaRef) (a0 a : FTermArea) (h : w.area? r = some a0) :
    (w.setArea r a).area? r = some a := by
  cases r with
  | desktop => rfl
  | window i =>
    simp only [World.area?] at h
    cases hw : w.window_list[i]? with
    | none => rw [hw] at h; cases h
    | some win_obj =>
      have hi : i < w.window_list.length := by
        by_contra hc
        rw [List.getElem?_eq_none (by omega)] at hw; cases hw
      simp [World.setArea, World.area?, hw, List.getElem?_set, hi]
  | child i =>
    simp only [World.area?] at h
    have hi : i < w.child_areas.length := by
      by_contra hc
      rw [List.getElem?_eq_none (by omega)] at h; cases h
    simp [World.setArea, World.area?, List.getElem?_set, hi]

theorem setArea_vterm (w : World) (r : AreaRef) (a : FTermArea) :
    (w.setArea r a).vterm = w.vterm := by
  cases r with
  | desktop => rfl
  | window i => simp only [World.setArea]; split <;> rfl
  | child i => rfl

theorem sameAreas_refl (w : World) : w.sameAreas w := ⟨rfl, rfl, rfl, rfl, rfl⟩

theorem sameAreas_trans {w w1 w2 : World} (h1 : w.sameAreas w1) (h2 : w1.sameAreas w2) :
    w.sameAreas w2 := by
  obtain ⟨a1, a2, a3, a4, a5⟩ := h1
  obtain ⟨b1, b2, b3, b4, b5⟩ := h2
  exact ⟨b1.trans a1, b2.trans a2, b3.trans a3, b4.trans a4, b5.trans a5⟩

theorem sameAreas_area? {w w1 : World} (h : w.sameAreas w1) (r : AreaRef) :
    w1.area? r = w.area? r := by
  obtain ⟨_, a2, a3, a4, _⟩ := h
  cases r <;> simp [World.area?, a2, a3, a4]

theorem flushOutputBuffer_sameAreas (w : World) : w.sameAreas (flushOutputBuffer w) :=
  ⟨rfl, rfl, rfl, rfl, rfl⟩

theorem appendOutputChar_sameAreas (env : TermEnv) (w : World) (ch : Int) :
    w.sameAreas (appendOutputChar env w ch) := by
  unfold appendOutputChar; simp only []; split_ifs <;> exact ⟨rfl, rfl, rfl, rfl, rfl⟩

theorem foldl_sameAreas {α : Type} (f : World → α → World)
    (hf : ∀ (w : World) x, w.sameAreas (f w x)) (l : List α) :
    ∀ w : World, w.sameAreas (l.foldl f w) := by
  induction l with
  | nil => intro w; exact sameAreas_refl w
  | cons x rest ih => intro w; exact sameAreas_trans (hf w x) (ih (f w x))

theorem appendOutputBuffer_sameAreas (env : TermEnv) (w : World) (s : List Int) :
    w.sameAreas (appendOutputBuffer env w s) :=
  foldl_sameAreas _ (appendOutputChar_sameAreas env) _ w

theorem appendOutputOption_sameAreas (env : TermEnv) (w : World) (s : Option (List Int)) :
    w.sameAreas (appendOutputOption env w s) := by
  cases s with
  | none => exact sameAreas_refl w
  | some str => exact appendOutputBuffer_sameAreas env w str

theorem sameAreas_term_pos (w : World) (p : Int × Int) :
    w.sameAreas { w with term_pos := p } := ⟨rfl, rfl, rfl, rfl, rfl⟩

theorem appendAttributesNext_sameAreas (env : TermEnv) (w : World) :
    w.sameAreas (appendAttributesNext env w) := by
  unfold appendAttributesNext
  exact @sameAreas_trans w { w with
      term_attribute := (env.changeAttribute w.term_attribute w.next_attribute).2.1,
      next_attribute := (env.changeAttribute w.term_attribute w.next_attribute).2.2 } _
    ⟨rfl, rfl, rfl, rfl, rfl⟩ (appendOutputOption_sameAreas env _ _)

theorem setTermXY_sameAreas (env : TermEnv) (w : World) (x y : Int) :
    w.sameAreas (setTermXY env w x y) := by
  unfold setTermXY
  by_cases h1 : w.term_pos.1 = x ∧ w.term_pos.2 = y
  · rw [if_pos h1]; exact sameAreas_refl w
  · rw [if_neg h1]
    have hw1 : w.sameAreas (if w.term_pos.2 ≥ (env.lineNumber : Int) then
        { w with term_pos := (w.term_pos.1, (env.lineNumber : Int) - 1) } else w) := by
      split_ifs
      · exact sameAreas_term_pos w _
      · exact sameAreas_refl w
    exact sameAreas_trans (sameAreas_trans (sameAreas_trans hw1
      (appendOutputOption_sameAreas env _ _)) (flushOutputBuffer_sameAreas _))
      (sameAreas_term_pos _ _)

theorem clearTerm_sameAreas (env : TermEnv) (w : World) (fillchar : Int) :
    w.sameAreas (clearTerm env w fillchar).2 := by
  unfold clearTerm
  simp only []
  have h1 := appendAttributesNext_sameAreas env w
  split_ifs
  · exact h1
  · refine sameAreas_trans h1 (sameAreas_trans ?_ (flushOutputBuffer_sameAreas _))
    split
    · exact sameAreas_trans (appendOutputBuffer_sameAreas env _ _) (sameAreas_term_pos _ _)
    · exact sameAreas_trans (setTermXY_sameAreas env _ 0 0)
        (sameAreas_trans (appendOutputBuffer_sameAreas env _ _) (sameAreas_term_pos _ _))
    · refine sameAreas_trans (sameAreas_term_pos _ (-1, -1)) ?_
      refine sameAreas_trans (foldl_sameAreas _ ?_ _ _) (setTermXY_sameAreas env _ 0 0)
      intro w2 i
      exact sameAreas_trans (setTermXY_sameAreas env _ 0 _) (appendOutputBuffer_sameAreas env _ _)
    · exact sameAreas_refl _

/-! ## Clearing a surface -/

/-! ## Clearing a surface -/

theorem markRows_spec (a : FTermArea) (off count : Int) (c : FLineChanges) :
    markRows a off count c = { a with changes := (markRows a off count c).changes }
    ∧ bufSize (markRows a off count c).changes = bufSize a.changes
    ∧ ∀ y, (markRows a off count c).line y
        = if off ≤ y ∧ y < off + count ∧ 0 ≤ y ∧ y < bufSize a.changes then c
          else a.line y := by
  unfold markRows
  have key := forRange_foldl_inv (fun acc i => acc.setLine (off + i) c) 0 (count - 1)
    (fun k acc => acc = { a with changes := acc.changes }
      ∧ bufSize acc.changes = bufSize a.changes
      ∧ ∀ y, acc.line y
          = if off ≤ y ∧ y < off + (k : Int) ∧ 0 ≤ y ∧ y < bufSize a.changes then c
            else a.line y)
    a ⟨rfl, rfl, fun y => by rw [if_neg]; push_cast; omega⟩
    (by
      intro k acc _ ⟨h1, h2, h3⟩
      refine ⟨?_, ?_, ?_⟩
      · have e : acc.setLine (off + (0 + (k : Int))) c
            = ({ a with changes := acc.changes } : FTermArea).setLine (off + (0 + (k : Int)))
                c := by rw [← h1]
        exact e.trans rfl
      · show bufSize (bufSet acc.changes _ _) = _
        rw [bufSize_bufSet, h2]
      · intro y
        show bufGet (bufSet acc.changes _ _) y = _
        rw [bufGet_bufSet, h2]
        have h3y := h3 y
        simp only [FTermArea.line] at h3y ⊢
        rw [h3y]
        by_cases e1 : off + (0 + (k : Int)) = y
        · by_cases e2 : 0 ≤ y ∧ y < (bufSize a.changes : Int)
          · rw [if_pos (by omega), if_pos (by push_cast; omega)]
          · rw [if_neg (by omega), if_neg (by omega), if_neg (by omega)]
        · rw [if_neg (by omega)]
          by_cases e3 : off ≤ y ∧ y < off + (k : Int) ∧ 0 ≤ y ∧ y < (bufSize a.changes : Int)
          · rw [if_pos e3, if_pos (by push_cast; omega)]
          · rw [if_neg e3, if_neg (by push_cast; omega)])
  obtain ⟨k1, k2, k3⟩ := key
  refine ⟨k1, k2, fun y => ?_⟩
  rw [k3 y]
  by_cases hl : 0 ≤ count
  · have : (((count - 1 - 0 + 1).toNat : Nat) : Int) = count := by omega
    rw [this]
  · rw [if_neg (by omega), if_neg (by omega)]

theorem row_sep {x y k tw : Int} (hx0 : 0 ≤ x) (hx : x < tw) (h1 : k * tw ≤ y * tw + x)
    (h2 : y * tw + x < k * tw + tw) : y = k := by
  have htw : (0 : Int) ≤ tw := by omega
  by_contra hne
  rcases lt_or_gt_of_ne hne with h | h
  · have h3 : (y + 1) * tw ≤ k * tw := mul_le_mul_of_nonneg_right (by omega) htw
    have h4 : (y + 1) * tw = y * tw + tw := by ring
    omega
  · have h3 : (k + 1) * tw ≤ y * tw := mul_le_mul_of_nonneg_right (by omega) htw
    have h4 : (k + 1) * tw = k * tw + tw := by ring
    omega

theorem clearAreaMarkRows_spec (a : FTermArea) (w : Nat) (nc : FChar) :
    clearAreaMarkRows a w nc = { a with changes := (clearAreaMarkRows a w nc).changes }
    ∧ ∀ y : Int, 0 ≤ y → y < (bufSize a.changes : Int) →
        (clearAreaMarkRows a w nc).line y
          = if y < a.height then
              { xmin := 0, xmax := uSub w 1,
                trans_count :=
                  if nc.transparent || nc.trans_shadow || nc.inherit_bg then w
                  else if a.right_shadow ≠ 0 then toUInt a.right_shadow
                  else 0 }
            else if y < a.height + a.bottom_shadow then
              { xmin := 0, xmax := uSub w 1, trans_count := w }
            else a.line y := by
  unfold clearAreaMarkRows
  simp only []
  obtain ⟨p1, p2, p3⟩ := markRows_spec a 0 a.height
      { xmin := 0, xmax := uSub w 1,
        trans_count :=
          if nc.transparent || nc.trans_shadow || nc.inherit_bg then w
          else if a.right_shadow ≠ 0 then toUInt a.right_shadow
          else 0 }
  generalize markRows a 0 a.height
      { xmin := 0, xmax := uSub w 1,
        trans_count :=
          if nc.transparent || nc.trans_shadow || nc.inherit_bg then w
          else if a.right_shadow ≠ 0 then toUInt a.right_shadow
          else 0 } = a1 at p1 p2 p3 ⊢
  obtain ⟨q1, q2, q3⟩ := markRows_spec a1 a.height a.bottom_shadow
      { xmin := 0, xmax := uSub w 1, trans_count := w }
  generalize markRows a1 a.height a.bottom_shadow
      { xmin := 0, xmax := uSub w 1, trans_count := w } = a2 at q1 q2 q3 ⊢
  constructor
  · rw [q1, p1]
  · intro y hy0 hy
    rw [q3 y, p3 y, p2]
    by_cases c1 : y < a.height
    · rw [if_neg (by omega), if_pos (by omega), if_pos c1]
    · rw [if_neg c1]
      by_cases c2 : y < a.height + a.bottom_shadow
      · rw [if_pos (by omega), if_pos c2]
      · rw [if_neg (by omega), if_neg (by omega), if_neg c2]

theorem clearAreaWithShadow_spec (a : FTermArea) (nc : FChar) (hsz : a.Sized) :
    bufSize (clearAreaWithShadow a nc).data = bufSize a.data
    ∧ ∀ x y, 0 ≤ x → x < a.lineLen → 0 ≤ y → y < a.rows →
        (clearAreaWithShadow a nc).cell (y * a.lineLen + x)
          = if y < a.height ∧ x < a.width then nc else { nc with transparent := true } := by
  obtain ⟨hw0, hh0, hr0, hb0, hw31, hh31, hdata, hchg⟩ := hsz
  unfold clearAreaWithShadow
  simp only [FTermArea.cell, FTermArea.lineLen, FTermArea.rows] at hdata ⊢
  -- first loop: the interior rows
  have key1 := forRange_foldl_inv
    (fun d y => fill_n (fill_n d (y * (a.width + a.right_shadow)) (a.width + a.right_shadow) nc)
                  (y * (a.width + a.right_shadow) + a.width) a.right_shadow
                  { nc with transparent := true })
    0 (a.height - 1)
    (fun k d => bufSize d = bufSize a.data
      ∧ ∀ x y, 0 ≤ x → x < (a.width + a.right_shadow) → 0 ≤ y → y < (a.height + a.bottom_shadow) →
          bufGet d (y * (a.width + a.right_shadow) + x)
            = if y < (k : Int) then (if x < a.width then nc else { nc with transparent := true })
              else bufGet a.data (y * (a.width + a.right_shadow) + x))
    a.data ⟨rfl, fun x y _ _ hy0 _ => by rw [if_neg]; push_cast; omega⟩
    (by
      intro k d hk ⟨h1, h2⟩
      obtain ⟨s1, _, g1⟩ := fill_n_spec d ((0 + (k : Int)) * (a.width + a.right_shadow))
        (a.width + a.right_shadow) nc
      obtain ⟨s2, _, g2⟩ := fill_n_spec
        (fill_n d ((0 + (k : Int)) * (a.width + a.right_shadow)) (a.width + a.right_shadow) nc)
        ((0 + (k : Int)) * (a.width + a.right_shadow) + a.width) a.right_shadow
        { nc with transparent := true }
      refine ⟨by rw [s2, s1, h1], ?_⟩
      intro x y hx0 hx hy0 hy
      have hb := cell_index_bounds hx0 hx hy0 hy
      rw [g2, g1, s1, h1, h2 x y hx0 hx hy0 hy, hdata]
      simp only [zero_add]
      by_cases hyk : y = (k : Int)
      · subst hyk
        rw [if_neg (by omega : ¬ ((k : Int) < (k : Int)))]
        by_cases hxw : x < a.width
        · rw [if_neg (by omega), if_pos (by omega), if_pos (by omega), if_pos hxw]
        · rw [if_pos (by omega), if_pos (by omega), if_neg hxw]
      · have hsep := fun h1 h2 => hyk (row_sep (k := (k : Int)) hx0 hx h1 h2)
        rw [if_neg (by intro h; exact hsep (by omega) (by omega)),
          if_neg (by intro h; exact hsep (by omega) (by omega))]
        by_cases c : y < (k : Int)
        · rw [if_pos c, if_pos (show y < ((k + 1 : Nat) : Int) by push_cast; omega)]
        · rw [if_neg c, if_neg (show ¬ y < ((k + 1 : Nat) : Int) by push_cast; omega)])
  generalize (forRange 0 (a.height - 1)).foldl
    (fun d y => fill_n (fill_n d (y * (a.width + a.right_shadow)) (a.width + a.right_shadow) nc)
                  (y * (a.width + a.right_shadow) + a.width) a.right_shadow
                  { nc with transparent := true }) a.data = d1 at key1 ⊢
  obtain ⟨k1s, k1g⟩ := key1
  have hk1 : (((a.height - 1 - 0 + 1).toNat : Nat) : Int) = a.height := by omega
  rw [hk1] at k1g
  -- second loop: the bottom shadow rows
  have key2 := forRange_foldl_inv
    (fun d y => fill_n d ((a.width + a.right_shadow) * (y + a.height)) (a.width + a.right_shadow)
                  { nc with transparent := true })
    0 (a.bottom_shadow - 1)
    (fun k d => bufSize d = bufSize a.data
      ∧ ∀ x y, 0 ≤ x → x < (a.width + a.right_shadow) → 0 ≤ y → y < (a.height + a.bottom_shadow) →
          bufGet d (y * (a.width + a.right_shadow) + x)
            = if a.height ≤ y ∧ y < a.height + (k : Int) then { nc with transparent := true }
              else bufGet d1 (y * (a.width + a.right_shadow) + x))
    d1 ⟨k1s, fun x y _ _ hy0 _ => by rw [if_neg]; push_cast; omega⟩
    (by
      intro k d hk ⟨h1, h2⟩
      obtain ⟨s1, _, g1⟩ := fill_n_spec d
        ((a.width + a.right_shadow) * (0 + (k : Int) + a.height))
        (a.width + a.right_shadow) { nc with transparent := true }
      refine ⟨by rw [s1, h1], ?_⟩
      intro x y hx0 hx hy0 hy
      have hb := cell_index_bounds hx0 hx hy0 hy
      rw [g1, h1, h2 x y hx0 hx hy0 hy, hdata]
      simp only [zero_add]
      have hcomm : (a.width + a.right_shadow) * ((k : Int) + a.height)
          = ((k : Int) + a.height) * (a.width + a.right_shadow) := mul_comm _ _
      rw [hcomm]
      by_cases hyk : y = (k : Int) + a.height
      · subst hyk
        rw [if_pos (by omega), if_pos (by push_cast; omega)]
      · have hsep := fun h1 h2 => hyk (row_sep (k := (k : Int) + a.height) hx0 hx h1 h2)
        rw [if_neg (by intro h; exact hsep (by omega) (by omega))]
        by_cases c : a.height ≤ y ∧ y < a.height + (k : Int)
        · rw [if_pos c, if_pos (by push_cast; omega)]
        · rw [if_neg c, if_neg (by push_cast; omega)])
  generalize (forRange 0 (a.bottom_shadow - 1)).foldl
    (fun d y => fill_n d ((a.width + a.right_shadow) * (y + a.height)) (a.width + a.right_shadow)
                  { nc with transparent := true }) d1 = d2 at key2 ⊢
  obtain ⟨k2s, k2g⟩ := key2
  have hk2 : (((a.bottom_shadow - 1 - 0 + 1).toNat : Nat) : Int) = a.bottom_shadow := by omega
  rw [hk2] at k2g
  refine ⟨k2s, ?_⟩
  intro x y hx0 hx hy0 hy
  rw [k2g x y hx0 hx hy0 hy, k1g x y hx0 hx hy0 hy]
  by_cases c1 : y < a.height
  · rw [if_neg (by omega), if_pos c1]
    by_cases c2 : x < a.width
    · rw [if_pos c2, if_pos ⟨c1, c2⟩]
    · rw [if_neg c2, if_neg (by omega)]
  · rw [if_pos (by omega), if_neg (by omega)]

theorem markRows_data (a : FTermArea) (off count : Int) (c : FLineChanges) :
    (markRows a off count c).data = a.data ∧ (markRows a off count c).width = a.width
    ∧ (markRows a off count c).height = a.height
    ∧ (markRows a off count c).right_shadow = a.right_shadow
    ∧ (markRows a off count c).bottom_shadow = a.bottom_shadow := by
  have h := (markRows_spec a off count c).1
  generalize markRows a off count c = m at h
  rw [h]
  exact ⟨rfl, rfl, rfl, rfl, rfl⟩

theorem clearAreaMarkRows_data (a : FTermArea) (w : Nat) (nc : FChar) :
    (clearAreaMarkRows a w nc).data = a.data ∧ (clearAreaMarkRows a w nc).width = a.width
    ∧ (clearAreaMarkRows a w nc).height = a.height
    ∧ (clearAreaMarkRows a w nc).right_shadow = a.right_shadow
    ∧ (clearAreaMarkRows a w nc).bottom_shadow = a.bottom_shadow := by
  have h := (clearAreaMarkRows_spec a w nc).1
  generalize clearAreaMarkRows a w nc = m at h
  rw [h]
  exact ⟨rfl, rfl, rfl, rfl, rfl⟩

theorem clearFullArea_area (env : TermEnv) (w : World) (r : AreaRef) (area : FTermArea)
    (nc : FChar) (ha : w.area? r = some area) :
    ∃ a1, (clearFullArea env w r nc).2.area? r = some a1
      ∧ a1.data = fill_n area.data 0 (area.width * area.height) nc
      ∧ a1.width = area.width ∧ a1.height = area.height
      ∧ a1.right_shadow = area.right_shadow ∧ a1.bottom_shadow = area.bottom_shadow
      ∧ (r ≠ AreaRef.desktop →
          (clearFullArea env w r nc).1 = false
          ∧ a1 = { area with data := fill_n area.data 0 (area.width * area.height) nc }) := by
  unfold clearFullArea
  rw [ha]
  simp only []
  by_cases hr : r = AreaRef.desktop
  · subst hr
    rw [if_neg (by simp)]
    have hs := clearTerm_sameAreas env
      (w.setArea AreaRef.desktop
        { area with data := fill_n area.data 0 (area.width * area.height) nc }) nc.ch
    generalize clearTerm env (w.setArea AreaRef.desktop
      { area with data := fill_n area.data 0 (area.width * area.height) nc }) nc.ch = res at hs ⊢
    obtain ⟨_, hvd, _, _, _⟩ := hs
    have hvd2 : res.2.vdesktop
        = { area with data := fill_n area.data 0 (area.width * area.height) nc } := hvd
    by_cases hres : res.1 = true
    · rw [if_pos hres]
      exact ⟨res.2.vdesktop, rfl, by rw [hvd2], by rw [hvd2], by rw [hvd2], by rw [hvd2],
        by rw [hvd2], fun h => absurd rfl h⟩
    · rw [if_neg hres]
      obtain ⟨m1, m2, m3, m4, m5⟩ := markRows_data res.2.vdesktop 0 res.2.vdesktop.height
        { xmin := 0, xmax := uSub (toUInt res.2.vdesktop.width) 1, trans_count := 0 }
      refine ⟨_, rfl, ?_, ?_, ?_, ?_, ?_, fun h => absurd rfl h⟩
      · show (markRows _ _ _ _).data = _
        rw [m1, hvd2]
      · show (markRows _ _ _ _).width = _
        rw [m2, hvd2]
      · show (markRows _ _ _ _).height = _
        rw [m3, hvd2]
      · show (markRows _ _ _ _).right_shadow = _
        rw [m4, hvd2]
      · show (markRows _ _ _ _).bottom_shadow = _
        rw [m5, hvd2]
  · rw [if_pos hr]
    exact ⟨_, area?_setArea w r area _ ha, rfl, rfl, rfl, rfl, rfl, fun _ => ⟨rfl, rfl⟩⟩

theorem clearArea_area (env : TermEnv) (w : World) (r : AreaRef) (area : FTermArea)
    (fillchar : Int) (ha : w.area? r = some area) (hd : area.data ≠ none) :
    ∃ a1, (clearArea env w r fillchar).area? r = some a1
      ∧ a1.data = (if area.right_shadow = 0 then
            fill_n area.data 0 (area.width * area.height) { w.next_attribute with ch := fillchar }
          else (clearAreaWithShadow area { w.next_attribute with ch := fillchar }).data)
      ∧ a1.width = area.width ∧ a1.height = area.height
      ∧ a1.right_shadow = area.right_shadow ∧ a1.bottom_shadow = area.bottom_shadow
      ∧ (r ≠ AreaRef.desktop →
          a1.changes = (clearAreaMarkRows { area with data := a1.data }
            (toUInt (area.width + area.right_shadow))
            { w.next_attribute with ch := fillchar }).changes) := by
  unfold clearArea
  simp only [ha]
  rw [if_neg hd]
  by_cases hrs : area.right_shadow = 0
  · simp only [if_pos hrs]
    obtain ⟨a1, h1, h2, h3, h4, h5, h6, h7⟩ :=
      clearFullArea_area env w r area { w.next_attribute with ch := fillchar } ha
    by_cases hres : (clearFullArea env w r { w.next_attribute with ch := fillchar }).1 = true
    · rw [if_pos hres]
      refine ⟨a1, h1, h2, h3, h4, h5, h6, fun hr => ?_⟩
      rw [(h7 hr).1] at hres; cases hres
    · rw [if_neg hres]
      simp only [h1]
      obtain ⟨m1, m2, m3, m4, m5⟩ := clearAreaMarkRows_data a1
        (toUInt (area.width + area.right_shadow)) { w.next_attribute with ch := fillchar }
      refine ⟨_, area?_setArea _ r a1 _ h1, ?_, ?_, ?_, ?_, ?_, fun hr => ?_⟩
      · show (clearAreaMarkRows _ _ _).data = _
        rw [m1, h2]
      · show (clearAreaMarkRows _ _ _).width = _
        rw [m2, h3]
      · show (clearAreaMarkRows _ _ _).height = _
        rw [m3, h4]
      · show (clearAreaMarkRows _ _ _).right_shadow = _
        rw [m4, h5]
      · show (clearAreaMarkRows _ _ _).bottom_shadow = _
        rw [m5, h6]
      · show (clearAreaMarkRows _ _ _).changes = (clearAreaMarkRows
          { area with data := (clearAreaMarkRows _ _ _).data } _ _).changes
        rw [m1, (h7 hr).2]
  · simp only [if_neg hrs]
    have h1 := area?_setArea w r area
      (clearAreaWithShadow area { w.next_attribute with ch := fillchar }) ha
    simp only [Bool.false_eq_true, if_false, h1]
    obtain ⟨m1, m2, m3, m4, m5⟩ := clearAreaMarkRows_data
      (clearAreaWithShadow area { w.next_attribute with ch := fillchar })
      (toUInt (area.width + area.right_shadow)) { w.next_attribute with ch := fillchar }
    refine ⟨_, area?_setArea _ r _ _ h1, ?_, ?_, ?_, ?_, ?_, fun _ => ?_⟩
    · show (clearAreaMarkRows _ _ _).data = _
      rw [m1]
    · show (clearAreaMarkRows _ _ _).width = _
      rw [m2]; rfl
    · show (clearAreaMarkRows _ _ _).height = _
      rw [m3]; rfl
    · show (clearAreaMarkRows _ _ _).right_shadow = _
      rw [m4]; rfl
    · show (clearAreaMarkRows _ _ _).bottom_shadow = _
      rw [m5]; rfl
    · show (clearAreaMarkRows _ _ _).changes = (clearAreaMarkRows
        { area with data := (clearAreaMarkRows _ _ _).data } _ _).changes
      rw [m1]; rfl

/-- C4: for every surface with allocated cells, after `clearArea (area, c)`
every interior cell (column below `width`, row below `height`) equals the
fill cell, that is `next_attribute` with its character set to `c`. -/
theorem C4_clearArea_interior (env : TermEnv) (w : World) (r : AreaRef) (area : FTermArea)
    (fillchar : Int) (ha : w.area? r = some area) (hsz : area.Sized) :
    ∃ a1, (clearArea env w r fillchar).area? r = some a1
      ∧ ∀ x y, 0 ≤ x → x < area.width → 0 ≤ y → y < area.height →
          a1.at x y = { w.next_attribute with ch := fillchar } := by
  have hd : area.data ≠ none := by
    intro h
    obtain ⟨hw0, hh0, hr0, hb0, _, _, hdata, _⟩ := hsz
    rw [h] at hdata
    simp only [bufSize, FTermArea.lineLen, FTermArea.rows] at hdata
    have : 0 < (area.width + area.right_shadow) * (area.height + area.bottom_shadow) :=
      mul_pos (by omega) (by omega)
    omega
  obtain ⟨a1, h1, h2, h3, h4, h5, h6, _⟩ := clearArea_area env w r area fillchar ha hd
  refine ⟨a1, h1, ?_⟩
  intro x y hx0 hx hy0 hy
  have hsz2 := hsz
  obtain ⟨hw0, hh0, hr0, hb0, _, _, hdata, _⟩ := hsz
  simp only [FTermArea.at, FTermArea.cell, FTermArea.lineLen, h2, h3, h5]
  by_cases hrs : area.right_shadow = 0
  · rw [if_pos hrs, (fill_n_spec _ _ _ _).2.2, hrs, add_zero]
    have hb := cell_index_bounds hx0 hx hy0 hy
    have e1 : area.lineLen * area.rows
        = area.width * area.height + area.width * area.bottom_shadow := by
      unfold FTermArea.lineLen FTermArea.rows; rw [hrs]; ring
    have e2 : 0 ≤ area.width * area.bottom_shadow := mul_nonneg (by omega) hb0
    rw [if_pos (by omega)]
  · rw [if_neg hrs]
    have hs := (clearAreaWithShadow_spec area { w.next_attribute with ch := fillchar } hsz2).2
      x y hx0 (by unfold FTermArea.lineLen; omega) hy0 (by unfold FTermArea.rows; omega)
    simp only [FTermArea.cell, FTermArea.lineLen] at hs
    rw [hs, if_pos ⟨hy, hx⟩]

theorem C4_clearArea_interior_witness :
    (sampleWorld [⟨1, some (sampleArea 2 1 3 2 1 1)⟩]).area? (AreaRef.window 0)
        = some (sampleArea 2 1 3 2 1 1)
    ∧ (sampleArea 2 1 3 2 1 1).Sized
    ∧ ∃ a1, (clearArea sampleTermEnv (sampleWorld [⟨1, some (sampleArea 2 1 3 2 1 1)⟩])
          (AreaRef.window 0) 65).area? (AreaRef.window 0) = some a1
        ∧ ∀ x y, 0 ≤ x → x < (sampleArea 2 1 3 2 1 1).width → 0 ≤ y →
            y < (sampleArea 2 1 3 2 1 1).height →
            a1.at x y = { (sampleWorld [⟨1, some (sampleArea 2 1 3 2 1 1)⟩]).next_attribute
                          with ch := 65 } :=
  ⟨rfl, by decide,
   C4_clearArea_interior sampleTermEnv (sampleWorld [⟨1, some (sampleArea 2 1 3 2 1 1)⟩])
     (AreaRef.window 0) (sampleArea 2 1 3 2 1 1) 65 rfl (by decide)⟩

theorem uSub_one {a : Nat} (h1 : 1 ≤ a) (h2 : a < 2 ^ 32) : uSub a 1 = a - 1 := by
  unfold uSub; omega

/-- C6: after `clearArea` on a surface other than the desktop with a fill
cell that has none of `transparent`, `trans_shadow`, `inherit_bg` set, every
row has the dirty range `[0, width + right_shadow - 1]`, every interior row
has `trans_count = right_shadow` and every bottom-shadow row has
`trans_count = width + right_shadow`. -/
theorem C6_clearArea_rows (env : TermEnv) (w : World) (r : AreaRef) (area : FTermArea)
    (fillchar : Int) (ha : w.area? r = some area) (hsz : area.Sized)
    (hr : r ≠ AreaRef.desktop)
    (hnc : w.next_attribute.transparent = false ∧ w.next_attribute.trans_shadow = false
      ∧ w.next_attribute.inherit_bg = false) :
    ∃ a1, (clearArea env w r fillchar).area? r = some a1
      ∧ (∀ y, 0 ≤ y → y < area.height →
          a1.line y = { xmin := 0, xmax := (area.width + area.right_shadow - 1).toNat,
                        trans_count := area.right_shadow.toNat })
      ∧ (∀ y, area.height ≤ y → y < area.height + area.bottom_shadow →
          a1.line y = { xmin := 0, xmax := (area.width + area.right_shadow - 1).toNat,
                        trans_count := (area.width + area.right_shadow).toNat }) := by
  obtain ⟨hw0, hh0, hr0, hb0, hw31, hh31, hdata, hchg⟩ := hsz
  have hd : area.data ≠ none := by
    intro h
    rw [h] at hdata
    simp only [bufSize, FTermArea.lineLen, FTermArea.rows] at hdata
    have : 0 < (area.width + area.right_shadow) * (area.height + area.bottom_shadow) :=
      mul_pos (by omega) (by omega)
    omega
  obtain ⟨a1, h1, _, _, _, _, _, h7⟩ := clearArea_area env w r area fillchar ha hd
  have hspec := (clearAreaMarkRows_spec ({ area with data := a1.data } : FTermArea)
    (toUInt (area.width + area.right_shadow)) { w.next_attribute with ch := fillchar }).2
  have hwd : toUInt (area.width + area.right_shadow)
      = (area.width + area.right_shadow).toNat := toUInt_of_nonneg (by omega) (by omega)
  have hxmax : uSub (toUInt (area.width + area.right_shadow)) 1
      = (area.width + area.right_shadow - 1).toNat := by
    rw [hwd, uSub_one (by omega) (by omega)]; omega
  have htc : (if area.right_shadow ≠ 0 then toUInt area.right_shadow else 0)
      = area.right_shadow.toNat := by
    by_cases h0 : area.right_shadow = 0
    · rw [if_neg (by simpa using h0), h0]; rfl
    · rw [if_pos h0, toUInt_of_nonneg hr0 (by omega)]
  simp only [FTermArea.rows] at hchg
  refine ⟨a1, h1, ?_, ?_⟩
  · intro y hy0 hy
    have hl := hspec y hy0 (by show y < (bufSize area.changes : Int); omega)
    simp only [FTermArea.line] at hl ⊢
    rw [h7 hr, hl, if_pos hy]
    simp only [hnc.1, hnc.2.1, hnc.2.2, Bool.or_self, Bool.false_eq_true, if_false, hxmax, htc]
  · intro y hy0 hy
    have hl := hspec y (by omega) (by show y < (bufSize area.changes : Int); omega)
    simp only [FTermArea.line] at hl ⊢
    rw [h7 hr, hl, if_neg (by omega), if_pos hy, hxmax, hwd]

theorem C6_clearArea_rows_witness :
    (sampleWorld [⟨1, some (sampleArea 2 1 3 2 1 1)⟩]).area? (AreaRef.window 0)
        = some (sampleArea 2 1 3 2 1 1)
    ∧ (sampleArea 2 1 3 2 1 1).Sized
    ∧ ∃ a1, (clearArea sampleTermEnv (sampleWorld [⟨1, some (sampleArea 2 1 3 2 1 1)⟩])
          (AreaRef.window 0) 32).area? (AreaRef.window 0) = some a1
        ∧ (∀ y, 0 ≤ y → y < (sampleArea 2 1 3 2 1 1).height →
            a1.line y = { xmin := 0, xmax := 3, trans_count := 1 })
        ∧ (∀ y, (sampleArea 2 1 3 2 1 1).height ≤ y →
            y < (sampleArea 2 1 3 2 1 1).height + (sampleArea 2 1 3 2 1 1).bottom_shadow →
            a1.line y = { xmin := 0, xmax := 3, trans_count := 4 }) :=
  ⟨rfl, by decide,
   C6_clearArea_rows sampleTermEnv (sampleWorld [⟨1, some (sampleArea 2 1 3 2 1 1)⟩])
     (AreaRef.window 0) (sampleArea 2 1 3 2 1 1) 32 rfl (by decide) (by decide) (by decide)⟩

/-- C5 (failing input): a 3 x 2 surface with no right shadow and a bottom
shadow of one row, all cells blank and not transparent.  After `clearArea`
the cell in column 0 of the bottom-shadow row is still not transparent,
while the row record of that row reports `trans_count = 3`, a fully
transparent row. -/
theorem C5_clearArea_bottom_shadow_without_right_shadow :
    (sampleArea 2 1 3 2 0 1).Sized
    ∧ ((clearArea sampleTermEnv (sampleWorld [⟨1, some (sampleArea 2 1 3 2 0 1)⟩])
          (AreaRef.window 0) 32).area? (AreaRef.window 0)).map
        (fun a1 => ((a1.at 0 2).transparent, (a1.line 2).trans_count))
      = some (false, 3) := by
  decide

/-- Supporting fact for C5: on a surface with a right shadow every cell of
the right-shadow columns and of the bottom-shadow rows is transparent after
`clearArea`. -/
theorem clearArea_shadow_transparent (env : TermEnv) (w : World) (r : AreaRef)
    (area : FTermArea) (fillchar : Int) (ha : w.area? r = some area) (hsz : area.Sized)
    (hrs : 0 < area.right_shadow) :
    ∃ a1, (clearArea env w r fillchar).area? r = some a1
      ∧ ∀ x y, 0 ≤ x → x < area.lineLen → 0 ≤ y → y < area.rows →
          (area.width ≤ x ∨ area.height ≤ y) → (a1.at x y).transparent = true := by
  have hsz2 := hsz
  obtain ⟨hw0, hh0, hr0, hb0, _, _, hdata, _⟩ := hsz
  have hd : area.data ≠ none := by
    intro h
    rw [h] at hdata
    simp only [bufSize, FTermArea.lineLen, FTermArea.rows] at hdata
    have : 0 < (area.width + area.right_shadow) * (area.height + area.bottom_shadow) :=
      mul_pos (by omega) (by omega)
    omega
  obtain ⟨a1, h1, h2, h3, h4, h5, h6, _⟩ := clearArea_area env w r area fillchar ha hd
  refine ⟨a1, h1, ?_⟩
  intro x y hx0 hx hy0 hy hsh
  have hs := (clearAreaWithShadow_spec area { w.next_attribute with ch := fillchar } hsz2).2
    x y hx0 hx hy0 hy
  simp only [FTermArea.at, FTermArea.cell, FTermArea.lineLen, h2, h3, h5] at hs ⊢
  rw [if_neg (by omega), hs, if_neg (by omega)]

/-- C7 (failing input): on a 2 x 1 surface whose first cell is transparent
and counted (`trans_count = 1`), printing over it a cell that is transparent
and has `trans_shadow` set as well leaves one such cell in the row but
raises `trans_count` to 2: the invariant holds before `print` and not after. -/
theorem C7_print_breaks_trans_count :
    sampleTransArea.Sized ∧ sampleTransArea.TransCountOK
    ∧ (print sampleEnv 1 sampleTransArea
          { sampleBlank with transparent := true, trans_shadow := true }).map
        (fun res => (res.1, (res.2.line 0).trans_count, res.2.transCells 0,
                     decide res.2.TransCountOK))
      = some (1, 2, 1, false) := by
  decide

/-! ## Coverage -/

theorem isCoveredLoop_found (area : AreaRef) (pos : Int × Int) (l : List FWindow) :
    ∀ (i : Nat) (st : covered_state),
      isCoveredLoop area pos l i true st
        = if l.any (coversOpaque pos) then covered_state.fully_covered
          else if l.any (coversShadow pos) then covered_state.half_covered
          else st := by
  induction l with
  | nil => intro i st; simp [isCoveredLoop]
  | cons win_obj rest ih =>
    intro i st
    rw [isCoveredLoop]
    cases hv : win_obj.vwin with
    | none =>
      simp only [ih, List.any_cons, coversOpaque, coversShadow, hv, Bool.false_or]
    | some win =>
      simp only []
      by_cases hvis : win.visible = false
      · rw [if_pos hvis]
        simp only [ih, List.any_cons, coversOpaque, coversShadow, hv, hvis, Bool.false_and,
          Bool.false_or]
      · rw [if_neg hvis]
        have hvis2 : win.visible = true := by simpa using hvis
        have hf : (if area = AreaRef.window i then true else true) = true := by
          split_ifs <;> rfl
        simp only [hf, Bool.true_and]
        by_cases hc : win.contains pos = true
        · rw [if_pos hc]
          by_cases hs : (win.cell ((pos.2 - win.offset_top) * (win.width + win.right_shadow)
              + (pos.1 - win.offset_left))).trans_shadow = true
          · rw [if_pos hs]
            simp only [ih, List.any_cons, coversOpaque, coversShadow, hv, hvis2, hc, hs,
              Bool.true_and, Bool.not_true, Bool.false_and, Bool.false_or, Bool.true_or,
              if_true]
            split_ifs <;> rfl
          · rw [if_neg hs]
            have hs2 : (win.cell ((pos.2 - win.offset_top) * (win.width + win.right_shadow)
              + (pos.1 - win.offset_left))).trans_shadow = false := by simpa using hs
            by_cases ht : (win.cell ((pos.2 - win.offset_top) * (win.width + win.right_shadow)
                + (pos.1 - win.offset_left))).transparent = false
            · rw [if_pos ht]
              simp only [List.any_cons, coversOpaque, hv, hvis2, hc, hs2, ht,
                Bool.true_and, Bool.not_false, Bool.true_or, if_true]
            · rw [if_neg ht]
              have ht2 : (win.cell ((pos.2 - win.offset_top) * (win.width + win.right_shadow)
                + (pos.1 - win.offset_left))).transparent = true := by simpa using ht
              simp only [ih, List.any_cons, coversOpaque, coversShadow, hv, hvis2, hc, hs2,
                ht2, Bool.true_and, Bool.not_true, Bool.and_false, Bool.false_or]
        · rw [if_neg hc]
          have hc2 : win.contains pos = false := by simpa using hc
          simp only [ih, List.any_cons, coversOpaque, coversShadow, hv, hvis2, hc2,
            Bool.true_and, Bool.false_and, Bool.and_false, Bool.false_or]

theorem isCoveredLoop_child (k : Nat) (pos : Int × Int) (l : List FWindow) :
    ∀ (i : Nat) (st : covered_state), isCoveredLoop (AreaRef.child k) pos l i false st = st := by
  induction l with
  | nil => intro i st; simp [isCoveredLoop]
  | cons win_obj rest ih =>
    intro i st
    rw [isCoveredLoop]
    cases hv : win_obj.vwin with
    | none => simp only [ih]
    | some win =>
      have hne : ¬ (AreaRef.child k = AreaRef.window i) := by simp
      simp only [Bool.false_and, Bool.false_eq_true, if_false, if_neg hne, ih]
      split_ifs <;> rfl

theorem isCoveredLoop_window (i0 : Nat) (pos : Int × Int) (l : List FWindow) :
    ∀ (i : Nat) (st : covered_state), i ≤ i0 →
      (∀ win_obj, l[i0 - i]? = some win_obj →
        ∃ win, win_obj.vwin = some win ∧ win.visible = true) →
      isCoveredLoop (AreaRef.window i0) pos l i false st
        = if (l.drop (i0 - i + 1)).any (coversOpaque pos) then covered_state.fully_covered
          else if (l.drop (i0 - i + 1)).any (coversShadow pos) then covered_state.half_covered
          else st := by
  induction l with
  | nil => intro i st _ _; simp [isCoveredLoop]
  | cons win_obj rest ih =>
    intro i st hi hvis
    rw [isCoveredLoop]
    by_cases hii : i = i0
    · subst hii
      obtain ⟨win, hv, hvis2⟩ := hvis win_obj (by simp)
      rw [hv]
      simp only [hvis2, Bool.true_eq_false, if_false, Bool.false_and, Bool.false_eq_true,
        if_true, isCoveredLoop_found, Nat.sub_self, zero_add, List.drop_succ_cons, List.drop_zero]
    · have hlt : i < i0 := by omega
      have hne : ¬ (AreaRef.window i0 = AreaRef.window i) := by
        intro h; injection h with h; omega
      have hdrop : (win_obj :: rest).drop (i0 - i + 1) = rest.drop (i0 - (i + 1) + 1) := by
        have : i0 - i = (i0 - (i + 1)) + 1 := by omega
        rw [this, List.drop_succ_cons]
      have hrest := ih (i + 1) st (by omega) (by
        intro o ho
        apply hvis o
        have : i0 - i = (i0 - (i + 1)) + 1 := by omega
        rw [this, List.getElem?_cons_succ]
        exact ho)
      rw [hdrop]
      cases hv : win_obj.vwin with
      | none => simp only [hrest]
      | some win =>
        simp only [Bool.false_and, Bool.false_eq_true, if_false, if_neg hne, hrest]
        split_ifs <;> rfl

theorem isCovered_eq_coveredStateSpec (w : World) (pos : Int × Int) (area : AreaRef)
    (a : FTermArea) (ha : w.area? area = some a) (hav : a.visible = true) :
    isCovered w pos area = coveredStateSpec w pos area := by
  unfold isCovered coveredStateSpec windowsAfter
  cases area with
  | desktop =>
    simp only [decide_True]
    exact isCoveredLoop_found _ pos _ 0 _
  | child k =>
    have hd : decide (AreaRef.child k = AreaRef.desktop) = false := by simp
    rw [hd, isCoveredLoop_child]
    simp
  | window i =>
    have hd : decide (AreaRef.window i = AreaRef.desktop) = false := by simp
    rw [hd, isCoveredLoop_window i pos w.window_list 0 _ (Nat.zero_le i)]
    · simp only [Nat.sub_zero]
    · intro win_obj ho
      simp only [Nat.sub_zero] at ho
      simp only [World.area?, ho] at ha
      exact ⟨a, ha, hav⟩

/-- For a window position whose entry is missing, has no surface or has an
invisible one, the loop of `isCovered` never sets `found`: the covered state
stays as it is. -/
theorem isCoveredLoop_hidden (i0 : Nat) (pos : Int × Int) (l : List FWindow) :
    ∀ (i : Nat) (st : covered_state),
      (∀ win_obj, i ≤ i0 → l[i0 - i]? = some win_obj →
        ¬ ∃ win, win_obj.vwin = some win ∧ win.visible = true) →
      isCoveredLoop (AreaRef.window i0) pos l i false st = st := by
  induction l with
  | nil => intro i st _; simp [isCoveredLoop]
  | cons win_obj rest ih =>
    intro i st hvis
    rw [isCoveredLoop]
    have hrest := ih (i + 1) st (by
      intro o hi ho
      apply hvis o (by omega)
      have : i0 - i = (i0 - (i + 1)) + 1 := by omega
      rw [this, List.getElem?_cons_succ]
      exact ho)
    cases hv : win_obj.vwin with
    | none => simp only [hrest]
    | some win =>
      simp only []
      by_cases hvs : win.visible = false
      · rw [if_pos hvs]; exact hrest
      · rw [if_neg hvs]
        have hvis2 : win.visible = true := by simpa using hvs
        have hne : ¬ (AreaRef.window i0 = AreaRef.window i) := by
          intro h
          injection h with h
          subst h
          exact hvis win_obj (Nat.le_refl _) (by simp) ⟨win, hv, hvis2⟩
        simp only [Bool.false_and, Bool.false_eq_true, if_false, if_neg hne, hrest]

/-- Outside the domain of the callers: for a window surface that is not
visible (or a dangling window pointer) the loop of `isCovered` skips the
window before it compares it with `area`, and the result is `non_covered`
whatever the later windows hold. -/
theorem isCovered_invisible_window (w : World) (pos : Int × Int) (i : Nat)
    (h : ¬ ∃ a, w.area? (AreaRef.window i) = some a ∧ a.visible = true) :
    isCovered w pos (AreaRef.window i) = covered_state.non_covered := by
  unfold isCovered
  have hd : decide (AreaRef.window i = AreaRef.desktop) = false := by simp
  rw [hd]
  apply isCoveredLoop_hidden
  intro win_obj _ ho hex
  obtain ⟨win, hv, hvis⟩ := hex
  simp only [Nat.sub_zero] at ho
  apply h
  refine ⟨win, ?_, hvis⟩
  simp only [World.area?, ho, hv]

/-- Claim C8.  For the desktop, for a child surface and for the surface of
a visible window (`putArea` and `updateVTermCursor`, the callers of
`isCovered`, return before the call for a surface that is not visible),
`isCovered (pos, area)` returns `fully_covered` exactly when some visible
window that comes after `area` in the window list (any visible window when
`area` is the desktop) contains `pos` with a cell that has neither
`trans_shadow` nor `transparent` set; otherwise `half_covered` exactly when
some such later window has `trans_shadow` set at `pos`; otherwise
`non_covered`. -/
theorem C8_isCovered_visible_area (w : World) (pos : Int × Int) (area : AreaRef)
    (hvis : ∀ i, area = AreaRef.window i → ∃ a, w.area? area = some a ∧ a.visible = true) :
    isCovered w pos area = coveredStateSpec w pos area := by
  cases area with
  | desktop =>
    unfold isCovered coveredStateSpec windowsAfter
    simp only [decide_True]
    exact isCoveredLoop_found _ pos _ 0 _
  | child k =>
    unfold isCovered coveredStateSpec windowsAfter
    have hd : decide (AreaRef.child k = AreaRef.desktop) = false := by simp
    rw [hd, isCoveredLoop_child]
    simp
  | window i =>
    obtain ⟨a, ha, hav⟩ := hvis i rfl
    exact isCovered_eq_coveredStateSpec w pos (AreaRef.window i) a ha hav

/-- Witness for C8: window 0 of two visible windows, covered at `(1, 1)` by
the opaque cell of window 1. -/
theorem C8_isCovered_visible_area_witness :
    isCovered (sampleWorld [⟨1, some (sampleArea 0 0 3 2 0 0)⟩,
                            ⟨2, some (sampleArea 1 1 3 2 1 1)⟩]) (1, 1) (AreaRef.window 0)
      = covered_state.fully_covered
    ∧ isCovered (sampleWorld [⟨1, some (sampleArea 0 0 3 2 0 0)⟩,
                              ⟨2, some (sampleArea 1 1 3 2 1 1)⟩]) (1, 1) (AreaRef.window 0)
      = coveredStateSpec (sampleWorld [⟨1, some (sampleArea 0 0 3 2 0 0)⟩,
                              ⟨2, some (sampleArea 1 1 3 2 1 1)⟩]) (1, 1) (AreaRef.window 0) :=
  ⟨by decide,
   C8_isCovered_visible_area _ (1, 1) (AreaRef.window 0) (fun i _ => ⟨_, rfl, rfl⟩)⟩

/-- A sample of `isCovered_invisible_window`: window 0 is invisible and
window 1, which comes after it, covers `(1, 1)` with an opaque cell; the
result for window 0 is `non_covered`. -/
theorem isCovered_invisible_window_sample :
    isCovered (sampleWorld [⟨1, some { sampleArea 0 0 3 2 0 0 with visible := false }⟩,
                            ⟨2, some (sampleArea 0 0 3 2 0 0)⟩]) (1, 1) (AreaRef.window 0)
      = covered_state.non_covered
    ∧ coveredStateSpec (sampleWorld [⟨1, some { sampleArea 0 0 3 2 0 0 with visible := false }⟩,
                            ⟨2, some (sampleArea 0 0 3 2 0 0)⟩]) (1, 1) (AreaRef.window 0)
      = covered_state.fully_covered := by
  decide

/-! ## Writing one cell of the full-screen buffer -/

theorem FChar.eq_self (c : FChar) : FChar.eq c c = true := by
  simp [FChar.eq]

theorem bufSet_bufSet {α : Type} (b : Option (List α)) (i : Int) (x y : α) :
    bufSet (bufSet b i x) i y = bufSet b i y := by
  cases b with
  | none => rfl
  | some l =>
    unfold bufSet
    by_cases h : 0 ≤ i
    · simp [h, List.set_set]
    · simp [h]

theorem bufSet_outside {α : Type} (b : Option (List α)) (i : Int) (x : α)
    (h : ¬ (0 ≤ i ∧ i < (bufSize b : Int))) : bufSet b i x = b := by
  cases b with
  | none => rfl
  | some l =>
    unfold bufSet
    by_cases h0 : 0 ≤ i
    · have hl : l.length ≤ i.toNat := by
        simp only [bufSize] at h; omega
      simp [h0, List.set_eq_of_length_le hl]
    · simp [h0]

theorem setVTermCell_twice (w : World) (i : Int) (x y : FChar) :
    (w.setVTermCell i x).setVTermCell i y = w.setVTermCell i y := by
  unfold World.setVTermCell
  simp only [bufSet_bufSet]

theorem updateCharacter_eq (w : World) (area : FTermArea) (area_pos terminal_pos : Int × Int) :
    updateCharacter w area area_pos terminal_pos
      = w.setVTermCell (terminal_pos.2 * w.vterm.width + terminal_pos.1)
          { area.cell (area_pos.2 * (area.width + area.right_shadow) + area_pos.1) with
            no_changes := (area.cell (area_pos.2 * (area.width + area.right_shadow)
                            + area_pos.1)).printed } := by
  unfold updateCharacter
  simp only []
  generalize area.cell (area_pos.2 * (area.width + area.right_shadow) + area_pos.1) = ac
  generalize terminal_pos.2 * w.vterm.width + terminal_pos.1 = ti
  by_cases hin : 0 ≤ ti ∧ ti < (bufSize w.vterm.data : Int)
  · have htc : (w.setVTermCell ti ac).vterm.cell ti = ac := by
      show bufGet (bufSet w.vterm.data ti ac) ti = ac
      exact bufGet_bufSet_eq _ _ hin.1 hin.2
    rw [htc, FChar.eq_self, Bool.and_true]
    by_cases hp : ac.printed = true
    · rw [if_pos hp, setVTermCell_twice, hp]
    · rw [if_neg hp, setVTermCell_twice]
      have hp2 : ac.printed = false := by simpa using hp
      rw [hp2]
  · have hno : ∀ x : FChar, w.setVTermCell ti x = w := by
      intro x
      unfold World.setVTermCell
      rw [bufSet_outside _ _ _ hin]
    rw [hno ac]
    split_ifs <;> simp only [hno]

/-- C9 (failing inputs): `updateCharacter` copies the surface cell over the
full-screen cell before it tests `printed` and equality, so `no_changes` of
the written cell is the `printed` flag of the surface cell.  First input:
the displayed cell is a printed `A` and the surface cell is the same `A`
(not marked printed): `no_changes` is false although the displayed cell is
printed and equal.  Second input: the displayed cell is a printed blank and
the surface cell is an `A` that carries `printed`: `no_changes` is true
although the cells differ. -/
theorem C9_updateCharacter_no_changes_from_copy :
    (((sampleWorld []).setVTermCell 0 { sampleLetter with printed := true }).vterm.cell 0).printed
        = true
    ∧ FChar.eq (((sampleWorld []).setVTermCell 0 { sampleLetter with printed := true }).vterm.cell 0)
        sampleLetter = true
    ∧ ((updateCharacter ((sampleWorld []).setVTermCell 0 { sampleLetter with printed := true })
          { sampleArea 0 0 10 4 0 0 with data := some [sampleLetter] } (0, 0) (0, 0)).vterm.cell 0)
        = { sampleLetter with no_changes := false }
    ∧ (((sampleWorld []).setVTermCell 0 { sampleBlank with printed := true }).vterm.cell 0).printed
        = true
    ∧ FChar.eq (((sampleWorld []).setVTermCell 0 { sampleBlank with printed := true }).vterm.cell 0)
        { sampleLetter with printed := true } = false
    ∧ ((updateCharacter ((sampleWorld []).setVTermCell 0 { sampleBlank with printed := true })
          { sampleArea 0 0 10 4 0 0 with data := some [{ sampleLetter with printed := true }] }
          (0, 0) (0, 0)).vterm.cell 0)
        = { sampleLetter with printed := true, no_changes := true } := by
  decide

/-! ## Compositing: what the loops of `putArea` leave untouched -/

theorem setVTermCell_eq_setVTermData (w : World) (i : Int) (c : FChar) :
    w.setVTermCell i c = w.setVTermData (bufSet w.vterm.data i c) := rfl

theorem setVTermData_self (w : World) : w.setVTermData w.vterm.data = w := rfl

theorem setVTermData_setVTermData (w : World) (d1 d2 : Option (List FChar)) :
    (w.setVTermData d1).setVTermData d2 = w.setVTermData d2 := rfl

theorem setVTermData_area? (w : World) (d : Option (List FChar)) (r : AreaRef) :
    (w.setVTermData d).area? r = w.area? r := by
  cases r <;> rfl

/-- The cell written by `updateVTermCharacter`, when it writes one. -/
theorem updateVTermCharacter_frame (env : CompEnv) (w : World) (r : AreaRef)
    (area_pos terminal_pos : Int × Int) :
    ∃ d, (updateVTermCharacter env w r area_pos terminal_pos).2 = w.setVTermData d
      ∧ bufSize d = bufSize w.vterm.data
      ∧ ∀ j, j ≠ terminal_pos.2 * w.vterm.width + terminal_pos.1 →
          bufGet d j = bufGet w.vterm.data j := by
  have hcell : ∀ c : FChar, ∃ d,
      w.setVTermCell (terminal_pos.2 * w.vterm.width + terminal_pos.1) c = w.setVTermData d
      ∧ bufSize d = bufSize w.vterm.data
      ∧ ∀ j, j ≠ terminal_pos.2 * w.vterm.width + terminal_pos.1 →
          bufGet d j = bufGet w.vterm.data j := by
    intro c
    exact ⟨_, rfl, bufSize_bufSet _ _ _, fun j hj => bufGet_bufSet_ne _ _ (Ne.symm hj)⟩
  have hself : ∃ d, w = w.setVTermData d ∧ bufSize d = bufSize w.vterm.data
      ∧ ∀ j, j ≠ terminal_pos.2 * w.vterm.width + terminal_pos.1 →
          bufGet d j = bufGet w.vterm.data j := ⟨_, rfl, rfl, fun _ _ => rfl⟩
  unfold updateVTermCharacter
  cases ha : w.area? r with
  | none => exact hself
  | some area =>
    simp only []
    split_ifs
    · exact hself
    · exact hcell _
    · exact hcell _
    · exact hcell _
    · exact hcell _
    · rw [updateCharacter_eq]; exact hcell _

theorem putAreaColumn_frame (env : CompEnv) (r : AreaRef) (ax ay ol y : Int) (st : ColumnLoop)
    (x : Int) :
    ∃ d, (putAreaColumn env r ax ay ol y st x).world = st.world.setVTermData d
      ∧ bufSize d = bufSize st.world.vterm.data
      ∧ ∀ j, j ≠ (ay + y) * st.world.vterm.width + (ax + x - ol) →
          bufGet d j = bufGet st.world.vterm.data j := by
  unfold putAreaColumn
  simp only []
  split_ifs
  all_goals first
    | exact ⟨_, rfl, rfl, fun _ _ => rfl⟩
    | exact updateVTermCharacter_frame env st.world r (x, y) (ax + x - ol, ay + y)

theorem columnLoop_frame (env : CompEnv) (r : AreaRef) (ax ay ol y : Int) (xs : List Int) :
    ∀ st : ColumnLoop,
      ∃ d, (xs.foldl (putAreaColumn env r ax ay ol y) st).world = st.world.setVTermData d
        ∧ bufSize d = bufSize st.world.vterm.data
        ∧ ∀ j, (∀ x ∈ xs, j ≠ (ay + y) * st.world.vterm.width + (ax + x - ol)) →
            bufGet d j = bufGet st.world.vterm.data j := by
  induction xs with
  | nil => intro st; exact ⟨_, rfl, rfl, fun _ _ => rfl⟩
  | cons x rest ih =>
    intro st
    obtain ⟨d1, h1, s1, g1⟩ := putAreaColumn_frame env r ax ay ol y st x
    obtain ⟨d2, h2, s2, g2⟩ := ih (putAreaColumn env r ax ay ol y st x)
    rw [h1] at h2 s2 g2
    refine ⟨d2, by rw [List.foldl_cons, h2]; rfl, by rw [s2]; exact s1, ?_⟩
    intro j hj
    rw [g2 j (fun x' hx' => hj x' (List.mem_cons_of_mem x hx'))]
    exact g1 j (hj x (List.mem_cons_self x rest))

theorem putAreaDirtyRange_fields (vterm : FTermArea) (row xmin xmax0 : Int) :
    putAreaDirtyRange vterm row xmin xmax0
      = { vterm with changes := (putAreaDirtyRange vterm row xmin xmax0).changes } := by
  unfold putAreaDirtyRange
  simp only []
  split_ifs <;> rfl

theorem area?_vterm_irrelevant (w : World) (vt : FTermArea) (r : AreaRef) :
    ({ w with vterm := vt } : World).area? r = w.area? r := by
  cases r <;> rfl

theorem columnLoop_world (env : CompEnv) (r : AreaRef) (ax ay ol y : Int) (w : World)
    (line_xmin line_xmax : Int) :
    ∃ d, (columnLoop env r ax ay ol y w line_xmin line_xmax).world = w.setVTermData d
      ∧ bufSize d = bufSize w.vterm.data
      ∧ ∀ j, (∀ x ∈ forRange line_xmin line_xmax,
                j ≠ (ay + y) * w.vterm.width + (ax + x - ol)) →
          bufGet d j = bufGet w.vterm.data j :=
  columnLoop_frame env r ax ay ol y (forRange line_xmin line_xmax)
    { world := w, modified := false, line_xmin := line_xmin }

/-- The line loop body of `putArea` on a dirty row that is not skipped. -/
theorem putAreaRow_dirty (env : CompEnv) (r : AreaRef) (ax ay ol width : Int) (w : World)
    (y : Int) (a : FTermArea) (ha : w.area? r = some a)
    (h1 : ¬ (toInt (a.line y).xmin > toInt (a.line y).xmax))
    (h2 : ¬ (ax + (if ax = 0 then ol else toInt (a.line y).xmin) ≥ w.vterm.width)) :
    putAreaRow env r ax ay ol width w y
      = World.setArea
          { (columnLoop env r ax ay ol y w (if ax = 0 then ol else toInt (a.line y).xmin)
              (if width + ax - ol ≥ w.vterm.width then w.vterm.width + ol - ax - 1
               else toInt (a.line y).xmax)).world with
            vterm := putAreaDirtyRange
              (columnLoop env r ax ay ol y w (if ax = 0 then ol else toInt (a.line y).xmin)
                (if width + ax - ol ≥ w.vterm.width then w.vterm.width + ol - ax - 1
                 else toInt (a.line y).xmax)).world.vterm (ay + y)
              (ax + (columnLoop env r ax ay ol y w
                (if ax = 0 then ol else toInt (a.line y).xmin)
                (if width + ax - ol ≥ w.vterm.width then w.vterm.width + ol - ax - 1
                 else toInt (a.line y).xmax)).line_xmin - ol)
              (ax + (if width + ax - ol ≥ w.vterm.width then w.vterm.width + ol - ax - 1
                 else toInt (a.line y).xmax)) }
          r (a.setLine y { a.line y with xmin := toUInt width, xmax := 0 }) := by
  obtain ⟨d, hd, _, _⟩ := columnLoop_world env r ax ay ol y w
    (if ax = 0 then ol else toInt (a.line y).xmin)
    (if width + ax - ol ≥ w.vterm.width then w.vterm.width + ol - ax - 1
     else toInt (a.line y).xmax)
  unfold putAreaRow
  rw [ha]
  simp only []
  rw [if_neg h1, if_neg h2]
  generalize columnLoop env r ax ay ol y w (if ax = 0 then ol else toInt (a.line y).xmin)
    (if width + ax - ol ≥ w.vterm.width then w.vterm.width + ol - ax - 1
     else toInt (a.line y).xmax) = st at hd ⊢
  have ha2 : ∀ vt : FTermArea, ({ st.world with vterm := vt } : World).area? r = some a := by
    intro vt
    rw [area?_vterm_irrelevant, hd, setVTermData_area?, ha]
  rw [ha2]

/-- What one pass of the line loop of `putArea` does to the surface itself:
a dirty row whose first column lies left of the terminal's right edge is
reset, every other row record is left as it is. -/
theorem putAreaRow_area (env : CompEnv) (r : AreaRef) (ax ay ol width : Int) (w : World)
    (y : Int) (a : FTermArea) (ha : w.area? r = some a) :
    (putAreaRow env r ax ay ol width w y).area? r
        = some (if ¬ (toInt (a.line y).xmin > toInt (a.line y).xmax)
                    ∧ ¬ (ax + (if ax = 0 then ol else toInt (a.line y).xmin) ≥ w.vterm.width)
                then a.setLine y { a.line y with xmin := toUInt width, xmax := 0 }
                else a)
    ∧ (putAreaRow env r ax ay ol width w y).vterm.width = w.vterm.width
    ∧ (putAreaRow env r ax ay ol width w y).vterm.height = w.vterm.height := by
  by_cases h1 : toInt (a.line y).xmin > toInt (a.line y).xmax
  · have e : putAreaRow env r ax ay ol width w y = w := by
      unfold putAreaRow; rw [ha]; simp only []; rw [if_pos h1]
    rw [e, if_neg (fun h => h.1 h1)]
    exact ⟨ha, rfl, rfl⟩
  · by_cases h2 : ax + (if ax = 0 then ol else toInt (a.line y).xmin) ≥ w.vterm.width
    · have e : putAreaRow env r ax ay ol width w y = w := by
        unfold putAreaRow; rw [ha]; simp only []; rw [if_neg h1, if_pos h2]
      rw [e, if_neg (fun h => h.2 h2)]
      exact ⟨ha, rfl, rfl⟩
    · rw [putAreaRow_dirty env r ax ay ol width w y a ha h1 h2,
        if_pos (show _ ∧ _ from ⟨h1, h2⟩)]
      obtain ⟨d, hd, _, _⟩ := columnLoop_world env r ax ay ol y w
        (if ax = 0 then ol else toInt (a.line y).xmin)
        (if width + ax - ol ≥ w.vterm.width then w.vterm.width + ol - ax - 1
         else toInt (a.line y).xmax)
      generalize columnLoop env r ax ay ol y w (if ax = 0 then ol else toInt (a.line y).xmin)
        (if width + ax - ol ≥ w.vterm.width then w.vterm.width + ol - ax - 1
         else toInt (a.line y).xmax) = st at hd ⊢
      have ha2 : ∀ vt : FTermArea, ({ st.world with vterm := vt } : World).area? r = some a := by
        intro vt
        rw [area?_vterm_irrelevant, hd, setVTermData_area?, ha]
      refine ⟨area?_setArea _ r a _ (ha2 _), ?_, ?_⟩
      · rw [setArea_vterm]
        show (putAreaDirtyRange _ _ _ _).width = _
        rw [putAreaDirtyRange_fields, hd]; rfl
      · rw [setArea_vterm]
        show (putAreaDirtyRange _ _ _ _).height = _
        rw [putAreaDirtyRange_fields, hd]; rfl

theorem callPreprocessingHandler_nil (env : CompEnv) (w : World) (r : AreaRef)
    (a : FTermArea) (ha : w.area? r = some a) (hpre : a.preproc_list = []) :
    callPreprocessingHandler env w r = w := by
  unfold callPreprocessingHandler
  rw [ha]
  simp only [hpre, List.foldl_nil]

theorem updateVTermCursor_area? (env : CompEnv) (w : World) (r r2 : AreaRef) :
    (updateVTermCursor env w r).2.area? r2 = w.area? r2 := by
  unfold updateVTermCursor
  cases w.area? r with
  | none => rfl
  | some area =>
    simp only []
    split_ifs <;> rfl

/-- The surface after the line loop of `putArea` over the rows `0 .. n - 1`:
every visited dirty row that is not skipped is reset, every other row
record is as before. -/
theorem putArea_rows_area (env : CompEnv) (r : AreaRef) (ax ay ol width : Int) (w : World)
    (last : Int) (area : FTermArea) (ha : w.area? r = some area) :
    ∃ a1, ((forRange 0 last).foldl (putAreaRow env r ax ay ol width) w).area? r = some a1
      ∧ ∀ y, a1.line y
          = if 0 ≤ y ∧ y ≤ last ∧ y < (bufSize area.changes : Int)
                ∧ ¬ (toInt (area.line y).xmin > toInt (area.line y).xmax)
                ∧ ¬ (ax + (if ax = 0 then ol else toInt (area.line y).xmin) ≥ w.vterm.width)
            then { area.line y with xmin := toUInt width, xmax := 0 }
            else area.line y := by
  have key := forRange_foldl_inv (putAreaRow env r ax ay ol width) 0 last
    (fun k wk => wk.vterm.width = w.vterm.width
      ∧ ∃ ak, wk.area? r = some ak
        ∧ bufSize ak.changes = bufSize area.changes
        ∧ ∀ y, ak.line y
          = if 0 ≤ y ∧ y < (k : Int) ∧ y < (bufSize area.changes : Int)
                ∧ ¬ (toInt (area.line y).xmin > toInt (area.line y).xmax)
                ∧ ¬ (ax + (if ax = 0 then ol else toInt (area.line y).xmin) ≥ w.vterm.width)
            then { area.line y with xmin := toUInt width, xmax := 0 }
            else area.line y)
    w ⟨rfl, area, ha, rfl, fun y => by rw [if_neg]; push_cast; omega⟩
    (by
      intro k wk _ ⟨hw, ak, hak, hsize, hlines⟩
      obtain ⟨p1, p2, _⟩ := putAreaRow_area env r ax ay ol width wk (0 + (k : Int)) ak hak
      have hk : ak.line (0 + (k : Int)) = area.line (0 + (k : Int)) := by
        rw [hlines, if_neg (by omega)]
      rw [hk, hw] at p1
      refine ⟨by rw [p2, hw], _, p1, ?_, ?_⟩
      · by_cases hD : ¬ (toInt (area.line (0 + (k : Int))).xmin
              > toInt (area.line (0 + (k : Int))).xmax)
            ∧ ¬ (ax + (if ax = 0 then ol else toInt (area.line (0 + (k : Int))).xmin)
              ≥ w.vterm.width)
        · rw [if_pos hD]
          show bufSize (bufSet ak.changes _ _) = _
          rw [bufSize_bufSet, hsize]
        · rw [if_neg hD]
          exact hsize
      · intro y
        by_cases hD : ¬ (toInt (area.line (0 + (k : Int))).xmin
              > toInt (area.line (0 + (k : Int))).xmax)
            ∧ ¬ (ax + (if ax = 0 then ol else toInt (area.line (0 + (k : Int))).xmin)
              ≥ w.vterm.width)
        · rw [if_pos hD]
          show bufGet (bufSet ak.changes _ _) y = _
          rw [bufGet_bufSet, hsize]
          have hly := hlines y
          simp only [FTermArea.line] at hly hD ⊢
          rw [hly]
          by_cases hy : 0 + (k : Int) = y
          · subst hy
            by_cases hb : 0 + (k : Int) < (bufSize area.changes : Int)
            · rw [if_pos (by omega), if_pos ⟨by omega, by push_cast; omega, hb, hD.1, hD.2⟩]
            · rw [if_neg (by omega), if_neg (by omega), if_neg (by omega)]
          · rw [if_neg (by omega)]
            by_cases c : 0 ≤ y ∧ y < (k : Int) ∧ y < (bufSize area.changes : Int)
                ∧ ¬ (toInt (bufGet area.changes y).xmin > toInt (bufGet area.changes y).xmax)
                ∧ ¬ (ax + (if ax = 0 then ol else toInt (bufGet area.changes y).xmin)
                  ≥ w.vterm.width)
            · rw [if_pos c, if_pos ⟨c.1, by push_cast; omega, c.2.2⟩]
            · rw [if_neg c, if_neg (fun h => c ⟨h.1, by
                have := h.2.1; push_cast at this; omega, h.2.2⟩)]
        · rw [if_neg hD, hlines y]
          by_cases hy : 0 + (k : Int) = y
          · subst hy
            rw [if_neg (by omega), if_neg (fun h => hD h.2.2.2)]
          · by_cases c : 0 ≤ y ∧ y < (k : Int) ∧ y < (bufSize area.changes : Int)
                ∧ ¬ (toInt (area.line y).xmin > toInt (area.line y).xmax)
                ∧ ¬ (ax + (if ax = 0 then ol else toInt (area.line y).xmin) ≥ w.vterm.width)
            · rw [if_pos c, if_pos ⟨c.1, by push_cast; omega, c.2.2⟩]
            · rw [if_neg c, if_neg (fun h => c ⟨h.1, by
                have := h.2.1; push_cast at this; omega, h.2.2⟩)])
  obtain ⟨_, a1, h1, _, h3⟩ := key
  refine ⟨a1, h1, fun y => ?_⟩
  rw [h3 y]
  by_cases hl : 0 ≤ last + 1
  · have e : (((last - 0 + 1).toNat : Nat) : Int) = last + 1 := by omega
    rw [e]
    by_cases c : 0 ≤ y ∧ y ≤ last ∧ y < (bufSize area.changes : Int)
        ∧ ¬ (toInt (area.line y).xmin > toInt (area.line y).xmax)
        ∧ ¬ (ax + (if ax = 0 then ol else toInt (area.line y).xmin) ≥ w.vterm.width)
    · rw [if_pos c, if_pos ⟨c.1, by omega, c.2.2⟩]
    · rw [if_neg c, if_neg (fun h => c ⟨h.1, by omega, h.2.2⟩)]
  · rw [if_neg (by omega), if_neg (by omega)]

theorem putArea_first_column (area : FTermArea) (y : Int) :
    (if area.offset_left < 0 then 0 else area.offset_left)
      + (if (if area.offset_left < 0 then 0 else area.offset_left) = 0 then
           (if area.offset_left < 0 then |area.offset_left| else 0)
         else toInt (area.line y).xmin)
      = putAreaFirstColumn area y := by
  unfold putAreaFirstColumn
  by_cases h1 : area.offset_left < 0
  · simp only [if_pos h1, if_true, if_pos (le_of_lt h1), abs_of_neg h1, zero_add]
  · by_cases h2 : area.offset_left = 0
    · simp [h2]
    · rw [if_neg h1, if_neg h1, if_neg h2, if_neg (by omega)]

/-- The surface after `putArea` on a visible surface without pre-render
handlers. -/
theorem putArea_area (env : CompEnv) (w : World) (r : AreaRef) (area : FTermArea)
    (ha : w.area? r = some area) (hvis : area.visible = true)
    (hpre : area.preproc_list = []) :
    ∃ a1, (putArea env w r).area? r = some a1
      ∧ ∀ y, a1.line y
          = if 0 ≤ y ∧ y < area.rows ∧ y < w.vterm.height - area.offset_top
                ∧ y < (bufSize area.changes : Int)
                ∧ ¬ (toInt (area.line y).xmin > toInt (area.line y).xmax)
                ∧ putAreaFirstColumn area y < w.vterm.width
            then { area.line y with xmin := toUInt (area.width + area.right_shadow), xmax := 0 }
            else area.line y := by
  unfold putArea
  rw [ha]
  simp only []
  rw [if_neg (by simp [hvis]), callPreprocessingHandler_nil env w r area ha hpre]
  obtain ⟨a1, h1, h2⟩ := putArea_rows_area env r
    (if area.offset_left < 0 then 0 else area.offset_left) area.offset_top
    (if area.offset_left < 0 then |area.offset_left| else 0)
    (area.width + area.right_shadow) w
    ((if area.height + area.bottom_shadow + area.offset_top > w.vterm.height then
        w.vterm.height - area.offset_top
      else area.height + area.bottom_shadow) - 1) area ha
  refine ⟨a1, ?_, ?_⟩
  · rw [updateVTermCursor_area?, area?_vterm_irrelevant]
    exact h1
  · intro y
    rw [h2 y, putArea_first_column]
    have hlast : (y ≤ (if area.height + area.bottom_shadow + area.offset_top > w.vterm.height
          then w.vterm.height - area.offset_top
          else area.height + area.bottom_shadow) - 1)
        ↔ (y < area.rows ∧ y < w.vterm.height - area.offset_top) := by
      unfold FTermArea.rows
      split_ifs <;> omega
    by_cases c : 0 ≤ y ∧ y < area.rows ∧ y < w.vterm.height - area.offset_top
        ∧ y < (bufSize area.changes : Int)
        ∧ ¬ (toInt (area.line y).xmin > toInt (area.line y).xmax)
        ∧ putAreaFirstColumn area y < w.vterm.width
    · rw [if_pos c, if_pos ⟨c.1, hlast.2 ⟨c.2.1, c.2.2.1⟩, c.2.2.2.1, c.2.2.2.2.1,
        by have := c.2.2.2.2.2; omega⟩]
    · rw [if_neg c, if_neg (fun h => c ⟨h.1, (hlast.1 h.2.1).1, (hlast.1 h.2.1).2, h.2.2.1,
        h.2.2.2.1, by have := h.2.2.2.2; omega⟩)]

/-- C10, amended: after `putArea (area)` on a visible surface without
pre-render handlers, every row that lies above the terminal's bottom edge
(`y < terminal height - offset_top`) and is composited from a column left of
the terminal's right edge is clean (`xmin > xmax`); if it was dirty it has
been reset to `xmin = width + right_shadow`, `xmax = 0`.  A row at or below
the terminal's bottom edge, or one whose first column lies at or right of
the terminal's right edge, is not visited and keeps its row record. -/
theorem C10_putArea_rows_clean (env : CompEnv) (w : World) (r : AreaRef) (area : FTermArea)
    (ha : w.area? r = some area) (hvis : area.visible = true)
    (hpre : area.preproc_list = []) (hsz : area.Sized) :
    ∃ a1, (putArea env w r).area? r = some a1
      ∧ (∀ y, 0 ≤ y → y < area.rows → y < w.vterm.height - area.offset_top →
          putAreaFirstColumn area y < w.vterm.width →
          toInt (a1.line y).xmin > toInt (a1.line y).xmax
          ∧ (toInt (area.line y).xmin ≤ toInt (area.line y).xmax →
              a1.line y = { area.line y with
                            xmin := (area.width + area.right_shadow).toNat, xmax := 0 }))
      ∧ (∀ y, (w.vterm.height - area.offset_top ≤ y
                ∨ w.vterm.width ≤ putAreaFirstColumn area y) →
          a1.line y = area.line y) := by
  obtain ⟨a1, h1, h2⟩ := putArea_area env w r area ha hvis hpre
  obtain ⟨hw0, hh0, hr0, hb0, hw31, hh31, hdata, hchg⟩ := hsz
  have hwd : toUInt (area.width + area.right_shadow)
      = (area.width + area.right_shadow).toNat := toUInt_of_nonneg (by omega) (by omega)
  refine ⟨a1, h1, ?_, ?_⟩
  · intro y hy0 hy hyt hcol
    by_cases hd : toInt (area.line y).xmin > toInt (area.line y).xmax
    · rw [h2 y, if_neg (fun h => h.2.2.2.2.1 hd)]
      exact ⟨hd, fun h => absurd hd (by omega)⟩
    · rw [h2 y, if_pos ⟨hy0, hy, hyt, by rw [hchg]; exact hy, hd, hcol⟩, hwd]
      refine ⟨?_, fun _ => rfl⟩
      show toInt (area.width + area.right_shadow).toNat > toInt 0
      rw [toInt_of_lt (by omega), toInt_of_lt (by norm_num)]
      push_cast
      omega
  · intro y hy
    rw [h2 y, if_neg (fun h => by
      have h3 := h.2.2.1
      have h4 := h.2.2.2.2.2
      omega)]

theorem C10_putArea_rows_clean_witness :
    (sampleWorld [⟨1, some (sampleDirtyArea 2 1 3 2 1 1)⟩]).area? (AreaRef.window 0)
        = some (sampleDirtyArea 2 1 3 2 1 1)
    ∧ (sampleDirtyArea 2 1 3 2 1 1).visible = true
    ∧ (sampleDirtyArea 2 1 3 2 1 1).preproc_list = []
    ∧ (sampleDirtyArea 2 1 3 2 1 1).Sized
    ∧ ∃ a1, (putArea sampleCompEnv (sampleWorld [⟨1, some (sampleDirtyArea 2 1 3 2 1 1)⟩])
          (AreaRef.window 0)).area? (AreaRef.window 0) = some a1
      ∧ (∀ y, 0 ≤ y → y < (sampleDirtyArea 2 1 3 2 1 1).rows →
          y < (sampleWorld [⟨1, some (sampleDirtyArea 2 1 3 2 1 1)⟩]).vterm.height
                - (sampleDirtyArea 2 1 3 2 1 1).offset_top →
          putAreaFirstColumn (sampleDirtyArea 2 1 3 2 1 1) y
            < (sampleWorld [⟨1, some (sampleDirtyArea 2 1 3 2 1 1)⟩]).vterm.width →
          toInt (a1.line y).xmin > toInt (a1.line y).xmax
          ∧ (toInt ((sampleDirtyArea 2 1 3 2 1 1).line y).xmin
                ≤ toInt ((sampleDirtyArea 2 1 3 2 1 1).line y).xmax →
              a1.line y = { (sampleDirtyArea 2 1 3 2 1 1).line y with
                            xmin := ((sampleDirtyArea 2 1 3 2 1 1).width
                                      + (sampleDirtyArea 2 1 3 2 1 1).right_shadow).toNat,
                            xmax := 0 }))
      ∧ (∀ y, ((sampleWorld [⟨1, some (sampleDirtyArea 2 1 3 2 1 1)⟩]).vterm.height
                  - (sampleDirtyArea 2 1 3 2 1 1).offset_top ≤ y
                ∨ (sampleWorld [⟨1, some (sampleDirtyArea 2 1 3 2 1 1)⟩]).vterm.width
                  ≤ putAreaFirstColumn (sampleDirtyArea 2 1 3 2 1 1) y) →
          a1.line y = (sampleDirtyArea 2 1 3 2 1 1).line y) :=
  ⟨rfl, rfl, rfl, by decide,
   C10_putArea_rows_clean sampleCompEnv (sampleWorld [⟨1, some (sampleDirtyArea 2 1 3 2 1 1)⟩])
     (AreaRef.window 0) (sampleDirtyArea 2 1 3 2 1 1) rfl rfl rfl (by decide)⟩

/-- C10 as stated fails for a surface that reaches below the terminal: a
visible 3 x 2 window surface at row 3 of a terminal with 4 rows, both rows
dirty over `[0, 2]`.  `putArea` visits the rows above the bottom edge only:
row 0 is reset to `xmin = 3`, `xmax = 0`, and row 1 keeps the dirty range
`[0, 2]`. -/
theorem C10_putArea_row_below_terminal_counterexample :
    ((sampleWorld [⟨1, some (sampleDirtyArea 0 3 3 2 0 0)⟩]).area? (AreaRef.window 0)).map
        (fun a => (a.visible, a.line 0, a.line 1))
      = some (true, { xmin := 0, xmax := 2, trans_count := 0 },
                    { xmin := 0, xmax := 2, trans_count := 0 })
    ∧ ((putArea sampleCompEnv (sampleWorld [⟨1, some (sampleDirtyArea 0 3 3 2 0 0)⟩])
          (AreaRef.window 0)).area? (AreaRef.window 0)).map
        (fun a => (a.line 0, a.line 1, decide (toInt (a.line 1).xmin > toInt (a.line 1).xmax)))
      = some ({ xmin := 3, xmax := 0, trans_count := 0 },
              { xmin := 0, xmax := 2, trans_count := 0 }, false) := by
  decide

/-! ## Printing a run of cells: the surface afterwards -/

theorem printStore_ne_eq (a : FTermArea) (nc : FChar)
    (hx : 1 ≤ a.cursor_x ∧ a.cursor_x ≤ a.width + a.right_shadow)
    (hy : 1 ≤ a.cursor_y ∧ a.cursor_y ≤ a.height + a.bottom_shadow)
    (h : FChar.ne (a.at (a.cursor_x - 1) (a.cursor_y - 1)) nc = true) :
    printStore a nc
      = { a with
          data := bufSet a.data ((a.cursor_y - 1) * a.lineLen + (a.cursor_x - 1)) nc,
          changes := bufSet a.changes (a.cursor_y - 1)
            (printDirtyRange (a.cursor_x - 1)
              (printTransCount (a.at (a.cursor_x - 1) (a.cursor_y - 1)) nc
                (a.line (a.cursor_y - 1)))) } := by
  have hcond : a.cursor_x > 0 ∧ a.cursor_y > 0 ∧ a.cursor_x - 1 < a.width + a.right_shadow
      ∧ a.cursor_y - 1 < a.height + a.bottom_shadow := by omega
  simp only [FTermArea.at, FTermArea.cell, FTermArea.lineLen] at h
  unfold printStore
  simp only [if_pos hcond, h, if_true, FTermArea.at, FTermArea.cell, FTermArea.line,
    FTermArea.lineLen]

/-- The surface after printing a run of single-width cells without a line
break, each of which differs from the cell stored at its position. -/
theorem foldl_printOne_spec (env : PrintEnv) (cells : List FChar) :
    ∀ area : FTermArea, area.Sized →
      1 ≤ area.cursor_x → 1 ≤ area.cursor_y → area.cursor_y ≤ area.rows →
      area.cursor_x + cells.length ≤ area.lineLen + 1 →
      (area.line (area.cursor_y - 1)).xmin < 2 ^ 31 →
      (area.line (area.cursor_y - 1)).xmax < 2 ^ 31 →
      (∀ i (h : i < cells.length),
        FChar.ne (area.at (area.cursor_x - 1 + (i : Int)) (area.cursor_y - 1))
          (env.getColumnWidth cells[i]).2 = true) →
      bufSize (cells.foldl (printOne env) area).data = bufSize area.data
      ∧ bufSize (cells.foldl (printOne env) area).changes = bufSize area.changes
      ∧ (∀ i (h : i < cells.length),
          (cells.foldl (printOne env) area).cell
              ((area.cursor_y - 1) * area.lineLen + (area.cursor_x - 1 + (i : Int)))
            = (env.getColumnWidth cells[i]).2)
      ∧ (∀ j, (∀ i : Nat, i < cells.length →
              j ≠ (area.cursor_y - 1) * area.lineLen + (area.cursor_x - 1 + (i : Int))) →
          (cells.foldl (printOne env) area).cell j = area.cell j)
      ∧ (∀ y, y ≠ area.cursor_y - 1 →
          (cells.foldl (printOne env) area).line y = area.line y)
      ∧ ((cells.foldl (printOne env) area).line (area.cursor_y - 1)).xmin
          = (if cells.length = 0 then (area.line (area.cursor_y - 1)).xmin
             else min (area.line (area.cursor_y - 1)).xmin (area.cursor_x - 1).toNat)
      ∧ ((cells.foldl (printOne env) area).line (area.cursor_y - 1)).xmax
          = (if cells.length = 0 then (area.line (area.cursor_y - 1)).xmax
             else max (area.line (area.cursor_y - 1)).xmax
                    (area.cursor_x + cells.length - 2).toNat) := by
  induction cells with
  | nil =>
    intro area _ _ _ _ _ _ _ _
    exact ⟨rfl, rfl, fun i h => absurd h (by simp), fun _ _ => rfl, fun _ _ => rfl,
      by simp, by simp⟩
  | cons c rest ih =>
    intro area hsz hx hy hy2 hn hmin hmax hdiff
    have hsz2 := hsz
    obtain ⟨hw0, hh0, hr0, hb0, hw31, hh31, hdata, hchg⟩ := hsz
    simp only [FTermArea.lineLen, FTermArea.rows, List.length_cons] at hn hy2 hdata hchg
    push_cast at hn
    have hne0 := hdiff 0 (by simp)
    simp only [Nat.cast_zero, add_zero, List.getElem_cons_zero] at hne0
    have hst := printStore_ne_eq area (env.getColumnWidth c).2 ⟨hx, by omega⟩ ⟨hy, hy2⟩ hne0
    have hidx := cell_index_bounds (x := area.cursor_x - 1) (y := area.cursor_y - 1)
      (l := area.width + area.right_shadow) (r := area.height + area.bottom_shadow)
      (by omega) (by omega) (by omega) (by omega)
    have hrow : (area.cursor_y - 1 : Int) < bufSize area.changes := by rw [hchg]; omega
    have hrng := printDirtyRange_spec (area.cursor_x - 1)
      (printTransCount (area.at (area.cursor_x - 1) (area.cursor_y - 1))
        (env.getColumnWidth c).2 (area.line (area.cursor_y - 1)))
      (by omega) (by omega) (by rw [printTransCount_xmin]; exact hmin)
      (by rw [printTransCount_xmax]; exact hmax)
    rw [printTransCount_xmin, printTransCount_xmax] at hrng
    -- the surface after the first cell
    have e1 : printOne env area c
        = { area with
            cursor_x := area.cursor_x + 1, has_changes := true,
            data := bufSet area.data
              ((area.cursor_y - 1) * area.lineLen + (area.cursor_x - 1))
              (env.getColumnWidth c).2,
            changes := bufSet area.changes (area.cursor_y - 1)
              (printDirtyRange (area.cursor_x - 1)
                (printTransCount (area.at (area.cursor_x - 1) (area.cursor_y - 1))
                  (env.getColumnWidth c).2 (area.line (area.cursor_y - 1)))) } := by
      unfold printOne; rw [hst]
    have hcx : (printOne env area c).cursor_x = area.cursor_x + 1 := rfl
    have hcy : (printOne env area c).cursor_y = area.cursor_y := by rw [e1]
    have hL : (printOne env area c).lineLen = area.lineLen := by rw [e1]; rfl
    have hR : (printOne env area c).rows = area.rows := by rw [e1]; rfl
    have hd1 : (printOne env area c).data = bufSet area.data
        ((area.cursor_y - 1) * area.lineLen + (area.cursor_x - 1))
        (env.getColumnWidth c).2 := by rw [e1]
    have hc1 : (printOne env area c).changes = bufSet area.changes (area.cursor_y - 1)
        (printDirtyRange (area.cursor_x - 1)
          (printTransCount (area.at (area.cursor_x - 1) (area.cursor_y - 1))
            (env.getColumnWidth c).2 (area.line (area.cursor_y - 1)))) := by rw [e1]
    have hline1 : (printOne env area c).line (area.cursor_y - 1)
        = printDirtyRange (area.cursor_x - 1)
          (printTransCount (area.at (area.cursor_x - 1) (area.cursor_y - 1))
            (env.getColumnWidth c).2 (area.line (area.cursor_y - 1))) := by
      unfold FTermArea.line
      rw [hc1]
      exact bufGet_bufSet_eq _ _ (by omega) hrow
    have hsz1 : (printOne env area c).Sized := by
      obtain ⟨d1, d2, d3, d4, _⟩ := printOne_dims env area c
      refine ⟨by rw [d1]; exact hw0, by rw [d2]; exact hh0, by rw [d3]; exact hr0,
        by rw [d4]; exact hb0, by rw [d1, d3]; exact hw31, by rw [d2, d4]; exact hh31, ?_, ?_⟩
      · rw [hd1, bufSize_bufSet, hL, hR]; exact hsz2.2.2.2.2.2.2.1
      · rw [hc1, bufSize_bufSet, hR]; exact hsz2.2.2.2.2.2.2.2
    have hdiff1 : ∀ i (h : i < rest.length),
        FChar.ne ((printOne env area c).at ((printOne env area c).cursor_x - 1 + (i : Int))
          ((printOne env area c).cursor_y - 1)) (env.getColumnWidth rest[i]).2 = true := by
      intro i h
      have h2 := hdiff (i + 1) (by simp; omega)
      simp only [List.getElem_cons_succ] at h2
      simp only [FTermArea.at, FTermArea.cell, hcx, hcy, hL, hd1] at h2 ⊢
      rw [bufGet_bufSet_ne _ _ (by omega)]
      have e : area.cursor_x + 1 - 1 + (i : Int) = area.cursor_x - 1 + ((i + 1 : Nat) : Int) := by
        push_cast; omega
      rw [e]; exact h2
    obtain ⟨r2, r3, r4, r5, r6, r7, r8⟩ := ih (printOne env area c) hsz1
      (by rw [hcx]; omega) (by rw [hcy]; exact hy) (by rw [hcy, hR]; exact hy2)
      (by rw [hcx, hL]; unfold FTermArea.lineLen; omega)
      (by rw [hcy, hline1, hrng.1]; omega) (by rw [hcy, hline1, hrng.2.1]; omega) hdiff1
    simp only [hcx, hcy, hL, hline1, hrng.1, hrng.2.1] at r4 r5 r6 r7 r8
    rw [List.foldl_cons]
    refine ⟨by rw [r2, hd1, bufSize_bufSet], by rw [r3, hc1, bufSize_bufSet], ?_, ?_, ?_, ?_, ?_⟩
    · intro i h
      cases i with
      | zero =>
        rw [r5 _ (fun i' _ => by push_cast; omega)]
        simp only [FTermArea.cell, hd1, Nat.cast_zero, add_zero, List.getElem_cons_zero]
        exact bufGet_bufSet_eq _ _ hidx.1 (by rw [hsz2.2.2.2.2.2.2.1]; exact hidx.2)
      | succ i' =>
        have h4 := r4 i' (by simpa using h)
        simp only [List.getElem_cons_succ]
        have e : area.cursor_x + 1 - 1 + (i' : Int)
            = area.cursor_x - 1 + ((i' + 1 : Nat) : Int) := by push_cast; omega
        rw [e] at h4
        exact h4
    · intro j hj
      rw [r5 j (fun i' hi' => by
        have := hj (i' + 1) (by simp; omega)
        push_cast at this
        omega)]
      simp only [FTermArea.cell, hd1]
      apply bufGet_bufSet_ne
      have := hj 0 (by simp)
      simp only [Nat.cast_zero, add_zero] at this
      exact Ne.symm this
    · intro y hy'
      rw [r6 y hy']
      simp only [FTermArea.line, hc1]
      exact bufGet_bufSet_ne _ _ (Ne.symm hy')
    · rw [r7]
      simp only [List.length_cons, Nat.succ_ne_zero, if_false]
      split_ifs <;> omega
    · rw [r8]
      simp only [List.length_cons, Nat.succ_ne_zero, if_false]
      push_cast
      split_ifs with h0
      · rw [h0]; simp only [Nat.cast_zero]
        have : area.cursor_x + (0 + 1) - 2 = area.cursor_x - 1 := by omega
        rw [this]
      · omega

theorem foldl_printOne_dims (env : PrintEnv) (cells : List FChar) :
    ∀ a : FTermArea,
      (cells.foldl (printOne env) a).width = a.width
      ∧ (cells.foldl (printOne env) a).height = a.height
      ∧ (cells.foldl (printOne env) a).right_shadow = a.right_shadow
      ∧ (cells.foldl (printOne env) a).bottom_shadow = a.bottom_shadow
      ∧ (cells.foldl (printOne env) a).offset_left = a.offset_left
      ∧ (cells.foldl (printOne env) a).offset_top = a.offset_top
      ∧ (cells.foldl (printOne env) a).visible = a.visible
      ∧ (cells.foldl (printOne env) a).preproc_list = a.preproc_list
      ∧ (cells.foldl (printOne env) a).widget = a.widget := by
  induction cells with
  | nil => intro a; exact ⟨rfl, rfl, rfl, rfl, rfl, rfl, rfl, rfl, rfl⟩
  | cons c rest ih =>
    intro a
    obtain ⟨h1, h2, h3, h4, h5, h6, h7, h8, h9⟩ := ih (printOne env a c)
    obtain ⟨d1, d2, d3, d4, d5, d6, d7, d8, d9⟩ := printOne_dims env a c
    rw [List.foldl_cons]
    exact ⟨h1.trans d1, h2.trans d2, h3.trans d3, h4.trans d4, h5.trans d5, h6.trans d6,
      h7.trans d7, h8.trans d8, h9.trans d9⟩

/-! ## Compositing: the cells `putArea` writes -/

theorem windowsAfter_setArea (w : World) (r : AreaRef) (a : FTermArea) :
    windowsAfter (w.setArea r a) r = windowsAfter w r := by
  cases r with
  | desktop => rfl
  | child i => rfl
  | window i =>
    unfold windowsAfter World.setArea
    simp only []
    cases w.window_list[i]? with
    | none => rfl
    | some win_obj =>
      simp only []
      exact List.drop_set_of_lt _ _ (Nat.lt_succ_self i)

theorem windowsAfter_vterm (w : World) (vt : FTermArea) (r : AreaRef) :
    windowsAfter ({ w with vterm := vt } : World) r = windowsAfter w r := by
  cases r <;> rfl

theorem coveredStateSpec_congr (w w1 : World) (pos : Int × Int) (r : AreaRef)
    (h : windowsAfter w1 r = windowsAfter w r) :
    coveredStateSpec w1 pos r = coveredStateSpec w pos r := by
  unfold coveredStateSpec; rw [h]

theorem isCovered_setVTermData (w : World) (d : Option (List FChar)) (pos : Int × Int)
    (r : AreaRef) : isCovered (w.setVTermData d) pos r = isCovered w pos r := rfl

theorem updateVTermCharacter_plain (env : CompEnv) (w : World) (r : AreaRef) (a : FTermArea)
    (area_pos terminal_pos : Int × Int) (ha : w.area? r = some a)
    (hcov : isCovered w terminal_pos r = covered_state.non_covered)
    (hop : (a.cell (area_pos.2 * (a.width + a.right_shadow) + area_pos.1)).isTrans = false) :
    (updateVTermCharacter env w r area_pos terminal_pos).2
      = w.setVTermCell (terminal_pos.2 * w.vterm.width + terminal_pos.1)
          { a.cell (area_pos.2 * (a.width + a.right_shadow) + area_pos.1) with
            no_changes := (a.cell (area_pos.2 * (a.width + a.right_shadow)
                            + area_pos.1)).printed } := by
  unfold FChar.isTrans at hop
  simp only [Bool.or_eq_false_iff] at hop
  unfold updateVTermCharacter
  rw [ha]
  simp only []
  rw [if_neg (by rw [hcov]; decide), if_neg (by rw [hcov]; decide),
    if_neg (by rw [hop.1.1]; decide), if_neg (by rw [hop.1.2]; decide),
    if_neg (by rw [hop.2]; decide)]
  exact updateCharacter_eq w a area_pos terminal_pos

theorem putAreaColumn_world (env : CompEnv) (r : AreaRef) (ax ay ol y : Int) (st : ColumnLoop)
    (x : Int) (h : ¬ (ax + x < 0 ∨ ay + y < 0)) :
    (putAreaColumn env r ax ay ol y st x).world
      = (updateVTermCharacter env st.world r (x, y) (ax + x - ol, ay + y)).2 := by
  unfold putAreaColumn
  simp only []
  rw [if_neg h]

/-- A column of the loop whose surface cell is plain (none of the three
transparency flags) and whose terminal position is not covered ends up in
the full-screen buffer as a copy of the surface cell. -/
theorem columnLoop_hit (env : CompEnv) (r : AreaRef) (ax ay ol y : Int) (a : FTermArea)
    (xt : Int) (xs : List Int) :
    ∀ st : ColumnLoop, xt ∈ xs →
      st.world.area? r = some a →
      isCovered st.world (ax + xt - ol, ay + y) r = covered_state.non_covered →
      (a.cell (y * (a.width + a.right_shadow) + xt)).isTrans = false →
      ¬ (ax + xt < 0 ∨ ay + y < 0) →
      0 ≤ (ay + y) * st.world.vterm.width + (ax + xt - ol) →
      (ay + y) * st.world.vterm.width + (ax + xt - ol) < (bufSize st.world.vterm.data : Int) →
      (xs.foldl (putAreaColumn env r ax ay ol y) st).world.vterm.cell
          ((ay + y) * st.world.vterm.width + (ax + xt - ol))
        = { a.cell (y * (a.width + a.right_shadow) + xt) with
            no_changes := (a.cell (y * (a.width + a.right_shadow) + xt)).printed } := by
  induction xs with
  | nil => intro st hx; cases hx
  | cons x rest ih =>
    intro st hx ha hcov hop hpos h0 hlt
    rw [List.foldl_cons]
    by_cases hmem : xt ∈ rest
    · obtain ⟨d1, e1, s1, _⟩ := putAreaColumn_frame env r ax ay ol y st x
      have hw : (putAreaColumn env r ax ay ol y st x).world.vterm.width
          = st.world.vterm.width := by rw [e1]; rfl
      have h := ih (putAreaColumn env r ax ay ol y st x) hmem
        (by rw [e1, setVTermData_area?]; exact ha)
        (by rw [e1, isCovered_setVTermData]; exact hcov) hop hpos
        (by rw [hw]; exact h0)
        (by rw [hw, e1]; show _ < (bufSize d1 : Int); rw [s1]; exact hlt)
      rw [hw] at h
      exact h
    · have hxe : x = xt := by
        cases hx with
        | head => rfl
        | tail _ h => exact absurd h hmem
      subst hxe
      have e1 := putAreaColumn_world env r ax ay ol y st x hpos
      rw [updateVTermCharacter_plain env st.world r a (x, y) (ax + x - ol, ay + y) ha hcov hop]
        at e1
      obtain ⟨d2, e2, _, g2⟩ := columnLoop_frame env r ax ay ol y rest
        (putAreaColumn env r ax ay ol y st x)
      rw [e2]
      show bufGet d2 _ = _
      have hw : (putAreaColumn env r ax ay ol y st x).world.vterm.width
          = st.world.vterm.width := by rw [e1]; rfl
      rw [hw] at g2
      rw [g2 _ (fun x' hx' => by
        intro he
        have : x' = x := by omega
        rw [this] at hx'
        exact hmem hx'), e1]
      show bufGet (bufSet st.world.vterm.data _ _) _ = _
      exact bufGet_bufSet_eq _ _ h0 hlt

theorem mem_forRange (first last x : Int) :
    x ∈ forRange first last ↔ first ≤ x ∧ x ≤ last := by
  unfold forRange
  simp only [List.mem_map, List.mem_range]
  constructor
  · rintro ⟨k, hk, rfl⟩
    omega
  · intro h
    exact ⟨(x - first).toNat, by omega, by omega⟩

theorem rangesInside_line (a : FTermArea) (h : a.RangesInside) (y : Int) (h0 : 0 ≤ y)
    (h1 : y < (bufSize a.changes : Int)) :
    ((a.line y).xmin : Int) ≤ a.lineLen ∧ ((a.line y).xmax : Int) < a.lineLen := by
  unfold FTermArea.RangesInside at h
  unfold FTermArea.line
  cases hc : a.changes with
  | none => rw [hc] at h1; simp [bufSize] at h1; omega
  | some l =>
    rw [hc] at h h1
    simp only [bufSize] at h1
    simp only [Option.getD_some] at h
    have hl : y.toNat < l.length := by omega
    have hm : l.getD y.toNat default ∈ l := by
      rw [List.getD_eq_getElem _ _ hl]
      exact List.getElem_mem hl
    simp only [bufGet, h0, if_true]
    exact h _ hm

/-- The cells of the full-screen buffer that one pass of the line loop of
`putArea` leaves untouched. -/
theorem putAreaRow_frame (env : CompEnv) (r : AreaRef) (ax ay ol width : Int) (w : World)
    (y : Int) (a : FTermArea) (ha : w.area? r = some a) :
    bufSize (putAreaRow env r ax ay ol width w y).vterm.data = bufSize w.vterm.data
    ∧ windowsAfter (putAreaRow env r ax ay ol width w y) r = windowsAfter w r
    ∧ ∀ j, (∀ x, (if ax = 0 then ol else toInt (a.line y).xmin) ≤ x →
              x ≤ (if width + ax - ol ≥ w.vterm.width then w.vterm.width + ol - ax - 1
                   else toInt (a.line y).xmax) →
              j ≠ (ay + y) * w.vterm.width + (ax + x - ol)) →
        (putAreaRow env r ax ay ol width w y).vterm.cell j = w.vterm.cell j := by
  by_cases h1 : toInt (a.line y).xmin > toInt (a.line y).xmax
  · have e : putAreaRow env r ax ay ol width w y = w := by
      unfold putAreaRow; rw [ha]; simp only []; rw [if_pos h1]
    rw [e]; exact ⟨rfl, rfl, fun _ _ => rfl⟩
  · by_cases h2 : ax + (if ax = 0 then ol else toInt (a.line y).xmin) ≥ w.vterm.width
    · have e : putAreaRow env r ax ay ol width w y = w := by
        unfold putAreaRow; rw [ha]; simp only []; rw [if_neg h1, if_pos h2]
      rw [e]; exact ⟨rfl, rfl, fun _ _ => rfl⟩
    · rw [putAreaRow_dirty env r ax ay ol width w y a ha h1 h2]
      obtain ⟨d, hd, hs, hg⟩ := columnLoop_world env r ax ay ol y w
        (if ax = 0 then ol else toInt (a.line y).xmin)
        (if width + ax - ol ≥ w.vterm.width then w.vterm.width + ol - ax - 1
         else toInt (a.line y).xmax)
      generalize columnLoop env r ax ay ol y w (if ax = 0 then ol else toInt (a.line y).xmin)
        (if width + ax - ol ≥ w.vterm.width then w.vterm.width + ol - ax - 1
         else toInt (a.line y).xmax) = st at hd ⊢
      refine ⟨?_, ?_, ?_⟩
      · rw [setArea_vterm]
        show bufSize (putAreaDirtyRange _ _ _ _).data = _
        rw [putAreaDirtyRange_fields, hd]; exact hs
      · rw [windowsAfter_setArea, windowsAfter_vterm, hd]; rfl
      · intro j hj
        rw [setArea_vterm]
        show bufGet (putAreaDirtyRange _ _ _ _).data j = _
        rw [putAreaDirtyRange_fields, hd]
        exact hg j (fun x hx => hj x ((mem_forRange _ _ x).1 hx).1 ((mem_forRange _ _ x).1 hx).2)

/-- The cell of the full-screen buffer that one pass of the line loop of
`putArea` writes for a plain, uncovered surface cell inside the range it
visits. -/
theorem putAreaRow_hit (env : CompEnv) (r : AreaRef) (ax ay ol width : Int) (w : World)
    (y xt : Int) (a : FTermArea) (ha : w.area? r = some a)
    (h1 : ¬ (toInt (a.line y).xmin > toInt (a.line y).xmax))
    (h2 : ¬ (ax + (if ax = 0 then ol else toInt (a.line y).xmin) ≥ w.vterm.width))
    (hlo : (if ax = 0 then ol else toInt (a.line y).xmin) ≤ xt)
    (hhi : xt ≤ (if width + ax - ol ≥ w.vterm.width then w.vterm.width + ol - ax - 1
                 else toInt (a.line y).xmax))
    (hcov : isCovered w (ax + xt - ol, ay + y) r = covered_state.non_covered)
    (hop : (a.cell (y * (a.width + a.right_shadow) + xt)).isTrans = false)
    (hpos : ¬ (ax + xt < 0 ∨ ay + y < 0))
    (h0 : 0 ≤ (ay + y) * w.vterm.width + (ax + xt - ol))
    (hlt : (ay + y) * w.vterm.width + (ax + xt - ol) < (bufSize w.vterm.data : Int)) :
    (putAreaRow env r ax ay ol width w y).vterm.cell
        ((ay + y) * w.vterm.width + (ax + xt - ol))
      = { a.cell (y * (a.width + a.right_shadow) + xt) with
          no_changes := (a.cell (y * (a.width + a.right_shadow) + xt)).printed } := by
  rw [putAreaRow_dirty env r ax ay ol width w y a ha h1 h2, setArea_vterm]
  show bufGet (putAreaDirtyRange _ _ _ _).data _ = _
  rw [putAreaDirtyRange_fields]
  exact columnLoop_hit env r ax ay ol y a xt _
    { world := w, modified := false,
      line_xmin := if ax = 0 then ol else toInt (a.line y).xmin }
    ((mem_forRange _ _ xt).2 ⟨hlo, hhi⟩) ha hcov hop hpos h0 hlt

theorem ite_setLine_fields (C : Prop) [Decidable C] (ak : FTermArea) (y : Int)
    (c : FLineChanges) :
    (if C then ak.setLine y c else ak).data = ak.data
    ∧ (if C then ak.setLine y c else ak).visible = ak.visible
    ∧ (if C then ak.setLine y c else ak).width = ak.width
    ∧ (if C then ak.setLine y c else ak).right_shadow = ak.right_shadow
    ∧ ∀ y1 : Int, y ≠ y1 → (if C then ak.setLine y c else ak).line y1 = ak.line y1 := by
  by_cases h : C
  · rw [if_pos h]
    refine ⟨rfl, rfl, rfl, rfl, fun y1 hne => ?_⟩
    unfold FTermArea.setLine FTermArea.line
    exact bufGet_bufSet_ne _ _ hne
  · rw [if_neg h]
    exact ⟨rfl, rfl, rfl, rfl, fun _ _ => rfl⟩

/-- The line loop of `putArea` over a surface that lies inside the terminal:
a plain cell inside the dirty range of its row, which no later window
covers, is in the full-screen buffer afterwards. -/
theorem putArea_rows_cell (env : CompEnv) (r : AreaRef) (ax ay : Int) (w : World)
    (a : FTermArea) (ha : w.area? r = some a) (hvis : a.visible = true) (hsz : a.Sized)
    (hri : ∀ y1 : Int, 0 ≤ y1 → y1 < a.height + a.bottom_shadow →
      ((a.line y1).xmin : Int) ≤ a.width + a.right_shadow
      ∧ ((a.line y1).xmax : Int) < a.width + a.right_shadow)
    (hax : 0 ≤ ax) (hfit : ax + (a.width + a.right_shadow) ≤ w.vterm.width)
    (hay : 0 ≤ ay) (hfity : ay + (a.height + a.bottom_shadow) ≤ w.vterm.height)
    (hdata : (bufSize w.vterm.data : Int) = w.vterm.width * w.vterm.height)
    (x y : Int) (hy0 : 0 ≤ y) (hy1 : y < a.height + a.bottom_shadow)
    (hx0 : toInt (a.line y).xmin ≤ x) (hx1 : x ≤ toInt (a.line y).xmax)
    (hop : (a.cell (y * (a.width + a.right_shadow) + x)).isTrans = false)
    (hcov : coveredStateSpec w (ax + x - 0, ay + y) r = covered_state.non_covered) :
    ((forRange 0 (a.height + a.bottom_shadow - 1)).foldl
        (putAreaRow env r ax ay 0 (a.width + a.right_shadow)) w).vterm.cell
        ((ay + y) * w.vterm.width + (ax + x - 0))
      = { a.cell (y * (a.width + a.right_shadow) + x) with
          no_changes := (a.cell (y * (a.width + a.right_shadow) + x)).printed } := by
  obtain ⟨hw0, hh0, hr0, hb0, hw31, hh31, hdsz, hcsz⟩ := hsz
  unfold FTermArea.rows at hcsz
  have hrange : ∀ y1 : Int, 0 ≤ y1 → y1 < a.height + a.bottom_shadow →
      toInt (a.line y1).xmin = ((a.line y1).xmin : Int)
      ∧ toInt (a.line y1).xmax = ((a.line y1).xmax : Int)
      ∧ ((a.line y1).xmin : Int) ≤ a.width + a.right_shadow
      ∧ ((a.line y1).xmax : Int) < a.width + a.right_shadow := by
    intro y1 h0 h1
    have h := hri y1 h0 h1
    exact ⟨toInt_of_lt (by omega), toInt_of_lt (by omega), h.1, h.2⟩
  obtain ⟨ty1, ty2, ty3, ty4⟩ := hrange y hy0 hy1
  have hxL : x < a.width + a.right_shadow := by omega
  have hx00 : 0 ≤ x := by omega
  have hidx := @cell_index_bounds (ax + x - 0) (ay + y) w.vterm.width w.vterm.height
    (by omega) (by omega) (by omega) (by omega)
  have key := forRange_foldl_inv (putAreaRow env r ax ay 0 (a.width + a.right_shadow)) 0
    (a.height + a.bottom_shadow - 1)
    (fun k wk => wk.vterm.width = w.vterm.width
      ∧ bufSize wk.vterm.data = bufSize w.vterm.data
      ∧ windowsAfter wk r = windowsAfter w r
      ∧ (∃ ak, wk.area? r = some ak ∧ ak.data = a.data ∧ ak.visible = true
          ∧ ak.width = a.width ∧ ak.right_shadow = a.right_shadow
          ∧ ∀ y1 : Int, (k : Int) ≤ y1 → ak.line y1 = a.line y1)
      ∧ (y < (k : Int) →
          wk.vterm.cell ((ay + y) * w.vterm.width + (ax + x - 0))
            = { a.cell (y * (a.width + a.right_shadow) + x) with
                no_changes := (a.cell (y * (a.width + a.right_shadow) + x)).printed }))
    w ⟨rfl, rfl, rfl, ⟨a, ha, rfl, hvis, rfl, rfl, fun _ _ => rfl⟩, fun h => by omega⟩
    (by
      intro k wk hk ⟨iw, isz, iwa, ⟨ak, hak, akd, akv, akw, akr, akl⟩, icell⟩
      have hk1 : (0 : Int) + (k : Int) < a.height + a.bottom_shadow := by omega
      have hk0 : (0 : Int) ≤ 0 + (k : Int) := by omega
      obtain ⟨p1, p2, _⟩ := putAreaRow_area env r ax ay 0 (a.width + a.right_shadow) wk
        (0 + (k : Int)) ak hak
      obtain ⟨f1, f2, f3⟩ := putAreaRow_frame env r ax ay 0 (a.width + a.right_shadow) wk
        (0 + (k : Int)) ak hak
      have hline : ak.line (0 + (k : Int)) = a.line (0 + (k : Int)) := akl _ (by omega)
      obtain ⟨tk1, tk2, tk3, tk4⟩ := hrange (0 + (k : Int)) hk0 hk1
      rw [hline, iw] at f3
      obtain ⟨g1, g2, g3, g4, g5⟩ := ite_setLine_fields
        (¬ (toInt (ak.line (0 + (k : Int))).xmin > toInt (ak.line (0 + (k : Int))).xmax)
          ∧ ¬ (ax + (if ax = 0 then 0 else toInt (ak.line (0 + (k : Int))).xmin)
                ≥ wk.vterm.width))
        ak (0 + (k : Int))
        { ak.line (0 + (k : Int)) with xmin := toUInt (a.width + a.right_shadow), xmax := 0 }
      refine ⟨by rw [p2, iw], by rw [f1, isz], by rw [f2, iwa],
        ⟨_, p1, g1.trans akd, g2.trans akv, g3.trans akw, g4.trans akr, ?_⟩, ?_⟩
      · intro y1 hy1k
        rw [g5 y1 (by push_cast at hy1k; omega)]
        exact akl y1 (by push_cast at hy1k; omega)
      · intro hyk
        by_cases hyeq : y = 0 + (k : Int)
        · subst hyeq
          have hcell : ak.cell ((0 + (k : Int)) * (ak.width + ak.right_shadow) + x)
              = a.cell ((0 + (k : Int)) * (a.width + a.right_shadow) + x) := by
            unfold FTermArea.cell; rw [akd, akw, akr]
          have hit := putAreaRow_hit env r ax ay 0 (a.width + a.right_shadow) wk
            (0 + (k : Int)) x ak hak
            (by rw [hline]; omega)
            (by
              rw [hline, iw]
              by_cases c : ax = 0
              · rw [if_pos c]; omega
              · rw [if_neg c]; omega)
            (by
              rw [hline]
              by_cases c : ax = 0
              · rw [if_pos c]; omega
              · rw [if_neg c]; omega)
            (by
              rw [hline, iw]
              by_cases c : a.width + a.right_shadow + ax - 0 ≥ w.vterm.width
              · rw [if_pos c]; omega
              · rw [if_neg c]; omega)
            (by
              rw [isCovered_eq_coveredStateSpec wk _ r ak hak akv,
                coveredStateSpec_congr w wk _ r iwa]
              exact hcov)
            (by rw [hcell]; exact hop)
            (by omega)
            (by rw [iw]; exact hidx.1)
            (by rw [iw, isz, hdata]; exact hidx.2)
          rw [iw, hcell] at hit
          exact hit
        · have hlt : y < (k : Int) := by push_cast at hyk; omega
          rw [f3 _ (fun x1 hx1lo hx1hi => by
            intro heq
            have hx1a : 0 ≤ x1 := by
              by_cases c : ax = 0
              · rw [if_pos c] at hx1lo; exact hx1lo
              · rw [if_neg c] at hx1lo; omega
            have hx1b : ax + x1 < w.vterm.width := by
              by_cases c : a.width + a.right_shadow + ax - 0 ≥ w.vterm.width
              · rw [if_pos c] at hx1hi; omega
              · rw [if_neg c] at hx1hi; omega
            have := @row_sep (ax + x - 0) (ay + y) (ay + (0 + (k : Int))) w.vterm.width
              (by omega) (by omega) (by rw [heq]; omega) (by rw [heq]; omega)
            omega)]
          exact icell hlt)
  have hn : ((a.height + a.bottom_shadow - 1 - 0 + 1).toNat : Int) = a.height + a.bottom_shadow := by
    omega
  exact key.2.2.2.2 (by rw [hn]; exact hy1)

theorem updateVTermCursor_vterm_data (env : CompEnv) (w : World) (r : AreaRef) :
    (updateVTermCursor env w r).2.vterm.data = w.vterm.data := by
  unfold updateVTermCursor
  cases w.area? r with
  | none => rfl
  | some area =>
    simp only []
    split_ifs <;> rfl

/-- The function `putArea (FTermArea*)` on a visible surface without
pre-render handlers that lies inside the terminal: a plain cell inside the
dirty range of its row, which no later window covers, is in the full-screen
buffer afterwards, with `no_changes` holding its `printed` flag. -/
theorem putArea_cell (env : CompEnv) (w : World) (r : AreaRef) (a : FTermArea)
    (ha : w.area? r = some a) (hvis : a.visible = true) (hpre : a.preproc_list = [])
    (hsz : a.Sized)
    (hri : ∀ y1 : Int, 0 ≤ y1 → y1 < a.height + a.bottom_shadow →
      ((a.line y1).xmin : Int) ≤ a.width + a.right_shadow
      ∧ ((a.line y1).xmax : Int) < a.width + a.right_shadow)
    (hax : 0 ≤ a.offset_left) (hfit : a.offset_left + (a.width + a.right_shadow) ≤ w.vterm.width)
    (hay : 0 ≤ a.offset_top)
    (hfity : a.offset_top + (a.height + a.bottom_shadow) ≤ w.vterm.height)
    (hdata : (bufSize w.vterm.data : Int) = w.vterm.width * w.vterm.height)
    (x y : Int) (hy0 : 0 ≤ y) (hy1 : y < a.height + a.bottom_shadow)
    (hx0 : toInt (a.line y).xmin ≤ x) (hx1 : x ≤ toInt (a.line y).xmax)
    (hop : (a.cell (y * (a.width + a.right_shadow) + x)).isTrans = false)
    (hcov : coveredStateSpec w (a.offset_left + x, a.offset_top + y) r
              = covered_state.non_covered) :
    (putArea env w r).vterm.cell ((a.offset_top + y) * w.vterm.width + (a.offset_left + x))
      = { a.cell (y * (a.width + a.right_shadow) + x) with
          no_changes := (a.cell (y * (a.width + a.right_shadow) + x)).printed } := by
  have h := putArea_rows_cell env r a.offset_left a.offset_top w a ha hvis hsz hri hax hfit
    hay hfity hdata x y hy0 hy1 hx0 hx1 hop (by rw [sub_zero]; exact hcov)
  rw [sub_zero] at h
  unfold putArea
  rw [ha]
  simp only []
  rw [if_neg (by simp [hvis]), callPreprocessingHandler_nil env w r a ha hpre,
    if_neg (show ¬ a.offset_left < 0 by omega), if_neg (show ¬ a.offset_left < 0 by omega),
    if_neg (show ¬ a.height + a.bottom_shadow + a.offset_top > w.vterm.height by omega)]
  unfold FTermArea.cell
  rw [updateVTermCursor_vterm_data]
  exact h

theorem FChar.eq_no_changes (c : FChar) (b : Bool) :
    FChar.eq { c with no_changes := b } c = true := by
  unfold FChar.eq FChar.byte0 FChar.byte1
  simp

/-- C1: write/composite round trip.  On a visible surface without pre-render
handlers that lies fully inside the terminal, with the write cursor at
`(cx, cy)` inside it, printing `N` opaque single-width printable cells with
`cx + N <= width + right_shadow` (no wrap), each differing from the cell
stored at its position, returns `N`; when no later window covers the
positions written, `putArea (area)` afterwards leaves in the full-screen
buffer at `(offset_left + cx - 1 + i, offset_top + cy - 1)` the `i`-th cell
as `print` stored it (the cell after `getColumnWidth` has set its width
member), with `no_changes` holding its `printed` flag: the two are equal
under `operator ==` (character, colours, attributes).  A cell is opaque when
none of `transparent`, `trans_shadow`, `inherit_bg` is set, which is the case
in which `updateCharacter` copies it.  The surface and the full-screen
buffer are well formed: the arrays have the lengths `resizeArea` gives them
and every dirty range lies inside its row. -/
theorem C1_print_putArea_round_trip (penv : PrintEnv) (cenv : CompEnv) (fuel : Nat)
    (w : World) (r : AreaRef) (area : FTermArea) (cells : List FChar)
    (ha : w.area? r = some area) (hvis : area.visible = true)
    (hpre : area.preproc_list = []) (hsz : area.Sized) (hri : area.RangesInside)
    (hleft : 0 ≤ area.offset_left)
    (hright : area.offset_left + (area.width + area.right_shadow) ≤ w.vterm.width)
    (htop : 0 ≤ area.offset_top)
    (hbottom : area.offset_top + (area.height + area.bottom_shadow) ≤ w.vterm.height)
    (hdata : (bufSize w.vterm.data : Int) = w.vterm.width * w.vterm.height)
    (hcx : 1 ≤ area.cursor_x) (hcy : 1 ≤ area.cursor_y)
    (hcy2 : area.cursor_y ≤ area.height + area.bottom_shadow)
    (hn : area.cursor_x + cells.length ≤ area.width + area.right_shadow)
    (hcells : ∀ c ∈ cells, (penv.getColumnWidth c).1 = 1 ∧ c.printable
                ∧ (penv.getColumnWidth c).2.isTrans = false)
    (hdiff : ∀ i (h : i < cells.length),
      FChar.ne (area.at (area.cursor_x - 1 + (i : Int)) (area.cursor_y - 1))
        (penv.getColumnWidth cells[i]).2 = true)
    (hcov : ∀ i : Nat, i < cells.length →
      coveredStateSpec w (area.offset_left + (area.cursor_x - 1 + (i : Int)),
                          area.offset_top + (area.cursor_y - 1)) r
        = covered_state.non_covered) :
    ∃ area1, printString penv (fuel + 1) area cells = some ((cells.length : Int), area1)
      ∧ ∀ i (h : i < cells.length),
          (putArea cenv (w.setArea r area1) r).vterm.cell
              ((area.offset_top + (area.cursor_y - 1)) * w.vterm.width
                + (area.offset_left + (area.cursor_x - 1 + (i : Int))))
            = { (penv.getColumnWidth cells[i]).2 with
                no_changes := (penv.getColumnWidth cells[i]).2.printed }
          ∧ FChar.eq ((putArea cenv (w.setArea r area1) r).vterm.cell
                ((area.offset_top + (area.cursor_y - 1)) * w.vterm.width
                  + (area.offset_left + (area.cursor_x - 1 + (i : Int)))))
              (penv.getColumnWidth cells[i]).2 = true := by
  have hprint : printString penv (fuel + 1) area cells
      = some ((cells.length : Int), cells.foldl (printOne penv) area) := by
    by_cases hnil : cells = []
    · subst hnil; simp [printString]
    · rw [printString, if_neg hnil, printLoop_single_width penv fuel cells 0 area
        (fun c hc => ⟨(hcells c hc).1, (hcells c hc).2.1⟩) hn hcy2]
      simp
  refine ⟨cells.foldl (printOne penv) area, hprint, ?_⟩
  intro i hi
  have hsz0 := hsz
  obtain ⟨hw0, hh0, hr0, hb0, hw31, hh31, hdsz, hcsz⟩ := hsz
  unfold FTermArea.rows at hcsz
  have hline : ∀ y1 : Int, 0 ≤ y1 → y1 < area.height + area.bottom_shadow →
      ((area.line y1).xmin : Int) ≤ area.width + area.right_shadow
      ∧ ((area.line y1).xmax : Int) < area.width + area.right_shadow := by
    intro y1 h0 h1
    have h := rangesInside_line area hri y1 h0 (by rw [hcsz]; exact h1)
    unfold FTermArea.lineLen at h
    exact h
  obtain ⟨hl1, hl2⟩ := hline (area.cursor_y - 1) (by omega) (by omega)
  obtain ⟨s1, s2, s3, s4, s5, s6, s7⟩ := foldl_printOne_spec penv cells area hsz0 hcx hcy
    (by unfold FTermArea.rows; exact hcy2) (by unfold FTermArea.lineLen; omega)
    (by omega) (by omega) hdiff
  obtain ⟨d1, d2, d3, d4, d5, d6, d7, d8, d9⟩ := foldl_printOne_dims penv cells area
  generalize cells.foldl (printOne penv) area = area1 at s1 s2 s3 s4 s5 s6 s7 d1 d2 d3 d4 d5 d6 d7 d8 d9 ⊢
  have hN : cells.length ≠ 0 := by omega
  rw [if_neg hN] at s6 s7
  unfold FTermArea.lineLen at s3
  have hcell := s3 i hi
  have hmem : cells[i] ∈ cells := List.getElem_mem hi
  have key := putArea_cell cenv (w.setArea r area1) r area1 (area?_setArea w r area area1 ha)
    (by rw [d7]; exact hvis) (by rw [d8]; exact hpre)
    ⟨by rw [d1]; exact hw0, by rw [d2]; exact hh0, by rw [d3]; exact hr0, by rw [d4]; exact hb0,
      by rw [d1, d3]; exact hw31, by rw [d2, d4]; exact hh31,
      by unfold FTermArea.lineLen FTermArea.rows at hdsz ⊢; rw [s1, d1, d2, d3, d4]; exact hdsz,
      by unfold FTermArea.rows; rw [s2, d2, d4]; exact hcsz⟩
    (by
      intro y1 h0 h1
      rw [d1, d3]
      rw [d2, d4] at h1
      by_cases hy : y1 = area.cursor_y - 1
      · subst hy
        rw [s6, s7]
        constructor
        · have := Nat.min_le_left (area.line (area.cursor_y - 1)).xmin (area.cursor_x - 1).toNat
          omega
        · rcases Nat.le_total (area.line (area.cursor_y - 1)).xmax
              (area.cursor_x + (cells.length : Int) - 2).toNat with h | h
          · rw [Nat.max_eq_right h]; omega
          · rw [Nat.max_eq_left h]; exact hl2
      · rw [s5 y1 hy]
        exact hline y1 h0 h1)
    (by rw [d5]; exact hleft)
    (by rw [d5, d1, d3, setArea_vterm]; exact hright)
    (by rw [d6]; exact htop)
    (by rw [d6, d2, d4, setArea_vterm]; exact hbottom)
    (by rw [setArea_vterm]; exact hdata)
    (area.cursor_x - 1 + (i : Int)) (area.cursor_y - 1) (by omega) (by rw [d2, d4]; omega)
    (by
      rw [s6, toInt_of_lt (by
        have := Nat.min_le_left (area.line (area.cursor_y - 1)).xmin (area.cursor_x - 1).toNat
        omega)]
      have := Nat.min_le_right (area.line (area.cursor_y - 1)).xmin (area.cursor_x - 1).toNat
      omega)
    (by
      have hb : max (area.line (area.cursor_y - 1)).xmax
          (area.cursor_x + (cells.length : Int) - 2).toNat < 2 ^ 31 := by
        rcases Nat.le_total (area.line (area.cursor_y - 1)).xmax
            (area.cursor_x + (cells.length : Int) - 2).toNat with h | h
        · rw [Nat.max_eq_right h]; omega
        · rw [Nat.max_eq_left h]; omega
      rw [s7, toInt_of_lt hb]
      have := Nat.le_max_right (area.line (area.cursor_y - 1)).xmax
        (area.cursor_x + (cells.length : Int) - 2).toNat
      omega)
    (by rw [d1, d3, hcell]; exact (hcells _ hmem).2.2)
    (by
      rw [coveredStateSpec_congr w (w.setArea r area1) _ r (windowsAfter_setArea w r area1),
        d5, d6]
      exact hcov i hi)
  rw [d5, d6, d1, d3, setArea_vterm, hcell] at key
  rw [key]
  exact ⟨rfl, FChar.eq_no_changes _ _⟩

theorem C1_print_putArea_round_trip_witness :
    (sampleArea 2 1 3 2 1 1).Sized ∧ (sampleArea 2 1 3 2 1 1).RangesInside
    ∧ ∃ area1, printString sampleEnv 1 (sampleArea 2 1 3 2 1 1)
          [sampleLetter, { sampleLetter with ch := 66, bold := true }]
          = some ((([sampleLetter, { sampleLetter with ch := 66, bold := true }] : List FChar).length
                    : Int), area1)
      ∧ ∀ i (h : i < ([sampleLetter, { sampleLetter with ch := 66, bold := true }]
                        : List FChar).length),
          (putArea sampleCompEnv
              ((sampleWorld [⟨1, some (sampleArea 2 1 3 2 1 1)⟩]).setArea (AreaRef.window 0) area1)
              (AreaRef.window 0)).vterm.cell
              (((sampleArea 2 1 3 2 1 1).offset_top + ((sampleArea 2 1 3 2 1 1).cursor_y - 1))
                  * (sampleWorld [⟨1, some (sampleArea 2 1 3 2 1 1)⟩]).vterm.width
                + ((sampleArea 2 1 3 2 1 1).offset_left
                    + ((sampleArea 2 1 3 2 1 1).cursor_x - 1 + (i : Int))))
            = { (sampleEnv.getColumnWidth
                  ([sampleLetter, { sampleLetter with ch := 66, bold := true }][i])).2 with
                no_changes := (sampleEnv.getColumnWidth
                  ([sampleLetter, { sampleLetter with ch := 66, bold := true }][i])).2.printed }
          ∧ FChar.eq ((putArea sampleCompEnv
              ((sampleWorld [⟨1, some (sampleArea 2 1 3 2 1 1)⟩]).setArea (AreaRef.window 0) area1)
              (AreaRef.window 0)).vterm.cell
              (((sampleArea 2 1 3 2 1 1).offset_top + ((sampleArea 2 1 3 2 1 1).cursor_y - 1))
                  * (sampleWorld [⟨1, some (sampleArea 2 1 3 2 1 1)⟩]).vterm.width
                + ((sampleArea 2 1 3 2 1 1).offset_left
                    + ((sampleArea 2 1 3 2 1 1).cursor_x - 1 + (i : Int)))))
              (sampleEnv.getColumnWidth
                ([sampleLetter, { sampleLetter with ch := 66, bold := true }][i])).2 = true :=
  ⟨by decide, by decide,
   C1_print_putArea_round_trip sampleEnv sampleCompEnv 0
     (sampleWorld [⟨1, some (sampleArea 2 1 3 2 1 1)⟩]) (AreaRef.window 0)
     (sampleArea 2 1 3 2 1 1) [sampleLetter, { sampleLetter with ch := 66, bold := true }]
     rfl rfl rfl (by decide) (by decide) (by decide) (by decide) (by decide) (by decide)
     (by decide) (by decide) (by decide) (by decide) (by decide) (by decide) (by decide)
     (by decide)⟩

/-! ## Printing: the bottom margin, the last column and tabs -/

/-- A newline in the last row ends the sequence form of `print`: on a 2 x 1
surface the sequence `A`, newline, `B` stores `A`, stops at the newline and
returns 1; `B` is not stored. -/
theorem printString_newline_at_bottom_stops :
    (printString sampleEnv 1 (sampleArea 0 0 2 1 0 0)
        [sampleLetter, { sampleLetter with ch := 10 }, { sampleLetter with ch := 66 }]).map
      (fun res => (res.1, (res.2.at 0 0).ch, (res.2.at 1 0).ch, res.2.cursor_x, res.2.cursor_y))
      = some (1, 65, 32, 1, 1) := by
  decide

/-- C13 fails on the code: on a 2 x 1 surface with the cursor at `(1, 1)` the
sequence `A`, `B`, `C` exhausts the surface with `B` (the single cell form
returns -1 and leaves the cursor at `(1, 1)`), yet the sequence form goes on:
`C` is stored over `A` in column 1 and the returned count is 3. -/
theorem C13_print_sequence_continues_past_bottom :
    (print sampleEnv 1 { sampleArea 0 0 2 1 0 0 with cursor_x := 2 }
        { sampleLetter with ch := 66 }).map
      (fun res => (res.1, res.2.cursor_x, res.2.cursor_y))
      = some (-1, 1, 1)
    ∧ (printString sampleEnv 1 (sampleArea 0 0 2 1 0 0)
        [sampleLetter, { sampleLetter with ch := 66 }, { sampleLetter with ch := 67 }]).map
      (fun res => (res.1, (res.2.at 0 0).ch, (res.2.at 1 0).ch, res.2.cursor_x, res.2.cursor_y))
      = some (3, 67, 66, 2, 1) := by
  decide

/-- C14: printing one single-width cell with the cursor in the last column
(`cursor_x = width + right_shadow`) moves the cursor to column 1 of the next
row and returns 1 when the row is not the last one; in the last row
(`cursor_y = height + bottom_shadow`) the cursor ends at column 1 of the
same row and `print` returns -1. -/
theorem C14_print_last_column (env : PrintEnv) (fuel : Nat) (area : FTermArea) (c : FChar)
    (hw : (env.getColumnWidth c).1 = 1)
    (hx : area.cursor_x = area.width + area.right_shadow) :
    (area.cursor_y < area.height + area.bottom_shadow →
      ∃ area1, print env (fuel + 1) area c = some (1, area1)
        ∧ area1.cursor_x = 1 ∧ area1.cursor_y = area.cursor_y + 1)
    ∧ (area.cursor_y = area.height + area.bottom_shadow →
      ∃ area1, print env (fuel + 1) area c = some (-1, area1)
        ∧ area1.cursor_x = 1 ∧ area1.cursor_y = area.cursor_y) := by
  have hne : ¬ ((env.getColumnWidth c).1 = 0
      ∧ (env.getColumnWidth c).2.fullwidth_padding = false) := by
    rw [hw]; simp
  have hwrap : (printStore area (env.getColumnWidth c).2).cursor_x + 1
      > area.width + area.right_shadow := by
    rw [printStore_cursor_x]; omega
  constructor
  · intro hy
    have h2 : ¬ ((printStore area (env.getColumnWidth c).2).cursor_y + 1
        > area.height + area.bottom_shadow) := by
      rw [printStore_cursor_y]; omega
    simp only [print, if_neg hne, if_pos hwrap, Option.some_bind, if_neg h2]
    exact ⟨_, rfl, rfl, by simp only [printStore_cursor_y]⟩
  · intro hy
    have h2 : (printStore area (env.getColumnWidth c).2).cursor_y + 1
        > area.height + area.bottom_shadow := by
      rw [printStore_cursor_y]; omega
    simp only [print, if_neg hne, if_pos hwrap, Option.some_bind, if_pos h2]
    exact ⟨_, rfl, rfl, by simp only [printStore_cursor_y]; omega⟩

theorem C14_print_last_column_witness :
    ((sampleArea 0 0 2 2 0 0).cursor_y
        < (sampleArea 0 0 2 2 0 0).height + (sampleArea 0 0 2 2 0 0).bottom_shadow →
      ∃ area1, print sampleEnv 1 { sampleArea 0 0 2 2 0 0 with cursor_x := 2 } sampleLetter
          = some (1, area1)
        ∧ area1.cursor_x = 1 ∧ area1.cursor_y = (sampleArea 0 0 2 2 0 0).cursor_y + 1)
    ∧ ((sampleArea 0 0 2 2 0 0).cursor_y
        = (sampleArea 0 0 2 2 0 0).height + (sampleArea 0 0 2 2 0 0).bottom_shadow →
      ∃ area1, print sampleEnv 1 { sampleArea 0 0 2 2 0 0 with cursor_x := 2 } sampleLetter
          = some (-1, area1)
        ∧ area1.cursor_x = 1 ∧ area1.cursor_y = (sampleArea 0 0 2 2 0 0).cursor_y) :=
  C14_print_last_column sampleEnv 0 { sampleArea 0 0 2 2 0 0 with cursor_x := 2 } sampleLetter
    (by decide) (by decide)

/-- The tab case of `print` assigns the column `tabstop + 1 % tabstop`,
whatever the column the cursor is in. -/
theorem tabColumn_eq (tabstop : Nat) (cursor_x : Int) (ht : tabstop < 2 ^ 31 - 1)
    (hx0 : 0 ≤ cursor_x) (hx : cursor_x < 2 ^ 31) :
    tabColumn tabstop cursor_x = (tabstop : Int) + ((1 % tabstop : Nat) : Int) := by
  have h1 : 1 % tabstop ≤ 1 := by
    rcases Nat.eq_zero_or_pos tabstop with h | h
    · subst h; simp
    · exact Nat.le_of_lt_succ (Nat.lt_succ_of_le (by
        rcases Nat.lt_or_ge 1 tabstop with h2 | h2
        · rw [Nat.mod_eq_of_lt h2]
        · have : tabstop = 1 := by omega
          subst this; simp))
  unfold tabColumn
  rw [toUInt_of_nonneg hx0 (by omega)]
  generalize 1 % tabstop = m at h1 ⊢
  have e : uAdd (uSub (uAdd cursor_x.toNat tabstop) cursor_x.toNat) m = tabstop + m := by
    unfold uAdd uSub
    omega
  rw [e, toInt_of_lt (by omega)]
  push_cast
  rfl

/-- C15 fails on the code: with the tab stop 8 and the cursor in column 20 a
tab in a printed sequence sets the cursor to column 9, to the left of where
it was (the next multiple of the tab stop lies beyond column 20). -/
theorem C15_tab_moves_cursor_left :
    (printString sampleEnv 1 { sampleArea 0 0 30 1 0 0 with cursor_x := 20 }
        [{ sampleBlank with ch := 9 }]).map (fun res => (res.1, res.2.cursor_x))
      = some (1, 9)
    ∧ tabColumn 8 20 = 9 ∧ tabColumn 8 3 = 9 := by
  decide

/-! ## Printing a full-width glyph -/

/-- The cells of a surface after the guarded block of `print` with the
cursor inside the surface: the cell under the cursor equals the printed
cell under `operator ==`, it is the printed cell when the two differed, and
no other cell changes. -/
theorem printStore_cell_spec (a : FTermArea) (nc : FChar) (hsz : a.Sized)
    (hx : 1 ≤ a.cursor_x ∧ a.cursor_x ≤ a.width + a.right_shadow)
    (hy : 1 ≤ a.cursor_y ∧ a.cursor_y ≤ a.height + a.bottom_shadow) :
    FChar.eq ((printStore a nc).at (a.cursor_x - 1) (a.cursor_y - 1)) nc = true
    ∧ (FChar.ne (a.at (a.cursor_x - 1) (a.cursor_y - 1)) nc = true →
        (printStore a nc).at (a.cursor_x - 1) (a.cursor_y - 1) = nc)
    ∧ (∀ j, j ≠ (a.cursor_y - 1) * a.lineLen + (a.cursor_x - 1) →
        (printStore a nc).cell j = a.cell j)
    ∧ bufSize (printStore a nc).data = bufSize a.data
    ∧ bufSize (printStore a nc).changes = bufSize a.changes := by
  obtain ⟨hw0, hh0, hr0, hb0, hw31, hh31, hdata, hchg⟩ := hsz
  have hidx := cell_index_bounds (x := a.cursor_x - 1) (y := a.cursor_y - 1)
    (l := a.lineLen) (r := a.rows) (by omega) (by unfold FTermArea.lineLen; omega) (by omega)
    (by unfold FTermArea.rows; omega)
  by_cases hne : FChar.ne (a.at (a.cursor_x - 1) (a.cursor_y - 1)) nc = true
  · have hcell : (printStore a nc).at (a.cursor_x - 1) (a.cursor_y - 1) = nc := by
      unfold FTermArea.at
      rw [printStore_lineLen, printStore_ne_eq a nc hx hy hne]
      unfold FTermArea.cell
      exact bufGet_bufSet_eq _ _ hidx.1 (by rw [hdata]; exact hidx.2)
    refine ⟨by rw [hcell]; exact FChar.eq_self nc, fun _ => hcell, ?_, ?_, ?_⟩
    · intro j hj
      rw [printStore_ne_eq a nc hx hy hne]
      unfold FTermArea.cell
      exact bufGet_bufSet_ne _ _ (Ne.symm hj)
    · rw [printStore_ne_eq a nc hx hy hne]; exact bufSize_bufSet _ _ _
    · rw [printStore_ne_eq a nc hx hy hne]; exact bufSize_bufSet _ _ _
  · have hf : FChar.ne (a.at (a.cursor_x - 1) (a.cursor_y - 1)) nc = false := by
      simpa using hne
    rw [printStore_of_eq a nc hf]
    refine ⟨?_, fun h => absurd h hne, fun _ _ => rfl, rfl, rfl⟩
    unfold FChar.ne at hf
    simpa using hf

/-- The run of `print` on a cell of no width that has `fullwidth_padding`
set and that `getColumnWidth` leaves as it is: the cell goes through the
guarded block, the cursor moves right by one column and wraps when it
leaves the row. -/
theorem print_padding (env : PrintEnv) (fuel : Nat) (a : FTermArea) (pc : FChar)
    (hp : env.getColumnWidth pc = (0, pc)) (hf : pc.fullwidth_padding = true)
    (hy : a.cursor_y ≤ a.height + a.bottom_shadow) :
    ∃ res area1, print env (fuel + 1) a pc = some (res, area1)
      ∧ area1.data = (printStore a pc).data
      ∧ area1.width = a.width ∧ area1.right_shadow = a.right_shadow
      ∧ area1.cursor_x
          = (if a.cursor_x + 1 > a.width + a.right_shadow then 1 else a.cursor_x + 1)
      ∧ area1.cursor_y
          = (if a.cursor_x + 1 > a.width + a.right_shadow
                ∧ a.cursor_y < a.height + a.bottom_shadow then a.cursor_y + 1
             else a.cursor_y) := by
  have hne : ¬ ((env.getColumnWidth pc).1 = 0
      ∧ (env.getColumnWidth pc).2.fullwidth_padding = false) := by
    rw [hp]; simp [hf]
  have h2 : ¬ ((env.getColumnWidth pc).1 = 2) := by rw [hp]; simp
  obtain ⟨d1, d2, d3, d4, _⟩ := printStore_dims a (env.getColumnWidth pc).2
  simp only [print, if_neg hne, if_neg h2, printStore_cursor_x, printStore_cursor_y]
  rw [hp]
  by_cases hwrap : a.cursor_x + 1 > a.width + a.right_shadow
  · simp only [if_pos hwrap, Option.some_bind]
    by_cases hlast : a.cursor_y + 1 > a.height + a.bottom_shadow
    · rw [if_pos hlast]
      refine ⟨_, _, rfl, rfl, ?_, ?_, rfl, ?_⟩
      · exact (printStore_dims a pc).1
      · exact (printStore_dims a pc).2.2.1
      · rw [if_neg (by omega)]; simp only []; omega
    · rw [if_neg hlast]
      refine ⟨_, _, rfl, rfl, ?_, ?_, rfl, ?_⟩
      · exact (printStore_dims a pc).1
      · exact (printStore_dims a pc).2.2.1
      · rw [if_pos ⟨hwrap, by omega⟩]
  · simp only [if_neg hwrap, Option.some_bind]
    rw [if_neg (by omega)]
    refine ⟨_, _, rfl, rfl, ?_, ?_, rfl, ?_⟩
    · exact (printStore_dims a pc).1
    · exact (printStore_dims a pc).2.2.1
    · rw [if_neg (fun h => hwrap h.1)]

/-- The run of `print` on a full-width glyph with two columns left in the
row: the glyph and the padding cell go through the guarded block one after
the other, the cursor moves right by two columns and wraps when it leaves
the row; the returned value is 1. -/
theorem print_full_width (env : PrintEnv) (fuel : Nat) (area : FTermArea) (c : FChar)
    (hutf : env.isUTF8 = true)
    (hw : (env.getColumnWidth c).1 = 2)
    (hpad : env.getColumnWidth (paddingChar env (env.getColumnWidth c).2)
              = (0, paddingChar env (env.getColumnWidth c).2))
    (hx2 : area.cursor_x + 1 ≤ area.width + area.right_shadow)
    (hy2 : area.cursor_y ≤ area.height + area.bottom_shadow) :
    ∃ area1, print env (fuel + 2) area c = some (1, area1)
      ∧ area1.data
          = (printStore { printStore area (env.getColumnWidth c).2 with
                            cursor_x := (printStore area (env.getColumnWidth c).2).cursor_x + 1,
                            has_changes := true }
              (paddingChar env (env.getColumnWidth c).2)).data
      ∧ area1.width = area.width ∧ area1.right_shadow = area.right_shadow
      ∧ area1.cursor_x
          = (if area.cursor_x + 2 > area.width + area.right_shadow then 1
             else area.cursor_x + 2)
      ∧ area1.cursor_y
          = (if area.cursor_x + 2 > area.width + area.right_shadow
                ∧ area.cursor_y < area.height + area.bottom_shadow then area.cursor_y + 1
             else area.cursor_y) := by
  have hne1 : ¬ ((env.getColumnWidth c).1 = 0
      ∧ (env.getColumnWidth c).2.fullwidth_padding = false) := by
    rw [hw]; simp
  have hpcf : (paddingChar env (env.getColumnWidth c).2).fullwidth_padding = true := by
    unfold paddingChar; rw [if_pos hutf]
  obtain ⟨d1, d2, d3, d4, _⟩ := printStore_dims area (env.getColumnWidth c).2
  obtain ⟨res, a1, hin, i1, i2, i3, i4, i5⟩ := print_padding env fuel
    { printStore area (env.getColumnWidth c).2 with
        cursor_x := (printStore area (env.getColumnWidth c).2).cursor_x + 1,
        has_changes := true }
    (paddingChar env (env.getColumnWidth c).2) hpad hpcf
    (by show (printStore area (env.getColumnWidth c).2).cursor_y
          ≤ (printStore area (env.getColumnWidth c).2).height
            + (printStore area (env.getColumnWidth c).2).bottom_shadow
        rw [printStore_cursor_y, d2, d4]; exact hy2)
  have hnw : ¬ ((printStore area (env.getColumnWidth c).2).cursor_x + 1
      > area.width + area.right_shadow) := by
    rw [printStore_cursor_x]; omega
  show ∃ area1, print env (fuel + 1 + 1) area c = some (1, area1) ∧ _
  rw [print]
  simp only []
  rw [if_neg hne1, if_neg hnw, if_pos hw, hin]
  simp only [printStore_cursor_x, printStore_cursor_y, d1, d2, d3, d4] at i2 i3 i4 i5
  simp only [Option.map_some', Option.some_bind]
  have hcy : ¬ (a1.cursor_y > area.height + area.bottom_shadow) := by
    rw [i5]; split_ifs <;> omega
  rw [if_neg hcy]
  refine ⟨a1, rfl, i1, i2, i3, ?_, ?_⟩
  · rw [i4]
    by_cases h : area.cursor_x + 2 > area.width + area.right_shadow
    · rw [if_pos h, if_pos (by omega)]
    · rw [if_neg h, if_neg (by omega)]; omega
  · rw [i5]
    by_cases h : area.cursor_x + 2 > area.width + area.right_shadow
        ∧ area.cursor_y < area.height + area.bottom_shadow
    · rw [if_pos h, if_pos ⟨by omega, h.2⟩]
    · rw [if_neg h, if_neg (fun h2 => h ⟨by omega, h2.2⟩)]

/-- The cells after `print` on a full-width glyph with two columns left in
the row (`cursor_x < width + right_shadow`): the call returns 1 and leaves
at the cursor column a cell equal to the glyph under `operator ==` (the
glyph itself when the stored cell differed) and in the next column a cell
equal to the padding cell (the padding cell itself when the stored cell
differed); the padding cell is the glyph with code point 0,
`fullwidth_padding` set and `char_width` 0.  The cursor advances by two
columns when they fit into the row; when the padding cell is in the last
column the cursor wraps to column 1 of the next row (of the same row in the
last row). -/
theorem print_full_width_cells (env : PrintEnv) (fuel : Nat) (area : FTermArea)
    (c : FChar)
    (hutf : env.isUTF8 = true)
    (hw : (env.getColumnWidth c).1 = 2)
    (hpad : env.getColumnWidth (paddingChar env (env.getColumnWidth c).2)
              = (0, paddingChar env (env.getColumnWidth c).2))
    (hsz : area.Sized)
    (hx1 : 1 ≤ area.cursor_x) (hx2 : area.cursor_x + 1 ≤ area.width + area.right_shadow)
    (hy1 : 1 ≤ area.cursor_y) (hy2 : area.cursor_y ≤ area.height + area.bottom_shadow) :
    ∃ area1, print env (fuel + 2) area c = some (1, area1)
      ∧ FChar.eq (area1.at (area.cursor_x - 1) (area.cursor_y - 1))
          (env.getColumnWidth c).2 = true
      ∧ (FChar.ne (area.at (area.cursor_x - 1) (area.cursor_y - 1))
            (env.getColumnWidth c).2 = true →
          area1.at (area.cursor_x - 1) (area.cursor_y - 1) = (env.getColumnWidth c).2)
      ∧ FChar.eq (area1.at area.cursor_x (area.cursor_y - 1))
          (paddingChar env (env.getColumnWidth c).2) = true
      ∧ (FChar.ne (area.at area.cursor_x (area.cursor_y - 1))
            (paddingChar env (env.getColumnWidth c).2) = true →
          area1.at area.cursor_x (area.cursor_y - 1)
            = paddingChar env (env.getColumnWidth c).2)
      ∧ paddingChar env (env.getColumnWidth c).2
          = { (env.getColumnWidth c).2 with
              ch := 0, fullwidth_padding := true, char_width := 0 }
      ∧ (area.cursor_x + 2 ≤ area.width + area.right_shadow →
          area1.cursor_x = area.cursor_x + 2 ∧ area1.cursor_y = area.cursor_y)
      ∧ (area.cursor_x + 1 = area.width + area.right_shadow →
          area1.cursor_x = 1
          ∧ area1.cursor_y
              = (if area.cursor_y < area.height + area.bottom_shadow then area.cursor_y + 1
                 else area.cursor_y)) := by
  obtain ⟨area1, hp, e1, e2, e3, e4, e5⟩ :=
    print_full_width env fuel area c hutf hw hpad hx2 hy2
  obtain ⟨s1, s2, s3, s4, s5⟩ := printStore_cell_spec area (env.getColumnWidth c).2 hsz
    ⟨hx1, by omega⟩ ⟨hy1, hy2⟩
  obtain ⟨d1, d2, d3, d4, _⟩ := printStore_dims area (env.getColumnWidth c).2
  have hsz0 := hsz
  obtain ⟨hw0, hh0, hr0, hb0, hw31, hh31, hdata, hchg⟩ := hsz
  have key : ∀ a2 : FTermArea, a2.data = (printStore area (env.getColumnWidth c).2).data →
      a2.changes = (printStore area (env.getColumnWidth c).2).changes →
      a2.width = area.width → a2.height = area.height →
      a2.right_shadow = area.right_shadow → a2.bottom_shadow = area.bottom_shadow →
      a2.cursor_x = area.cursor_x + 1 → a2.cursor_y = area.cursor_y →
      FChar.eq (bufGet (printStore a2 (paddingChar env (env.getColumnWidth c).2)).data
          ((area.cursor_y - 1) * (area.width + area.right_shadow) + area.cursor_x))
        (paddingChar env (env.getColumnWidth c).2) = true
      ∧ (FChar.ne (bufGet a2.data
            ((area.cursor_y - 1) * (area.width + area.right_shadow) + area.cursor_x))
          (paddingChar env (env.getColumnWidth c).2) = true →
          bufGet (printStore a2 (paddingChar env (env.getColumnWidth c).2)).data
            ((area.cursor_y - 1) * (area.width + area.right_shadow) + area.cursor_x)
          = paddingChar env (env.getColumnWidth c).2)
      ∧ (∀ j, j ≠ (area.cursor_y - 1) * (area.width + area.right_shadow) + area.cursor_x →
          bufGet (printStore a2 (paddingChar env (env.getColumnWidth c).2)).data j
            = bufGet a2.data j) := by
    intro a2 k1 k2 k3 k4 k5 k6 k7 k8
    obtain ⟨t1, t2, t3, _, _⟩ := printStore_cell_spec a2
      (paddingChar env (env.getColumnWidth c).2)
      ⟨by rw [k3]; exact hw0, by rw [k4]; exact hh0, by rw [k5]; exact hr0,
       by rw [k6]; exact hb0, by rw [k3, k5]; exact hw31, by rw [k4, k6]; exact hh31,
       by unfold FTermArea.lineLen FTermArea.rows at hdata ⊢
          rw [k1, s4, k3, k4, k5, k6]; exact hdata,
       by unfold FTermArea.rows at hchg ⊢
          rw [k2, s5, k4, k6]; exact hchg⟩
      ⟨by rw [k7]; omega, by rw [k7, k3, k5]; omega⟩
      ⟨by rw [k8]; exact hy1, by rw [k8, k4, k6]; exact hy2⟩
    simp only [FTermArea.at, FTermArea.lineLen, FTermArea.cell, printStore_dims, k3, k5, k7, k8,
      add_sub_cancel_right] at t1 t2 t3
    exact ⟨t1, t2, t3⟩
  obtain ⟨t1, t2, t3⟩ := key
    { printStore area (env.getColumnWidth c).2 with
        cursor_x := (printStore area (env.getColumnWidth c).2).cursor_x + 1,
        has_changes := true }
    rfl rfl d1 d2 d3 d4 (by show (printStore area (env.getColumnWidth c).2).cursor_x + 1 = _
                            rw [printStore_cursor_x])
    (printStore_cursor_y area _)
  simp only [FTermArea.at, FTermArea.lineLen, FTermArea.cell, d1, d3] at s1 s2 s3
  have hat : ∀ x y : Int, area1.at x y
      = bufGet (printStore { printStore area (env.getColumnWidth c).2 with
                            cursor_x := (printStore area (env.getColumnWidth c).2).cursor_x + 1,
                            has_changes := true }
              (paddingChar env (env.getColumnWidth c).2)).data
          (y * (area.width + area.right_shadow) + x) := by
    intro x y
    unfold FTermArea.at FTermArea.cell FTermArea.lineLen
    rw [e1, e2, e3]
  have hfirst : area1.at (area.cursor_x - 1) (area.cursor_y - 1)
      = bufGet (printStore area (env.getColumnWidth c).2).data
          ((area.cursor_y - 1) * (area.width + area.right_shadow) + (area.cursor_x - 1)) := by
    rw [hat]
    exact t3 _ (by omega)
  have hsecond : bufGet (printStore area (env.getColumnWidth c).2).data
        ((area.cursor_y - 1) * (area.width + area.right_shadow) + area.cursor_x)
      = bufGet area.data
          ((area.cursor_y - 1) * (area.width + area.right_shadow) + area.cursor_x) :=
    s3 _ (by omega)
  refine ⟨area1, hp, ?_, ?_, ?_, ?_, ?_, ?_, ?_⟩
  · rw [hfirst]; exact s1
  · intro h; rw [hfirst]; exact s2 h
  · rw [hat]; exact t1
  · intro h
    rw [hat]
    exact t2 (by rw [hsecond]; exact h)
  · unfold paddingChar; rw [if_pos hutf]
  · intro h
    rw [e4, e5, if_neg (by omega), if_neg (fun h2 => by omega)]
    exact ⟨rfl, rfl⟩
  · intro h
    rw [e4, e5, if_pos (by omega)]
    refine ⟨rfl, ?_⟩
    by_cases hl : area.cursor_y < area.height + area.bottom_shadow
    · rw [if_pos ⟨by omega, hl⟩, if_pos hl]
    · rw [if_neg (fun h2 => hl h2.2), if_neg hl]

/-- The run of `print` on a full-width glyph with the cursor in the last
column of its row: the glyph goes through the guarded block, the cursor
leaves the row and wraps, and `printPaddingCharacter` is not called, so no
other cell changes.  The returned value is 1, or -1 in the last row. -/
theorem print_full_width_last_column (env : PrintEnv) (fuel : Nat) (area : FTermArea)
    (c : FChar) (hw : (env.getColumnWidth c).1 = 2) (hsz : area.Sized)
    (hx1 : 1 ≤ area.cursor_x) (hx : area.cursor_x = area.width + area.right_shadow)
    (hy1 : 1 ≤ area.cursor_y) (hy2 : area.cursor_y ≤ area.height + area.bottom_shadow) :
    ∃ area1, print env (fuel + 1) area c
        = some (if area.cursor_y < area.height + area.bottom_shadow then 1 else -1, area1)
      ∧ FChar.eq (area1.at (area.cursor_x - 1) (area.cursor_y - 1))
          (env.getColumnWidth c).2 = true
      ∧ (FChar.ne (area.at (area.cursor_x - 1) (area.cursor_y - 1))
            (env.getColumnWidth c).2 = true →
          area1.at (area.cursor_x - 1) (area.cursor_y - 1) = (env.getColumnWidth c).2)
      ∧ (∀ j, j ≠ (area.cursor_y - 1) * area.lineLen + (area.cursor_x - 1) →
          area1.cell j = area.cell j)
      ∧ area1.cursor_x = 1
      ∧ area1.cursor_y
          = (if area.cursor_y < area.height + area.bottom_shadow then area.cursor_y + 1
             else area.cursor_y) := by
  have hne : ¬ ((env.getColumnWidth c).1 = 0
      ∧ (env.getColumnWidth c).2.fullwidth_padding = false) := by
    rw [hw]; simp
  have hwrap : (printStore area (env.getColumnWidth c).2).cursor_x + 1
      > area.width + area.right_shadow := by
    rw [printStore_cursor_x]; omega
  obtain ⟨s1, s2, s3, _, _⟩ := printStore_cell_spec area (env.getColumnWidth c).2 hsz
    ⟨hx1, by omega⟩ ⟨hy1, hy2⟩
  obtain ⟨d1, _, d3, _, _⟩ := printStore_dims area (env.getColumnWidth c).2
  have key : ∀ a2 : FTermArea,
      a2.data = (printStore area (env.getColumnWidth c).2).data →
      a2.width = area.width → a2.right_shadow = area.right_shadow →
      FChar.eq (a2.at (area.cursor_x - 1) (area.cursor_y - 1)) (env.getColumnWidth c).2 = true
      ∧ (FChar.ne (area.at (area.cursor_x - 1) (area.cursor_y - 1))
            (env.getColumnWidth c).2 = true →
          a2.at (area.cursor_x - 1) (area.cursor_y - 1) = (env.getColumnWidth c).2)
      ∧ (∀ j, j ≠ (area.cursor_y - 1) * area.lineLen + (area.cursor_x - 1) →
          a2.cell j = area.cell j) := by
    intro a2 e1 e2 e3
    have hat : ∀ x y : Int, a2.at x y = (printStore area (env.getColumnWidth c).2).at x y := by
      intro x y
      unfold FTermArea.at FTermArea.cell FTermArea.lineLen
      rw [e1, e2, e3, d1, d3]
    have hcell : ∀ j : Int, a2.cell j = (printStore area (env.getColumnWidth c).2).cell j := by
      intro j
      unfold FTermArea.cell
      rw [e1]
    refine ⟨by rw [hat]; exact s1, fun h => by rw [hat]; exact s2 h, fun j hj => ?_⟩
    rw [hcell]
    exact s3 j hj
  by_cases hy : area.cursor_y < area.height + area.bottom_shadow
  · have h2 : ¬ ((printStore area (env.getColumnWidth c).2).cursor_y + 1
        > area.height + area.bottom_shadow) := by
      rw [printStore_cursor_y]; omega
    simp only [print, if_neg hne, if_pos hwrap, Option.some_bind, if_neg h2, if_pos hy]
    obtain ⟨k1, k2, k3⟩ := key _ rfl d1 d3
    exact ⟨_, rfl, k1, k2, k3, rfl, by simp only [printStore_cursor_y]⟩
  · have h2 : (printStore area (env.getColumnWidth c).2).cursor_y + 1
        > area.height + area.bottom_shadow := by
      rw [printStore_cursor_y]; omega
    simp only [print, if_neg hne, if_pos hwrap, Option.some_bind, if_pos h2, if_neg hy]
    obtain ⟨k1, k2, k3⟩ := key _ rfl d1 d3
    exact ⟨_, rfl, k1, k2, k3, rfl, by simp only [printStore_cursor_y]; omega⟩

/-- C16, amended: with UTF-8 encoding and the cursor inside the surface,
`print` on a full-width glyph does the following.  With at least two
columns left in the row (`cursor_x < width + right_shadow`) it returns 1 and
leaves at the cursor column a cell equal to the glyph under `operator ==`
(the glyph itself when the stored cell differed) and in the next column a
cell equal to the padding cell (the padding cell itself when the stored cell
differed); the padding cell is the glyph with code point 0,
`fullwidth_padding` set and `char_width` 0; the cursor advances by two
columns when they fit into the row, and wraps to column 1 of the next row
(of the same row in the last row) when the padding cell is in the last
column.  With the cursor in the last column (`cursor_x = width +
right_shadow`) only the glyph is stored: the cell at the cursor equals the
glyph, every other cell of the surface is the one before, so no padding cell
is written, and the cursor wraps to column 1 of the next row with the value
1 returned, or of the same row with -1 returned in the last row. -/
theorem C16_print_full_width_glyph (env : PrintEnv) (fuel : Nat) (area : FTermArea)
    (c : FChar)
    (hutf : env.isUTF8 = true)
    (hw : (env.getColumnWidth c).1 = 2)
    (hpad : env.getColumnWidth (paddingChar env (env.getColumnWidth c).2)
              = (0, paddingChar env (env.getColumnWidth c).2))
    (hsz : area.Sized)
    (hx1 : 1 ≤ area.cursor_x)
    (hy1 : 1 ≤ area.cursor_y) (hy2 : area.cursor_y ≤ area.height + area.bottom_shadow) :
    (area.cursor_x + 1 ≤ area.width + area.right_shadow →
      ∃ area1, print env (fuel + 2) area c = some (1, area1)
        ∧ FChar.eq (area1.at (area.cursor_x - 1) (area.cursor_y - 1))
            (env.getColumnWidth c).2 = true
        ∧ (FChar.ne (area.at (area.cursor_x - 1) (area.cursor_y - 1))
              (env.getColumnWidth c).2 = true →
            area1.at (area.cursor_x - 1) (area.cursor_y - 1) = (env.getColumnWidth c).2)
        ∧ FChar.eq (area1.at area.cursor_x (area.cursor_y - 1))
            (paddingChar env (env.getColumnWidth c).2) = true
        ∧ (FChar.ne (area.at area.cursor_x (area.cursor_y - 1))
              (paddingChar env (env.getColumnWidth c).2) = true →
            area1.at area.cursor_x (area.cursor_y - 1)
              = paddingChar env (env.getColumnWidth c).2)
        ∧ paddingChar env (env.getColumnWidth c).2
            = { (env.getColumnWidth c).2 with
                ch := 0, fullwidth_padding := true, char_width := 0 }
        ∧ (area.cursor_x + 2 ≤ area.width + area.right_shadow →
            area1.cursor_x = area.cursor_x + 2 ∧ area1.cursor_y = area.cursor_y)
        ∧ (area.cursor_x + 1 = area.width + area.right_shadow →
            area1.cursor_x = 1
            ∧ area1.cursor_y
                = (if area.cursor_y < area.height + area.bottom_shadow then area.cursor_y + 1
                   else area.cursor_y)))
    ∧ (area.cursor_x = area.width + area.right_shadow →
      ∃ area1, print env (fuel + 2) area c
          = some (if area.cursor_y < area.height + area.bottom_shadow then 1 else -1, area1)
        ∧ FChar.eq (area1.at (area.cursor_x - 1) (area.cursor_y - 1))
            (env.getColumnWidth c).2 = true
        ∧ (FChar.ne (area.at (area.cursor_x - 1) (area.cursor_y - 1))
              (env.getColumnWidth c).2 = true →
            area1.at (area.cursor_x - 1) (area.cursor_y - 1) = (env.getColumnWidth c).2)
        ∧ (∀ j, j ≠ (area.cursor_y - 1) * area.lineLen + (area.cursor_x - 1) →
            area1.cell j = area.cell j)
        ∧ area1.cursor_x = 1
        ∧ area1.cursor_y
            = (if area.cursor_y < area.height + area.bottom_shadow then area.cursor_y + 1
               else area.cursor_y)) :=
  ⟨fun hx2 => print_full_width_cells env fuel area c hutf hw hpad hsz hx1 hx2 hy1 hy2,
   fun hx => print_full_width_last_column env (fuel + 1) area c hw hsz hx1 hx hy1 hy2⟩

/-- Witness for C16: the glyph U+4E2D printed at `(1, 1)` of a blank 4 x 2
surface, where the padding cell follows it, and at `(2, 1)` of a blank 2 x 2
surface, the last column of the row. -/
theorem C16_print_full_width_glyph_witness :
    sampleWideRoom.cursor_x + 1 ≤ sampleWideRoom.width + sampleWideRoom.right_shadow
    ∧ (∃ area1, print sampleWideEnv 2 sampleWideRoom sampleWide = some (1, area1)
        ∧ FChar.eq (area1.at (sampleWideRoom.cursor_x - 1) (sampleWideRoom.cursor_y - 1))
            (sampleWideEnv.getColumnWidth sampleWide).2 = true
        ∧ (FChar.ne (sampleWideRoom.at (sampleWideRoom.cursor_x - 1) (sampleWideRoom.cursor_y - 1))
              (sampleWideEnv.getColumnWidth sampleWide).2 = true →
            area1.at (sampleWideRoom.cursor_x - 1) (sampleWideRoom.cursor_y - 1) =
                (sampleWideEnv.getColumnWidth sampleWide).2)
        ∧ FChar.eq (area1.at sampleWideRoom.cursor_x (sampleWideRoom.cursor_y - 1))
            (paddingChar sampleWideEnv (sampleWideEnv.getColumnWidth sampleWide).2) = true
        ∧ (FChar.ne (sampleWideRoom.at sampleWideRoom.cursor_x (sampleWideRoom.cursor_y - 1))
              (paddingChar sampleWideEnv (sampleWideEnv.getColumnWidth sampleWide).2) = true →
            area1.at sampleWideRoom.cursor_x (sampleWideRoom.cursor_y - 1)
              = paddingChar sampleWideEnv (sampleWideEnv.getColumnWidth sampleWide).2)
        ∧ paddingChar sampleWideEnv (sampleWideEnv.getColumnWidth sampleWide).2
            = { (sampleWideEnv.getColumnWidth sampleWide).2 with
                ch := 0, fullwidth_padding := true, char_width := 0 }
        ∧ (sampleWideRoom.cursor_x + 2 ≤ sampleWideRoom.width + sampleWideRoom.right_shadow →
            area1.cursor_x = sampleWideRoom.cursor_x + 2 ∧ area1.cursor_y = sampleWideRoom.cursor_y)
        ∧ (sampleWideRoom.cursor_x + 1 = sampleWideRoom.width + sampleWideRoom.right_shadow →
            area1.cursor_x = 1
            ∧ area1.cursor_y
                = (if sampleWideRoom.cursor_y < sampleWideRoom.height +
                    sampleWideRoom.bottom_shadow then sampleWideRoom.cursor_y + 1
                   else sampleWideRoom.cursor_y)))
    ∧ sampleWideLast.cursor_x = sampleWideLast.width + sampleWideLast.right_shadow
    ∧ (∃ area1, print sampleWideEnv 2 sampleWideLast sampleWide
          = some (if sampleWideLast.cursor_y < sampleWideLast.height + sampleWideLast.bottom_shadow
              then 1 else -1, area1)
        ∧ FChar.eq (area1.at (sampleWideLast.cursor_x - 1) (sampleWideLast.cursor_y - 1))
            (sampleWideEnv.getColumnWidth sampleWide).2 = true
        ∧ (FChar.ne (sampleWideLast.at (sampleWideLast.cursor_x - 1) (sampleWideLast.cursor_y - 1))
              (sampleWideEnv.getColumnWidth sampleWide).2 = true →
            area1.at (sampleWideLast.cursor_x - 1) (sampleWideLast.cursor_y - 1) =
                (sampleWideEnv.getColumnWidth sampleWide).2)
        ∧ (∀ j, j ≠ (sampleWideLast.cursor_y - 1) * sampleWideLast.lineLen +
            (sampleWideLast.cursor_x - 1) →
            area1.cell j = sampleWideLast.cell j)
        ∧ area1.cursor_x = 1
        ∧ area1.cursor_y
            = (if sampleWideLast.cursor_y < sampleWideLast.height + sampleWideLast.bottom_shadow
                then sampleWideLast.cursor_y + 1
               else sampleWideLast.cursor_y)) :=
  ⟨by decide,
   (C16_print_full_width_glyph sampleWideEnv 0 sampleWideRoom sampleWide rfl
      (by decide) (by decide) (by decide) (by decide) (by decide) (by decide)).1 (by decide),
   by decide,
   (C16_print_full_width_glyph sampleWideEnv 0 sampleWideLast sampleWide rfl
      (by decide) (by decide) (by decide) (by decide) (by decide) (by decide)).2 (by decide)⟩

/-- C16 as stated fails with the cursor in the last column: on a 2 x 2
surface with the cursor at `(2, 1)` the full-width glyph is stored in
column 2, no padding cell is stored anywhere, and the cursor wraps to
`(1, 2)` instead of advancing by two columns. -/
theorem C16_print_full_width_last_column_counterexample :
    sampleWideEnv.isUTF8 = true ∧ (sampleWideEnv.getColumnWidth sampleWide).1 = 2
    ∧ (print sampleWideEnv 2 { sampleArea 0 0 2 2 0 0 with cursor_x := 2 } sampleWide).map
        (fun res => (res.1, (res.2.at 1 0).ch, res.2.cursor_x, res.2.cursor_y,
                     (res.2.data.getD []).any fun cell => cell.fullwidth_padding))
      = some (1, 0x4e2d, 1, 2, false) := by
  decide

/-! ## Scrolling -/

theorem memcpyCells_spec (dst : Option (List FChar)) (di : Int) (src : Option (List FChar))
    (si n : Int) :
    bufSize (memcpyCells dst di src si n) = bufSize dst
    ∧ ∀ j, bufGet (memcpyCells dst di src si n) j
        = if di ≤ j ∧ j < di + n ∧ 0 ≤ j ∧ j < bufSize dst then bufGet src (si + (j - di))
          else bufGet dst j := by
  unfold memcpyCells
  have key := range_foldl_inv
    (fun acc (k : Nat) => bufSet acc (di + (k : Int)) (bufGet src (si + (k : Int))))
    (fun k b1 => bufSize b1 = bufSize dst
      ∧ ∀ j, bufGet b1 j
        = if di ≤ j ∧ j < di + (k : Int) ∧ 0 ≤ j ∧ j < bufSize dst
          then bufGet src (si + (j - di)) else bufGet dst j)
    dst n.toNat ⟨rfl, fun j => by rw [if_neg]; push_cast; omega⟩
    (by
      intro k b1 _ ⟨hs, hg⟩
      refine ⟨by rw [bufSize_bufSet, hs], ?_⟩
      intro j
      rw [bufGet_bufSet, hg j, hs]
      by_cases h1 : di + (k : Int) = j
      · by_cases h2 : 0 ≤ j ∧ j < (bufSize dst : Int)
        · rw [if_pos (by omega), if_pos (by push_cast; omega)]
          congr 1; omega
        · rw [if_neg (by omega), if_neg (by omega), if_neg (by omega)]
      · rw [if_neg (by omega)]
        by_cases h3 : di ≤ j ∧ j < di + (k : Int) ∧ 0 ≤ j ∧ j < (bufSize dst : Int)
        · rw [if_pos h3, if_pos (by push_cast; omega)]
        · rw [if_neg h3, if_neg (by push_cast; omega)])
  obtain ⟨k1, k2⟩ := key
  refine ⟨k1, fun j => ?_⟩
  rw [k2 j]
  by_cases hn : 0 ≤ n
  · rw [Int.toNat_of_nonneg hn]
  · rw [if_neg (by omega), if_neg (by omega)]

theorem cell_index_inj {x y x1 y1 tw : Int} (hx0 : 0 ≤ x) (hx : x < tw) (hx10 : 0 ≤ x1)
    (hx1 : x1 < tw) (h : y * tw + x = y1 * tw + x1) : y = y1 ∧ x = x1 := by
  have hy : y = y1 := row_sep hx0 hx (by omega) (by omega)
  subst hy
  exact ⟨rfl, by omega⟩

theorem forRange_reverse (first last : Int) :
    (forRange first last).reverse
      = (List.range (last - first + 1).toNat).map
          fun (k : Nat) => first + ((last - first + 1).toNat : Int) - 1 - (k : Int) := by
  unfold forRange
  have hr : ∀ n : Nat, (List.range n).reverse = (List.range n).map fun (i : Nat) => n - 1 - i := by
    intro n
    have h1 : (List.range n).reverse = (List.range' 0 n).reverse := by
      rw [List.range_eq_range']
    rw [h1, List.reverse_range']
    apply List.map_congr_left
    intro i _
    omega
  rw [← List.map_reverse, hr, List.map_map]
  apply List.map_congr_left
  intro k hk
  rw [List.mem_range] at hk
  simp only [Function.comp]
  omega

/-- Invariants of a loop `for (y = last; y >= first; y--)`. -/
theorem forRange_reverse_foldl_inv {σ : Type} (step : σ → Int → σ) (first last : Int)
    (Inv : Nat → σ → Prop) (s0 : σ) (h0 : Inv 0 s0)
    (hstep : ∀ (k : Nat) s, (k : Int) < last - first + 1 → Inv k s →
      Inv (k + 1) (step s (last - (k : Int)))) :
    Inv (last - first + 1).toNat ((forRange first last).reverse.foldl step s0) := by
  rw [forRange_reverse, List.foldl_map]
  apply range_foldl_inv _ Inv s0 _ h0
  intro k s hk hi
  have e : first + ((last - first + 1).toNat : Int) - 1 - (k : Int) = last - (k : Int) := by
    omega
  rw [e]
  exact hstep k s (by omega) hi

/-- The surface after the first loop of `scrollAreaForward`: the interior of
every row above the last interior row holds the former interior of the row
below it, every other cell is as before, and the rows visited have the
dirty range `[0, width - 1]`. -/
theorem scrollForward_loop (area : FTermArea) (hsz : area.Sized) :
    (forRange 0 (area.height - 1 - 1)).foldl
        (scrollForwardRow area.width (area.width + area.right_shadow)) area
      = { area with
          data := ((forRange 0 (area.height - 1 - 1)).foldl
            (scrollForwardRow area.width (area.width + area.right_shadow)) area).data,
          changes := ((forRange 0 (area.height - 1 - 1)).foldl
            (scrollForwardRow area.width (area.width + area.right_shadow)) area).changes }
    ∧ bufSize ((forRange 0 (area.height - 1 - 1)).foldl
        (scrollForwardRow area.width (area.width + area.right_shadow)) area).data
        = bufSize area.data
    ∧ bufSize ((forRange 0 (area.height - 1 - 1)).foldl
        (scrollForwardRow area.width (area.width + area.right_shadow)) area).changes
        = bufSize area.changes
    ∧ (∀ x y : Int, 0 ≤ x → x < area.width + area.right_shadow → 0 ≤ y →
        y < area.height + area.bottom_shadow →
        ((forRange 0 (area.height - 1 - 1)).foldl
          (scrollForwardRow area.width (area.width + area.right_shadow)) area).cell
            (y * (area.width + area.right_shadow) + x)
          = if y < area.height - 1 ∧ x < area.width
            then area.cell ((y + 1) * (area.width + area.right_shadow) + x)
            else area.cell (y * (area.width + area.right_shadow) + x))
    ∧ (∀ y : Int, ((forRange 0 (area.height - 1 - 1)).foldl
          (scrollForwardRow area.width (area.width + area.right_shadow)) area).line y
          = if 0 ≤ y ∧ y < area.height - 1 ∧ y < (bufSize area.changes : Int)
            then { area.line y with xmin := 0, xmax := toUInt (area.width - 1) }
            else area.line y) := by
  obtain ⟨hw0, hh0, hr0, hb0, hw31, hh31, hdata, hchg⟩ := hsz
  unfold FTermArea.lineLen FTermArea.rows at hdata
  unfold FTermArea.rows at hchg
  have key := forRange_foldl_inv
    (scrollForwardRow area.width (area.width + area.right_shadow)) 0 (area.height - 1 - 1)
    (fun k ak => ak = { area with data := ak.data, changes := ak.changes }
      ∧ bufSize ak.data = bufSize area.data
      ∧ bufSize ak.changes = bufSize area.changes
      ∧ (∀ x y : Int, 0 ≤ x → x < area.width + area.right_shadow → 0 ≤ y →
          y < area.height + area.bottom_shadow →
          ak.cell (y * (area.width + area.right_shadow) + x)
            = if y < (k : Int) ∧ x < area.width
              then area.cell ((y + 1) * (area.width + area.right_shadow) + x)
              else area.cell (y * (area.width + area.right_shadow) + x))
      ∧ (∀ y : Int, ak.line y
            = if 0 ≤ y ∧ y < (k : Int) ∧ y < (bufSize area.changes : Int)
              then { area.line y with xmin := 0, xmax := toUInt (area.width - 1) }
              else area.line y))
    area ⟨rfl, rfl, rfl, fun x y _ _ _ _ => by rw [if_neg]; omega,
      fun y => by rw [if_neg]; omega⟩
    (by
      intro k ak hk ⟨i1, i2, i3, i4, i5⟩
      have hwk : ak.width = area.width := by rw [i1]
      have hstep : scrollForwardRow area.width (area.width + area.right_shadow) ak
            (0 + (k : Int))
          = { area with
              data := memcpyCells ak.data ((0 + (k : Int)) * (area.width + area.right_shadow))
                        ak.data ((0 + (k : Int) + 1) * (area.width + area.right_shadow))
                        area.width,
              changes := bufSet ak.changes (0 + (k : Int))
                { ak.line (0 + (k : Int)) with xmin := 0, xmax := toUInt (area.width - 1) } } := by
        unfold scrollForwardRow FTermArea.setLine FTermArea.line
        simp only []
        rw [hwk]
        conv_lhs => rw [i1]
      obtain ⟨m1, m2⟩ := memcpyCells_spec ak.data
        ((0 + (k : Int)) * (area.width + area.right_shadow)) ak.data
        ((0 + (k : Int) + 1) * (area.width + area.right_shadow)) area.width
      rw [hstep]
      refine ⟨rfl, by show bufSize (memcpyCells _ _ _ _ _) = _; rw [m1, i2],
        by show bufSize (bufSet _ _ _) = _; rw [bufSize_bufSet, i3], ?_, ?_⟩
      · intro x y hx0 hx hy0 hy
        show bufGet (memcpyCells _ _ _ _ _) _ = _
        rw [m2, i2]
        have hidx := @cell_index_bounds x y (area.width + area.right_shadow)
          (area.height + area.bottom_shadow) hx0 hx hy0 hy
        have e1 : (0 + (k : Int) + 1) * (area.width + area.right_shadow)
            = (0 + (k : Int)) * (area.width + area.right_shadow)
              + (area.width + area.right_shadow) := by ring
        by_cases hrow : y = 0 + (k : Int) ∧ x < area.width
        · obtain ⟨hyk, hxw⟩ := hrow
          subst hyk
          rw [if_pos ⟨by omega, by omega, hidx.1, by rw [hdata]; exact hidx.2⟩,
            if_pos ⟨by push_cast; omega, hxw⟩]
          have e2 : (0 + (k : Int) + 1) * (area.width + area.right_shadow)
              + ((0 + (k : Int)) * (area.width + area.right_shadow) + x
                  - (0 + (k : Int)) * (area.width + area.right_shadow))
              = (0 + (k : Int) + 1) * (area.width + area.right_shadow) + x := by ring
          rw [e2]
          have h4 := i4 x (0 + (k : Int) + 1) hx0 hx (by omega) (by omega)
          rw [if_neg (by omega)] at h4
          exact h4
        · rw [if_neg (fun h => hrow (by
            have hx2 : y * (area.width + area.right_shadow) + x
                - (0 + (k : Int)) * (area.width + area.right_shadow) < area.width := by omega
            have := @row_sep x y (0 + (k : Int)) (area.width + area.right_shadow) hx0 hx
              (by omega) (by omega)
            subst this
            exact ⟨rfl, by omega⟩))]
          refine Eq.trans (i4 x y hx0 hx hy0 hy) ?_
          by_cases c : y < (k : Int) ∧ x < area.width
          · rw [if_pos c, if_pos ⟨by push_cast; omega, c.2⟩]
          · rw [if_neg c, if_neg (fun h => c ⟨by
              have := h.1
              push_cast at this
              by_contra hc
              exact hrow ⟨by omega, h.2⟩, h.2⟩)]
      · intro y
        show bufGet (bufSet _ _ _) y = _
        rw [bufGet_bufSet, i3]
        by_cases e1 : 0 + (k : Int) = y
        · subst e1
          by_cases e2 : 0 + (k : Int) < (bufSize area.changes : Int)
          · rw [if_pos ⟨rfl, by omega, e2⟩, if_pos ⟨by omega, by push_cast; omega, e2⟩, i5,
              if_neg (by omega)]
          · rw [if_neg (fun h => e2 h.2.2), if_neg (fun h => e2 h.2.2)]
            refine Eq.trans (i5 (0 + (k : Int))) ?_
            rw [if_neg (by omega)]
        · rw [if_neg (fun h => e1 h.1)]
          refine Eq.trans (i5 y) ?_
          by_cases c : 0 ≤ y ∧ y < (k : Int) ∧ y < (bufSize area.changes : Int)
          · rw [if_pos c, if_pos ⟨c.1, by push_cast; omega, c.2.2⟩]
          · rw [if_neg c, if_neg (fun h => c ⟨h.1, by
              have := h.2.1
              push_cast at this
              omega, h.2.2⟩)])
  have hn : ((area.height - 1 - 1 - 0 + 1).toNat : Int) = area.height - 1 := by omega
  obtain ⟨k1, k2, k3, k4, k5⟩ := key
  refine ⟨k1, k2, k3, ?_, ?_⟩
  · intro x y hx0 hx hy0 hy
    rw [k4 x y hx0 hx hy0 hy, hn]
  · intro y
    rw [k5 y, hn]

theorem FTermArea.frame_update {a b : FTermArea}
    (h : b = { a with data := b.data, changes := b.changes }) (d : Option (List FChar))
    (c : Option (List FLineChanges)) (hc : Bool) :
    ({ b with data := d, changes := c, has_changes := hc } : FTermArea)
      = { a with data := d, changes := c, has_changes := hc } := by
  rw [h]

/-- The surface after the part of `scrollAreaForward` that works on the
surface alone. -/
theorem scrollForwardArea_spec (area : FTermArea) (hsz : area.Sized) (hh : area.height > 1) :
    scrollForwardArea area
      = { area with data := (scrollForwardArea area).data,
                    changes := (scrollForwardArea area).changes, has_changes := true }
    ∧ bufSize (scrollForwardArea area).data = bufSize area.data
    ∧ bufSize (scrollForwardArea area).changes = bufSize area.changes
    ∧ (∀ x y : Int, 0 ≤ x → x < area.width + area.right_shadow → 0 ≤ y →
        y < area.height + area.bottom_shadow →
        (scrollForwardArea area).cell (y * (area.width + area.right_shadow) + x)
          = if y < area.height - 1 ∧ x < area.width
            then area.cell ((y + 1) * (area.width + area.right_shadow) + x)
            else if y = area.height - 1 ∧ x < area.width
            then { area.cell ((area.height - 1) * (area.width + area.right_shadow)
                      + (area.width - 1)) with ch := 32 }
            else area.cell (y * (area.width + area.right_shadow) + x))
    ∧ (∀ y : Int, (scrollForwardArea area).line y
          = if 0 ≤ y ∧ y < area.height
            then { area.line y with xmin := 0, xmax := toUInt (area.width - 1) }
            else area.line y) := by
  obtain ⟨l1, l2, l3, l4, l5⟩ := scrollForward_loop area hsz
  obtain ⟨hw0, hh0, hr0, hb0, hw31, hh31, hdata, hchg⟩ := hsz
  unfold FTermArea.lineLen FTermArea.rows at hdata
  unfold FTermArea.rows at hchg
  unfold scrollForwardArea
  simp only []
  generalize (forRange 0 (area.height - 1 - 1)).foldl
    (scrollForwardRow area.width (area.width + area.right_shadow)) area = a1 at l1 l2 l3 l4 l5 ⊢
  have hw1 : a1.width = area.width := by rw [l1]
  have hr1 : a1.right_shadow = area.right_shadow := by rw [l1]
  obtain ⟨f1, _, f3⟩ := fill_n_spec a1.data ((area.height - 1) * (area.width + area.right_shadow))
    a1.width { a1.cell ((area.height - 1) * (area.width + area.right_shadow)
                  - a1.right_shadow - 1) with ch := 32 }
  have hlc : a1.cell ((area.height - 1) * (area.width + area.right_shadow)
        - a1.right_shadow - 1)
      = area.cell ((area.height - 1) * (area.width + area.right_shadow)
          + (area.width - 1)) := by
    have e : (area.height - 1) * (area.width + area.right_shadow) - a1.right_shadow - 1
        = (area.height - 1 - 1) * (area.width + area.right_shadow) + (area.width - 1) := by
      rw [hr1]; ring
    rw [e, l4 (area.width - 1) (area.height - 1 - 1) (by omega) (by omega) (by omega) (by omega),
      if_pos ⟨by omega, by omega⟩]
    congr 2
    ring
  refine ⟨?_, ?_, ?_, ?_, ?_⟩
  · exact FTermArea.frame_update l1 _ _ true
  · show bufSize (fill_n _ _ _ _) = _
    rw [f1, l2]
  · show bufSize (bufSet _ _ _) = _
    rw [bufSize_bufSet, l3]
  · intro x y hx0 hx hy0 hy
    show bufGet (fill_n _ _ _ _) _ = _
    rw [f3, l2, hlc, hw1]
    have hidx := @cell_index_bounds x y (area.width + area.right_shadow)
      (area.height + area.bottom_shadow) hx0 hx hy0 hy
    by_cases hrow : y = area.height - 1 ∧ x < area.width
    · obtain ⟨hy1, hxw⟩ := hrow
      subst hy1
      rw [if_pos ⟨by omega, by omega, hidx.1, by rw [hdata]; exact hidx.2⟩,
        if_neg (by omega), if_pos ⟨rfl, hxw⟩]
    · rw [if_neg (fun h => hrow (by
        have := @row_sep x y (area.height - 1) (area.width + area.right_shadow) hx0 hx
          (by omega) (by omega)
        subst this
        exact ⟨rfl, by omega⟩))]
      refine Eq.trans (l4 x y hx0 hx hy0 hy) ?_
      by_cases c : y < area.height - 1 ∧ x < area.width
      · rw [if_pos c, if_pos c]
      · rw [if_neg c, if_neg c, if_neg hrow]
  · intro y
    show bufGet (bufSet _ _ _) y = _
    rw [bufGet_bufSet, l3, hw1]
    by_cases e1 : area.height - 1 = y
    · subst e1
      rw [if_pos ⟨rfl, by omega, by omega⟩, if_pos ⟨by omega, by omega⟩]
      have h5 := l5 (area.height - 1)
      rw [if_neg (by omega)] at h5
      unfold FTermArea.line at h5 ⊢
      rw [h5]
    · rw [if_neg (fun h => e1 h.1)]
      refine Eq.trans (l5 y) ?_
      by_cases c : 0 ≤ y ∧ y < area.height - 1 ∧ y < (bufSize area.changes : Int)
      · rw [if_pos c, if_pos ⟨c.1, by omega⟩]
      · rw [if_neg c, if_neg (fun h => c ⟨h.1, by omega, by omega⟩)]

theorem putAreaCharacter_frame (env : CompEnv) (w : World) (pos : Int × Int) (obj : Option Nat)
    (ac : FChar) (ti : Int) :
    putAreaCharacter env w pos obj ac ti
      = { w with vterm := (putAreaCharacter env w pos obj ac ti).vterm } := by
  unfold putAreaCharacter World.setVTermCell
  split_ifs <;> rfl

theorem vterm_frame_trans {w w1 w2 : World} (h1 : w1 = { w with vterm := w1.vterm })
    (h2 : w2 = { w1 with vterm := w2.vterm }) : w2 = { w with vterm := w2.vterm } := by
  rw [h2, h1]

theorem putAreaAtRow_frame (env : CompEnv) (area : FTermArea) (ax ay ol width length : Int)
    (w : World) (y : Int) :
    putAreaAtRow env area ax ay ol width length w y
      = { w with vterm := (putAreaAtRow env area ax ay ol width length w y).vterm } := by
  unfold putAreaAtRow
  simp only []
  by_cases h : (area.line y).trans_count = 0
  · simp only [if_pos h]
  · simp only [if_neg h]
    have key : ∀ (xs : List Int) (acc : World),
        acc = { w with vterm := acc.vterm } →
        xs.foldl (fun acc x =>
            putAreaCharacter env acc (ax + x + 1, ay + y + 1) area.widget
              (area.cell (y * width + ol + x)) ((ay + y) * acc.vterm.width + (ax + x))) acc
          = { w with vterm := (xs.foldl (fun acc x =>
            putAreaCharacter env acc (ax + x + 1, ay + y + 1) area.widget
              (area.cell (y * width + ol + x)) ((ay + y) * acc.vterm.width + (ax + x)))
              acc).vterm } := by
      intro xs
      induction xs with
      | nil => intro acc h0; exact h0
      | cons x rest ih =>
        intro acc h0
        rw [List.foldl_cons]
        exact ih _ (vterm_frame_trans h0 (putAreaCharacter_frame env acc _ _ _ _))
    have h2 := key (forRange 0 (length - 1)) w rfl
    generalize (forRange 0 (length - 1)).foldl (fun acc x =>
            putAreaCharacter env acc (ax + x + 1, ay + y + 1) area.widget
              (area.cell (y * width + ol + x)) ((ay + y) * acc.vterm.width + (ax + x))) w
      = w1 at h2 ⊢
    rw [h2]

theorem ite_vterm_frame (c : Prop) [Decidable c] (w a b : World)
    (ha : a = { w with vterm := a.vterm }) (hb : b = { w with vterm := b.vterm }) :
    (if c then a else b) = { w with vterm := (if c then a else b).vterm } := by
  by_cases h : c
  · rw [if_pos h]; exact ha
  · rw [if_neg h]; exact hb

/-- The function `putArea (pos, area)` writes the full-screen buffer only. -/
theorem putAreaAt_frame (env : CompEnv) (w : World) (pos : Int × Int) (r : AreaRef) :
    putAreaAt env w pos r = { w with vterm := (putAreaAt env w pos r).vterm } := by
  unfold putAreaAt
  cases w.area? r with
  | none => rfl
  | some area =>
    simp only []
    have key : ∀ (ys : List Int) (acc : World) (ax ay ol width length : Int),
        acc = { w with vterm := acc.vterm } →
        ys.foldl (putAreaAtRow env area ax ay ol width length) acc
          = { w with vterm :=
              (ys.foldl (putAreaAtRow env area ax ay ol width length) acc).vterm } := by
      intro ys
      induction ys with
      | nil => intro acc _ _ _ _ _ h0; exact h0
      | cons y rest ih =>
        intro acc ax ay ol width length h0
        rw [List.foldl_cons]
        exact ih _ ax ay ol width length
          (vterm_frame_trans h0 (putAreaAtRow_frame env area ax ay ol width length acc y))
    apply ite_vterm_frame _ w _ _ rfl
    apply ite_vterm_frame _ w _ _ rfl
    generalize hw1 : List.foldl (putAreaAtRow env area _ _ _ _ _) w (forRange 0 _) = w1
    have h2 : w1 = { w with vterm := w1.vterm } := by
      rw [← hw1]
      exact key _ w _ _ _ _ _ rfl
    rw [h2]

theorem FTermArea.frame_changes {a b : FTermArea} (h : b = { a with changes := b.changes })
    (c : Option (List FLineChanges)) :
    ({ b with changes := c } : FTermArea) = { a with changes := c } := by
  rw [h]

theorem scrollAvoidRows_spec (a : FTermArea) (first last : Int) :
    scrollAvoidRows a first last = { a with changes := (scrollAvoidRows a first last).changes }
    ∧ bufSize (scrollAvoidRows a first last).changes = bufSize a.changes
    ∧ ∀ y : Int, (scrollAvoidRows a first last).line y
        = if first ≤ y ∧ y ≤ last ∧ 0 ≤ y ∧ y < (bufSize a.changes : Int)
          then { a.line y with xmin := toUInt (a.width - 1), xmax := 0 }
          else a.line y := by
  unfold scrollAvoidRows
  have key := forRange_foldl_inv
    (fun (acc : FTermArea) y =>
      acc.setLine y { acc.line y with xmin := toUInt (acc.width - 1), xmax := 0 })
    first last
    (fun k acc => acc = { a with changes := acc.changes }
      ∧ bufSize acc.changes = bufSize a.changes
      ∧ ∀ y : Int, acc.line y
          = if first ≤ y ∧ y < first + (k : Int) ∧ 0 ≤ y ∧ y < (bufSize a.changes : Int)
            then { a.line y with xmin := toUInt (a.width - 1), xmax := 0 }
            else a.line y)
    a ⟨rfl, rfl, fun y => by rw [if_neg]; push_cast; omega⟩
    (by
      intro k acc _ ⟨h1, h2, h3⟩
      have hw : acc.width = a.width := by rw [h1]
      refine ⟨?_, ?_, ?_⟩
      · exact FTermArea.frame_changes h1 _
      · show bufSize (bufSet acc.changes _ _) = _
        rw [bufSize_bufSet, h2]
      · intro y
        show bufGet (bufSet acc.changes _ _) y = _
        rw [bufGet_bufSet, h2, hw]
        by_cases e1 : first + (k : Int) = y
        · subst e1
          by_cases e2 : 0 ≤ first + (k : Int)
              ∧ first + (k : Int) < (bufSize a.changes : Int)
          · rw [if_pos ⟨rfl, e2⟩, if_pos ⟨by omega, by push_cast; omega, e2⟩, h3,
              if_neg (by omega)]
          · rw [if_neg (fun h => e2 h.2), if_neg (fun h => e2 h.2.2)]
            refine Eq.trans (h3 _) ?_
            rw [if_neg (by omega)]
        · rw [if_neg (fun h => e1 h.1)]
          refine Eq.trans (h3 y) ?_
          by_cases c : first ≤ y ∧ y < first + (k : Int) ∧ 0 ≤ y
              ∧ y < (bufSize a.changes : Int)
          · rw [if_pos c, if_pos ⟨c.1, by push_cast; omega, c.2.2⟩]
          · rw [if_neg c, if_neg (fun h => c ⟨h.1, by
              have := h.2.1
              push_cast at this
              omega, h.2.2⟩)])
  obtain ⟨k1, k2, k3⟩ := key
  refine ⟨k1, k2, fun y => ?_⟩
  rw [k3 y]
  by_cases c : first ≤ y ∧ y ≤ last ∧ 0 ≤ y ∧ y < (bufSize a.changes : Int)
  · rw [if_pos c, if_pos ⟨c.1, by omega, c.2.2⟩]
  · rw [if_neg c, if_neg (fun h => c ⟨h.1, by omega, h.2.2⟩)]

/-- The surface a scroll forward leaves behind the pointer it was called
with. -/
theorem scrollAreaForward_area (env : ScrollEnv) (w : World) (r : AreaRef) (area : FTermArea)
    (ha : w.area? r = some area) (hh : area.height > 1) :
    (scrollAreaForward env w r).area? r
      = some (if r = AreaRef.desktop ∧ env.t_scroll_forward.isSome = true
              then scrollAvoidRows (scrollForwardArea area) 0 (area.height - 1 - 1)
              else scrollForwardArea area) := by
  unfold scrollAreaForward
  rw [ha]
  simp only []
  rw [if_neg (by omega)]
  by_cases hr : r = AreaRef.desktop
  · subst hr
    by_cases hc : env.t_scroll_forward.isSome = true
    · rw [if_pos rfl, if_pos hc, if_pos ⟨rfl, hc⟩]
      have hd : (putAreaAt env.comp
          { setTermXY env.term (w.setArea AreaRef.desktop (scrollForwardArea area)) 0
              (w.setArea AreaRef.desktop (scrollForwardArea area)).vdesktop.height with
            term_out := (setTermXY env.term (w.setArea AreaRef.desktop (scrollForwardArea area))
                0 (w.setArea AreaRef.desktop (scrollForwardArea area)).vdesktop.height).term_out
              ++ env.scrollTermForward }
          (1, 1) AreaRef.desktop).area? AreaRef.desktop = some (scrollForwardArea area) := by
        rw [putAreaAt_frame]
        show some (setTermXY env.term _ 0 _).vdesktop = _
        rw [(setTermXY_sameAreas env.term _ 0 _).2.1]
        rfl
      rw [hd]
      rfl
    · rw [if_pos rfl, if_neg hc, if_neg (fun h => hc h.2)]
      rfl
  · rw [if_neg hr, if_neg (fun h => hr h.1)]
    exact area?_setArea w r area _ ha

/-- C17: for every surface with `height > 1` whose arrays have the lengths
`resizeArea` gives them, after `scrollAreaForward` the interior of row `y`
(`y < height - 1`) equals the former interior of row `y + 1`, every interior
cell of the last interior row equals the last interior cell of the former
last interior row with its character replaced by a space, the cells of the
right shadow (and of the bottom shadow) are unchanged, and on a surface
other than the desktop every interior row has the dirty range
`[0, width - 1]`. -/
theorem C17_scrollAreaForward (env : ScrollEnv) (w : World) (r : AreaRef) (area : FTermArea)
    (ha : w.area? r = some area) (hsz : area.Sized) (hh : area.height > 1) :
    ∃ area1, (scrollAreaForward env w r).area? r = some area1
      ∧ (∀ x y : Int, 0 ≤ x → x < area.width → 0 ≤ y → y < area.height - 1 →
          area1.at x y = area.at x (y + 1))
      ∧ (∀ x : Int, 0 ≤ x → x < area.width →
          area1.at x (area.height - 1)
            = { area.at (area.width - 1) (area.height - 1) with ch := 32 })
      ∧ (∀ x y : Int, 0 ≤ x → x < area.width + area.right_shadow → 0 ≤ y →
          y < area.height + area.bottom_shadow → (area.width ≤ x ∨ area.height ≤ y) →
          area1.at x y = area.at x y)
      ∧ (r ≠ AreaRef.desktop → ∀ y : Int, 0 ≤ y → y < area.height →
          (area1.line y).xmin = 0 ∧ (area1.line y).xmax = (area.width - 1).toNat) := by
  obtain ⟨s1, s2, s3, s4, s5⟩ := scrollForwardArea_spec area hsz hh
  obtain ⟨v1, v2, v3⟩ := scrollAvoidRows_spec (scrollForwardArea area) 0 (area.height - 1 - 1)
  obtain ⟨hw0, hh0, hr0, hb0, hw31, hh31, hdata, hchg⟩ := hsz
  have hd : (if r = AreaRef.desktop ∧ env.t_scroll_forward.isSome = true
        then scrollAvoidRows (scrollForwardArea area) 0 (area.height - 1 - 1)
        else scrollForwardArea area).data = (scrollForwardArea area).data := by
    split_ifs
    · rw [v1]
    · rfl
  have hwd : (if r = AreaRef.desktop ∧ env.t_scroll_forward.isSome = true
        then scrollAvoidRows (scrollForwardArea area) 0 (area.height - 1 - 1)
        else scrollForwardArea area).lineLen = area.width + area.right_shadow := by
    unfold FTermArea.lineLen
    split_ifs
    · rw [v1, s1]
    · rw [s1]
  have hat : ∀ x y : Int, (if r = AreaRef.desktop ∧ env.t_scroll_forward.isSome = true
        then scrollAvoidRows (scrollForwardArea area) 0 (area.height - 1 - 1)
        else scrollForwardArea area).at x y
      = (scrollForwardArea area).cell (y * (area.width + area.right_shadow) + x) := by
    intro x y
    unfold FTermArea.at FTermArea.cell
    rw [hd, hwd]
  refine ⟨_, scrollAreaForward_area env w r area ha hh, ?_, ?_, ?_, ?_⟩
  · intro x y hx0 hx hy0 hy
    rw [hat, s4 x y hx0 (by omega) hy0 (by omega), if_pos ⟨hy, hx⟩]
    rfl
  · intro x hx0 hx
    rw [hat, s4 x (area.height - 1) hx0 (by omega) (by omega) (by omega), if_neg (by omega),
      if_pos ⟨rfl, hx⟩]
    rfl
  · intro x y hx0 hx hy0 hy hsh
    rw [hat, s4 x y hx0 hx hy0 hy, if_neg (by omega), if_neg (by omega)]
    rfl
  · intro hr y hy0 hy
    rw [if_neg (fun h => hr h.1), s5 y, if_pos ⟨hy0, hy⟩]
    exact ⟨rfl, toUInt_of_nonneg (by omega) (by omega)⟩

theorem C17_scrollAreaForward_witness :
    ∃ area1, (scrollAreaForward sampleScrollEnv
        (sampleWorld [⟨1, some (sampleArea 2 1 3 2 1 1)⟩]) (AreaRef.window 0)).area?
          (AreaRef.window 0) = some area1
      ∧ (∀ x y : Int, 0 ≤ x → x < (sampleArea 2 1 3 2 1 1).width → 0 ≤ y →
          y < (sampleArea 2 1 3 2 1 1).height - 1 →
          area1.at x y = (sampleArea 2 1 3 2 1 1).at x (y + 1))
      ∧ (∀ x : Int, 0 ≤ x → x < (sampleArea 2 1 3 2 1 1).width →
          area1.at x ((sampleArea 2 1 3 2 1 1).height - 1)
            = { (sampleArea 2 1 3 2 1 1).at ((sampleArea 2 1 3 2 1 1).width - 1)
                  ((sampleArea 2 1 3 2 1 1).height - 1) with ch := 32 })
      ∧ (∀ x y : Int, 0 ≤ x →
          x < (sampleArea 2 1 3 2 1 1).width + (sampleArea 2 1 3 2 1 1).right_shadow → 0 ≤ y →
          y < (sampleArea 2 1 3 2 1 1).height + (sampleArea 2 1 3 2 1 1).bottom_shadow →
          ((sampleArea 2 1 3 2 1 1).width ≤ x ∨ (sampleArea 2 1 3 2 1 1).height ≤ y) →
          area1.at x y = (sampleArea 2 1 3 2 1 1).at x y)
      ∧ (AreaRef.window 0 ≠ AreaRef.desktop → ∀ y : Int, 0 ≤ y →
          y < (sampleArea 2 1 3 2 1 1).height →
          (area1.line y).xmin = 0
          ∧ (area1.line y).xmax = ((sampleArea 2 1 3 2 1 1).width - 1).toNat) :=
  C17_scrollAreaForward sampleScrollEnv (sampleWorld [⟨1, some (sampleArea 2 1 3 2 1 1)⟩])
    (AreaRef.window 0) (sampleArea 2 1 3 2 1 1) rfl (by decide) (by decide)

/-- The surface after the first loop of `scrollAreaReverse`: the interior of
every interior row but the first holds the former interior of the row above
it, every other cell is as before, and the rows visited have the dirty
range `[0, width - 1]`. -/
theorem scrollReverse_loop (area : FTermArea) (hsz : area.Sized) :
    (forRange 1 (area.height - 1)).reverse.foldl
        (scrollReverseRow area.width (area.width + area.right_shadow)) area
      = { area with
          data := ((forRange 1 (area.height - 1)).reverse.foldl
            (scrollReverseRow area.width (area.width + area.right_shadow)) area).data,
          changes := ((forRange 1 (area.height - 1)).reverse.foldl
            (scrollReverseRow area.width (area.width + area.right_shadow)) area).changes }
    ∧ bufSize ((forRange 1 (area.height - 1)).reverse.foldl
        (scrollReverseRow area.width (area.width + area.right_shadow)) area).data
        = bufSize area.data
    ∧ bufSize ((forRange 1 (area.height - 1)).reverse.foldl
        (scrollReverseRow area.width (area.width + area.right_shadow)) area).changes
        = bufSize area.changes
    ∧ (∀ x y : Int, 0 ≤ x → x < area.width + area.right_shadow → 0 ≤ y →
        y < area.height + area.bottom_shadow →
        ((forRange 1 (area.height - 1)).reverse.foldl
          (scrollReverseRow area.width (area.width + area.right_shadow)) area).cell
            (y * (area.width + area.right_shadow) + x)
          = if 1 ≤ y ∧ y < area.height ∧ x < area.width
            then area.cell ((y - 1) * (area.width + area.right_shadow) + x)
            else area.cell (y * (area.width + area.right_shadow) + x))
    ∧ (∀ y : Int, ((forRange 1 (area.height - 1)).reverse.foldl
          (scrollReverseRow area.width (area.width + area.right_shadow)) area).line y
          = if 1 ≤ y ∧ y < area.height
            then { area.line y with xmin := 0, xmax := toUInt (area.width - 1) }
            else area.line y) := by
  obtain ⟨hw0, hh0, hr0, hb0, hw31, hh31, hdata, hchg⟩ := hsz
  unfold FTermArea.lineLen FTermArea.rows at hdata
  unfold FTermArea.rows at hchg
  have key := forRange_reverse_foldl_inv
    (scrollReverseRow area.width (area.width + area.right_shadow)) 1 (area.height - 1)
    (fun k ak => ak = { area with data := ak.data, changes := ak.changes }
      ∧ bufSize ak.data = bufSize area.data
      ∧ bufSize ak.changes = bufSize area.changes
      ∧ (∀ x y : Int, 0 ≤ x → x < area.width + area.right_shadow → 0 ≤ y →
          y < area.height + area.bottom_shadow →
          ak.cell (y * (area.width + area.right_shadow) + x)
            = if area.height - 1 - (k : Int) < y ∧ y < area.height ∧ x < area.width
              then area.cell ((y - 1) * (area.width + area.right_shadow) + x)
              else area.cell (y * (area.width + area.right_shadow) + x))
      ∧ (∀ y : Int, ak.line y
            = if area.height - 1 - (k : Int) < y ∧ y < area.height
              then { area.line y with xmin := 0, xmax := toUInt (area.width - 1) }
              else area.line y))
    area ⟨rfl, rfl, rfl, fun x y _ _ _ _ => by rw [if_neg]; omega,
      fun y => by rw [if_neg]; omega⟩
    (by
      intro k ak hk ⟨i1, i2, i3, i4, i5⟩
      have hwk : ak.width = area.width := by rw [i1]
      have hstep : scrollReverseRow area.width (area.width + area.right_shadow) ak
            (area.height - 1 - (k : Int))
          = { area with
              data := memcpyCells ak.data
                        ((area.height - 1 - (k : Int)) * (area.width + area.right_shadow))
                        ak.data
                        ((area.height - 1 - (k : Int) - 1) * (area.width + area.right_shadow))
                        area.width,
              changes := bufSet ak.changes (area.height - 1 - (k : Int))
                { ak.line (area.height - 1 - (k : Int)) with
                  xmin := 0, xmax := toUInt (area.width - 1) } } := by
        unfold scrollReverseRow FTermArea.setLine FTermArea.line
        simp only []
        rw [hwk]
        conv_lhs => rw [i1]
      obtain ⟨m1, m2⟩ := memcpyCells_spec ak.data
        ((area.height - 1 - (k : Int)) * (area.width + area.right_shadow)) ak.data
        ((area.height - 1 - (k : Int) - 1) * (area.width + area.right_shadow)) area.width
      rw [hstep]
      refine ⟨rfl, by show bufSize (memcpyCells _ _ _ _ _) = _; rw [m1, i2],
        by show bufSize (bufSet _ _ _) = _; rw [bufSize_bufSet, i3], ?_, ?_⟩
      · intro x y hx0 hx hy0 hy
        show bufGet (memcpyCells _ _ _ _ _) _ = _
        rw [m2, i2]
        have hidx := @cell_index_bounds x y (area.width + area.right_shadow)
          (area.height + area.bottom_shadow) hx0 hx hy0 hy
        by_cases hrow : y = area.height - 1 - (k : Int) ∧ x < area.width
        · obtain ⟨hyk, hxw⟩ := hrow
          subst hyk
          rw [if_pos ⟨by omega, by omega, hidx.1, by rw [hdata]; exact hidx.2⟩,
            if_pos ⟨by push_cast; omega, by omega, hxw⟩]
          have e2 : (area.height - 1 - (k : Int) - 1) * (area.width + area.right_shadow)
              + ((area.height - 1 - (k : Int)) * (area.width + area.right_shadow) + x
                  - (area.height - 1 - (k : Int)) * (area.width + area.right_shadow))
              = (area.height - 1 - (k : Int) - 1) * (area.width + area.right_shadow) + x := by
            ring
          rw [e2]
          have h4 := i4 x (area.height - 1 - (k : Int) - 1) hx0 hx (by omega) (by omega)
          rw [if_neg (by omega)] at h4
          exact h4
        · rw [if_neg (fun h => hrow (by
            have hx2 : y * (area.width + area.right_shadow) + x
                - (area.height - 1 - (k : Int)) * (area.width + area.right_shadow)
                  < area.width := by omega
            have := @row_sep x y (area.height - 1 - (k : Int))
              (area.width + area.right_shadow) hx0 hx (by omega) (by omega)
            subst this
            exact ⟨rfl, by omega⟩))]
          refine Eq.trans (i4 x y hx0 hx hy0 hy) ?_
          by_cases c : area.height - 1 - (k : Int) < y ∧ y < area.height ∧ x < area.width
          · rw [if_pos c, if_pos ⟨by push_cast; omega, c.2⟩]
          · rw [if_neg c, if_neg (fun h => c ⟨by
              have := h.1
              push_cast at this
              by_contra hc
              exact hrow ⟨by omega, h.2.2⟩, h.2⟩)]
      · intro y
        show bufGet (bufSet _ _ _) y = _
        rw [bufGet_bufSet, i3]
        by_cases e1 : area.height - 1 - (k : Int) = y
        · subst e1
          rw [if_pos ⟨rfl, by omega, by omega⟩, if_pos ⟨by push_cast; omega, by omega⟩, i5,
            if_neg (by omega)]
        · rw [if_neg (fun h => e1 h.1)]
          refine Eq.trans (i5 y) ?_
          by_cases c : area.height - 1 - (k : Int) < y ∧ y < area.height
          · rw [if_pos c, if_pos ⟨by push_cast; omega, c.2⟩]
          · rw [if_neg c, if_neg (fun h => c ⟨by
              have := h.1
              push_cast at this
              omega, h.2⟩)])
  have hn : ((area.height - 1 - 1 + 1).toNat : Int) = area.height - 1 := by omega
  obtain ⟨k1, k2, k3, k4, k5⟩ := key
  refine ⟨k1, k2, k3, ?_, ?_⟩
  · intro x y hx0 hx hy0 hy
    rw [k4 x y hx0 hx hy0 hy, hn]
    by_cases c : 1 ≤ y ∧ y < area.height ∧ x < area.width
    · rw [if_pos c, if_pos ⟨by omega, c.2⟩]
    · rw [if_neg c, if_neg (fun h => c ⟨by omega, h.2⟩)]
  · intro y
    rw [k5 y, hn]
    by_cases c : 1 ≤ y ∧ y < area.height
    · rw [if_pos c, if_pos ⟨by omega, c.2⟩]
    · rw [if_neg c, if_neg (fun h => c ⟨by omega, h.2⟩)]

/-- The surface after the part of `scrollAreaReverse` that works on the
surface alone. -/
theorem scrollReverseArea_spec (area : FTermArea) (hsz : area.Sized) (hh : area.height > 1) :
    scrollReverseArea area
      = { area with data := (scrollReverseArea area).data,
                    changes := (scrollReverseArea area).changes, has_changes := true }
    ∧ bufSize (scrollReverseArea area).data = bufSize area.data
    ∧ bufSize (scrollReverseArea area).changes = bufSize area.changes
    ∧ (∀ x y : Int, 0 ≤ x → x < area.width + area.right_shadow → 0 ≤ y →
        y < area.height + area.bottom_shadow →
        (scrollReverseArea area).cell (y * (area.width + area.right_shadow) + x)
          = if 1 ≤ y ∧ y < area.height ∧ x < area.width
            then area.cell ((y - 1) * (area.width + area.right_shadow) + x)
            else if y = 0 ∧ x < area.width
            then { area.cell 0 with ch := 32 }
            else area.cell (y * (area.width + area.right_shadow) + x))
    ∧ (∀ y : Int, (scrollReverseArea area).line y
          = if 0 ≤ y ∧ y < area.height
            then { area.line y with xmin := 0, xmax := toUInt (area.width - 1) }
            else area.line y) := by
  obtain ⟨l1, l2, l3, l4, l5⟩ := scrollReverse_loop area hsz
  obtain ⟨hw0, hh0, hr0, hb0, hw31, hh31, hdata, hchg⟩ := hsz
  unfold FTermArea.lineLen FTermArea.rows at hdata
  unfold FTermArea.rows at hchg
  unfold scrollReverseArea
  simp only []
  generalize (forRange 1 (area.height - 1)).reverse.foldl
    (scrollReverseRow area.width (area.width + area.right_shadow)) area = a1 at l1 l2 l3 l4 l5 ⊢
  have hw1 : a1.width = area.width := by rw [l1]
  obtain ⟨f1, _, f3⟩ := fill_n_spec a1.data 0 a1.width
    { a1.cell (area.width + area.right_shadow) with ch := 32 }
  have hlc : a1.cell (area.width + area.right_shadow) = area.cell 0 := by
    have e : area.width + area.right_shadow = 1 * (area.width + area.right_shadow) + 0 := by
      ring
    have h4 := l4 0 1 (le_refl 0) (by omega) (by omega) (by omega)
    rw [if_pos ⟨le_refl 1, by omega, hw0⟩] at h4
    rw [← e] at h4
    rw [h4]
    congr 1
    ring
  refine ⟨FTermArea.frame_update l1 _ _ true, ?_, ?_, ?_, ?_⟩
  · show bufSize (fill_n _ _ _ _) = _
    rw [f1, l2]
  · show bufSize (bufSet _ _ _) = _
    rw [bufSize_bufSet, l3]
  · intro x y hx0 hx hy0 hy
    show bufGet (fill_n _ _ _ _) _ = _
    rw [f3, l2, hlc, hw1]
    have hidx := @cell_index_bounds x y (area.width + area.right_shadow)
      (area.height + area.bottom_shadow) hx0 hx hy0 hy
    by_cases hrow : y = 0 ∧ x < area.width
    · obtain ⟨hy1, hxw⟩ := hrow
      subst hy1
      rw [if_pos ⟨by omega, by omega, hidx.1, by rw [hdata]; exact hidx.2⟩,
        if_neg (by omega), if_pos ⟨rfl, hxw⟩]
    · rw [if_neg (fun h => hrow (by
        have := @row_sep x y 0 (area.width + area.right_shadow) hx0 hx
          (by omega) (by omega)
        subst this
        exact ⟨rfl, by omega⟩))]
      refine Eq.trans (l4 x y hx0 hx hy0 hy) ?_
      by_cases c : 1 ≤ y ∧ y < area.height ∧ x < area.width
      · rw [if_pos c, if_pos c]
      · rw [if_neg c, if_neg c, if_neg hrow]
  · intro y
    show bufGet (bufSet _ _ _) y = _
    rw [bufGet_bufSet, l3, hw1]
    by_cases e1 : 0 = y
    · subst e1
      rw [if_pos ⟨rfl, by omega, by omega⟩, if_pos ⟨by omega, by omega⟩]
      have h5 := l5 0
      rw [if_neg (by omega)] at h5
      unfold FTermArea.line at h5 ⊢
      rw [h5]
    · rw [if_neg (fun h => e1 h.1)]
      refine Eq.trans (l5 y) ?_
      by_cases c : 1 ≤ y ∧ y < area.height
      · rw [if_pos c, if_pos ⟨by omega, c.2⟩]
      · rw [if_neg c, if_neg (fun h => c ⟨by omega, h.2⟩)]

/-- The surface a scroll reverse leaves behind the pointer it was called
with. -/
theorem scrollAreaReverse_area (env : ScrollEnv) (w : World) (r : AreaRef) (area : FTermArea)
    (ha : w.area? r = some area) (hh : area.height > 1) :
    (scrollAreaReverse env w r).area? r
      = some (if r = AreaRef.desktop ∧ env.t_scroll_reverse.isSome = true
              then scrollAvoidRows (scrollReverseArea area) 1 (area.height - 1)
              else scrollReverseArea area) := by
  unfold scrollAreaReverse
  rw [ha]
  simp only []
  rw [if_neg (by omega)]
  by_cases hr : r = AreaRef.desktop
  · subst hr
    by_cases hc : env.t_scroll_reverse.isSome = true
    · rw [if_pos rfl, if_pos hc, if_pos ⟨rfl, hc⟩]
      have hd : (putAreaAt env.comp
          { setTermXY env.term (w.setArea AreaRef.desktop (scrollReverseArea area)) 0 0 with
            term_out := (setTermXY env.term (w.setArea AreaRef.desktop (scrollReverseArea area))
                0 0).term_out ++ env.scrollTermReverse }
          (1, 1) AreaRef.desktop).area? AreaRef.desktop = some (scrollReverseArea area) := by
        rw [putAreaAt_frame]
        show some (setTermXY env.term _ 0 _).vdesktop = _
        rw [(setTermXY_sameAreas env.term _ 0 _).2.1]
        rfl
      rw [hd]
      rfl
    · rw [if_pos rfl, if_neg hc, if_neg (fun h => hc h.2)]
      rfl
  · rw [if_neg hr, if_neg (fun h => hr h.1)]
    exact area?_setArea w r area _ ha

/-- C18: for every surface with `height > 1` whose arrays have the lengths
`resizeArea` gives them, after `scrollAreaReverse` the interior of row `y`
(`1 <= y < height`) equals the former interior of row `y - 1` and every
interior cell of row 0 equals the first cell of the former row 0 with its
character replaced by a space; a surface with `height <= 1` is left
unchanged by both scroll functions, as is everything else in the state. -/
theorem C18_scrollAreaReverse (env : ScrollEnv) (w : World) (r : AreaRef) (area : FTermArea)
    (ha : w.area? r = some area) (hsz : area.Sized) :
    (area.height > 1 →
      ∃ area1, (scrollAreaReverse env w r).area? r = some area1
        ∧ (∀ x y : Int, 0 ≤ x → x < area.width → 1 ≤ y → y < area.height →
            area1.at x y = area.at x (y - 1))
        ∧ (∀ x : Int, 0 ≤ x → x < area.width →
            area1.at x 0 = { area.at 0 0 with ch := 32 }))
    ∧ (area.height ≤ 1 →
        scrollAreaForward env w r = w ∧ scrollAreaReverse env w r = w) := by
  constructor
  · intro hh
    obtain ⟨s1, s2, s3, s4, s5⟩ := scrollReverseArea_spec area hsz hh
    obtain ⟨v1, v2, v3⟩ := scrollAvoidRows_spec (scrollReverseArea area) 1 (area.height - 1)
    obtain ⟨hw0, hh0, hr0, hb0, hw31, hh31, hdata, hchg⟩ := hsz
    have hd : (if r = AreaRef.desktop ∧ env.t_scroll_reverse.isSome = true
          then scrollAvoidRows (scrollReverseArea area) 1 (area.height - 1)
          else scrollReverseArea area).data = (scrollReverseArea area).data := by
      split_ifs
      · rw [v1]
      · rfl
    have hwd : (if r = AreaRef.desktop ∧ env.t_scroll_reverse.isSome = true
          then scrollAvoidRows (scrollReverseArea area) 1 (area.height - 1)
          else scrollReverseArea area).lineLen = area.width + area.right_shadow := by
      unfold FTermArea.lineLen
      split_ifs
      · rw [v1, s1]
      · rw [s1]
    have hat : ∀ x y : Int, (if r = AreaRef.desktop ∧ env.t_scroll_reverse.isSome = true
          then scrollAvoidRows (scrollReverseArea area) 1 (area.height - 1)
          else scrollReverseArea area).at x y
        = (scrollReverseArea area).cell (y * (area.width + area.right_shadow) + x) := by
      intro x y
      unfold FTermArea.at FTermArea.cell
      rw [hd, hwd]
    refine ⟨_, scrollAreaReverse_area env w r area ha hh, ?_, ?_⟩
    · intro x y hx0 hx hy1 hy
      rw [hat, s4 x y hx0 (by omega) (by omega) (by omega), if_pos ⟨hy1, hy, hx⟩]
      rfl
    · intro x hx0 hx
      rw [hat, s4 x 0 hx0 (by omega) (le_refl 0) (by omega), if_neg (by omega),
        if_pos ⟨rfl, hx⟩]
      have e : (0 : Int) * area.lineLen + 0 = 0 := by ring
      unfold FTermArea.at
      rw [e]
  · intro hh
    constructor
    · unfold scrollAreaForward
      rw [ha]
      simp only []
      rw [if_pos hh]
    · unfold scrollAreaReverse
      rw [ha]
      simp only []
      rw [if_pos hh]

theorem C18_scrollAreaReverse_witness :
    ((sampleArea 2 1 3 2 1 1).height > 1 →
      ∃ area1, (scrollAreaReverse sampleScrollEnv
          (sampleWorld [⟨1, some (sampleArea 2 1 3 2 1 1)⟩]) (AreaRef.window 0)).area?
            (AreaRef.window 0) = some area1
        ∧ (∀ x y : Int, 0 ≤ x → x < (sampleArea 2 1 3 2 1 1).width → 1 ≤ y →
            y < (sampleArea 2 1 3 2 1 1).height →
            area1.at x y = (sampleArea 2 1 3 2 1 1).at x (y - 1))
        ∧ (∀ x : Int, 0 ≤ x → x < (sampleArea 2 1 3 2 1 1).width →
            area1.at x 0 = { (sampleArea 2 1 3 2 1 1).at 0 0 with ch := 32 }))
    ∧ ((sampleArea 2 1 3 2 1 1).height ≤ 1 →
        scrollAreaForward sampleScrollEnv (sampleWorld [⟨1, some (sampleArea 2 1 3 2 1 1)⟩])
            (AreaRef.window 0) = sampleWorld [⟨1, some (sampleArea 2 1 3 2 1 1)⟩]
        ∧ scrollAreaReverse sampleScrollEnv (sampleWorld [⟨1, some (sampleArea 2 1 3 2 1 1)⟩])
            (AreaRef.window 0) = sampleWorld [⟨1, some (sampleArea 2 1 3 2 1 1)⟩]) :=
  C18_scrollAreaReverse sampleScrollEnv (sampleWorld [⟨1, some (sampleArea 2 1 3 2 1 1)⟩])
    (AreaRef.window 0) (sampleArea 2 1 3 2 1 1) rfl (by decide)

/-- On a desktop at least two columns wide, with the scroll capability,
`scrollAreaForward` leaves every row above the last interior row clean
(`xmin = width - 1 > 0 = xmax`) and the last interior row dirty over
`[0, width - 1]`. -/
theorem scrollAreaForward_desktop_rows (env : ScrollEnv) (w : World)
    (hsz : w.vdesktop.Sized) (hh : w.vdesktop.height > 1)
    (hc : env.t_scroll_forward.isSome = true) (hw : 2 ≤ w.vdesktop.width) :
    ∃ area1, (scrollAreaForward env w AreaRef.desktop).area? AreaRef.desktop = some area1
      ∧ (∀ y : Int, 0 ≤ y → y < w.vdesktop.height - 1 →
          toInt (area1.line y).xmin > toInt (area1.line y).xmax)
      ∧ (area1.line (w.vdesktop.height - 1)).xmin = 0
      ∧ (area1.line (w.vdesktop.height - 1)).xmax = (w.vdesktop.width - 1).toNat := by
  obtain ⟨s1, s2, s3, s4, s5⟩ := scrollForwardArea_spec w.vdesktop hsz hh
  obtain ⟨v1, v2, v3⟩ := scrollAvoidRows_spec (scrollForwardArea w.vdesktop) 0
    (w.vdesktop.height - 1 - 1)
  obtain ⟨hw0, hh0, hr0, hb0, hw31, hh31, hdata, hchg⟩ := hsz
  unfold FTermArea.rows at hchg
  have hwd : (scrollForwardArea w.vdesktop).width = w.vdesktop.width := by rw [s1]
  refine ⟨_, scrollAreaForward_area env w AreaRef.desktop w.vdesktop rfl hh, ?_, ?_, ?_⟩
  · intro y hy0 hy
    rw [if_pos ⟨rfl, hc⟩, v3 y, if_pos ⟨hy0, by omega, hy0, by rw [s3]; omega⟩, hwd]
    show toInt (toUInt (w.vdesktop.width - 1)) > toInt 0
    rw [toUInt_of_nonneg (by omega) (by omega), toInt_of_lt (by omega),
      toInt_of_lt (by norm_num)]
    push_cast
    omega
  · rw [if_pos ⟨rfl, hc⟩, v3, if_neg (by omega), s5, if_pos ⟨by omega, by omega⟩]
  · rw [if_pos ⟨rfl, hc⟩, v3, if_neg (by omega), s5, if_pos ⟨by omega, by omega⟩]
    exact toUInt_of_nonneg (by omega) (by omega)

/-- C19 fails on the code for a desktop one column wide: with the scroll
capabilities, on a 1 x 2 desktop `scrollAreaForward` leaves row 0 with
`xmin = 0 = xmax`, a dirty row although only row 1 is newly exposed, and
`scrollAreaReverse` leaves row 1 with `xmin = 0 = xmax`. -/
theorem C19_scroll_desktop_one_column :
    sampleScrollEnv.t_scroll_forward.isSome = true
    ∧ sampleScrollEnv.t_scroll_reverse.isSome = true
    ∧ sampleNarrowWorld.vdesktop.width = 1 ∧ sampleNarrowWorld.vdesktop.height = 2
    ∧ ((scrollAreaForward sampleScrollEnv sampleNarrowWorld AreaRef.desktop).area?
          AreaRef.desktop).map
        (fun a => (a.line 0, decide (toInt (a.line 0).xmin > toInt (a.line 0).xmax)))
      = some ({ xmin := 0, xmax := 0, trans_count := 0 }, false)
    ∧ ((scrollAreaReverse sampleScrollEnv sampleNarrowWorld AreaRef.desktop).area?
          AreaRef.desktop).map
        (fun a => (a.line 1, decide (toInt (a.line 1).xmin > toInt (a.line 1).xmax)))
      = some ({ xmin := 0, xmax := 0, trans_count := 0 }, false) := by
  decide

/-! ## The cells written by `putArea` lie inside the dirty range -/

theorem foldl_fst {σ τ α : Type} (f : σ → α → σ) (g : σ × τ → α → σ × τ)
    (h : ∀ s x, (g s x).1 = f s.1 x) (xs : List α) :
    ∀ s : σ × τ, (xs.foldl g s).1 = xs.foldl f s.1 := by
  induction xs with
  | nil => intro s; rfl
  | cons x rest ih =>
    intro s
    rw [List.foldl_cons, List.foldl_cons, ih, h]

/-- The record of the column loop: every position written lies in the row
`ay + y`, not left of the column the variable `line_xmin` ends at, and not
right of the last column visited. -/
theorem columnLog_inv (env : CompEnv) (r : AreaRef) (ax ay ol y : Int) (w : World)
    (lo hi : Int) (hx : 0 ≤ ax + lo) (hy : 0 ≤ ay + y) :
    ((forRange lo hi).foldl (putAreaColumnLog env r ax ay ol y)
        ({ world := w, modified := false, line_xmin := lo }, [])).1
      = columnLoop env r ax ay ol y w lo hi
    ∧ lo ≤ (columnLoop env r ax ay ol y w lo hi).line_xmin
    ∧ ∀ p ∈ ((forRange lo hi).foldl (putAreaColumnLog env r ax ay ol y)
        ({ world := w, modified := false, line_xmin := lo }, [])).2,
        p.2 = ay + y
        ∧ ax + (columnLoop env r ax ay ol y w lo hi).line_xmin - ol ≤ p.1
        ∧ p.1 ≤ ax + hi - ol := by
  have hfst := foldl_fst (putAreaColumn env r ax ay ol y) (putAreaColumnLog env r ax ay ol y)
    (fun _ _ => rfl) (forRange lo hi) ({ world := w, modified := false, line_xmin := lo }, [])
  have key := forRange_foldl_inv (putAreaColumnLog env r ax ay ol y) lo hi
    (fun k s => (s.1.modified = false → s.1.line_xmin = lo + (k : Int) ∧ s.2 = [])
      ∧ lo ≤ s.1.line_xmin ∧ s.1.line_xmin ≤ lo + (k : Int)
      ∧ ∀ p ∈ s.2, p.2 = ay + y ∧ ax + s.1.line_xmin - ol ≤ p.1
          ∧ p.1 ≤ ax + (lo + (k : Int) - 1) - ol)
    ({ world := w, modified := false, line_xmin := lo }, [])
    ⟨fun _ => ⟨by simp, rfl⟩, le_refl _, by simp, fun p hp => absurd hp (List.not_mem_nil p)⟩
    (by
      intro k s hk ⟨i1, i2, i3, i4⟩
      have hpos : ¬ (ax + (lo + (k : Int)) < 0 ∨ ay + y < 0) := by omega
      unfold putAreaColumnLog putAreaColumn
      simp only [if_neg hpos, hpos, not_false_eq_true, true_and]
      cases hm : s.1.modified
      · cases hr : (updateVTermCharacter env s.1.world r (lo + (k : Int), y)
            (ax + (lo + (k : Int)) - ol, ay + y)).1
        · obtain ⟨j1, j2⟩ := i1 hm
          simp only [Bool.or_self, if_true, Bool.false_eq_true, if_false]
          refine ⟨fun _ => ⟨by rw [j1]; push_cast; ring, j2⟩, by omega, by push_cast; omega, ?_⟩
          intro p hp
          rw [j2] at hp
          exact absurd hp (List.not_mem_nil p)
        · obtain ⟨j1, j2⟩ := i1 hm
          simp only [Bool.or_true, Bool.true_eq_false, if_false, if_true]
          refine ⟨fun h => absurd h (by simp), i2, by push_cast; omega, ?_⟩
          intro p hp
          rw [j2] at hp
          simp only [List.mem_singleton] at hp
          subst hp
          exact ⟨rfl, by show ax + s.1.line_xmin - ol ≤ ax + (lo + (k : Int)) - ol; omega,
            by show ax + (lo + (k : Int)) - ol ≤ _; push_cast; omega⟩
      · simp only [Bool.true_or, Bool.true_eq_false, if_false]
        refine ⟨fun h => absurd h (by simp), i2, by push_cast; omega, ?_⟩
        intro p hp
        have hmem : p ∈ s.2 ∨ p = (ax + (lo + (k : Int)) - ol, ay + y) := by
          split_ifs at hp
          · rcases List.mem_cons.1 hp with h | h
            · exact Or.inr h
            · exact Or.inl h
          · exact Or.inl hp
        rcases hmem with h | h
        · obtain ⟨q1, q2, q3⟩ := i4 p h
          exact ⟨q1, q2, by push_cast; omega⟩
        · subst h
          exact ⟨rfl, by show ax + s.1.line_xmin - ol ≤ ax + (lo + (k : Int)) - ol; omega,
            by show ax + (lo + (k : Int)) - ol ≤ _; push_cast; omega⟩)
  obtain ⟨k1, k2, k3, k4⟩ := key
  rw [hfst] at k2 k3 k4
  refine ⟨hfst, k2, ?_⟩
  intro p hp
  obtain ⟨q1, q2, q3⟩ := k4 p hp
  refine ⟨q1, q2, ?_⟩
  by_cases hl : lo ≤ hi
  · have : ((hi - lo + 1).toNat : Int) = hi - lo + 1 := by omega
    omega
  · have hnil : forRange lo hi = [] := by
      unfold forRange
      have : (hi - lo + 1).toNat = 0 := by omega
      rw [this]; rfl
    rw [hnil] at hp
    exact absurd hp (List.not_mem_nil p)

theorem line_setLine (a : FTermArea) (y y1 : Int) (c : FLineChanges) :
    (a.setLine y c).line y1
      = if y = y1 ∧ 0 ≤ y ∧ y < (bufSize a.changes : Int) then c else a.line y1 := by
  unfold FTermArea.setLine FTermArea.line
  exact bufGet_bufSet a.changes y y1 c

/-- The widening of the dirty range at the end of the line loop of
`putArea`: the range of the row afterwards reaches from `xmin` or further
left to the clipped `xmax0` or further right, and no other row record
changes. -/
theorem putAreaDirtyRange_spec (vterm : FTermArea) (row xmin xmax0 : Int)
    (hrow0 : 0 ≤ row) (hrow : row < (bufSize vterm.changes : Int))
    (hmin0 : 0 ≤ xmin) (hmin : xmin < 2 ^ 31)
    (hmax0 : 0 ≤ (if xmax0 ≥ vterm.width then vterm.width - 1 else xmax0))
    (hmax : (if xmax0 ≥ vterm.width then vterm.width - 1 else xmax0) < 2 ^ 31) :
    toInt ((putAreaDirtyRange vterm row xmin xmax0).line row).xmin ≤ xmin
    ∧ (if xmax0 ≥ vterm.width then vterm.width - 1 else xmax0)
        ≤ toInt ((putAreaDirtyRange vterm row xmin xmax0).line row).xmax := by
  unfold putAreaDirtyRange
  simp only []
  by_cases h1 : xmin < toInt (vterm.line row).xmin
  · rw [if_pos h1]
    have hw : (vterm.setLine row { vterm.line row with xmin := toUInt xmin }).width
        = vterm.width := rfl
    have hs : bufSize (vterm.setLine row { vterm.line row with xmin := toUInt xmin }).changes
        = bufSize vterm.changes := bufSize_bufSet _ _ _
    rw [hw]
    have hl1 : (vterm.setLine row { vterm.line row with xmin := toUInt xmin }).line row
        = { vterm.line row with xmin := toUInt xmin } := by
      rw [line_setLine, if_pos ⟨rfl, hrow0, hrow⟩]
    by_cases h2 : (if xmax0 ≥ vterm.width then vterm.width - 1 else xmax0)
        > toInt ((vterm.setLine row { vterm.line row with xmin := toUInt xmin }).line row).xmax
    · rw [if_pos h2, line_setLine, if_pos ⟨rfl, hrow0, by rw [hs]; exact hrow⟩, hl1]
      constructor
      · show toInt (toUInt xmin) ≤ xmin
        rw [toUInt_of_nonneg hmin0 (by omega), toInt_of_lt (by omega)]
        omega
      · show _ ≤ toInt (toUInt _)
        rw [toUInt_of_nonneg hmax0 (by omega), toInt_of_lt (by omega)]
        omega
    · rw [if_neg h2]
      constructor
      · rw [hl1]
        show toInt (toUInt xmin) ≤ xmin
        rw [toUInt_of_nonneg hmin0 (by omega), toInt_of_lt (by omega)]
        omega
      · exact not_lt.1 h2
  · rw [if_neg h1]
    by_cases h2 : (if xmax0 ≥ vterm.width then vterm.width - 1 else xmax0)
        > toInt (vterm.line row).xmax
    · rw [if_pos h2, line_setLine, if_pos ⟨rfl, hrow0, hrow⟩]
      constructor
      · show toInt (vterm.line row).xmin ≤ xmin
        omega
      · show _ ≤ toInt (toUInt _)
        rw [toUInt_of_nonneg hmax0 (by omega), toInt_of_lt (by omega)]
        omega
    · rw [if_neg h2]
      exact ⟨by omega, by omega⟩

theorem putAreaDirtyRange_frame (vterm : FTermArea) (row xmin xmax0 : Int) :
    bufSize (putAreaDirtyRange vterm row xmin xmax0).changes = bufSize vterm.changes
    ∧ ∀ row1 : Int, row1 ≠ row →
        (putAreaDirtyRange vterm row xmin xmax0).line row1 = vterm.line row1 := by
  unfold putAreaDirtyRange
  simp only []
  constructor
  · split_ifs <;> simp only [FTermArea.setLine, bufSize_bufSet]
  · intro row1 hne
    split_ifs <;>
      simp only [line_setLine, if_neg (fun h : row = row1 ∧ _ => hne h.1.symm)]

/-- One pass of the line loop of `putArea`: every position it writes lies in
the row `ay + y` between the edges of the terminal and inside the dirty
range that row of the full-screen buffer has afterwards; the row records of
the other rows of the full-screen buffer are left as they are. -/
theorem putAreaRow_writes (env : CompEnv) (r : AreaRef) (ax ay ol width : Int) (w : World)
    (y : Int) (a : FTermArea) (ha : w.area? r = some a)
    (hax : 0 ≤ ax) (hol : 0 ≤ ol) (haxol : ax = 0 ∨ ol = 0)
    (hrow0 : 0 ≤ ay + y) (hrow : ay + y < (bufSize w.vterm.changes : Int))
    (hvw : w.vterm.width < 2 ^ 31)
    (hmin0 : 0 ≤ toInt (a.line y).xmin) (hmaxw : toInt (a.line y).xmax < width) :
    bufSize (putAreaRow env r ax ay ol width w y).vterm.changes = bufSize w.vterm.changes
    ∧ (∀ row1 : Int, row1 ≠ ay + y →
        (putAreaRow env r ax ay ol width w y).vterm.line row1 = w.vterm.line row1)
    ∧ ∀ p ∈ putAreaRowWrites env r ax ay ol width w y,
        p.2 = ay + y ∧ 0 ≤ p.1 ∧ p.1 < w.vterm.width
        ∧ toInt ((putAreaRow env r ax ay ol width w y).vterm.line (ay + y)).xmin ≤ p.1
        ∧ p.1 ≤ toInt ((putAreaRow env r ax ay ol width w y).vterm.line (ay + y)).xmax := by
  by_cases h1 : toInt (a.line y).xmin > toInt (a.line y).xmax
  · have e : putAreaRow env r ax ay ol width w y = w := by
      unfold putAreaRow; rw [ha]; simp only []; rw [if_pos h1]
    have e2 : putAreaRowWrites env r ax ay ol width w y = [] := by
      unfold putAreaRowWrites; rw [ha]; simp only []; rw [if_pos h1]
    rw [e, e2]
    exact ⟨rfl, fun _ _ => rfl, fun p hp => absurd hp (List.not_mem_nil p)⟩
  · by_cases h2 : ax + (if ax = 0 then ol else toInt (a.line y).xmin) ≥ w.vterm.width
    · have e : putAreaRow env r ax ay ol width w y = w := by
        unfold putAreaRow; rw [ha]; simp only []; rw [if_neg h1, if_pos h2]
      have e2 : putAreaRowWrites env r ax ay ol width w y = [] := by
        unfold putAreaRowWrites; rw [ha]; simp only []; rw [if_neg h1, if_pos h2]
      rw [e, e2]
      exact ⟨rfl, fun _ _ => rfl, fun p hp => absurd hp (List.not_mem_nil p)⟩
    · have hlo : 0 ≤ ax + (if ax = 0 then ol else toInt (a.line y).xmin) := by
        split_ifs <;> omega
      obtain ⟨c1, c2, c3⟩ := columnLog_inv env r ax ay ol y w
        (if ax = 0 then ol else toInt (a.line y).xmin)
        (if width + ax - ol ≥ w.vterm.width then w.vterm.width + ol - ax - 1
         else toInt (a.line y).xmax) hlo hrow0
      obtain ⟨d, hd, _, _⟩ := columnLoop_world env r ax ay ol y w
        (if ax = 0 then ol else toInt (a.line y).xmin)
        (if width + ax - ol ≥ w.vterm.width then w.vterm.width + ol - ax - 1
         else toInt (a.line y).xmax)
      have e2 : putAreaRowWrites env r ax ay ol width w y
          = ((forRange (if ax = 0 then ol else toInt (a.line y).xmin)
                (if width + ax - ol ≥ w.vterm.width then w.vterm.width + ol - ax - 1
                 else toInt (a.line y).xmax)).foldl (putAreaColumnLog env r ax ay ol y)
              ({ world := w, modified := false,
                 line_xmin := if ax = 0 then ol else toInt (a.line y).xmin }, [])).2 := by
        unfold putAreaRowWrites; rw [ha]; simp only []; rw [if_neg h1, if_neg h2]
      rw [putAreaRow_dirty env r ax ay ol width w y a ha h1 h2, setArea_vterm, e2]
      generalize columnLoop env r ax ay ol y w (if ax = 0 then ol else toInt (a.line y).xmin)
        (if width + ax - ol ≥ w.vterm.width then w.vterm.width + ol - ax - 1
         else toInt (a.line y).xmax) = st at hd c1 c2 c3 ⊢
      have hvt : st.world.vterm = { w.vterm with data := d } := by rw [hd]; rfl
      have hvc : st.world.vterm.changes = w.vterm.changes := by rw [hvt]
      have hvwd : st.world.vterm.width = w.vterm.width := by rw [hvt]
      have hvl : ∀ row1 : Int, st.world.vterm.line row1 = w.vterm.line row1 := by
        intro row1; unfold FTermArea.line; rw [hvc]
      obtain ⟨f1, f2⟩ := putAreaDirtyRange_frame st.world.vterm (ay + y)
        (ax + st.line_xmin - ol)
        (ax + (if width + ax - ol ≥ w.vterm.width then w.vterm.width + ol - ax - 1
               else toInt (a.line y).xmax))
      refine ⟨by show bufSize (putAreaDirtyRange _ _ _ _).changes = _; rw [f1, hvc], ?_, ?_⟩
      · intro row1 hne
        show (putAreaDirtyRange _ _ _ _).line row1 = _
        rw [f2 row1 hne, hvl]
      · intro p hp
        obtain ⟨q1, q2, q3⟩ := c3 p hp
        have hp0 : 0 ≤ p.1 := by
          have : (if ax = 0 then ol else toInt (a.line y).xmin) ≤ st.line_xmin := c2
          rcases haxol with h | h
          · rw [if_pos h] at this; omega
          · by_cases hz : ax = 0
            · rw [if_pos hz] at this; omega
            · rw [if_neg hz] at this; omega
        have hpw : p.1 < w.vterm.width := by
          by_cases hc : width + ax - ol ≥ w.vterm.width
          · rw [if_pos hc] at q3; omega
          · rw [if_neg hc] at q3; omega
        have hclip : p.1 ≤ (if ax + (if width + ax - ol ≥ w.vterm.width
              then w.vterm.width + ol - ax - 1 else toInt (a.line y).xmax)
              ≥ st.world.vterm.width then st.world.vterm.width - 1
            else ax + (if width + ax - ol ≥ w.vterm.width
              then w.vterm.width + ol - ax - 1 else toInt (a.line y).xmax)) := by
          rw [hvwd]
          split_ifs <;> omega
        obtain ⟨g1, g2⟩ := putAreaDirtyRange_spec st.world.vterm (ay + y)
          (ax + st.line_xmin - ol)
          (ax + (if width + ax - ol ≥ w.vterm.width then w.vterm.width + ol - ax - 1
                 else toInt (a.line y).xmax))
          hrow0 (by rw [hvc]; exact hrow) (by
            have : (if ax = 0 then ol else toInt (a.line y).xmin) ≤ st.line_xmin := c2
            rcases haxol with h | h
            · rw [if_pos h] at this; omega
            · by_cases hz : ax = 0
              · rw [if_pos hz] at this; omega
              · rw [if_neg hz] at this; omega)
          (by omega) (by omega) (by
            rw [hvwd]
            split_ifs <;> omega)
        exact ⟨q1, hp0, hpw, by
          show toInt ((putAreaDirtyRange _ _ _ _).line (ay + y)).xmin ≤ p.1
          omega, by
          show p.1 ≤ toInt ((putAreaDirtyRange _ _ _ _).line (ay + y)).xmax
          omega⟩

theorem updateVTermCursor_vterm_changes (env : CompEnv) (w : World) (r : AreaRef) :
    (updateVTermCursor env w r).2.vterm.changes = w.vterm.changes := by
  unfold updateVTermCursor
  cases w.area? r with
  | none => rfl
  | some area =>
    simp only []
    split_ifs <;> rfl

/-- The line loop of `putArea` with its record of writes, on a surface whose
dirty ranges lie inside its rows and whose top edge is not above the
terminal: every position written lies between the edges of the terminal and
inside the dirty range its row of the full-screen buffer has afterwards. -/
theorem putArea_rows_writes (env : CompEnv) (r : AreaRef) (ax ay ol : Int) (w : World)
    (area : FTermArea) (last : Int) (ha : w.area? r = some area)
    (hax : 0 ≤ ax) (hol : 0 ≤ ol) (haxol : ax = 0 ∨ ol = 0) (hay : 0 ≤ ay)
    (hlast1 : last < area.height + area.bottom_shadow) (hlast2 : ay + last < w.vterm.height)
    (hvt : w.VTermRows) (hl31 : area.width + area.right_shadow < 2 ^ 31)
    (hri : ∀ y1 : Int, 0 ≤ y1 → y1 < area.height + area.bottom_shadow →
      ((area.line y1).xmin : Int) ≤ area.width + area.right_shadow
      ∧ ((area.line y1).xmax : Int) < area.width + area.right_shadow) :
    ((forRange 0 last).foldl (putAreaRowLog env r ax ay ol (area.width + area.right_shadow))
        (w, [])).1
      = (forRange 0 last).foldl (putAreaRow env r ax ay ol (area.width + area.right_shadow)) w
    ∧ ∀ p ∈ ((forRange 0 last).foldl
          (putAreaRowLog env r ax ay ol (area.width + area.right_shadow)) (w, [])).2,
        0 ≤ p.1 ∧ p.1 < w.vterm.width ∧ ay ≤ p.2 ∧ p.2 < w.vterm.height
        ∧ toInt (((forRange 0 last).foldl
            (putAreaRow env r ax ay ol (area.width + area.right_shadow)) w).vterm.line p.2).xmin
            ≤ p.1
        ∧ p.1 ≤ toInt (((forRange 0 last).foldl
            (putAreaRow env r ax ay ol (area.width + area.right_shadow)) w).vterm.line p.2).xmax := by
  obtain ⟨hvw0, hvw, hvc⟩ := hvt
  have hfst := foldl_fst (putAreaRow env r ax ay ol (area.width + area.right_shadow))
    (putAreaRowLog env r ax ay ol (area.width + area.right_shadow))
    (fun _ _ => rfl) (forRange 0 last) (w, [])
  have key := forRange_foldl_inv
    (putAreaRowLog env r ax ay ol (area.width + area.right_shadow)) 0 last
    (fun k s => s.1.vterm.width = w.vterm.width
      ∧ bufSize s.1.vterm.changes = bufSize w.vterm.changes
      ∧ (∃ ak, s.1.area? r = some ak ∧ ∀ y1 : Int, (k : Int) ≤ y1 → ak.line y1 = area.line y1)
      ∧ ∀ p ∈ s.2, 0 ≤ p.1 ∧ p.1 < w.vterm.width ∧ ay ≤ p.2 ∧ p.2 < ay + (k : Int)
          ∧ toInt (s.1.vterm.line p.2).xmin ≤ p.1 ∧ p.1 ≤ toInt (s.1.vterm.line p.2).xmax)
    (w, []) ⟨rfl, rfl, ⟨area, ha, fun _ _ => rfl⟩, fun p hp => absurd hp (List.not_mem_nil p)⟩
    (by
      intro k s hk ⟨iw, ic, ⟨ak, hak, akl⟩, ilog⟩
      have hk0 : (0 : Int) ≤ 0 + (k : Int) := by omega
      have hk1 : (0 : Int) + (k : Int) < area.height + area.bottom_shadow := by omega
      obtain ⟨r1, r2⟩ := hri (0 + (k : Int)) hk0 hk1
      have hline : ak.line (0 + (k : Int)) = area.line (0 + (k : Int)) := akl _ (by omega)
      obtain ⟨p1, p2, _⟩ := putAreaRow_area env r ax ay ol (area.width + area.right_shadow) s.1
        (0 + (k : Int)) ak hak
      obtain ⟨g1, g2, g3, g4, g5⟩ := ite_setLine_fields
        (¬ (toInt (ak.line (0 + (k : Int))).xmin > toInt (ak.line (0 + (k : Int))).xmax)
          ∧ ¬ (ax + (if ax = 0 then ol else toInt (ak.line (0 + (k : Int))).xmin)
                ≥ s.1.vterm.width))
        ak (0 + (k : Int))
        { ak.line (0 + (k : Int)) with
          xmin := toUInt (area.width + area.right_shadow), xmax := 0 }
      obtain ⟨q1, q2, q3⟩ := putAreaRow_writes env r ax ay ol (area.width + area.right_shadow)
        s.1 (0 + (k : Int)) ak hak hax hol haxol (by omega) (by rw [ic, hvc]; omega)
        (by rw [iw]; exact hvw)
        (by rw [hline, toInt_of_lt (by omega)]; omega)
        (by rw [hline, toInt_of_lt (by omega)]; omega)
      refine ⟨by show (putAreaRow _ _ _ _ _ _ _ _).vterm.width = _; rw [p2, iw],
        by show bufSize (putAreaRow _ _ _ _ _ _ _ _).vterm.changes = _; rw [q1, ic],
        ⟨_, p1, fun y1 hy1 => by
          rw [g5 y1 (by push_cast at hy1; omega)]
          exact akl y1 (by push_cast at hy1; omega)⟩, ?_⟩
      intro p hp
      rcases List.mem_append.1 hp with h | h
      · obtain ⟨t1, t2, t3, t4, t5⟩ := q3 p h
        rw [iw] at t3
        rw [← t1] at t4 t5
        exact ⟨t2, t3, by omega, by push_cast; omega, t4, t5⟩
      · obtain ⟨t1, t2, t3, t4, t5, t6⟩ := ilog p h
        have hne : p.2 ≠ ay + (0 + (k : Int)) := by omega
        refine ⟨t1, t2, t3, by push_cast; omega, ?_, ?_⟩
        · show toInt ((putAreaRow _ _ _ _ _ _ _ _).vterm.line p.2).xmin ≤ p.1
          rw [q2 p.2 hne]; exact t5
        · show p.1 ≤ toInt ((putAreaRow _ _ _ _ _ _ _ _).vterm.line p.2).xmax
          rw [q2 p.2 hne]; exact t6)
  obtain ⟨_, _, _, k4⟩ := key
  rw [hfst] at k4
  refine ⟨hfst, fun p hp => ?_⟩
  obtain ⟨t1, t2, t3, t4, t5, t6⟩ := k4 p hp
  exact ⟨t1, t2, t3, by omega, t5, t6⟩

/-- C11: after `putArea (area)` on a visible surface without pre-render
handlers whose top edge is not above the terminal (`offset_top >= 0`) and
whose dirty ranges lie inside its rows, every cell of the full-screen buffer
that `putArea` wrote (every terminal position for which
`updateVTermCharacter` returned `true`) lies in a row of the terminal,
between its left and right edge, and inside the dirty range `[xmin, xmax]`
that row of the full-screen buffer has afterwards.  Nothing is assumed
about `offset_left`, about the right edge or about the other windows, so
the surface may be clipped at either side or partly covered. -/
theorem C11_putArea_writes_inside_dirty_range (env : CompEnv) (w : World) (r : AreaRef)
    (area : FTermArea) (ha : w.area? r = some area) (hvis : area.visible = true)
    (hpre : area.preproc_list = []) (hsz : area.Sized) (hri : area.RangesInside)
    (htop : 0 ≤ area.offset_top) (hvt : w.VTermRows) :
    ∀ p ∈ putAreaWrites env w r,
      0 ≤ p.1 ∧ p.1 < w.vterm.width ∧ 0 ≤ p.2 ∧ p.2 < w.vterm.height
      ∧ toInt ((putArea env w r).vterm.line p.2).xmin ≤ p.1
      ∧ p.1 ≤ toInt ((putArea env w r).vterm.line p.2).xmax := by
  obtain ⟨hw0, hh0, hr0, hb0, hw31, hh31, hdata, hchg⟩ := hsz
  unfold FTermArea.rows at hchg
  have hline : ∀ y1 : Int, 0 ≤ y1 → y1 < area.height + area.bottom_shadow →
      ((area.line y1).xmin : Int) ≤ area.width + area.right_shadow
      ∧ ((area.line y1).xmax : Int) < area.width + area.right_shadow := by
    intro y1 h0 h1
    have h := rangesInside_line area hri y1 h0 (by rw [hchg]; exact h1)
    unfold FTermArea.lineLen at h
    exact h
  obtain ⟨k1, k2⟩ := putArea_rows_writes env r
    (if area.offset_left < 0 then 0 else area.offset_left) area.offset_top
    (if area.offset_left < 0 then |area.offset_left| else 0) w area
    ((if area.height + area.bottom_shadow + area.offset_top > w.vterm.height then
        w.vterm.height - area.offset_top
      else area.height + area.bottom_shadow) - 1) ha
    (by split_ifs <;> omega) (by split_ifs <;> simp) (by split_ifs <;> simp) htop
    (by split_ifs <;> omega) (by split_ifs <;> omega) hvt hw31 hline
  have hw : putAreaWrites env w r
      = ((forRange 0 ((if area.height + area.bottom_shadow + area.offset_top > w.vterm.height
            then w.vterm.height - area.offset_top
            else area.height + area.bottom_shadow) - 1)).foldl
          (putAreaRowLog env r (if area.offset_left < 0 then 0 else area.offset_left)
            area.offset_top (if area.offset_left < 0 then |area.offset_left| else 0)
            (area.width + area.right_shadow)) (w, [])).2 := by
    unfold putAreaWrites
    rw [ha]
    simp only []
    rw [if_neg (by simp [hvis]), callPreprocessingHandler_nil env w r area ha hpre]
  have hp : (putArea env w r).vterm.changes
      = ((forRange 0 ((if area.height + area.bottom_shadow + area.offset_top > w.vterm.height
            then w.vterm.height - area.offset_top
            else area.height + area.bottom_shadow) - 1)).foldl
          (putAreaRow env r (if area.offset_left < 0 then 0 else area.offset_left)
            area.offset_top (if area.offset_left < 0 then |area.offset_left| else 0)
            (area.width + area.right_shadow)) w).vterm.changes := by
    unfold putArea
    rw [ha]
    simp only []
    rw [if_neg (by simp [hvis]), callPreprocessingHandler_nil env w r area ha hpre,
      updateVTermCursor_vterm_changes]
  intro p hpm
  rw [hw] at hpm
  obtain ⟨t1, t2, t3, t4, t5, t6⟩ := k2 p hpm
  unfold FTermArea.line at t5 t6 ⊢
  rw [hp]
  exact ⟨t1, t2, by omega, t4, t5, t6⟩

theorem C11_putArea_writes_inside_dirty_range_witness :
    putAreaWrites sampleCompEnv
        (sampleWorld [⟨1, some (sampleDirtyArea (-2) 1 3 2 1 1)⟩, ⟨2, some (sampleArea 0 2 1 1 0 0)⟩])
        (AreaRef.window 0)
      = [(1, 3), (0, 3), (1, 2), (1, 1), (0, 1)]
    ∧ ∀ p ∈ putAreaWrites sampleCompEnv
        (sampleWorld [⟨1, some (sampleDirtyArea (-2) 1 3 2 1 1)⟩, ⟨2, some (sampleArea 0 2 1 1 0 0)⟩])
        (AreaRef.window 0),
      0 ≤ p.1
      ∧ p.1 < (sampleWorld [⟨1, some (sampleDirtyArea (-2) 1 3 2 1 1)⟩,
                  ⟨2, some (sampleArea 0 2 1 1 0 0)⟩]).vterm.width
      ∧ 0 ≤ p.2
      ∧ p.2 < (sampleWorld [⟨1, some (sampleDirtyArea (-2) 1 3 2 1 1)⟩,
                  ⟨2, some (sampleArea 0 2 1 1 0 0)⟩]).vterm.height
      ∧ toInt ((putArea sampleCompEnv
          (sampleWorld [⟨1, some (sampleDirtyArea (-2) 1 3 2 1 1)⟩,
            ⟨2, some (sampleArea 0 2 1 1 0 0)⟩]) (AreaRef.window 0)).vterm.line p.2).xmin ≤ p.1
      ∧ p.1 ≤ toInt ((putArea sampleCompEnv
          (sampleWorld [⟨1, some (sampleDirtyArea (-2) 1 3 2 1 1)⟩,
            ⟨2, some (sampleArea 0 2 1 1 0 0)⟩]) (AreaRef.window 0)).vterm.line p.2).xmax :=
  ⟨by decide,
   C11_putArea_writes_inside_dirty_range sampleCompEnv
     (sampleWorld [⟨1, some (sampleDirtyArea (-2) 1 3 2 1 1)⟩, ⟨2, some (sampleArea 0 2 1 1 0 0)⟩])
     (AreaRef.window 0) (sampleDirtyArea (-2) 1 3 2 1 1) rfl rfl rfl (by decide) (by decide)
     (by decide) (by decide)⟩

/-! ## The update scheduler -/

/-- One call of `processTerminalUpdate` with an update pending, keyboard
input pending and at most 8 calls skipped so far only counts the call. -/
theorem processTerminalUpdate_defer (env : RenderEnv) (probe : TerminalProbe) (fuel : Nat)
    (s : UpdateState) (hp : s.terminal_update_pending = true)
    (hi : probe.isInputDataPending = true) (hk : s.skipped_terminal_update ≤ 8) :
    processTerminalUpdate env probe fuel s
      = some { s with skipped_terminal_update := s.skipped_terminal_update + 1 } := by
  unfold processTerminalUpdate
  simp only []
  rw [if_neg (by rw [hp]; decide), if_neg (by rw [hi]; decide), if_neg (by omega)]

/-- With keyboard input pending at every call, `processTerminalUpdate`
skips as long as the counter is at most 8: `n` calls from the counter `k`
with `k + n <= 9` leave everything but the counter as it is. -/
theorem processTerminalUpdates_defer (env : RenderEnv) (probe : TerminalProbe) (fuel : Nat)
    (hi : probe.isInputDataPending = true) (n : Nat) :
    ∀ s : UpdateState, s.terminal_update_pending = true →
      s.skipped_terminal_update + (n : Int) ≤ 9 → 0 ≤ s.skipped_terminal_update →
      processTerminalUpdates env probe fuel n s
        = some { s with skipped_terminal_update := s.skipped_terminal_update + (n : Int) } := by
  induction n with
  | zero =>
    intro s _ _ _
    simp [processTerminalUpdates]
  | succ m ih =>
    intro s hp hk h0
    rw [processTerminalUpdates,
      processTerminalUpdate_defer env probe fuel s hp hi (by push_cast at hk; omega)]
    simp only []
    have hk2 : s.skipped_terminal_update + 1 + (m : Int) ≤ 9 := by push_cast at hk; omega
    have h02 : 0 ≤ s.skipped_terminal_update + 1 := by omega
    refine (ih { s with skipped_terminal_update := s.skipped_terminal_update + 1 } hp hk2
      h02).trans ?_
    have e : s.skipped_terminal_update + 1 + (m : Int)
        = s.skipped_terminal_update + ((m + 1 : Nat) : Int) := by push_cast; ring
    simp only [e]

/-- C20 fails on the code by one call: from `terminal_update_pending = true`
and `skipped_terminal_update = 0`, with keyboard input pending at every
call, `processTerminalUpdate` defers 9 consecutive calls; after the 9th call
the state of the process is unchanged, the update is still pending and the
counter is 9.  The 10th call is the one that clears the pending flag and
the counter. -/
theorem C20_processTerminalUpdate_defers_nine_calls :
    (processTerminalUpdates sampleRenderEnv (sampleProbe true) 1 9
        (samplePending (sampleWorld []))).map
      (fun s => (s.terminal_update_pending, s.skipped_terminal_update,
                 decide (s.world = sampleWorld [])))
      = some (true, 9, true)
    ∧ (processTerminalUpdates sampleRenderEnv (sampleProbe true) 1 8
        (samplePending (sampleWorld []))).map
      (fun s => (s.terminal_update_pending, s.skipped_terminal_update))
      = some (true, 8)
    ∧ (processTerminalUpdates sampleRenderEnv (sampleProbe true) 1 10
        (samplePending (sampleWorld []))).map
      (fun s => (s.terminal_update_pending, s.skipped_terminal_update))
      = some (false, 0) := by
  decide

/-! ## The renderer writes cells and output only -/

theorem skeleton_of_sameAreas {w w1 : World} (h : w.sameAreas w1) : w1.skeleton = w.skeleton := by
  obtain ⟨h1, h2, h3, h4, h5⟩ := h
  unfold World.skeleton
  rw [h1, h2, h3, h4, h5]

theorem skeleton_setVTermCell (w : World) (i : Int) (c : FChar) : (w.setVTermCell i c).skeleton = w.skeleton := by
  rfl

theorem skeleton_moveTermX (w : World) (d : Int) : (w.moveTermX d).skeleton = w.skeleton := by
  rfl

theorem skeleton_term_pos (w : World) (p : Int × Int) : ({ w with term_pos := p } : World).skeleton = w.skeleton := by
  rfl

theorem skeleton_term_attribute (w : World) (c : FChar) : ({ w with term_attribute := c } : World).skeleton = w.skeleton := by
  rfl

theorem skeleton_flushOutputBuffer (w : World) : (flushOutputBuffer w).skeleton = w.skeleton := by
  rfl

theorem skeleton_appendOutputChar (env : TermEnv) (w : World) (ch : Int) : (appendOutputChar env w ch).skeleton = w.skeleton := by
  exact skeleton_of_sameAreas (appendOutputChar_sameAreas env w ch)

theorem skeleton_appendOutputBuffer (env : TermEnv) (w : World) (s : List Int) : (appendOutputBuffer env w s).skeleton = w.skeleton := by
  exact skeleton_of_sameAreas (appendOutputBuffer_sameAreas env w s)

theorem skeleton_appendOutputOption (env : TermEnv) (w : World) (s : Option (List Int)) : (appendOutputOption env w s).skeleton = w.skeleton := by
  exact skeleton_of_sameAreas (appendOutputOption_sameAreas env w s)

theorem skeleton_setTermXY (env : TermEnv) (w : World) (x y : Int) : (setTermXY env w x y).skeleton = w.skeleton := by
  exact skeleton_of_sameAreas (setTermXY_sameAreas env w x y)

theorem skeleton_markAsPrinted (w : World) (pos line : Nat) : (markAsPrinted w pos line).skeleton = w.skeleton := by
  rfl

theorem foldl_skeleton {α : Type} (f : World → α → World)
    (h : ∀ w a, (f w a).skeleton = w.skeleton) (l : List α) (w : World) :
    (l.foldl f w).skeleton = w.skeleton := by
  induction l generalizing w with
  | nil => rfl
  | cons a rest ih => rw [List.foldl_cons, ih, h]

theorem skeleton_markAsPrintedRange (w : World) (first last line : Nat) :
    (markAsPrintedRange w first last line).skeleton = w.skeleton := by
  unfold markAsPrintedRange
  exact foldl_skeleton _ (fun w a => skeleton_markAsPrinted w a line) _ w

theorem skeleton_appendAttributes (env : RenderEnv) (w : World) (i : Int) :
    (appendAttributes env w i).skeleton = w.skeleton := by
  unfold appendAttributes
  simp only [skeleton_appendOutputOption, skeleton_setVTermCell, skeleton_term_attribute]

theorem skeleton_appendChar (env : RenderEnv) (w : World) (i : Int) :
    (appendChar env w i).skeleton = w.skeleton := by
  unfold appendChar
  simp only [skeleton_appendOutputChar, skeleton_setVTermCell, skeleton_appendAttributes]

theorem skeleton_appendLowerRight (env : RenderEnv) (w : World) (i : Int) :
    (appendLowerRight env w i).1.skeleton = w.skeleton := by
  unfold appendLowerRight
  repeat' split
  all_goals simp only [skeleton_appendOutputChar, skeleton_setVTermCell,
    skeleton_appendAttributes, skeleton_appendChar, skeleton_appendOutputBuffer,
    skeleton_appendOutputOption, skeleton_setTermXY, skeleton_moveTermX]

theorem skeleton_appendCharacter (env : RenderEnv) (w : World) (i : Int) :
    (appendCharacter env w i).1.skeleton = w.skeleton := by
  unfold appendCharacter
  simp only [skeleton_moveTermX]
  split
  · exact skeleton_appendLowerRight env w i
  · exact skeleton_appendChar env w i

theorem skeleton_replaceNonPrintableFullwidth (env : RenderEnv) (w : World) (x : Nat) (i : Int) :
    (replaceNonPrintableFullwidth env w x i).skeleton = w.skeleton := by
  unfold replaceNonPrintableFullwidth
  simp only []
  split_ifs
  all_goals rfl

theorem skeleton_skipPaddingCharacter (w : World) (x y : Nat) (i : Int) :
    (skipPaddingCharacter w x y i).1.skeleton = w.skeleton := by
  unfold skipPaddingCharacter
  split
  · simp only [skeleton_markAsPrinted, skeleton_moveTermX]
  · rfl

theorem skeleton_printEllipsis (env : RenderEnv) (w : World) (x y : Nat) (i : Int) :
    (printEllipsis env w x y i).skeleton = w.skeleton := by
  unfold printEllipsis
  simp only [skeleton_markAsPrinted, skeleton_moveTermX, skeleton_appendOutputChar,
    skeleton_appendAttributes]

theorem skeleton_printFullWidthCharacter (env : RenderEnv) (w : World) (x y : Nat) (i : Int) :
    (printFullWidthCharacter env w x y i).1.skeleton = w.skeleton := by
  unfold printFullWidthCharacter
  simp only []
  split
  · simp only [skeleton_skipPaddingCharacter, skeleton_markAsPrinted, skeleton_appendCharacter]
  · split
    · simp only [skeleton_printEllipsis]
    · simp only [skeleton_printEllipsis]

theorem skeleton_printFullWidthPaddingCharacter (env : RenderEnv) (w : World) (x y : Nat)
    (i : Int) : (printFullWidthPaddingCharacter env w x y i).1.skeleton = w.skeleton := by
  unfold printFullWidthPaddingCharacter
  simp only []
  split
  · split
    · simp only [skeleton_skipPaddingCharacter]
    · simp only [skeleton_skipPaddingCharacter, skeleton_markAsPrinted,
        skeleton_appendCharacter, skeleton_moveTermX, skeleton_appendOutputBuffer]
  · simp only [skeleton_printEllipsis]

theorem skeleton_printHalfCovertFullWidthCharacter (env : RenderEnv) (w : World) (x y : Nat)
    (i : Int) : (printHalfCovertFullWidthCharacter env w x y i).1.skeleton = w.skeleton := by
  unfold printHalfCovertFullWidthCharacter
  simp only [skeleton_markAsPrinted, skeleton_appendCharacter]
  split
  · split
    · rfl
    · simp only [skeleton_printEllipsis, skeleton_moveTermX, skeleton_appendOutputBuffer]
  · rfl

theorem skeleton_printCharacter (env : RenderEnv) (w : World) (x y : Nat) (m : Bool) (i : Int) :
    (printCharacter env w x y m i).1.skeleton = w.skeleton := by
  unfold printCharacter
  simp only []
  split
  · exact skeleton_printFullWidthCharacter env w x y i
  · split
    · exact skeleton_printFullWidthPaddingCharacter env w x y i
    · split
      · exact skeleton_printHalfCovertFullWidthCharacter env w x y i
      · simp only [skeleton_markAsPrinted, skeleton_appendCharacter]

theorem skeleton_appendCharacterN (env : RenderEnv) (n : Nat) (s : World × Int) :
    (appendCharacterN env n s).1.skeleton = s.1.skeleton := by
  unfold appendCharacterN
  generalize List.range n = l
  induction l generalizing s with
  | nil => rfl
  | cons a rest ih => rw [List.foldl_cons, ih, skeleton_appendCharacter]

theorem skeleton_eraseCharacters (env : RenderEnv) (w : World) (x xmax y : Nat) (d : Bool) :
    (eraseCharacters env w x xmax y d).2.1.skeleton = w.skeleton := by
  unfold eraseCharacters
  simp only []
  repeat' split
  all_goals first | rfl | simp only [skeleton_markAsPrinted, skeleton_appendCharacter,
    skeleton_markAsPrintedRange, skeleton_setTermXY, skeleton_appendOutputBuffer,
    skeleton_appendAttributes, skeleton_appendCharacterN]

theorem skeleton_repeatCharacter (env : RenderEnv) (w : World) (x xmax y : Nat) :
    (repeatCharacter env w x xmax y).2.1.skeleton = w.skeleton := by
  unfold repeatCharacter
  simp only []
  repeat' split
  all_goals first | rfl | simp only [skeleton_markAsPrinted, skeleton_appendCharacter,
    skeleton_markAsPrintedRange, skeleton_setTermXY, skeleton_appendOutputBuffer,
    skeleton_appendAttributes, skeleton_appendCharacterN, skeleton_moveTermX,
    skeleton_setVTermCell]

theorem skeleton_skipUnchangedCharacters (env : RenderEnv) (w : World) (x xmax y : Nat) :
    (skipUnchangedCharacters env w x xmax y).2.1.skeleton = w.skeleton := by
  unfold skipUnchangedCharacters
  simp only []
  repeat' split
  all_goals first | rfl | simp only [skeleton_markAsPrinted, skeleton_setTermXY]

theorem skeleton_printRangeLoop (env : RenderEnv) (xmin xmax y : Nat) (d : Bool) (fuel : Nat) :
    ∀ (w : World) (x : Nat) (w1 : World),
      printRangeLoop env xmin xmax y d fuel w x = some w1 → w1.skeleton = w.skeleton := by
  induction fuel with
  | zero =>
    intro w x w1 h
    unfold printRangeLoop at h
    split at h
    · cases h
    · cases h; rfl
  | succ n ih =>
    intro w x w1 h
    unfold printRangeLoop at h
    simp only [] at h
    have e0 : (skipUnchangedCharacters env (replaceNonPrintableFullwidth env
        (w.setVTermCell (vtIndex w x y) { w.vterm.cell (vtIndex w x y) with printed := true })
        x (vtIndex w x y)) x xmax y).2.1.skeleton = w.skeleton := by
      rw [skeleton_skipUnchangedCharacters, skeleton_replaceNonPrintableFullwidth,
        skeleton_setVTermCell]
    split at h
    · split at h
      · exact (ih _ _ _ h).trans e0
      · split at h
        · split at h
          · cases h
            exact (skeleton_eraseCharacters env _ _ _ _ _).trans e0
          · exact (ih _ _ _ h).trans ((skeleton_eraseCharacters env _ _ _ _ _).trans e0)
        · split at h
          · exact (ih _ _ _ h).trans ((skeleton_repeatCharacter env _ _ _ _).trans e0)
          · exact (ih _ _ _ h).trans ((skeleton_printCharacter env _ _ _ _ _).trans e0)
    · cases h; rfl

theorem skeleton_cursorWrap (env : RenderEnv) (w : World) :
    (cursorWrap env w).skeleton = w.skeleton := by
  unfold cursorWrap
  repeat' split
  all_goals rfl

theorem skeleton_hideCursor (env : RenderEnv) (w : World) (enable : Bool) :
    (hideCursor env w enable).skeleton = w.skeleton := by
  unfold hideCursor
  simp only [skeleton_flushOutputBuffer, skeleton_appendOutputOption]

theorem skeleton_updateTerminalCursor (env : RenderEnv) (w : World) :
    (updateTerminalCursor env w).2.skeleton = w.skeleton := by
  unfold updateTerminalCursor
  simp only []
  split_ifs
  all_goals first | rfl | simp only [skeleton_hideCursor, skeleton_setTermXY]

/-- The block of `updateTerminalLine` for a dirty row: up to the reset of
the row record at its end, only cells and output change. -/
theorem updateTerminalLineDirty_spec (env : RenderEnv) (fuel : Nat) (w : World) (y : Nat)
    (w0 : World) (h : updateTerminalLineDirty env fuel w y = some w0) :
    ∃ w6 : World, w6.skeleton = w.skeleton
      ∧ w0 = { w6 with
                 vterm := w6.vterm.setLine (y : Int)
                   { w6.vterm.line (y : Int) with xmin := toUInt w6.vterm.width, xmax := 0 } } := by
  unfold updateTerminalLineDirty at h
  simp only [] at h
  obtain ⟨w6, hp, rfl⟩ := Option.map_eq_some'.1 h
  refine ⟨w6, ?_, rfl⟩
  split at hp
  · cases hp
    simp only [skeleton_markAsPrintedRange, skeleton_appendOutputOption,
      skeleton_appendAttributes, skeleton_setTermXY]
  · obtain ⟨w4, h4, rfl⟩ := Option.map_eq_some'.1 hp
    have e4 := skeleton_printRangeLoop env _ _ _ _ _ _ _ _ h4
    have e2 : ∀ (b : Bool) (wa wb : World), wa.skeleton = w.skeleton → wb.skeleton = w.skeleton →
        (if b = true then wa else wb).skeleton = w.skeleton := by
      intro b wa wb ha hb
      cases b
      · exact hb
      · exact ha
    refine e2 _ _ _ ?_ ?_
    · simp only [skeleton_markAsPrintedRange, skeleton_appendOutputOption,
        skeleton_appendAttributes]
      refine e4.trans (e2 _ _ _ ?_ ?_)
      · simp only [skeleton_markAsPrintedRange, skeleton_appendOutputOption,
          skeleton_appendAttributes, skeleton_setTermXY]
      · simp only [skeleton_setTermXY]
    · refine e4.trans (e2 _ _ _ ?_ ?_)
      · simp only [skeleton_markAsPrintedRange, skeleton_appendOutputOption,
          skeleton_appendAttributes, skeleton_setTermXY]
      · simp only [skeleton_setTermXY]

/-- What `updateTerminalLine` does to everything but cells and output: the
row record of a dirty row `y` is reset to the empty range
`(uInt(vterm->width), 0)`, and nothing else changes. -/
theorem updateTerminalLine_spec (env : RenderEnv) (fuel : Nat) (w : World) (y : Nat)
    (w1 : World) (h : updateTerminalLine env fuel w y = some w1) :
    w1.vdesktop = w.vdesktop ∧ w1.window_list = w.window_list
      ∧ w1.child_areas = w.child_areas ∧ w1.active_area = w.active_area
      ∧ w1.vterm.width = w.vterm.width ∧ w1.vterm.height = w.vterm.height
      ∧ bufSize w1.vterm.changes = bufSize w.vterm.changes
      ∧ ∀ y1 : Int, w1.vterm.line y1
          = if ((y : Int) = y1 ∧ 0 ≤ (y : Int) ∧ (y : Int) < (bufSize w.vterm.changes : Int))
                ∧ (w.vterm.line (y : Int)).xmin ≤ (w.vterm.line (y : Int)).xmax
            then { w.vterm.line (y : Int) with xmin := toUInt w.vterm.width, xmax := 0 }
            else w.vterm.line y1 := by
  unfold updateTerminalLine at h
  simp only [] at h
  obtain ⟨w0, h0, rfl⟩ := Option.map_eq_some'.1 h
  have ew := skeleton_cursorWrap env w0
  have key : ∀ wa wb : World, wa.skeleton = wb.skeleton →
      wa.vdesktop = wb.vdesktop ∧ wa.window_list = wb.window_list
      ∧ wa.child_areas = wb.child_areas ∧ wa.active_area = wb.active_area
      ∧ wa.vterm.width = wb.vterm.width ∧ wa.vterm.height = wb.vterm.height
      ∧ wa.vterm.changes = wb.vterm.changes := by
    intro wa wb e
    exact ⟨congrArg (fun s => s.2.1) e, congrArg (fun s => s.2.2.1) e,
      congrArg (fun s => s.2.2.2.1) e, congrArg (fun s => s.2.2.2.2) e,
      congrArg (fun s => s.1.width) e, congrArg (fun s => s.1.height) e,
      congrArg (fun s => s.1.changes) e⟩
  obtain ⟨c1, c2, c3, c4, c5, c6, c7⟩ := key _ _ ew
  split at h0
  · rename_i hd
    obtain ⟨w6, e6, rfl⟩ := updateTerminalLineDirty_spec env fuel w y w0 h0
    obtain ⟨d1, d2, d3, d4, d5, d6, d7⟩ := key _ _ e6
    have el : ∀ y1, w6.vterm.line y1 = w.vterm.line y1 := by
      intro y1; unfold FTermArea.line; rw [d7]
    refine ⟨c1.trans d1, c2.trans d2, c3.trans d3, c4.trans d4, c5.trans d5, c6.trans d6, ?_, ?_⟩
    · rw [c7]
      show bufSize (w6.vterm.setLine _ _).changes = _
      unfold FTermArea.setLine
      simp only [bufSize_bufSet, d7]
    · intro y1
      have e7 : ∀ wr : World, wr.vterm.changes = (w6.vterm.setLine (y : Int)
              { w6.vterm.line (y : Int) with xmin := toUInt w6.vterm.width,
                                             xmax := 0 }).changes →
          wr.vterm.line y1 = (w6.vterm.setLine (y : Int)
              { w6.vterm.line (y : Int) with xmin := toUInt w6.vterm.width,
                                             xmax := 0 }).line y1 := by
        intro wr hwr
        exact congrArg (fun c => bufGet c y1) hwr
      rw [e7 _ c7, line_setLine, el, el, d5, d7]
      by_cases hc : (y : Int) = y1 ∧ 0 ≤ (y : Int) ∧ (y : Int) < (bufSize w.vterm.changes : Int)
      · rw [if_pos hc, if_pos ⟨hc, hd⟩]
      · rw [if_neg hc, if_neg (fun hh => hc hh.1)]
  · rename_i hd
    cases h0
    refine ⟨c1, c2, c3, c4, c5, c6, by rw [c7], ?_⟩
    intro y1
    rw [if_neg (fun hh => hd hh.2)]
    unfold FTermArea.line; rw [c7]

/-! ## Surfaces across `updateVTerm` -/

theorem World.Kept.refl (w : World) : w.Kept w :=
  ⟨rfl, rfl, rfl, fun _ a1 h => ⟨a1, h, rfl, rfl, fun h1 => h1⟩⟩

theorem World.Kept.trans {w w1 w2 : World} (h1 : w.Kept w1) (h2 : w1.Kept w2) : w.Kept w2 := by
  obtain ⟨a1, a2, a3, a4⟩ := h1
  obtain ⟨b1, b2, b3, b4⟩ := h2
  refine ⟨b1.trans a1, b2.trans a2, b3.trans a3, ?_⟩
  intro r x2 hx2
  obtain ⟨x1, hx1, c1, c2, c3⟩ := b4 r x2 hx2
  obtain ⟨x0, hx0, d1, d2, d3⟩ := a4 r x1 hx1
  exact ⟨x0, hx0, c1.trans d1, c2.trans d2, fun h => d3 (c3 h)⟩

theorem kept_of_area? (w w1 : World) (h1 : w1.vterm.width = w.vterm.width)
    (h2 : w1.vterm.height = w.vterm.height)
    (h3 : bufSize w1.vterm.changes = bufSize w.vterm.changes)
    (h4 : ∀ r, w1.area? r = w.area? r) : w.Kept w1 :=
  ⟨h1, h2, h3, fun r a1 h => ⟨a1, by rw [← h4 r, h], rfl, rfl, fun h1 => h1⟩⟩

theorem area?_of_surfaces (w w1 : World) (h1 : w1.vdesktop = w.vdesktop)
    (h2 : w1.window_list = w.window_list) (h3 : w1.child_areas = w.child_areas)
    (r : AreaRef) : w1.area? r = w.area? r := by
  cases r with
  | desktop => exact congrArg some h1
  | window i => simp only [World.area?, h2]
  | child i => simp only [World.area?, h3]

theorem kept_of_skeleton (w w1 : World) (h : w1.skeleton = w.skeleton) : w.Kept w1 :=
  kept_of_area? w w1 (congrArg (fun s => s.1.width) h) (congrArg (fun s => s.1.height) h)
    (congrArg (fun s => bufSize s.1.changes) h)
    (area?_of_surfaces w w1 (congrArg (fun s => s.2.1) h) (congrArg (fun s => s.2.2.1) h)
      (congrArg (fun s => s.2.2.2.1) h))

theorem area?_setArea_ne (w : World) (r r2 : AreaRef) (a : FTermArea) (hne : r2 ≠ r) :
    (w.setArea r a).area? r2 = w.area? r2 := by
  cases r with
  | desktop =>
    cases r2 with
    | desktop => exact absurd rfl hne
    | window j => rfl
    | child j => rfl
  | window i =>
    simp only [World.setArea]
    cases hw : w.window_list[i]? with
    | none => rfl
    | some win_obj =>
      cases r2 with
      | desktop => rfl
      | window j =>
        have hij : i ≠ j := fun e => hne (by rw [e])
        simp only [World.area?, List.getElem?_set_ne hij]
      | child j => rfl
  | child i =>
    cases r2 with
    | desktop => rfl
    | window j => rfl
    | child j =>
      have hij : i ≠ j := fun e => hne (by rw [e])
      simp only [World.setArea, World.area?, List.getElem?_set_ne hij]

theorem setArea_kept (w : World) (r : AreaRef) (a a1 : FTermArea) (ha : w.area? r = some a)
    (h1 : a1.visible = a.visible) (h2 : a1.preproc_list = a.preproc_list)
    (h3 : a1.has_changes = true → a.has_changes = true) : w.Kept (w.setArea r a1) := by
  refine ⟨by rw [setArea_vterm], by rw [setArea_vterm], by rw [setArea_vterm], ?_⟩
  intro r2 x hx
  by_cases e : r2 = r
  · subst e
    rw [area?_setArea w r2 a a1 ha] at hx
    cases hx
    exact ⟨a, ha, h1, h2, h3⟩
  · rw [area?_setArea_ne w r r2 a1 e] at hx
    exact ⟨x, hx, rfl, rfl, fun h => h⟩

theorem foldl_kept {α : Type} (f : World → α → World) (h : ∀ (w : World) (a : α), w.Kept (f w a))
    (l : List α) (w : World) : w.Kept (l.foldl f w) := by
  induction l generalizing w with
  | nil => exact World.Kept.refl w
  | cons a rest ih => rw [List.foldl_cons]; exact (h w a).trans (ih _)

theorem putAreaRow_kept (env : CompEnv) (r : AreaRef) (ax ay ol width : Int) (w : World)
    (y : Int) : w.Kept (putAreaRow env r ax ay ol width w y) := by
  cases ha : w.area? r with
  | none =>
    have e : putAreaRow env r ax ay ol width w y = w := by
      unfold putAreaRow; rw [ha]
    rw [e]; exact World.Kept.refl w
  | some a =>
    by_cases h1 : toInt (a.line y).xmin > toInt (a.line y).xmax
    · have e : putAreaRow env r ax ay ol width w y = w := by
        unfold putAreaRow; rw [ha]; simp only []; rw [if_pos h1]
      rw [e]; exact World.Kept.refl w
    · by_cases h2 : ax + (if ax = 0 then ol else toInt (a.line y).xmin) ≥ w.vterm.width
      · have e : putAreaRow env r ax ay ol width w y = w := by
          unfold putAreaRow; rw [ha]; simp only []; rw [if_neg h1, if_pos h2]
        rw [e]; exact World.Kept.refl w
      · rw [putAreaRow_dirty env r ax ay ol width w y a ha h1 h2]
        obtain ⟨d, hd, _, _⟩ := columnLoop_world env r ax ay ol y w
          (if ax = 0 then ol else toInt (a.line y).xmin)
          (if width + ax - ol ≥ w.vterm.width then w.vterm.width + ol - ax - 1
           else toInt (a.line y).xmax)
        generalize columnLoop env r ax ay ol y w (if ax = 0 then ol else toInt (a.line y).xmin)
          (if width + ax - ol ≥ w.vterm.width then w.vterm.width + ol - ax - 1
           else toInt (a.line y).xmax) = st at hd ⊢
        generalize hvt : putAreaDirtyRange st.world.vterm (ay + y) (ax + st.line_xmin - ol)
          (ax + (if width + ax - ol ≥ w.vterm.width then w.vterm.width + ol - ax - 1
                 else toInt (a.line y).xmax)) = vt
        have f1 : vt.width = w.vterm.width := by
          rw [← hvt, putAreaDirtyRange_fields, hd]; rfl
        have f2 : vt.height = w.vterm.height := by
          rw [← hvt, putAreaDirtyRange_fields, hd]; rfl
        have f3 : bufSize vt.changes = bufSize w.vterm.changes := by
          rw [← hvt, (putAreaDirtyRange_frame _ _ _ _).1, hd]; rfl
        have k1 : w.Kept ({ st.world with vterm := vt } : World) :=
          kept_of_area? _ _ f1 f2 f3
            (fun r2 => by rw [area?_vterm_irrelevant, hd, setVTermData_area?])
        have ha2 : ({ st.world with vterm := vt } : World).area? r = some a := by
          rw [area?_vterm_irrelevant, hd, setVTermData_area?, ha]
        exact k1.trans (setArea_kept _ r a _ ha2 rfl rfl (fun h => h))

theorem updateVTermCursor_kept (env : CompEnv) (w : World) (r : AreaRef) :
    w.Kept (updateVTermCursor env w r).2 := by
  refine kept_of_area? _ _ ?_ ?_ ?_ (updateVTermCursor_area? env w r)
  · unfold updateVTermCursor
    cases w.area? r with
    | none => rfl
    | some area => simp only []; split_ifs <;> rfl
  · unfold updateVTermCursor
    cases w.area? r with
    | none => rfl
    | some area => simp only []; split_ifs <;> rfl
  · rw [updateVTermCursor_vterm_changes]

/-- Compositing a surface without pre-render handlers keeps the size of the
full-screen buffer and, of every surface, the visibility, the handlers and
the flag `has_changes`. -/
theorem putArea_kept (env : CompEnv) (w : World) (r : AreaRef)
    (hpre : ∀ a, w.area? r = some a → a.preproc_list = []) : w.Kept (putArea env w r) := by
  unfold putArea
  cases ha : w.area? r with
  | none => exact World.Kept.refl w
  | some a =>
    simp only []
    split
    · exact World.Kept.refl w
    · rw [callPreprocessingHandler_nil env w r a ha (hpre a ha)]
      have key : ∀ w2 : World, w.Kept w2 →
          w.Kept (updateVTermCursor env
            { w2 with vterm := { w2.vterm with has_changes := true } } r).2 := by
        intro w2 k2
        refine World.Kept.trans (k2.trans ?_) (updateVTermCursor_kept env _ r)
        exact kept_of_area? _ _ rfl rfl rfl (fun r2 => area?_vterm_irrelevant _ _ r2)
      exact key _ (foldl_kept (putAreaRow env r _ _ _ _) (putAreaRow_kept env r _ _ _ _) _ w)

theorem clearHasChanges_kept (w : World) (r : AreaRef) :
    w.Kept (w.clearHasChanges r)
    ∧ ∀ a1, (w.clearHasChanges r).area? r = some a1 → a1.has_changes = false := by
  unfold World.clearHasChanges
  cases ha : w.area? r with
  | none =>
    refine ⟨World.Kept.refl w, ?_⟩
    intro a1 h1
    simp only [] at h1
    rw [ha] at h1
    cases h1
  | some a =>
    refine ⟨setArea_kept w r a _ ha rfl rfl (fun h => by cases h), ?_⟩
    intro a1 h1
    simp only [] at h1
    rw [area?_setArea w r a _ ha] at h1
    cases h1
    rfl

theorem hasChildAreaChanges_nil (env : RenderEnv) (w : World) (area : FTermArea)
    (h : area.preproc_list = []) : hasChildAreaChanges env w area = false := by
  unfold hasChildAreaChanges
  rw [h]
  rfl

/-- One pass of the window loop of `updateVTerm` without pre-render handlers
on the window: the shape of the state is kept, and the window, if visible,
has no changes afterwards. -/
theorem updateVTermWindow_spec (env : RenderEnv) (w : World) (i : Nat)
    (hpre : ∀ a, w.area? (AreaRef.window i) = some a → a.preproc_list = []) :
    w.Kept (updateVTermWindow env w i)
    ∧ ∀ a1, (updateVTermWindow env w i).area? (AreaRef.window i) = some a1 →
        a1.visible = true → a1.has_changes = false := by
  unfold updateVTermWindow
  cases ha : w.area? (AreaRef.window i) with
  | none =>
    refine ⟨World.Kept.refl w, ?_⟩
    intro a1 h1
    simp only [] at h1
    rw [ha] at h1
    cases h1
  | some v_win =>
    simp only []
    by_cases hv : v_win.visible = false
    · rw [if_pos hv]
      refine ⟨World.Kept.refl w, ?_⟩
      intro a1 h1 h2
      rw [ha] at h1
      cases h1
      rw [hv] at h2
      cases h2
    · rw [if_neg hv]
      by_cases hc : v_win.has_changes = true
      · rw [if_pos hc]
        obtain ⟨k2, c2⟩ := clearHasChanges_kept (putArea env.comp w (AreaRef.window i))
          (AreaRef.window i)
        exact ⟨(putArea_kept env.comp w _ hpre).trans k2, fun a1 h1 _ => c2 a1 h1⟩
      · rw [if_neg hc, hasChildAreaChanges_nil env w v_win (hpre v_win ha)]
        refine ⟨World.Kept.refl w, ?_⟩
        intro a1 h1 _
        simp only [Bool.false_eq_true, if_false] at h1
        rw [ha] at h1
        cases h1
        simpa using hc

theorem area?_window_lt (w : World) (i : Nat) (a : FTermArea)
    (h : w.area? (AreaRef.window i) = some a) : i < w.window_list.length := by
  by_contra hlt
  have e : w.window_list[i]? = none := List.getElem?_eq_none (not_lt.1 hlt)
  simp only [World.area?, e] at h
  cases h

theorem updateVTerm_windows (env : RenderEnv) (l : List Nat) :
    ∀ w : World, (∀ i a, w.area? (AreaRef.window i) = some a → a.preproc_list = []) →
      w.Kept (l.foldl (updateVTermWindow env) w)
      ∧ ∀ i ∈ l, ∀ a1, (l.foldl (updateVTermWindow env) w).area? (AreaRef.window i) = some a1 →
          a1.visible = true → a1.has_changes = false := by
  induction l with
  | nil =>
    intro w _
    exact ⟨World.Kept.refl w, fun i hi => by cases hi⟩
  | cons i rest ih =>
    intro w hpre
    rw [List.foldl_cons]
    obtain ⟨k1, c1⟩ := updateVTermWindow_spec env w i (hpre i)
    have hpre1 : ∀ j a, (updateVTermWindow env w i).area? (AreaRef.window j) = some a →
        a.preproc_list = [] := by
      intro j a h
      obtain ⟨a0, h0, _, e, _⟩ := k1.2.2.2 _ a h
      rw [e]
      exact hpre j a0 h0
    obtain ⟨k2, c2⟩ := ih (updateVTermWindow env w i) hpre1
    refine ⟨k1.trans k2, ?_⟩
    intro j hj a2 h2 hvis
    rcases List.mem_cons.1 hj with e | hj2
    · subst e
      obtain ⟨a1, h1, e1, _, e3⟩ := k2.2.2.2 _ a2 h2
      have := c1 a1 h1 (e1 ▸ hvis)
      cases hh : a2.has_changes with
      | false => rfl
      | true => rw [e3 hh] at this; cases this
    · exact c2 j hj2 a2 h2 hvis

/-- The function `updateVTerm` without pre-render handlers on the desktop
and the windows: the shape of the state is kept, and afterwards neither the
desktop nor a visible window has changes. -/
theorem updateVTerm_spec (env : RenderEnv) (w : World)
    (hdesk : w.vdesktop.preproc_list = [])
    (hwin : ∀ i a, w.area? (AreaRef.window i) = some a → a.preproc_list = []) :
    w.Kept (updateVTerm env w)
    ∧ (updateVTerm env w).vdesktop.has_changes = false
    ∧ ∀ i a1, (updateVTerm env w).area? (AreaRef.window i) = some a1 →
        a1.visible = true → a1.has_changes = false := by
  have hw1 : ∃ w1 : World, w.Kept w1 ∧ w1.vdesktop.has_changes = false
      ∧ updateVTerm env w = (List.range w1.window_list.length).foldl (updateVTermWindow env) w1 := by
    have fin : ∀ w1 : World,
        (if w1.window_list = [] then w1
          else (List.range w1.window_list.length).foldl (updateVTermWindow env) w1)
        = (List.range w1.window_list.length).foldl (updateVTermWindow env) w1 := by
      intro w1
      by_cases e : w1.window_list = []
      · rw [if_pos e, e]; rfl
      · rw [if_neg e]
    unfold updateVTerm
    simp only []
    by_cases hc : w.vdesktop.has_changes = true
    · rw [if_pos hc]
      obtain ⟨k2, c2⟩ := clearHasChanges_kept (putArea env.comp w AreaRef.desktop)
        AreaRef.desktop
      refine ⟨_, (putArea_kept env.comp w AreaRef.desktop ?_).trans k2, c2 _ rfl, fin _⟩
      intro a ha
      cases ha
      exact hdesk
    · rw [if_neg hc]
      exact ⟨w, World.Kept.refl w, by simpa using hc, fin w⟩
  obtain ⟨w1, k1, c1, e⟩ := hw1
  rw [e]
  have hpre1 : ∀ j a, w1.area? (AreaRef.window j) = some a → a.preproc_list = [] := by
    intro j a h
    obtain ⟨a0, h0, _, e2, _⟩ := k1.2.2.2 _ a h
    rw [e2]
    exact hwin j a0 h0
  obtain ⟨k2, c2⟩ := updateVTerm_windows env (List.range w1.window_list.length) w1 hpre1
  refine ⟨k1.trans k2, ?_, ?_⟩
  · obtain ⟨a0, h0, _, _, e3⟩ := k2.2.2.2 AreaRef.desktop _ rfl
    cases h0
    cases hh : (List.foldl (updateVTermWindow env) w1
        (List.range w1.window_list.length)).vdesktop.has_changes with
    | false => rfl
    | true => rw [e3 hh] at c1; cases c1
  · intro i a1 h1 hvis
    obtain ⟨a0, h0, _, _, _⟩ := k2.2.2.2 _ a1 h1
    exact c2 i (List.mem_range.2 (area?_window_lt w1 i a0 h0)) a1 h1 hvis

/-- The function `updateVTerm` changes nothing when neither the desktop nor
a visible window has changes and no window has pre-render handlers. -/
theorem updateVTerm_clean (env : RenderEnv) (w : World)
    (hdesk : w.vdesktop.has_changes = false)
    (hwin : ∀ i a, w.area? (AreaRef.window i) = some a →
      a.preproc_list = [] ∧ (a.visible = true → a.has_changes = false)) :
    updateVTerm env w = w := by
  have step : ∀ i, updateVTermWindow env w i = w := by
    intro i
    unfold updateVTermWindow
    cases ha : w.area? (AreaRef.window i) with
    | none => rfl
    | some v_win =>
      simp only []
      obtain ⟨p1, p2⟩ := hwin i v_win ha
      by_cases hv : v_win.visible = false
      · rw [if_pos hv]
      · have hv2 : v_win.visible = true := by simpa using hv
        rw [if_neg hv, p2 hv2, hasChildAreaChanges_nil env w v_win p1]
        rfl
  have loop : ∀ l : List Nat, l.foldl (updateVTermWindow env) w = w := by
    intro l
    induction l with
    | nil => rfl
    | cons i rest ih => rw [List.foldl_cons, step, ih]
  unfold updateVTerm
  simp only []
  rw [hdesk]
  simp only [Bool.false_eq_true, if_false, loop, ite_self]

theorem noHooks_window (w : World) (h : w.NoHooks) (i : Nat) (a : FTermArea)
    (ha : w.area? (AreaRef.window i) = some a) : a.preproc_list = [] := by
  simp only [World.area?] at ha
  cases hw : w.window_list[i]? with
  | none => rw [hw] at ha; cases ha
  | some win_obj =>
    rw [hw] at ha
    exact h.2 win_obj (List.getElem?_mem hw) a ha

/-- The row loop of `updateTerminal`: the surfaces and the size of the
full-screen buffer stay as they are, and afterwards every row that was
clean before or was visited by the loop is clean. -/
theorem updateTerminalLines_spec (env : RenderEnv) (fuel : Nat) (ys : List Nat) :
    ∀ (w w1 : World), updateTerminalLines env fuel ys w = some w1 → 0 < toUInt w.vterm.width →
      (w1.vdesktop = w.vdesktop ∧ w1.window_list = w.window_list
        ∧ w1.child_areas = w.child_areas ∧ w1.active_area = w.active_area
        ∧ w1.vterm.width = w.vterm.width ∧ w1.vterm.height = w.vterm.height
        ∧ bufSize w1.vterm.changes = bufSize w.vterm.changes)
      ∧ ∀ y1 : Int,
          ((w.vterm.line y1).xmax < (w.vterm.line y1).xmin
            ∨ ∃ y ∈ ys, (y : Int) = y1 ∧ (y : Int) < (bufSize w.vterm.changes : Int)) →
          (w1.vterm.line y1).xmax < (w1.vterm.line y1).xmin := by
  induction ys with
  | nil =>
    intro w w1 h _
    cases h
    refine ⟨⟨rfl, rfl, rfl, rfl, rfl, rfl, rfl⟩, ?_⟩
    intro y1 hy
    rcases hy with hy | ⟨y, hy, _⟩
    · exact hy
    · cases hy
  | cons y rest ih =>
    intro w w1 h hw
    unfold updateTerminalLines at h
    cases hm : updateTerminalLine env fuel w y with
    | none => rw [hm] at h; cases h
    | some wm =>
      rw [hm] at h
      simp only [] at h
      obtain ⟨m1, m2, m3, m4, m5, m6, m7, m8⟩ := updateTerminalLine_spec env fuel w y wm hm
      obtain ⟨⟨n1, n2, n3, n4, n5, n6, n7⟩, n8⟩ := ih wm w1 h (by rw [m5]; exact hw)
      refine ⟨⟨n1.trans m1, n2.trans m2, n3.trans m3, n4.trans m4, n5.trans m5, n6.trans m6,
        n7.trans m7⟩, ?_⟩
      intro y1 hy
      apply n8 y1
      have keep : (w.vterm.line y1).xmax < (w.vterm.line y1).xmin →
          (wm.vterm.line y1).xmax < (wm.vterm.line y1).xmin := by
        intro hc
        rw [m8 y1]
        split
        · exact hw
        · exact hc
      rcases hy with hy | ⟨y2, hy2, e2, hlt⟩
      · exact Or.inl (keep hy)
      · rcases List.mem_cons.1 hy2 with e | hin
        · subst e
          by_cases hd : (w.vterm.line (y2 : Int)).xmin ≤ (w.vterm.line (y2 : Int)).xmax
          · left
            rw [m8 y1, if_pos ⟨⟨e2, Int.natCast_nonneg _, hlt⟩, hd⟩]
            exact hw
          · left
            apply keep
            rw [← e2]
            exact not_le.1 hd
        · exact Or.inr ⟨y2, hin, e2, by rw [m7]; exact hlt⟩

/-- The function `updateTerminal` once its gates are passed: no stop, no
quit, the printing phase complete or the update forced, no input pending,
no resize. -/
theorem updateTerminal_pass (env : RenderEnv) (probe : TerminalProbe) (fuel : Nat)
    (s : UpdateState)
    (hquit : probe.isQuit = false) (hin : probe.isInputDataPending = false)
    (hres : probe.hasTermResized = false) (hsize : probe.isTermSizeChanged = false)
    (hstop : s.stop_terminal_updates = false)
    (hcomplete : s.force_terminal_update = true ∨ s.terminal_update_complete = true) :
    updateTerminal env probe fuel s
      = if (updateVTerm env s.world).vterm.has_changes = false then
          some { s with world := updateVTerm env s.world }
        else
          (updateTerminalLines env fuel
              (List.range (toUInt (updateVTerm env s.world).vterm.height))
              (updateVTerm env s.world)).map fun w2 =>
            { s with world := (updateTerminalCursor env
                { w2 with vterm := { w2.vterm with has_changes := false } }).2 } := by
  have h2 : ¬ (s.force_terminal_update = false ∧ s.terminal_update_complete = false) := by
    intro h
    rcases hcomplete with hc | hc
    · rw [h.1] at hc; cases hc
    · rw [h.2] at hc; cases hc
  have h3 : ¬ (s.force_terminal_update = false ∧ probe.isInputDataPending = true) := by
    intro h
    rw [hin] at h
    cases h.2
  unfold updateTerminal
  rw [hstop, hquit, hres, hsize, if_neg h2, if_neg h3]
  simp only [Bool.or_self, Bool.false_eq_true, if_false]

/-- Render idempotence for a pass that returns.  Let `updateTerminal ()`
run a render pass: no stop and no quit, the printing phase complete or the
update forced, no input pending, no resize, no pre-render handler on the
desktop or on a window, the compositing reports changes, and the fuel is
enough for every `printRange`.  Then every row of the full-screen buffer is
clean afterwards and the flag `has_changes` of the buffer is false, and an
`updateTerminal ()` that follows at once returns the state it was given: it
finds no dirty row and emits nothing. -/
theorem render_idempotence_of_run (env : RenderEnv) (probe : TerminalProbe) (fuel fuel2 : Nat)
    (s : UpdateState)
    (hquit : probe.isQuit = false) (hin : probe.isInputDataPending = false)
    (hres : probe.hasTermResized = false) (hsize : probe.isTermSizeChanged = false)
    (hstop : s.stop_terminal_updates = false)
    (hcomplete : s.force_terminal_update = true ∨ s.terminal_update_complete = true)
    (hhooks : s.world.NoHooks) (hrows : s.world.VTermRows)
    (hheight : s.world.vterm.height < 2 ^ 31)
    (hpass : (updateVTerm env s.world).vterm.has_changes = true)
    (hrun : (updateTerminal env probe fuel s).isSome = true) :
    ∃ s1, updateTerminal env probe fuel s = some s1
      ∧ (∀ y : Int, 0 ≤ y → y < s1.world.vterm.height →
          (s1.world.vterm.line y).xmax < (s1.world.vterm.line y).xmin)
      ∧ s1.world.vterm.has_changes = false
      ∧ updateTerminal env probe fuel2 s1 = some s1 := by
  have hp : ¬ ((updateVTerm env s.world).vterm.has_changes = false) := by
    rw [hpass]; exact fun h => by cases h
  rw [updateTerminal_pass env probe fuel s hquit hin hres hsize hstop hcomplete, if_neg hp] at hrun
  rw [updateTerminal_pass env probe fuel s hquit hin hres hsize hstop hcomplete, if_neg hp]
  obtain ⟨k, cd, cw⟩ := updateVTerm_spec env s.world hhooks.1 (noHooks_window _ hhooks)
  generalize updateVTerm env s.world = w1 at hrun k cd cw ⊢
  obtain ⟨k1, k2, k3, k4⟩ := k
  obtain ⟨r1, r2, r3⟩ := hrows
  have hw : 0 < toUInt w1.vterm.width := by
    rw [k1, toUInt_of_nonneg (le_of_lt r1) (by omega)]
    omega
  cases hl : updateTerminalLines env fuel (List.range (toUInt w1.vterm.height)) w1 with
  | none => rw [hl] at hrun; cases hrun
  | some w2 =>
    obtain ⟨⟨n1, n2, n3, n4, n5, n6, n7⟩, n8⟩ :=
      updateTerminalLines_spec env fuel _ w1 w2 hl hw
    have sk := skeleton_updateTerminalCursor env
      { w2 with vterm := { w2.vterm with has_changes := false } }
    generalize hs1 : (updateTerminalCursor env
      { w2 with vterm := { w2.vterm with has_changes := false } }).2 = wf at sk
    have f1 : wf.vdesktop = w2.vdesktop := congrArg (fun t => t.2.1) sk
    have f2 : wf.window_list = w2.window_list := congrArg (fun t => t.2.2.1) sk
    have f3 : wf.child_areas = w2.child_areas := congrArg (fun t => t.2.2.2.1) sk
    have f4 : wf.vterm.changes = w2.vterm.changes := congrArg (fun t => t.1.changes) sk
    have f5 : wf.vterm.height = w2.vterm.height := congrArg (fun t => t.1.height) sk
    have f6 : wf.vterm.has_changes = false := congrArg (fun t => t.1.has_changes) sk
    refine ⟨{ s with world := wf }, by simp only [Option.map_some', hs1], ?_, f6, ?_⟩
    · intro y hy0 hy
      show (wf.vterm.line y).xmax < (wf.vterm.line y).xmin
      have el : wf.vterm.line y = w2.vterm.line y := congrArg (fun c => bufGet c y) f4
      have hy2 : y < s.world.vterm.height := by
        have : y < wf.vterm.height := hy
        rw [f5, n6, k2] at this
        exact this
      rw [el]
      apply n8 y
      right
      refine ⟨y.toNat, List.mem_range.2 ?_, by omega, ?_⟩
      · rw [k2, toUInt_of_nonneg (by omega) (by omega)]
        omega
      · rw [k3]
        omega
    · rw [updateTerminal_pass env probe fuel2 { s with world := wf } hquit hin hres hsize hstop
        hcomplete]
      have ea : ∀ r, wf.area? r = w1.area? r := fun r =>
        area?_of_surfaces w1 wf (f1.trans n1) (f2.trans n2) (f3.trans n3) r
      have hc : updateVTerm env wf = wf := by
        apply updateVTerm_clean env wf
        · rw [f1, n1]; exact cd
        · intro i a ha
          rw [ea] at ha
          refine ⟨?_, cw i a ha⟩
          obtain ⟨a0, h0, _, e, _⟩ := k4 _ a ha
          rw [e]
          exact noHooks_window _ hhooks i a0 h0
      show (if (updateVTerm env wf).vterm.has_changes = false then _ else _) = _
      rw [if_pos (by rw [hc]; exact f6)]
      show some ({ s with world := updateVTerm env wf } : UpdateState) = _
      rw [hc]

/-! ## Deferring a terminal update (fvterm.cpp, lines 242-260) -/

/-- With keyboard input pending and no forced update, `updateTerminal ()`
leaves the state of the process as it is, whatever the other flags say and
whatever the fuel: nothing is composited and nothing is emitted. -/
theorem updateTerminal_input_pending_world (env : RenderEnv) (probe : TerminalProbe)
    (fuel : Nat) (s : UpdateState) (hin : probe.isInputDataPending = true)
    (hforce : s.force_terminal_update = false) :
    ∃ s1, updateTerminal env probe fuel s = some s1 ∧ s1.world = s.world := by
  unfold updateTerminal
  rw [hin, hforce]
  by_cases h1 : (s.stop_terminal_updates || probe.isQuit) = true
  · rw [if_pos h1]; exact ⟨s, rfl, rfl⟩
  · rw [if_neg h1]
    by_cases h2 : s.terminal_update_complete = false
    · rw [if_pos ⟨rfl, h2⟩]; exact ⟨s, rfl, rfl⟩
    · rw [if_neg (fun h => h2 h.2), if_pos ⟨rfl, rfl⟩]
      exact ⟨_, rfl, rfl⟩

/-- Claim C21, amended.  In every scheduler state in which updates are not
suspended, keyboard input is pending and no update is forced,
`updateTerminal ()` returns at once and renders nothing.  When the
application is not quitting and the printing phase is complete it sets
`terminal_update_pending` and leaves everything else, the full-screen buffer
and the output included, as before.  While the application is quitting or
the printing phase is not complete it returns before it looks at the
keyboard, and the whole state, `terminal_update_pending` included, stays as
it was. -/
theorem C21_updateTerminal_defers_on_input (env : RenderEnv) (probe : TerminalProbe)
    (fuel : Nat) (s : UpdateState)
    (hstop : s.stop_terminal_updates = false)
    (hin : probe.isInputDataPending = true) (hforce : s.force_terminal_update = false) :
    (probe.isQuit = false → s.terminal_update_complete = true →
      updateTerminal env probe fuel s = some { s with terminal_update_pending := true })
    ∧ (probe.isQuit = true ∨ s.terminal_update_complete = false →
      updateTerminal env probe fuel s = some s) := by
  constructor
  · intro hquit hcomplete
    have h1 : ¬ ((s.stop_terminal_updates || probe.isQuit) = true) := by
      rw [hstop, hquit]; decide
    have h2 : ¬ (s.force_terminal_update = false ∧ s.terminal_update_complete = false) := by
      rw [hcomplete]; exact fun h => by cases h.2
    unfold updateTerminal
    rw [if_neg h1, if_neg h2, if_pos ⟨hforce, hin⟩]
  · intro h
    unfold updateTerminal
    by_cases h1 : (s.stop_terminal_updates || probe.isQuit) = true
    · rw [if_pos h1]
    · rw [if_neg h1]
      have hq : probe.isQuit = false := by
        cases e : probe.isQuit
        · rfl
        · rw [e, Bool.or_true] at h1; exact absurd rfl h1
      rcases h with h | h
      · rw [hq] at h; cases h
      · rw [if_pos ⟨hforce, h⟩]

/-- Witness for C21: a state with the printing phase complete, where the
flag is set, with input pending on the 10 x 4 terminal. -/
theorem C21_updateTerminal_defers_on_input_witness :
    (updateTerminal sampleRenderEnv (sampleProbe true) 0
        { samplePrinting with terminal_update_complete := true }).map
        (fun s => s.terminal_update_pending) = some true
    ∧ ((sampleProbe true).isQuit = false →
        ({ samplePrinting with terminal_update_complete := true } :
          UpdateState).terminal_update_complete = true →
        updateTerminal sampleRenderEnv (sampleProbe true) 0
            { samplePrinting with terminal_update_complete := true }
          = some { samplePrinting with terminal_update_complete := true,
                                       terminal_update_pending := true })
    ∧ ((sampleProbe true).isQuit = true
          ∨ ({ samplePrinting with terminal_update_complete := true } :
              UpdateState).terminal_update_complete = false →
        updateTerminal sampleRenderEnv (sampleProbe true) 0
            { samplePrinting with terminal_update_complete := true }
          = some { samplePrinting with terminal_update_complete := true }) :=
  ⟨by decide,
   C21_updateTerminal_defers_on_input sampleRenderEnv (sampleProbe true) 0
     { samplePrinting with terminal_update_complete := true } rfl rfl rfl⟩

/-- Claim C21 (counterexample).  Updates are not suspended, keyboard input
is pending and no update is forced, but the printing phase is not complete:
`updateTerminal ()` returns before it looks at the keyboard, and
`terminal_update_pending` stays false.  The same happens with the printing
phase complete while the application is quitting. -/
theorem C21_updateTerminal_printing_phase_counterexample :
    samplePrinting.stop_terminal_updates = false
    ∧ (sampleProbe true).isInputDataPending = true
    ∧ samplePrinting.force_terminal_update = false
    ∧ (updateTerminal sampleRenderEnv (sampleProbe true) 0 samplePrinting).map
        (fun s => s.terminal_update_pending) = some false
    ∧ (updateTerminal sampleRenderEnv { sampleProbe true with isQuit := true } 0
          { samplePrinting with terminal_update_complete := true }).map
        (fun s => s.terminal_update_pending) = some false := by
  decide

/-! ## Creating and resizing a surface -/

theorem toSize_of_nonneg {i : Int} (h0 : 0 ≤ i) (h : i < 2 ^ 64) : toSize i = i.toNat := by
  unfold toSize
  rw [Int.emod_eq_of_lt h0 h]

theorem fullSize_eq {a b : Int} (ha : 0 ≤ a) (hb : 0 ≤ b) (h : a + b < 2 ^ 31) :
    sAdd (toSize a) (toSize b) = (a + b).toNat := by
  rw [toSize_of_nonneg ha (by omega), toSize_of_nonneg hb (by omega)]
  unfold sAdd
  omega

theorem toInt_toNat {i : Int} (h0 : 0 ≤ i) (h : i < 2 ^ 31) : toInt i.toNat = i := by
  rw [toInt_of_lt (by omega)]
  omega

theorem defaultChar_blank (env : AllocEnv) : (defaultChar env).DefaultBlank env.Default :=
  ⟨rfl, rfl, rfl, rfl, rfl, rfl, rfl, rfl, rfl⟩

/-- The function `setTextToDefault` on arrays of the lengths handed over:
every cell and every row record is overwritten, nothing else changes. -/
theorem setTextToDefault_spec (env : AllocEnv) (area : FTermArea) (width height : Nat)
    (hsz : width * height < 2 ^ 64)
    (hd : bufSize area.data = width * height) (hc : bufSize area.changes = height) :
    setTextToDefault env area width height
        = { area with data := (setTextToDefault env area width height).data,
                      changes := (setTextToDefault env area width height).changes }
    ∧ bufSize (setTextToDefault env area width height).data = width * height
    ∧ bufSize (setTextToDefault env area width height).changes = height
    ∧ (∀ i : Int, 0 ≤ i → i < ((width * height : Nat) : Int) →
        (setTextToDefault env area width height).cell i = defaultChar env)
    ∧ ∀ y : Int, 0 ≤ y → y < (height : Int) →
        (setTextToDefault env area width height).line y
          = { xmin := width % 2 ^ 32, xmax := 0, trans_count := 0 } := by
  have e : sMul width height = width * height := by
    unfold sMul; exact Nat.mod_eq_of_lt hsz
  unfold setTextToDefault
  simp only [e]
  refine ⟨trivial, ?_, ?_, ?_, ?_⟩
  · rw [(fill_n_spec _ _ _ _).1, hd]
  · rw [(fill_n_spec _ _ _ _).1, hc]
  · intro i hi0 hi
    show bufGet (fill_n _ _ _ _) i = _
    rw [(fill_n_spec _ _ _ _).2.2, if_pos ⟨hi0, by omega, hi0, by rw [hd]; exact hi⟩]
  · intro y hy0 hy
    show bufGet (fill_n _ _ _ _) y = _
    rw [(fill_n_spec _ _ _ _).2.2, if_pos ⟨hy0, by omega, hy0, by rw [hc]; exact hy⟩]

/-- The function `resizeArea` on a surface whose total height or total
width differs from the one asked for, with a geometry that passes the
assertions and allocations that succeed: the surface gets the geometry asked
for and is left in the default state.  When only the total width changes the
row records are not allocated anew, so the surface must have had one for
each row. -/
theorem resizeArea_realloc (env : AllocEnv) (offset_left offset_top width height rsw bsh : Int)
    (a : FTermArea)
    (hot : 0 ≤ offset_top) (hw : 0 < width) (hh : 0 < height) (hr : 0 ≤ rsw) (hb : 0 ≤ bsh)
    (hw31 : width + rsw < 2 ^ 31) (hh31 : height + bsh < 2 ^ 31)
    (hdiff : a.height + a.bottom_shadow ≠ height + bsh
      ∨ a.width + a.right_shadow ≠ width + rsw)
    (hrows : a.height + a.bottom_shadow = height + bsh →
      (bufSize a.changes : Int) = a.height + a.bottom_shadow)
    (hnc : bufSize (env.newChanges (height + bsh).toNat) = (height + bsh).toNat)
    (hnd : bufSize (env.newData ((width + rsw).toNat * (height + bsh).toNat))
      = (width + rsw).toNat * (height + bsh).toNat) :
    ∃ a1, resizeArea env offset_left offset_top width height rsw bsh (some a) = some (some a1)
      ∧ a1.offset_left = offset_left ∧ a1.offset_top = offset_top
      ∧ a1.width = width ∧ a1.height = height
      ∧ a1.right_shadow = rsw ∧ a1.bottom_shadow = bsh
      ∧ a1.Default env.Default := by
  have hfw := fullSize_eq (le_of_lt hw) hr hw31
  have hfh := fullSize_eq (le_of_lt hh) hb hh31
  have hiw : toInt (width + rsw).toNat = width + rsw := toInt_toNat (by omega) hw31
  have hih : toInt (height + bsh).toNat = height + bsh := toInt_toNat (by omega) hh31
  have hprod : (width + rsw).toNat * (height + bsh).toNat < 2 ^ 64 := by
    have h1 : (width + rsw).toNat < 2 ^ 31 := by omega
    have h2 : (height + bsh).toNat < 2 ^ 31 := by omega
    calc (width + rsw).toNat * (height + bsh).toNat
        < 2 ^ 31 * 2 ^ 31 := Nat.mul_lt_mul'' h1 h2
      _ < 2 ^ 64 := by norm_num
  have hpos : 0 < (width + rsw).toNat * (height + bsh).toNat :=
    Nat.mul_pos (by omega) (by omega)
  have hne : ¬ (width = a.width ∧ height = a.height ∧ rsw = a.right_shadow
      ∧ bsh = a.bottom_shadow) := by
    rintro ⟨e1, e2, e3, e4⟩
    rcases hdiff with h | h
    · exact h (by rw [e2, e4])
    · exact h (by rw [e1, e3])
  -- the surface after a successful reallocation
  have key : ∀ a0 : FTermArea, bufSize a0.changes = (height + bsh).toNat →
      bufSize a0.data = (width + rsw).toNat * (height + bsh).toNat →
      ∃ a1, setTextToDefault env
          { a0 with offset_left := offset_left, offset_top := offset_top, width := width,
                    height := height, right_shadow := rsw, bottom_shadow := bsh,
                    has_changes := false }
          (width + rsw).toNat (height + bsh).toNat = a1
        ∧ a1.offset_left = offset_left ∧ a1.offset_top = offset_top
        ∧ a1.width = width ∧ a1.height = height
        ∧ a1.right_shadow = rsw ∧ a1.bottom_shadow = bsh
        ∧ a1.Default env.Default := by
    intro a0 hc0 hd0
    obtain ⟨s1, s2, s3, s4, s5⟩ := setTextToDefault_spec env
      { a0 with offset_left := offset_left, offset_top := offset_top, width := width,
                height := height, right_shadow := rsw, bottom_shadow := bsh,
                has_changes := false }
      (width + rsw).toNat (height + bsh).toNat hprod hd0 hc0
    generalize setTextToDefault env
      { a0 with offset_left := offset_left, offset_top := offset_top, width := width,
                height := height, right_shadow := rsw, bottom_shadow := bsh,
                has_changes := false }
      (width + rsw).toNat (height + bsh).toNat = a1 at s1 s2 s3 s4 s5
    have g1 : a1.width = width := by rw [s1]
    have g2 : a1.height = height := by rw [s1]
    have g3 : a1.right_shadow = rsw := by rw [s1]
    have g4 : a1.bottom_shadow = bsh := by rw [s1]
    have gl : a1.lineLen = width + rsw := by unfold FTermArea.lineLen; rw [g1, g3]
    have gr : a1.rows = height + bsh := by unfold FTermArea.rows; rw [g2, g4]
    have gp : (((width + rsw).toNat * (height + bsh).toNat : Nat) : Int)
        = (width + rsw) * (height + bsh) := by
      push_cast
      rw [Int.toNat_of_nonneg (by omega), Int.toNat_of_nonneg (by omega)]
    refine ⟨a1, rfl, by rw [s1], by rw [s1], g1, g2, g3, g4, ?_, ?_, by rw [s1], ?_, ?_⟩
    · rw [s2, gl, gr, gp]
    · rw [s3, gr]; omega
    · intro i hi0 hi
      rw [s4 i hi0 (by rw [gp, ← gl, ← gr]; exact hi)]
      exact defaultChar_blank env
    · intro y hy0 hy
      rw [s5 y hy0 (by rw [gr] at hy; omega), gl]
      have : toUInt (width + rsw) = (width + rsw).toNat % 2 ^ 32 := by
        rw [toUInt_of_nonneg (by omega) (by omega), Nat.mod_eq_of_lt (by omega)]
      rw [this]
  unfold resizeArea
  rw [if_neg (by omega), if_neg (by omega), if_neg (by omega), if_neg (by omega),
    if_neg (by omega)]
  simp only []
  unfold resizeAreaBody
  rw [if_neg hne]
  simp only [hfw, hfh, hiw, hih]
  have hm : sMul (width + rsw).toNat (height + bsh).toNat
      = (width + rsw).toNat * (height + bsh).toNat := by
    unfold sMul; exact Nat.mod_eq_of_lt hprod
  rw [hm]
  by_cases hA : a.height + a.bottom_shadow ≠ height + bsh
  · rw [if_pos hA]
    unfold reallocateTextArea
    cases hc : env.newChanges (height + bsh).toNat with
    | none => rw [hc] at hnc; simp only [bufSize] at hnc; omega
    | some c =>
      cases hd : env.newData ((width + rsw).toNat * (height + bsh).toNat) with
      | none => rw [hd] at hnd; simp only [bufSize] at hnd; omega
      | some d =>
        simp only []
        obtain ⟨a1, e1, rest⟩ := key { a with changes := some c, data := some d }
          (by rw [← hnc, hc]) (by rw [← hnd, hd])
        exact ⟨a1, by rw [← e1], rest⟩
  · have hB : a.width + a.right_shadow ≠ width + rsw := by
      rcases hdiff with h | h
      · exact absurd h hA
      · exact h
    rw [if_neg hA, if_pos hB]
    unfold reallocateTextData
    cases hd : env.newData ((width + rsw).toNat * (height + bsh).toNat) with
    | none => rw [hd] at hnd; simp only [bufSize] at hnd; omega
    | some d =>
      simp only []
      obtain ⟨a1, e1, rest⟩ := key { a with data := some d }
        (by
          have : a.height + a.bottom_shadow = height + bsh := by
            by_contra h; exact hA h
          have h2 := hrows this
          show bufSize a.changes = _
          omega)
        (by rw [← hnd, hd])
      exact ⟨a1, by rw [← e1], rest⟩

/-- Claim C22.  Take a geometry that passes the assertions of `resizeArea`
and fits an `int`, and let the allocations succeed.  After `resizeArea` on a
surface whose total width or total height differs from the one asked for
(with one row record per row where the row records are kept), and after
`createArea` (the new surface has no rows yet), the surface has the geometry
asked for, every cell, interior and shadow, is the default blank, every row
record is `(total row length, 0, 0)` and `has_changes` is false. -/
theorem C22_create_resize_default (env : AllocEnv) (this : Nat)
    (offset_left offset_top width height rsw bsh : Int)
    (hot : 0 ≤ offset_top) (hw : 0 < width) (hh : 0 < height) (hr : 0 ≤ rsw) (hb : 0 ≤ bsh)
    (hw31 : width + rsw < 2 ^ 31) (hh31 : height + bsh < 2 ^ 31)
    (hnc : bufSize (env.newChanges (height + bsh).toNat) = (height + bsh).toNat)
    (hnd : bufSize (env.newData ((width + rsw).toNat * (height + bsh).toNat))
      = (width + rsw).toNat * (height + bsh).toNat) :
    (∀ a : FTermArea,
        (a.height + a.bottom_shadow ≠ height + bsh ∨ a.width + a.right_shadow ≠ width + rsw) →
        (bufSize a.changes : Int) = a.height + a.bottom_shadow →
        ∃ a1, resizeArea env offset_left offset_top width height rsw bsh (some a)
            = some (some a1)
          ∧ a1.offset_left = offset_left ∧ a1.offset_top = offset_top
          ∧ a1.width = width ∧ a1.height = height
          ∧ a1.right_shadow = rsw ∧ a1.bottom_shadow = bsh
          ∧ a1.Default env.Default)
    ∧ (∀ (fresh : FTermArea) (cur : Option FTermArea), env.newArea = some fresh →
        fresh.height + fresh.bottom_shadow ≤ 0 →
        ∃ a1, createArea env this offset_left offset_top width height rsw bsh cur
            = some (some a1)
          ∧ a1.offset_left = offset_left ∧ a1.offset_top = offset_top
          ∧ a1.width = width ∧ a1.height = height
          ∧ a1.right_shadow = rsw ∧ a1.bottom_shadow = bsh
          ∧ a1.Default env.Default) := by
  constructor
  · intro a hdiff hrows
    exact resizeArea_realloc env offset_left offset_top width height rsw bsh a hot hw hh hr hb
      hw31 hh31 hdiff (fun _ => hrows) hnc hnd
  · intro fresh cur hfresh hnorows
    unfold createArea
    rw [hfresh]
    have hne : fresh.height + fresh.bottom_shadow ≠ height + bsh := by omega
    exact resizeArea_realloc env offset_left offset_top width height rsw bsh
      { fresh with widget := some this } hot hw hh hr hb hw31 hh31 (Or.inl hne)
      (fun h => absurd h hne) hnc hnd

theorem C22_create_resize_default_witness :
    (∃ a1, resizeArea sampleAllocEnv 2 1 3 2 1 1 (some (sampleDirtyArea 0 0 2 2 0 0))
        = some (some a1)
      ∧ a1.offset_left = 2 ∧ a1.offset_top = 1 ∧ a1.width = 3 ∧ a1.height = 2
      ∧ a1.right_shadow = 1 ∧ a1.bottom_shadow = 1 ∧ a1.Default sampleAllocEnv.Default)
    ∧ ∃ a1, createArea sampleAllocEnv 7 2 1 3 2 1 1 none = some (some a1)
      ∧ a1.offset_left = 2 ∧ a1.offset_top = 1 ∧ a1.width = 3 ∧ a1.height = 2
      ∧ a1.right_shadow = 1 ∧ a1.bottom_shadow = 1 ∧ a1.Default sampleAllocEnv.Default :=
  ⟨(C22_create_resize_default sampleAllocEnv 7 2 1 3 2 1 1 (by decide) (by decide) (by decide)
      (by decide) (by decide) (by decide) (by decide) (by decide) (by decide)).1
      (sampleDirtyArea 0 0 2 2 0 0) (by decide) (by decide),
   (C22_create_resize_default sampleAllocEnv 7 2 1 3 2 1 1 (by decide) (by decide) (by decide)
      (by decide) (by decide) (by decide) (by decide) (by decide) (by decide)).2
      _ none rfl (by decide)⟩

/-- Claim C23.  With a geometry that passes the assertions, `resizeArea`
called with the width, height and shadow the surface already has stores the
two offsets and nothing else: cells, row records, cursor and `has_changes`
are the ones before the call. -/
theorem C23_resizeArea_same_size (env : AllocEnv) (offset_left offset_top : Int)
    (a : FTermArea) (hot : 0 ≤ offset_top) (hw : 0 < a.width) (hh : 0 < a.height)
    (hr : 0 ≤ a.right_shadow) (hb : 0 ≤ a.bottom_shadow) :
    resizeArea env offset_left offset_top a.width a.height a.right_shadow a.bottom_shadow
        (some a)
      = some (some { a with offset_left := offset_left, offset_top := offset_top }) := by
  unfold resizeArea
  rw [if_neg (by omega), if_neg (by omega), if_neg (by omega), if_neg (by omega),
    if_neg (by omega)]
  simp only []
  unfold resizeAreaBody
  rw [if_pos ⟨rfl, rfl, rfl, rfl⟩]
  simp only []
  by_cases h1 : offset_left = a.offset_left
  · by_cases h2 : offset_top = a.offset_top
    · rw [if_neg (not_not.2 h1), if_neg (not_not.2 h2), h1, h2]
    · rw [if_neg (not_not.2 h1), if_pos h2, h1]
  · rw [if_pos h1]
    by_cases h2 : offset_top = a.offset_top
    · rw [if_neg (not_not.2 h2), h2]
    · rw [if_pos h2]

theorem C23_resizeArea_same_size_witness :
    resizeArea sampleNoMemory 5 1 3 2 1 1 (some (sampleDirtyArea 2 0 3 2 1 1))
      = some (some (sampleDirtyArea 5 1 3 2 1 1)) :=
  C23_resizeArea_same_size sampleNoMemory 5 1 (sampleDirtyArea 2 0 3 2 1 1) (by decide)
    (by decide) (by decide) (by decide) (by decide)

/-- Claim C24.  For a box with `width <= 0` or `height <= 0` and for a
shadow with a negative width or height, one of the assertions at the top of
`resizeArea` fails, whatever the surface and whatever the other arguments:
the surface is neither read nor written. -/
theorem C24_resizeArea_fails_fast (env : AllocEnv)
    (offset_left offset_top width height rsw bsh : Int) (area : Option FTermArea)
    (hbad : width ≤ 0 ∨ height ≤ 0 ∨ rsw < 0 ∨ bsh < 0) :
    resizeArea env offset_left offset_top width height rsw bsh area = none := by
  unfold resizeArea
  split_ifs <;> first | rfl | (exfalso; omega)

theorem C24_resizeArea_fails_fast_witness :
    resizeArea sampleAllocEnv 0 0 3 2 (-1) 0 (some (sampleArea 0 0 3 2 0 0)) = none :=
  C24_resizeArea_fails_fast sampleAllocEnv 0 0 3 2 (-1) 0 (some (sampleArea 0 0 3 2 0 0))
    (by decide)

/-- When `new FChar[..]` throws in a `resizeArea` that changes the total
height or the total width, the surface keeps its geometry and its cell array
is gone. -/
theorem resizeArea_no_memory (env : AllocEnv) (offset_left offset_top width height rsw bsh : Int)
    (a : FTermArea)
    (hot : 0 ≤ offset_top) (hw : 0 < width) (hh : 0 < height) (hr : 0 ≤ rsw) (hb : 0 ≤ bsh)
    (hw31 : width + rsw < 2 ^ 31) (hh31 : height + bsh < 2 ^ 31)
    (hdiff : a.height + a.bottom_shadow ≠ height + bsh
      ∨ a.width + a.right_shadow ≠ width + rsw)
    (hnd : ∀ n, env.newData n = none) :
    ∃ a1, resizeArea env offset_left offset_top width height rsw bsh (some a) = some (some a1)
      ∧ a1.data = none
      ∧ a1.width = a.width ∧ a1.height = a.height
      ∧ a1.right_shadow = a.right_shadow ∧ a1.bottom_shadow = a.bottom_shadow
      ∧ a1.offset_left = a.offset_left ∧ a1.offset_top = a.offset_top := by
  have hfw := fullSize_eq (le_of_lt hw) hr hw31
  have hfh := fullSize_eq (le_of_lt hh) hb hh31
  have hiw : toInt (width + rsw).toNat = width + rsw := toInt_toNat (by omega) hw31
  have hih : toInt (height + bsh).toNat = height + bsh := toInt_toNat (by omega) hh31
  have hne : ¬ (width = a.width ∧ height = a.height ∧ rsw = a.right_shadow
      ∧ bsh = a.bottom_shadow) := by
    rintro ⟨e1, e2, e3, e4⟩
    rcases hdiff with h | h
    · exact h (by rw [e2, e4])
    · exact h (by rw [e1, e3])
  unfold resizeArea
  rw [if_neg (by omega), if_neg (by omega), if_neg (by omega), if_neg (by omega),
    if_neg (by omega)]
  simp only []
  unfold resizeAreaBody
  rw [if_neg hne]
  simp only [hfw, hfh, hiw, hih]
  by_cases hA : a.height + a.bottom_shadow ≠ height + bsh
  · rw [if_pos hA]
    unfold reallocateTextArea
    simp only [hnd]
    cases env.newChanges (height + bsh).toNat with
    | none => exact ⟨_, rfl, rfl, rfl, rfl, rfl, rfl, rfl, rfl⟩
    | some c => exact ⟨_, rfl, rfl, rfl, rfl, rfl, rfl, rfl, rfl⟩
  · have hB : a.width + a.right_shadow ≠ width + rsw := by
      rcases hdiff with h | h
      · exact absurd h hA
      · exact h
    rw [if_neg hA, if_pos hB]
    unfold reallocateTextData
    simp only [hnd]
    exact ⟨_, rfl, rfl, rfl, rfl, rfl, rfl, rfl, rfl⟩

/-- Claim C25 (failing input).  A 2 x 2 surface with cells and row records
is resized to 3 x 3 while `new FChar[..]` throws.  The surface keeps the
geometry 2 x 2, but its cell array has been deleted before the allocation
was tried, and its row records have been replaced by three new ones.  When
only the width grows, to 3 x 2, the row records stay and the cell array is
gone as well. -/
theorem C25_failed_resize_loses_arrays :
    (sampleDirtyArea 0 0 2 2 0 0).Sized
    ∧ (resizeArea sampleNoMemory 0 0 3 3 0 0 (some (sampleDirtyArea 0 0 2 2 0 0))
        = some (some { sampleDirtyArea 0 0 2 2 0 0 with
                         data := none, changes := some (List.replicate 3 default) }))
    ∧ (resizeArea sampleNoMemory 0 0 3 2 0 0 (some (sampleDirtyArea 0 0 2 2 0 0))
        = some (some { sampleDirtyArea 0 0 2 2 0 0 with data := none })) := by
  decide

/-! ## Clearing the desktop (fvterm.cpp, lines 2050-2125) -/

/-- The value `clearTerm` returns depends on the capabilities, on
`next_attribute` and on the fill character only. -/
theorem clearTerm_fst (env : TermEnv) (w : World) (fillchar : Int) :
    (clearTerm env w fillchar).1 = true
      ↔ (env.t_clear_screen.isSome = true ∨ env.t_clr_eos.isSome = true
            ∨ env.t_clr_eol.isSome = true)
        ∧ fillchar = 32
        ∧ (env.isNormal w.next_attribute = true ∨ env.background_color_erase = true) := by
  unfold clearTerm
  simp only []
  by_cases hf : fillchar = 32
  · cases h1 : env.t_clear_screen.isSome <;> cases h2 : env.t_clr_eos.isSome <;>
      cases h3 : env.t_clr_eol.isSome <;> cases h4 : env.isNormal w.next_attribute <;>
      cases h5 : env.background_color_erase <;> simp [hf]
  · simp [hf]

/-- The function `clearFullArea` on the desktop: it returns `true`, and the
state afterwards is the one `clearTerm` leaves, with the cells of the
full-screen buffer filled when `clearTerm` has cleared the terminal and the
rows of the desktop marked otherwise. -/
theorem clearFullArea_desktop (env : TermEnv) (w : World) (nc : FChar) :
    clearFullArea env w AreaRef.desktop nc
      = (true,
         if (clearTerm env (w.setArea AreaRef.desktop
              { w.vdesktop with
                data := fill_n w.vdesktop.data 0 (w.vdesktop.width * w.vdesktop.height) nc })
              nc.ch).1 = true then
           { (clearTerm env (w.setArea AreaRef.desktop
                { w.vdesktop with
                  data := fill_n w.vdesktop.data 0 (w.vdesktop.width * w.vdesktop.height) nc })
                nc.ch).2 with
             vterm := { w.vterm with
               data := fill_n w.vterm.data 0 (w.vdesktop.width * w.vdesktop.height)
                         { nc with printed := true } } }
         else
           { (clearTerm env (w.setArea AreaRef.desktop
                { w.vdesktop with
                  data := fill_n w.vdesktop.data 0 (w.vdesktop.width * w.vdesktop.height) nc })
                nc.ch).2 with
             vdesktop :=
               { markRows
                   { w.vdesktop with
                     data := fill_n w.vdesktop.data 0 (w.vdesktop.width * w.vdesktop.height)
                               nc }
                   0 w.vdesktop.height
                   { xmin := 0, xmax := uSub (toUInt w.vdesktop.width) 1, trans_count := 0 }
                 with has_changes := true } }) := by
  have hs := clearTerm_sameAreas env (w.setArea AreaRef.desktop
    { w.vdesktop with
      data := fill_n w.vdesktop.data 0 (w.vdesktop.width * w.vdesktop.height) nc }) nc.ch
  unfold clearFullArea
  have ha : w.area? AreaRef.desktop = some w.vdesktop := rfl
  rw [ha]
  simp only []
  rw [if_neg (by simp)]
  generalize clearTerm env (w.setArea AreaRef.desktop
    { w.vdesktop with
      data := fill_n w.vdesktop.data 0 (w.vdesktop.width * w.vdesktop.height) nc })
    nc.ch = res at hs ⊢
  obtain ⟨hvt, hvd, _, _, _⟩ := hs
  have hvt2 : res.2.vterm = w.vterm := hvt
  have hvd2 : res.2.vdesktop = { w.vdesktop with
      data := fill_n w.vdesktop.data 0 (w.vdesktop.width * w.vdesktop.height) nc } := hvd
  by_cases hres : res.1 = true
  · rw [if_pos hres, if_pos hres, hvt2]
  · rw [if_neg hres, if_neg hres, hvd2]

/-- Claim C26.  `clearArea` on a desktop without shadow whose arrays have
the lengths of its geometry, the full-screen buffer holding as many cells.
`clearTerm` clears the terminal exactly when a clear-screen, clear-to-end-
of-screen or clear-to-end-of-line capability exists, the fill character is a
space, and `next_attribute` is normal or the terminal erases with the
background colour.  In that case every cell of the full-screen buffer
becomes the fill cell with `printed` set and the row records of the desktop
are the ones before the call; otherwise every row of the desktop gets the
range `[0, width - 1]` with `trans_count` 0. -/
theorem C26_clearArea_desktop (env : TermEnv) (w : World) (fillchar : Int)
    (hsz : w.vdesktop.Sized) (hrs : w.vdesktop.right_shadow = 0)
    (hbs : w.vdesktop.bottom_shadow = 0)
    (hvt : (bufSize w.vterm.data : Int) = w.vdesktop.width * w.vdesktop.height) :
    ((clearTerm env w fillchar).1 = true
      ↔ (env.t_clear_screen.isSome = true ∨ env.t_clr_eos.isSome = true
            ∨ env.t_clr_eol.isSome = true)
        ∧ fillchar = 32
        ∧ (env.isNormal w.next_attribute = true ∨ env.background_color_erase = true))
    ∧ ((clearTerm env w fillchar).1 = true →
        (∀ i : Int, 0 ≤ i → i < (bufSize w.vterm.data : Int) →
          (clearArea env w AreaRef.desktop fillchar).vterm.cell i
            = { w.next_attribute with ch := fillchar, printed := true })
        ∧ bufSize (clearArea env w AreaRef.desktop fillchar).vterm.data
            = bufSize w.vterm.data
        ∧ (clearArea env w AreaRef.desktop fillchar).vdesktop.changes = w.vdesktop.changes)
    ∧ ((clearTerm env w fillchar).1 = false →
        ∀ y : Int, 0 ≤ y → y < w.vdesktop.height →
          (clearArea env w AreaRef.desktop fillchar).vdesktop.line y
            = { xmin := 0, xmax := (w.vdesktop.width - 1).toNat, trans_count := 0 }) := by
  obtain ⟨hw0, hh0, hr0, hb0, hw31, hh31, hdata, hchg⟩ := hsz
  have hd : w.vdesktop.data ≠ none := by
    intro h
    rw [h] at hdata
    simp only [bufSize, FTermArea.lineLen, FTermArea.rows] at hdata
    have : 0 < (w.vdesktop.width + w.vdesktop.right_shadow)
        * (w.vdesktop.height + w.vdesktop.bottom_shadow) := mul_pos (by omega) (by omega)
    omega
  have hfst : ∀ w0 : World, w0.next_attribute = w.next_attribute →
      ((clearTerm env w0 fillchar).1 = true ↔ (clearTerm env w fillchar).1 = true) := by
    intro w0 h0
    rw [clearTerm_fst, clearTerm_fst, h0]
  have hca : clearArea env w AreaRef.desktop fillchar
      = (clearFullArea env w AreaRef.desktop { w.next_attribute with ch := fillchar }).2 := by
    unfold clearArea
    have ha : w.area? AreaRef.desktop = some w.vdesktop := rfl
    simp only [ha]
    rw [if_neg hd, if_pos hrs, clearFullArea_desktop]
    simp only [if_true]
  rw [hca, clearFullArea_desktop]
  have hk := hfst (w.setArea AreaRef.desktop
    { w.vdesktop with
      data := fill_n w.vdesktop.data 0 (w.vdesktop.width * w.vdesktop.height)
        { w.next_attribute with ch := fillchar } }) rfl
  have hs := clearTerm_sameAreas env (w.setArea AreaRef.desktop
    { w.vdesktop with
      data := fill_n w.vdesktop.data 0 (w.vdesktop.width * w.vdesktop.height)
        { w.next_attribute with ch := fillchar } }) fillchar
  have hch : ({ w.next_attribute with ch := fillchar } : FChar).ch = fillchar := rfl
  simp only [hch]
  generalize clearTerm env (w.setArea AreaRef.desktop
    { w.vdesktop with
      data := fill_n w.vdesktop.data 0 (w.vdesktop.width * w.vdesktop.height)
        { w.next_attribute with ch := fillchar } }) fillchar = res at hk hs ⊢
  refine ⟨clearTerm_fst env w fillchar, ?_, ?_⟩
  · intro hhard
    rw [if_pos (hk.2 hhard)]
    refine ⟨?_, ?_, ?_⟩
    · intro i hi0 hi
      show bufGet (fill_n _ _ _ _) i = _
      rw [(fill_n_spec _ _ _ _).2.2, if_pos ⟨hi0, by omega, hi0, hi⟩]
    · show bufSize (fill_n _ _ _ _) = _
      rw [(fill_n_spec _ _ _ _).1]
    · show res.2.vdesktop.changes = _
      obtain ⟨_, hvd, _, _, _⟩ := hs
      have hvd2 : res.2.vdesktop = { w.vdesktop with
          data := fill_n w.vdesktop.data 0 (w.vdesktop.width * w.vdesktop.height)
            { w.next_attribute with ch := fillchar } } := hvd
      rw [hvd2]
  · intro hsoft y hy0 hy
    have hn : ¬ (res.1 = true) := by
      intro h
      rw [hk.1 h] at hsoft
      cases hsoft
    rw [if_neg hn]
    show (markRows _ _ _ _).line y = _
    have hyc : y < (bufSize w.vdesktop.changes : Int) := by
      unfold FTermArea.rows at hchg
      omega
    have e : w.vdesktop.width.toNat - 1 = (w.vdesktop.width - 1).toNat := by omega
    rw [(markRows_spec _ _ _ _).2.2, if_pos ⟨hy0, by omega, hy0, hyc⟩,
      toUInt_of_nonneg (by omega) (by omega), uSub_one (by omega) (by omega), e]

theorem C26_clearArea_desktop_witness :
    ((clearTerm sampleClearEnv (sampleWorld []) 32).1 = true
      ↔ (sampleClearEnv.t_clear_screen.isSome = true ∨ sampleClearEnv.t_clr_eos.isSome = true
            ∨ sampleClearEnv.t_clr_eol.isSome = true)
        ∧ (32 : Int) = 32
        ∧ (sampleClearEnv.isNormal (sampleWorld []).next_attribute = true
            ∨ sampleClearEnv.background_color_erase = true))
    ∧ ((clearTerm sampleClearEnv (sampleWorld []) 32).1 = true →
        (∀ i : Int, 0 ≤ i → i < (bufSize (sampleWorld []).vterm.data : Int) →
          (clearArea sampleClearEnv (sampleWorld []) AreaRef.desktop 32).vterm.cell i
            = { (sampleWorld []).next_attribute with ch := 32, printed := true })
        ∧ bufSize (clearArea sampleClearEnv (sampleWorld []) AreaRef.desktop 32).vterm.data
            = bufSize (sampleWorld []).vterm.data
        ∧ (clearArea sampleClearEnv (sampleWorld []) AreaRef.desktop 32).vdesktop.changes
            = (sampleWorld []).vdesktop.changes)
    ∧ ((clearTerm sampleClearEnv (sampleWorld []) 32).1 = false →
        ∀ y : Int, 0 ≤ y → y < (sampleWorld []).vdesktop.height →
          (clearArea sampleClearEnv (sampleWorld []) AreaRef.desktop 32).vdesktop.line y
            = { xmin := 0, xmax := ((sampleWorld []).vdesktop.width - 1).toNat,
                trans_count := 0 }) :=
  C26_clearArea_desktop sampleClearEnv (sampleWorld []) 32
    (by decide) (by decide) (by decide) (by decide)

/-! ## Moving the hardware cursor (fvterm.cpp, lines 117-149) -/

/-- The position `setTermXY (x, y)` records when it moves the cursor, for
`x >= 0` on a terminal of `W >= 1` columns and `H` rows:
`(x mod W, min (y + x div W, H - 1))`. -/
theorem setTermXY_pos (env : TermEnv) (w : World) (x y : Int)
    (hx : 0 ≤ x) (hW : 1 ≤ env.columnNumber) (h : w.term_pos ≠ (x, y)) :
    (setTermXY env w x y).term_pos
      = (x % (env.columnNumber : Int),
         min (y + x / (env.columnNumber : Int)) ((env.lineNumber : Int) - 1)) := by
  have hne : ¬ (w.term_pos.1 = x ∧ w.term_pos.2 = y) := by
    intro ⟨h1, h2⟩
    exact h (Prod.ext h1 h2)
  unfold setTermXY
  rw [if_neg hne]
  show (_, _) = _
  have hW0 : (0 : Int) < (env.columnNumber : Int) := by omega
  by_cases hxw : x ≥ (env.columnNumber : Int)
  · have c : x ≥ (env.columnNumber : Int) ∧ (env.columnNumber : Int) > 0 := ⟨hxw, hW0⟩
    simp only [if_pos c]
    by_cases hc : y + x / (env.columnNumber : Int) ≥ (env.lineNumber : Int)
    · rw [if_pos hc, min_eq_right (by omega)]
    · rw [if_neg hc, min_eq_left (by omega)]
  · have c : ¬ (x ≥ (env.columnNumber : Int) ∧ (env.columnNumber : Int) > 0) :=
      fun hh => hxw hh.1
    simp only [if_neg c]
    have e1 : x % (env.columnNumber : Int) = x := Int.emod_eq_of_lt hx (by omega)
    have e2 : x / (env.columnNumber : Int) = 0 := Int.ediv_eq_zero_of_lt hx (by omega)
    rw [e1, e2, add_zero]
    by_cases hc : y ≥ (env.lineNumber : Int)
    · rw [if_pos hc, min_eq_right (by omega)]
    · rw [if_neg hc, min_eq_left (by omega)]

/-- Claim C27.  `setTermXY (x, y)` with `x >= 0` on a terminal of `W >= 1`
columns and `H` rows (the bounds `y >= 0` and `H >= 1` of the claim are not
needed).  When the recorded position is `(x, y)` already the state stays as
it is: nothing is emitted.  Otherwise the recorded position becomes
`(x mod W, min (y + x div W, H - 1))`. -/
theorem C27_setTermXY (env : TermEnv) (w : World) (x y : Int)
    (hx : 0 ≤ x) (hW : 1 ≤ env.columnNumber) :
    (w.term_pos = (x, y) → setTermXY env w x y = w)
    ∧ (w.term_pos ≠ (x, y) →
        (setTermXY env w x y).term_pos
          = (x % (env.columnNumber : Int),
             min (y + x / (env.columnNumber : Int)) ((env.lineNumber : Int) - 1))) := by
  constructor
  · intro h
    unfold setTermXY
    rw [if_pos (by rw [h]; exact ⟨rfl, rfl⟩)]
  · exact setTermXY_pos env w x y hx hW

theorem C27_setTermXY_witness :
    ((sampleWorld []).term_pos = (23, 2) → setTermXY sampleTermEnv (sampleWorld []) 23 2
        = sampleWorld [])
    ∧ ((sampleWorld []).term_pos ≠ (23, 2) →
        (setTermXY sampleTermEnv (sampleWorld []) 23 2).term_pos
          = (23 % (sampleTermEnv.columnNumber : Int),
             min (2 + 23 / (sampleTermEnv.columnNumber : Int))
               ((sampleTermEnv.lineNumber : Int) - 1))) :=
  C27_setTermXY sampleTermEnv (sampleWorld []) 23 2 (by decide) (by decide)

/-! ## What the output functions emit -/

theorem emitted_flushOutputBuffer (w : World) : (flushOutputBuffer w).emitted = w.emitted := by
  unfold flushOutputBuffer World.emitted
  simp only [List.append_nil]

theorem emitted_appendOutputChar (env : TermEnv) (w : World) (ch : Int) :
    (appendOutputChar env w ch).emitted = w.emitted ++ [ch] := by
  unfold appendOutputChar
  simp only []
  split
  · rw [emitted_flushOutputBuffer]
    unfold World.emitted
    simp only [List.append_assoc]
  · unfold World.emitted
    simp only [List.append_assoc]

theorem emitted_foldl_appendOutputChar (env : TermEnv) (l : List Int) (w : World) :
    (l.foldl (appendOutputChar env) w).emitted = w.emitted ++ l := by
  induction l generalizing w with
  | nil => simp only [List.foldl_nil, List.append_nil]
  | cons a rest ih =>
    rw [List.foldl_cons, ih, emitted_appendOutputChar, List.append_assoc]
    rfl

theorem emitted_appendOutputBuffer (env : TermEnv) (w : World) (s : List Int) :
    (appendOutputBuffer env w s).emitted = w.emitted ++ env.tputs s := by
  unfold appendOutputBuffer
  exact emitted_foldl_appendOutputChar env _ w

theorem emitted_appendOutputOption (env : TermEnv) (w : World) (s : Option (List Int)) :
    (appendOutputOption env w s).emitted = w.emitted ++ env.expand s := by
  unfold appendOutputOption TermEnv.expand
  cases s with
  | none => simp only [List.append_nil]
  | some str => exact emitted_appendOutputBuffer env w str

/-- After `flushOutputBuffer` the output buffer is empty. -/
theorem flushOutputBuffer_buffer (w : World) : (flushOutputBuffer w).output_buffer = [] := rfl

theorem term_pos_appendOutputChar (env : TermEnv) (w : World) (ch : Int) :
    (appendOutputChar env w ch).term_pos = w.term_pos := by
  unfold appendOutputChar
  simp only []
  split <;> rfl

theorem term_pos_appendOutputBuffer (env : TermEnv) (w : World) (s : List Int) :
    (appendOutputBuffer env w s).term_pos = w.term_pos := by
  unfold appendOutputBuffer
  generalize env.tputs s = l
  induction l generalizing w with
  | nil => rfl
  | cons a rest ih => rw [List.foldl_cons, ih, term_pos_appendOutputChar]

theorem term_pos_appendOutputOption (env : TermEnv) (w : World) (s : Option (List Int)) :
    (appendOutputOption env w s).term_pos = w.term_pos := by
  unfold appendOutputOption
  cases s with
  | none => rfl
  | some str => exact term_pos_appendOutputBuffer env w str

/-- The function `hideCursor (bool)` emits the visibility sequence of the
terminal, if there is one, and leaves the output buffer empty. -/
theorem hideCursor_spec (env : RenderEnv) (w : World) (enable : Bool) :
    (hideCursor env w enable).emitted
        = w.emitted ++ env.term.expand (env.cursorsVisibilityString enable)
    ∧ (hideCursor env w enable).output_buffer = []
    ∧ (hideCursor env w enable).term_pos = w.term_pos := by
  unfold hideCursor
  refine ⟨by rw [emitted_flushOutputBuffer, emitted_appendOutputOption], rfl, ?_⟩
  show (appendOutputOption env.term w _).term_pos = _
  rw [term_pos_appendOutputOption]

/-! ## The hardware cursor after a pass (fvterm.cpp, lines 2793-2812) -/

/-- Inside the terminal, `setTermXY (x, y)` records `(x, y)`. -/
theorem setTermXY_inside (env : TermEnv) (w : World) (x y : Int)
    (hx0 : 0 ≤ x) (hx : x < (env.columnNumber : Int)) (hy : y < (env.lineNumber : Int)) :
    (setTermXY env w x y).term_pos = (x, y) := by
  by_cases h : w.term_pos = (x, y)
  · have e : setTermXY env w x y = w := by
      unfold setTermXY
      rw [if_pos (by rw [h]; exact ⟨rfl, rfl⟩)]
    rw [e, h]
  · rw [setTermXY_pos env w x y hx0 (by omega) h, Int.emod_eq_of_lt hx0 hx,
      Int.ediv_eq_zero_of_lt hx0 hx, add_zero, min_eq_left (by omega)]

/-- Claim C28, amended.  On a terminal whose size is the one the compositor
knows, `updateTerminalCursor`:
when the input cursor of the full-screen buffer is flagged visible and lies
inside the terminal, moves the hardware cursor there with `setTermXY`, emits
the sequence that shows it and returns `true`;
when the input cursor is not flagged visible, emits the sequence that hides
the hardware cursor and returns `false`;
when the input cursor is flagged visible but lies outside the terminal,
returns `false` and leaves the state as it is: the hardware cursor is
neither moved nor hidden. -/
theorem C28_updateTerminalCursor (env : RenderEnv) (w : World)
    (hcol : env.term.columnNumber = env.comp.columnNumber)
    (hrow : env.term.lineNumber = env.comp.lineNumber) :
    (w.vterm.input_cursor_visible = true →
      isInsideTerminal env.comp (w.vterm.input_cursor_x, w.vterm.input_cursor_y) = true →
        (updateTerminalCursor env w).1 = true
        ∧ (updateTerminalCursor env w).2.term_pos
            = (w.vterm.input_cursor_x, w.vterm.input_cursor_y)
        ∧ (updateTerminalCursor env w).2.emitted
            = (setTermXY env.term w w.vterm.input_cursor_x w.vterm.input_cursor_y).emitted
              ++ env.term.expand (env.cursorsVisibilityString false)
        ∧ (updateTerminalCursor env w).2.output_buffer = [])
    ∧ (w.vterm.input_cursor_visible = false →
        (updateTerminalCursor env w).1 = false
        ∧ (updateTerminalCursor env w).2.emitted
            = w.emitted ++ env.term.expand (env.cursorsVisibilityString true)
        ∧ (updateTerminalCursor env w).2.output_buffer = [])
    ∧ (w.vterm.input_cursor_visible = true →
      isInsideTerminal env.comp (w.vterm.input_cursor_x, w.vterm.input_cursor_y) = false →
        updateTerminalCursor env w = (false, w)) := by
  refine ⟨?_, ?_, ?_⟩
  · intro hv hi
    unfold updateTerminalCursor
    simp only []
    rw [if_pos hv, if_pos hi]
    obtain ⟨h1, h2, h3⟩ := hideCursor_spec env
      (setTermXY env.term w w.vterm.input_cursor_x w.vterm.input_cursor_y) false
    refine ⟨rfl, ?_, h1, h2⟩
    show (hideCursor env _ false).term_pos = _
    rw [h3]
    unfold isInsideTerminal rectContains at hi
    simp only [Bool.and_eq_true, decide_eq_true_eq] at hi
    exact setTermXY_inside env.term w _ _ (by omega) (by rw [hcol]; omega)
      (by rw [hrow]; omega)
  · intro hv
    unfold updateTerminalCursor
    simp only []
    rw [if_neg (by rw [hv]; exact fun h => by cases h)]
    obtain ⟨h1, h2, _⟩ := hideCursor_spec env w true
    exact ⟨rfl, h1, h2⟩
  · intro hv hi
    unfold updateTerminalCursor
    simp only []
    rw [if_pos hv, if_neg (by rw [hi]; exact fun h => by cases h)]

theorem C28_updateTerminalCursor_witness :
    ((sampleCursorWorld 3 2).vterm.input_cursor_visible = true →
      isInsideTerminal sampleCursorEnv.comp
          ((sampleCursorWorld 3 2).vterm.input_cursor_x,
           (sampleCursorWorld 3 2).vterm.input_cursor_y) = true →
        (updateTerminalCursor sampleCursorEnv (sampleCursorWorld 3 2)).1 = true
        ∧ (updateTerminalCursor sampleCursorEnv (sampleCursorWorld 3 2)).2.term_pos
            = ((sampleCursorWorld 3 2).vterm.input_cursor_x,
               (sampleCursorWorld 3 2).vterm.input_cursor_y)
        ∧ (updateTerminalCursor sampleCursorEnv (sampleCursorWorld 3 2)).2.emitted
            = (setTermXY sampleCursorEnv.term (sampleCursorWorld 3 2)
                (sampleCursorWorld 3 2).vterm.input_cursor_x
                (sampleCursorWorld 3 2).vterm.input_cursor_y).emitted
              ++ sampleCursorEnv.term.expand (sampleCursorEnv.cursorsVisibilityString false)
        ∧ (updateTerminalCursor sampleCursorEnv (sampleCursorWorld 3 2)).2.output_buffer = [])
    ∧ ((sampleCursorWorld 3 2).vterm.input_cursor_visible = false →
        (updateTerminalCursor sampleCursorEnv (sampleCursorWorld 3 2)).1 = false
        ∧ (updateTerminalCursor sampleCursorEnv (sampleCursorWorld 3 2)).2.emitted
            = (sampleCursorWorld 3 2).emitted
              ++ sampleCursorEnv.term.expand (sampleCursorEnv.cursorsVisibilityString true)
        ∧ (updateTerminalCursor sampleCursorEnv (sampleCursorWorld 3 2)).2.output_buffer = [])
    ∧ ((sampleCursorWorld 3 2).vterm.input_cursor_visible = true →
      isInsideTerminal sampleCursorEnv.comp
          ((sampleCursorWorld 3 2).vterm.input_cursor_x,
           (sampleCursorWorld 3 2).vterm.input_cursor_y) = false →
        updateTerminalCursor sampleCursorEnv (sampleCursorWorld 3 2)
          = (false, sampleCursorWorld 3 2)) :=
  C28_updateTerminalCursor sampleCursorEnv (sampleCursorWorld 3 2) rfl rfl

/-- Claim C28 (counterexample).  On the 10 x 4 terminal that can hide its
cursor, the input cursor of the full-screen buffer is flagged visible at
column 10 of row 0, outside the terminal.  `updateTerminalCursor` returns
`false` and emits nothing: the hardware cursor is not hidden. -/
theorem C28_cursor_outside_terminal_counterexample :
    (sampleCursorWorld 10 0).vterm.input_cursor_visible = true
    ∧ isInsideTerminal sampleCursorEnv.comp (10, 0) = false
    ∧ sampleCursorEnv.cursorsVisibilityString true = some [27, 91, 63, 50, 53, 108]
    ∧ updateTerminalCursor sampleCursorEnv (sampleCursorWorld 10 0)
        = (false, sampleCursorWorld 10 0)
    ∧ (updateTerminalCursor sampleCursorEnv (sampleCursorWorld 10 0)).2.emitted = [] := by
  decide

/-! ## Blank runs at the ends of a row (fvterm.cpp, lines 2152-2260) -/

theorem toUInt_lt (i : Int) : toUInt i < 2 ^ 32 := by
  unfold toUInt
  have h := Int.emod_lt_of_pos i (show (0 : Int) < 2 ^ 32 by norm_num)
  have h0 := Int.emod_nonneg i (show (2 ^ 32 : Int) ≠ 0 by norm_num)
  omega

theorem countWhile_le (p : Nat → Bool) (l : List Nat) : countWhile p l ≤ l.length := by
  induction l with
  | nil => exact Nat.le_refl 0
  | cons a rest ih =>
    unfold countWhile
    split
    · simp only [List.length_cons]; omega
    · exact Nat.zero_le _

/-- The elements counted by `countWhile` satisfy the test. -/
theorem countWhile_get (p : Nat → Bool) (l : List Nat) (k : Nat) (hk : k < countWhile p l) :
    ∃ x, l[k]? = some x ∧ p x = true := by
  induction l generalizing k with
  | nil => unfold countWhile at hk; omega
  | cons a rest ih =>
    unfold countWhile at hk
    by_cases ha : p a = true
    · rw [if_pos ha] at hk
      cases k with
      | zero => exact ⟨a, List.getElem?_cons_zero, ha⟩
      | succ j =>
        obtain ⟨x, hx, hp⟩ := ih j (by omega)
        exact ⟨x, by rw [List.getElem?_cons_succ]; exact hx, hp⟩
    · rw [if_neg ha] at hk
      omega

/-- All elements are counted exactly when all of them satisfy the test. -/
theorem countWhile_eq_length (p : Nat → Bool) (l : List Nat) :
    countWhile p l = l.length ↔ ∀ x ∈ l, p x = true := by
  induction l with
  | nil => simp [countWhile]
  | cons a rest ih =>
    unfold countWhile
    by_cases ha : p a = true
    · rw [if_pos ha]
      simp only [List.length_cons, add_left_inj, List.mem_cons, forall_eq_or_imp, ha, true_and]
      exact ih
    · rw [if_neg ha]
      simp only [List.length_cons, List.mem_cons, forall_eq_or_imp]
      constructor
      · intro h; omega
      · intro h; exact absurd h.1 ha

/-- The count of a loop over the columns `first, first + 1, ..`: the
columns `first .. first + count - 1` satisfy the test. -/
theorem countWhile_range' (p : Nat → Bool) (first n x : Nat) (h1 : first ≤ x)
    (h2 : x < first + countWhile p (List.range' first n)) : p x = true := by
  obtain ⟨z, hz, hp⟩ := countWhile_get p (List.range' first n) (x - first) (by omega)
  have hlen := countWhile_le p (List.range' first n)
  rw [List.length_range'] at hlen
  rw [List.getElem?_range' _ _ (by omega)] at hz
  cases hz
  have e : first + 1 * (x - first) = x := by omega
  rw [e] at hp
  exact hp

/-- The count of a loop over the columns `n, n - 1, .., 1`: the columns
`n - count + 1 .. n` satisfy the test. -/
theorem countWhile_range'_reverse (p : Nat → Bool) (n x : Nat) (h1 : x ≤ n)
    (h2 : n < x + countWhile p (List.range' 1 n).reverse) : p x = true := by
  obtain ⟨z, hz, hp⟩ := countWhile_get p (List.range' 1 n).reverse (n - x) (by omega)
  have hlen := countWhile_le p (List.range' 1 n).reverse
  rw [List.length_reverse, List.length_range'] at hlen
  rw [List.getElem?_reverse (by rw [List.length_range']; omega), List.length_range',
    List.getElem?_range' _ _ (by omega)] at hz
  cases hz
  have e : 1 + 1 * (n - 1 - (n - x)) = x := by omega
  rw [e] at hp
  exact hp

/-- Claim C30.  Whenever `canClearLeadingWS` returns `true`, the new `xmin`
is at least the old one, the first cell of the row is a space and every
cell in the columns `0 .. xmin` equals it; whenever `canClearTrailingWS`
returns `true`, the new `xmax` is below the old one, the last cell of the
row, `data[(y + 1) * width - 1]`, is a space and every cell in the columns
`xmax + 1 .. width - 1` equals it; when either returns `false` its argument
is unchanged.  Equality of cells is `operator ==`. -/
theorem C30_blank_trim_sound (env : RenderEnv) (w : World) (xmin xmax y : Nat)
    (hw : 0 < toUInt w.vterm.width) (hxmax : xmax < 2 ^ 32) :
    ((canClearLeadingWS env w xmin y).1 = true →
        xmin ≤ (canClearLeadingWS env w xmin y).2
        ∧ (w.vterm.cell (vtIndex w 0 y)).ch = 32
        ∧ ∀ x : Nat, x ≤ (canClearLeadingWS env w xmin y).2 →
            FChar.eq (w.vterm.cell (vtIndex w 0 y)) (w.vterm.cell (vtIndex w x y)) = true)
    ∧ ((canClearLeadingWS env w xmin y).1 = false → (canClearLeadingWS env w xmin y).2 = xmin)
    ∧ ((canClearTrailingWS env w xmax y).1 = true →
        (canClearTrailingWS env w xmax y).2 < xmax
        ∧ (w.vterm.cell ((uSub (uMul (uInc y) (toUInt w.vterm.width)) 1 : Nat) : Int)).ch = 32
        ∧ ∀ x : Nat, (canClearTrailingWS env w xmax y).2 < x → x < toUInt w.vterm.width →
            FChar.eq (w.vterm.cell ((uSub (uMul (uInc y) (toUInt w.vterm.width)) 1 : Nat) : Int))
              (w.vterm.cell (vtIndex w x y)) = true)
    ∧ ((canClearTrailingWS env w xmax y).1 = false →
        (canClearTrailingWS env w xmax y).2 = xmax) := by
  have hW := toUInt_lt w.vterm.width
  refine ⟨?_, ?_, ?_, ?_⟩
  · have hle := countWhile_le
      (fun x => FChar.eq (w.vterm.cell (vtIndex w 0 y)) (w.vterm.cell (vtIndex w x y)))
      (List.range' 1 (toUInt w.vterm.width - 1))
    have hp := countWhile_range'
      (fun x => FChar.eq (w.vterm.cell (vtIndex w 0 y)) (w.vterm.cell (vtIndex w x y)))
      1 (toUInt w.vterm.width - 1)
    rw [List.length_range'] at hle
    unfold canClearLeadingWS
    simp only []
    generalize countWhile
      (fun x => FChar.eq (w.vterm.cell (vtIndex w 0 y)) (w.vterm.cell (vtIndex w x y)))
      (List.range' 1 (toUInt w.vterm.width - 1)) = c at hle hp
    have e1 : uAdd 1 c = 1 + c := by unfold uAdd; omega
    have e2 : uSub (1 + c) 1 = c := by unfold uSub; omega
    rw [e1, e2]
    intro hres
    split_ifs at hres ⊢ with h1 h2
    · refine ⟨by show xmin ≤ c; omega, h1.2, ?_⟩
      intro x hx
      have hx2 : x ≤ c := hx
      by_cases h0 : x = 0
      · rw [h0]; exact FChar.eq_self _
      · exact hp x (by omega) (by omega)
  · unfold canClearLeadingWS
    simp only []
    intro hres
    split_ifs at hres ⊢ <;> rfl
  · have hle := countWhile_le
      (fun x => FChar.eq
        (w.vterm.cell ((uSub (uMul (uInc y) (toUInt w.vterm.width)) 1 : Nat) : Int))
        (w.vterm.cell (vtIndex w x y)))
      (List.range' 1 (uSub (toUInt w.vterm.width) 1)).reverse
    have hp := countWhile_range'_reverse
      (fun x => FChar.eq
        (w.vterm.cell ((uSub (uMul (uInc y) (toUInt w.vterm.width)) 1 : Nat) : Int))
        (w.vterm.cell (vtIndex w x y)))
      (uSub (toUInt w.vterm.width) 1)
    rw [List.length_reverse, List.length_range'] at hle
    unfold canClearTrailingWS
    simp only []
    generalize countWhile
      (fun x => FChar.eq
        (w.vterm.cell ((uSub (uMul (uInc y) (toUInt w.vterm.width)) 1 : Nat) : Int))
        (w.vterm.cell (vtIndex w x y)))
      (List.range' 1 (uSub (toUInt w.vterm.width) 1)).reverse = c at hle hp
    have e0 : uSub (toUInt w.vterm.width) 1 = toUInt w.vterm.width - 1 := uSub_one hw hW
    rw [e0] at hle hp
    have e1 : uAdd 1 c = 1 + c := by unfold uAdd; omega
    have e2 : uSub (toUInt w.vterm.width) (1 + c) = toUInt w.vterm.width - (1 + c) := by
      unfold uSub; omega
    rw [e1, e2]
    intro hres
    split_ifs at hres ⊢ with h1 h2
    · refine ⟨?_, h1.2, ?_⟩
      · show toUInt w.vterm.width - (1 + c) < xmax
        have h3 := h2.1
        unfold uSub at h3
        omega
      · intro x hx hxw
        have hx2 : toUInt w.vterm.width - (1 + c) < x := hx
        exact hp x (by omega) (by omega)
  · unfold canClearTrailingWS
    simp only []
    intro hres
    split_ifs at hres ⊢ <;> rfl

theorem C30_blank_trim_sound_witness :
    canClearLeadingWS sampleTrimEnv sampleRowWorld 0 1 = (true, 4)
    ∧ canClearTrailingWS sampleTrimEnv sampleRowWorld 9 1 = (true, 5)
    ∧ ((canClearLeadingWS sampleTrimEnv sampleRowWorld 0 1).1 = true →
        0 ≤ (canClearLeadingWS sampleTrimEnv sampleRowWorld 0 1).2
        ∧ (sampleRowWorld.vterm.cell (vtIndex sampleRowWorld 0 1)).ch = 32
        ∧ ∀ x : Nat, x ≤ (canClearLeadingWS sampleTrimEnv sampleRowWorld 0 1).2 →
            FChar.eq (sampleRowWorld.vterm.cell (vtIndex sampleRowWorld 0 1))
              (sampleRowWorld.vterm.cell (vtIndex sampleRowWorld x 1)) = true)
    ∧ ((canClearLeadingWS sampleTrimEnv sampleRowWorld 0 1).1 = false →
        (canClearLeadingWS sampleTrimEnv sampleRowWorld 0 1).2 = 0)
    ∧ ((canClearTrailingWS sampleTrimEnv sampleRowWorld 9 1).1 = true →
        (canClearTrailingWS sampleTrimEnv sampleRowWorld 9 1).2 < 9
        ∧ (sampleRowWorld.vterm.cell
            ((uSub (uMul (uInc 1) (toUInt sampleRowWorld.vterm.width)) 1 : Nat) : Int)).ch = 32
        ∧ ∀ x : Nat, (canClearTrailingWS sampleTrimEnv sampleRowWorld 9 1).2 < x →
            x < toUInt sampleRowWorld.vterm.width →
            FChar.eq (sampleRowWorld.vterm.cell
                ((uSub (uMul (uInc 1) (toUInt sampleRowWorld.vterm.width)) 1 : Nat) : Int))
              (sampleRowWorld.vterm.cell (vtIndex sampleRowWorld x 1)) = true)
    ∧ ((canClearTrailingWS sampleTrimEnv sampleRowWorld 9 1).1 = false →
        (canClearTrailingWS sampleTrimEnv sampleRowWorld 9 1).2 = 9) :=
  ⟨by decide, by decide,
   C30_blank_trim_sound sampleTrimEnv sampleRowWorld 0 9 1 (by decide) (by decide)⟩

/-! ## Clearing a row to its end (fvterm.cpp, lines 2152-2184 and 2745-2763) -/

theorem emitted_setVTermCell (w : World) (i : Int) (c : FChar) :
    (w.setVTermCell i c).emitted = w.emitted := rfl

theorem emitted_markAsPrinted (w : World) (pos line : Nat) :
    (markAsPrinted w pos line).emitted = w.emitted := rfl

theorem emitted_markAsPrintedRange (w : World) (first last line : Nat) :
    (markAsPrintedRange w first last line).emitted = w.emitted := by
  unfold markAsPrintedRange
  generalize List.range' first (last + 1 - first) = l
  induction l generalizing w with
  | nil => rfl
  | cons a rest ih => rw [List.foldl_cons, ih, emitted_markAsPrinted]

/-- The function `appendAttributes` emits the sequence `changeAttribute`
returns for the terminal attributes and the cell. -/
theorem emitted_appendAttributes (env : RenderEnv) (w : World) (i : Int) :
    (appendAttributes env w i).emitted
      = w.emitted ++ env.term.expand (env.term.changeAttribute w.term_attribute
          (w.vterm.cell i)).1 := by
  unfold appendAttributes
  simp only []
  rw [emitted_appendOutputOption]
  rfl

theorem emitted_cursorWrap (env : RenderEnv) (w : World) :
    (cursorWrap env w).emitted = w.emitted := by
  unfold cursorWrap
  repeat' split
  all_goals rfl

theorem vterm_cursorWrap (env : RenderEnv) (w : World) :
    (cursorWrap env w).vterm = w.vterm := by
  unfold cursorWrap
  repeat' split
  all_goals rfl

/-- The cell `markAsPrinted (pos, line)` writes. -/
theorem markAsPrinted_spec (w : World) (pos line : Nat) :
    (markAsPrinted w pos line).vterm.width = w.vterm.width
    ∧ bufSize (markAsPrinted w pos line).vterm.data = bufSize w.vterm.data
    ∧ ∀ j : Int, (markAsPrinted w pos line).vterm.cell j
        = if vtIndex w pos line = j ∧ 0 ≤ vtIndex w pos line
              ∧ vtIndex w pos line < (bufSize w.vterm.data : Int)
          then { w.vterm.cell (vtIndex w pos line) with printed := true }
          else w.vterm.cell j := by
  unfold markAsPrinted World.setVTermCell
  refine ⟨rfl, ?_, ?_⟩
  · show bufSize (bufSet _ _ _) = _
    rw [bufSize_bufSet]
  · intro j
    show bufGet (bufSet _ _ _) j = _
    rw [bufGet_bufSet]
    rfl

/-- The function `markAsPrinted (from, to, line)`: every cell of the range
that lies inside the cell array is printed afterwards, and a cell that was
printed before stays so. -/
theorem markAsPrintedRange_spec (l : List Nat) (line : Nat) :
    ∀ w : World,
      (l.foldl (fun acc x => markAsPrinted acc x line) w).vterm.width = w.vterm.width
      ∧ bufSize (l.foldl (fun acc x => markAsPrinted acc x line) w).vterm.data
          = bufSize w.vterm.data
      ∧ ∀ j : Int,
          ((w.vterm.cell j).printed = true
            ∨ ∃ x ∈ l, vtIndex w x line = j ∧ j < (bufSize w.vterm.data : Int)) →
          ((l.foldl (fun acc x => markAsPrinted acc x line) w).vterm.cell j).printed = true := by
  induction l with
  | nil =>
    intro w
    refine ⟨rfl, rfl, ?_⟩
    intro j hj
    rcases hj with hj | ⟨x, hx, _⟩
    · exact hj
    · cases hx
  | cons a rest ih =>
    intro w
    rw [List.foldl_cons]
    obtain ⟨m1, m2, m3⟩ := markAsPrinted_spec w a line
    obtain ⟨n1, n2, n3⟩ := ih (markAsPrinted w a line)
    have hidx : ∀ x, vtIndex (markAsPrinted w a line) x line = vtIndex w x line := by
      intro x
      unfold vtIndex
      rw [m1]
    refine ⟨n1.trans m1, n2.trans m2, ?_⟩
    intro j hj
    apply n3 j
    have h0 : ∀ x, (0 : Int) ≤ vtIndex w x line := fun x => Int.natCast_nonneg _
    have keep : (w.vterm.cell j).printed = true →
        ((markAsPrinted w a line).vterm.cell j).printed = true := by
      intro hp
      rw [m3 j]
      split
      · rfl
      · exact hp
    rcases hj with hj | ⟨x, hx, e, hlt⟩
    · exact Or.inl (keep hj)
    · rcases List.mem_cons.1 hx with e2 | hin
      · left
        subst e2
        rw [m3 j, if_pos ⟨e, h0 x, by rw [e]; exact hlt⟩]
      · right
        exact ⟨x, hin, by rw [hidx, e], by rw [m2]; exact hlt⟩

/-- The index of the cell in column `x` of row `y` of a full-screen buffer
that fits its cell array. -/
theorem vtIndex_inside (w : World) (x y : Nat) (hx : x < toUInt w.vterm.width)
    (hy : (y : Int) < w.vterm.height) (hw : 0 ≤ w.vterm.width)
    (hsize : w.vterm.width * w.vterm.height < 2 ^ 32)
    (hdata : (bufSize w.vterm.data : Int) = w.vterm.width * w.vterm.height) :
    vtIndex w x y = (y : Int) * w.vterm.width + (x : Int)
    ∧ vtIndex w x y < (bufSize w.vterm.data : Int) := by
  have hh : 0 < w.vterm.height := by omega
  have hww : w.vterm.width < 2 ^ 32 := by
    by_contra hc
    have : (2 : Int) ^ 32 * 1 ≤ w.vterm.width * w.vterm.height :=
      mul_le_mul (by omega) (by omega) (by omega) hw
    omega
  have hW : toUInt w.vterm.width = w.vterm.width.toNat := toUInt_of_nonneg hw hww
  have hx2 : (x : Int) < w.vterm.width := by omega
  have h1 : (y : Int) * w.vterm.width + (x : Int) < w.vterm.width * w.vterm.height := by
    have : ((y : Int) + 1) * w.vterm.width ≤ w.vterm.height * w.vterm.width :=
      mul_le_mul_of_nonneg_right (by omega) hw
    nlinarith
  have h2 : 0 ≤ (y : Int) * w.vterm.width := mul_nonneg (by omega) hw
  have e : vtIndex w x y = (y : Int) * w.vterm.width + (x : Int) := by
    unfold vtIndex uAdd uMul
    rw [hW]
    have e3 : ((y * w.vterm.width.toNat : Nat) : Int) = (y : Int) * w.vterm.width := by
      push_cast
      rw [Int.toNat_of_nonneg hw]
    have h4 : y * w.vterm.width.toNat < 2 ^ 32 := by
      have : ((y * w.vterm.width.toNat : Nat) : Int) < 2 ^ 32 := by rw [e3]; omega
      exact_mod_cast this
    rw [Nat.mod_eq_of_lt h4]
    have h5 : y * w.vterm.width.toNat + x < 2 ^ 32 := by
      have : ((y * w.vterm.width.toNat + x : Nat) : Int) < 2 ^ 32 := by
        push_cast
        rw [Int.toNat_of_nonneg hw]
        omega
      exact_mod_cast this
    rw [Nat.mod_eq_of_lt h5]
    push_cast
    rw [Int.toNat_of_nonneg hw]
  exact ⟨e, by rw [e, hdata]; exact h1⟩

/-- When `canClearToEOL (xmin, y)` returns `true`, for a column `xmin` of
the row. -/
theorem canClearToEOL_iff (env : RenderEnv) (w : World) (xmin y : Nat)
    (hx : xmin < toUInt w.vterm.width) :
    canClearToEOL env w xmin y = true
      ↔ env.term.t_clr_eol.isSome = true
        ∧ (w.vterm.cell (vtIndex w xmin y)).ch = 32
        ∧ (∀ x : Nat, xmin < x → x < toUInt w.vterm.width →
            FChar.eq (w.vterm.cell (vtIndex w xmin y)) (w.vterm.cell (vtIndex w x y)) = true)
        ∧ (env.term.isNormal (w.vterm.cell (vtIndex w xmin y)) = true
            ∨ env.term.background_color_erase = true)
        ∧ env.clr_eol_length < toUInt w.vterm.width - xmin := by
  have hW := toUInt_lt w.vterm.width
  have e1 : uInc xmin = xmin + 1 := by unfold uInc; omega
  have hall := countWhile_eq_length
    (fun x => FChar.eq (w.vterm.cell (vtIndex w xmin y)) (w.vterm.cell (vtIndex w x y)))
    (List.range' (xmin + 1) (toUInt w.vterm.width - (xmin + 1)))
  have hle := countWhile_le
    (fun x => FChar.eq (w.vterm.cell (vtIndex w xmin y)) (w.vterm.cell (vtIndex w x y)))
    (List.range' (xmin + 1) (toUInt w.vterm.width - (xmin + 1)))
  rw [List.length_range'] at hall hle
  have hmem : (∀ x ∈ List.range' (xmin + 1) (toUInt w.vterm.width - (xmin + 1)),
        FChar.eq (w.vterm.cell (vtIndex w xmin y)) (w.vterm.cell (vtIndex w x y)) = true)
      ↔ ∀ x : Nat, xmin < x → x < toUInt w.vterm.width →
        FChar.eq (w.vterm.cell (vtIndex w xmin y)) (w.vterm.cell (vtIndex w x y)) = true := by
    constructor
    · intro h x h1 h2
      exact h x (List.mem_range'_1.2 ⟨by omega, by omega⟩)
    · intro h x hx2
      obtain ⟨h1, h2⟩ := List.mem_range'_1.1 hx2
      exact h x (by omega) (by omega)
  rw [← hmem, ← hall]
  unfold canClearToEOL
  simp only []
  rw [e1]
  generalize countWhile
    (fun x => FChar.eq (w.vterm.cell (vtIndex w xmin y)) (w.vterm.cell (vtIndex w x y)))
    (List.range' (xmin + 1) (toUInt w.vterm.width - (xmin + 1))) = c at hle
  have e2 : uAdd 1 c = 1 + c := by unfold uAdd; omega
  have e3 : uSub (toUInt w.vterm.width) xmin = toUInt w.vterm.width - xmin := by
    unfold uSub; omega
  rw [e2, e3]
  by_cases h1 : env.term.t_clr_eol.isSome = true ∧ (w.vterm.cell (vtIndex w xmin y)).ch = 32
  · rw [if_pos h1]
    simp only [Bool.and_eq_true, decide_eq_true_eq, Bool.or_eq_true]
    constructor
    · rintro ⟨⟨ha, hb⟩, hc⟩
      refine ⟨h1.1, h1.2, by omega, ?_, by omega⟩
      rcases hb with hb | hb
      · exact Or.inr hb
      · exact Or.inl hb
    · rintro ⟨_, _, ha, hb, hc⟩
      refine ⟨⟨by omega, ?_⟩, by omega⟩
      rcases hb with hb | hb
      · exact Or.inr hb
      · exact Or.inl hb
  · rw [if_neg h1]
    simp only [Bool.false_eq_true, false_iff]
    rintro ⟨ha, hb, _⟩
    exact h1 ⟨ha, hb⟩

theorem term_attribute_appendOutputChar (env : TermEnv) (w : World) (ch : Int) :
    (appendOutputChar env w ch).term_attribute = w.term_attribute := by
  unfold appendOutputChar
  simp only []
  split <;> rfl

theorem term_attribute_appendOutputBuffer (env : TermEnv) (w : World) (s : List Int) :
    (appendOutputBuffer env w s).term_attribute = w.term_attribute := by
  unfold appendOutputBuffer
  generalize env.tputs s = l
  induction l generalizing w with
  | nil => rfl
  | cons a rest ih => rw [List.foldl_cons, ih, term_attribute_appendOutputChar]

theorem term_attribute_appendOutputOption (env : TermEnv) (w : World) (s : Option (List Int)) :
    (appendOutputOption env w s).term_attribute = w.term_attribute := by
  unfold appendOutputOption
  cases s with
  | none => rfl
  | some str => exact term_attribute_appendOutputBuffer env w str

theorem term_attribute_setTermXY (env : TermEnv) (w : World) (x y : Int) :
    (setTermXY env w x y).term_attribute = w.term_attribute := by
  unfold setTermXY
  split
  · rfl
  · simp only []
    show (appendOutputOption env _ _).term_attribute = _
    rw [term_attribute_appendOutputOption]
    split <;> rfl

/-- The function `appendAttributes` keeps the size of the full-screen
buffer and of its cell array. -/
theorem appendAttributes_size (env : RenderEnv) (w : World) (i : Int) :
    (appendAttributes env w i).vterm.width = w.vterm.width
    ∧ bufSize (appendAttributes env w i).vterm.data = bufSize w.vterm.data := by
  unfold appendAttributes
  simp only []
  have h := (appendOutputOption_sameAreas env.term
    (({ w with term_attribute :=
          (env.term.changeAttribute w.term_attribute (w.vterm.cell i)).2.1 } : World).setVTermCell
      i (env.term.changeAttribute w.term_attribute (w.vterm.cell i)).2.2)
    (env.term.changeAttribute w.term_attribute (w.vterm.cell i)).1).1
  rw [h]
  exact ⟨rfl, bufSize_bufSet _ _ _⟩

/-- The block of `updateTerminalLine` for a dirty row that can be cleared
to its end (lines 2745-2763): the cursor is moved to the first dirty column,
the attributes of the cell there and the clear-to-end-of-line capability are
emitted and nothing else, the cells from that column to the last are marked
printed, and the row record is reset.  The fuel is not touched. -/
theorem updateTerminalLine_clear_to_eol (env : RenderEnv) (fuel : Nat) (w : World) (y : Nat)
    (hx : (w.vterm.line (y : Int)).xmin < toUInt w.vterm.width)
    (hy : (y : Int) < w.vterm.height) (hw0 : 0 ≤ w.vterm.width)
    (hsize : w.vterm.width * w.vterm.height < 2 ^ 32)
    (hdata : (bufSize w.vterm.data : Int) = w.vterm.width * w.vterm.height)
    (hdirty : (w.vterm.line (y : Int)).xmin ≤ (w.vterm.line (y : Int)).xmax)
    (hclear : canClearToEOL env w (w.vterm.line (y : Int)).xmin y = true) :
    ∃ w1, updateTerminalLine env fuel w y = some w1
      ∧ w1.emitted
          = (setTermXY env.term w (toInt (w.vterm.line (y : Int)).xmin) (toInt y)).emitted
            ++ env.term.expand (env.term.changeAttribute w.term_attribute
                 (w.vterm.cell (vtIndex w (w.vterm.line (y : Int)).xmin y))).1
            ++ env.term.expand env.term.t_clr_eol
      ∧ ∀ x : Nat, (w.vterm.line (y : Int)).xmin ≤ x → x < toUInt w.vterm.width →
          (w1.vterm.cell (vtIndex w x y)).printed = true := by
  generalize hxm : (w.vterm.line (y : Int)).xmin = xmin at hx hdirty hclear
  have hvt1 : (setTermXY env.term w (toInt xmin) (toInt y)).vterm = w.vterm :=
    (setTermXY_sameAreas env.term w (toInt xmin) (toInt y)).1
  have hta1 := term_attribute_setTermXY env.term w (toInt xmin) (toInt y)
  unfold updateTerminalLine
  simp only []
  rw [hxm, if_pos hdirty]
  unfold updateTerminalLineDirty
  simp only []
  rw [hxm]
  simp only [hclear, if_true, Option.map_some']
  generalize setTermXY env.term w (toInt xmin) (toInt y) = w1 at hvt1 hta1
  obtain ⟨a1, a2⟩ := appendAttributes_size env w1 (vtIndex w xmin y)
  have hem := emitted_appendAttributes env w1 (vtIndex w xmin y)
  have hvt2 : ∀ w0 : World,
      (appendOutputOption env.term w0 env.term.t_clr_eol).vterm = w0.vterm :=
    fun w0 => (appendOutputOption_sameAreas env.term w0 env.term.t_clr_eol).1
  have hem2 := emitted_appendOutputOption env.term (appendAttributes env w1 (vtIndex w xmin y))
    env.term.t_clr_eol
  have hv3 := hvt2 (appendAttributes env w1 (vtIndex w xmin y))
  generalize appendOutputOption env.term (appendAttributes env w1 (vtIndex w xmin y))
    env.term.t_clr_eol = w2 at hem2 hv3
  have hw2 : w2.vterm.width = w.vterm.width := by rw [hv3, a1, hvt1]
  have hd2 : bufSize w2.vterm.data = bufSize w.vterm.data := by rw [hv3, a2, hvt1]
  obtain ⟨s1, s2, s3⟩ := markAsPrintedRange_spec
    (List.range' xmin (toUInt (w2.vterm.width - 1) + 1 - xmin)) y w2
  have hem3 := emitted_markAsPrintedRange w2 xmin (toUInt (w2.vterm.width - 1)) y
  unfold markAsPrintedRange at hem3 ⊢
  generalize List.foldl (fun acc x => markAsPrinted acc x y) w2
    (List.range' xmin (toUInt (w2.vterm.width - 1) + 1 - xmin)) = w3 at s1 s2 s3 hem3
  refine ⟨_, rfl, ?_, ?_⟩
  · rw [emitted_cursorWrap]
    show w3.emitted = _
    rw [hem3, hem2, hem, hta1, hvt1]
  · intro x hx1 hx2
    rw [vterm_cursorWrap]
    show (w3.vterm.cell (vtIndex w x y)).printed = true
    have hW := toUInt_lt w.vterm.width
    obtain ⟨i1, i2⟩ := vtIndex_inside w x y hx2 hy hw0 hsize hdata
    apply s3
    right
    refine ⟨x, List.mem_range'_1.2 ⟨hx1, ?_⟩, ?_, ?_⟩
    · rw [hw2]
      have hww : w.vterm.width < 2 ^ 32 := by
        by_contra hc
        have : (2 : Int) ^ 32 * 1 ≤ w.vterm.width * w.vterm.height :=
          mul_le_mul (by omega) (by omega) (by omega) hw0
        omega
      have e1 : toUInt w.vterm.width = w.vterm.width.toNat := toUInt_of_nonneg hw0 hww
      have e2 : toUInt (w.vterm.width - 1) = (w.vterm.width - 1).toNat :=
        toUInt_of_nonneg (by omega) (by omega)
      omega
    · unfold vtIndex
      rw [hw2]
    · rw [hd2]
      exact i2

/-- Claim C29.  For a column `xmin` of row `y` of a full-screen buffer that
fits its cell array, `canClearToEOL (xmin, y)` returns `true` exactly when
the clear-to-end-of-line capability exists, the cell at `xmin` is a space,
every cell from `xmin + 1` to the last column equals it (`operator ==`), the
cell has normal attributes or the terminal erases with the background
colour, and `clr_eol_length < width - xmin`.  When it does and `xmin` is the
start of the dirty range of the row, `updateTerminalLine (y)` returns
whatever the fuel, emits the cursor movement to `(xmin, y)`, the attribute
change for the cell at `xmin` and the capability once, and nothing else, and
leaves every cell from `xmin` to the last column marked printed. -/
theorem C29_clear_to_eol (env : RenderEnv) (fuel : Nat) (w : World) (xmin y : Nat)
    (hx : xmin < toUInt w.vterm.width)
    (hy : (y : Int) < w.vterm.height) (hw0 : 0 ≤ w.vterm.width)
    (hsize : w.vterm.width * w.vterm.height < 2 ^ 32)
    (hdata : (bufSize w.vterm.data : Int) = w.vterm.width * w.vterm.height) :
    (canClearToEOL env w xmin y = true
      ↔ env.term.t_clr_eol.isSome = true
        ∧ (w.vterm.cell (vtIndex w xmin y)).ch = 32
        ∧ (∀ x : Nat, xmin < x → x < toUInt w.vterm.width →
            FChar.eq (w.vterm.cell (vtIndex w xmin y)) (w.vterm.cell (vtIndex w x y)) = true)
        ∧ (env.term.isNormal (w.vterm.cell (vtIndex w xmin y)) = true
            ∨ env.term.background_color_erase = true)
        ∧ env.clr_eol_length < toUInt w.vterm.width - xmin)
    ∧ (canClearToEOL env w xmin y = true → (w.vterm.line (y : Int)).xmin = xmin →
      xmin ≤ (w.vterm.line (y : Int)).xmax →
        ∃ w1, updateTerminalLine env fuel w y = some w1
          ∧ w1.emitted
              = (setTermXY env.term w (toInt xmin) (toInt y)).emitted
                ++ env.term.expand (env.term.changeAttribute w.term_attribute
                     (w.vterm.cell (vtIndex w xmin y))).1
                ++ env.term.expand env.term.t_clr_eol
          ∧ ∀ x : Nat, xmin ≤ x → x < toUInt w.vterm.width →
              (w1.vterm.cell (vtIndex w x y)).printed = true) := by
  refine ⟨canClearToEOL_iff env w xmin y hx, ?_⟩
  intro hclear hxm hdirty
  subst hxm
  exact updateTerminalLine_clear_to_eol env fuel w y hx hy hw0 hsize hdata hdirty hclear

theorem C29_clear_to_eol_witness :
    canClearToEOL sampleTrimEnv sampleRowWorld 6 1 = true
    ∧ (updateTerminalLine sampleTrimEnv 0 sampleRowWorld 1).map World.emitted
        = some [27, 91, 75]
    ∧ (canClearToEOL sampleTrimEnv sampleRowWorld 6 1 = true
      ↔ sampleTrimEnv.term.t_clr_eol.isSome = true
        ∧ (sampleRowWorld.vterm.cell (vtIndex sampleRowWorld 6 1)).ch = 32
        ∧ (∀ x : Nat, 6 < x → x < toUInt sampleRowWorld.vterm.width →
            FChar.eq (sampleRowWorld.vterm.cell (vtIndex sampleRowWorld 6 1))
              (sampleRowWorld.vterm.cell (vtIndex sampleRowWorld x 1)) = true)
        ∧ (sampleTrimEnv.term.isNormal (sampleRowWorld.vterm.cell (vtIndex sampleRowWorld 6 1))
              = true
            ∨ sampleTrimEnv.term.background_color_erase = true)
        ∧ sampleTrimEnv.clr_eol_length < toUInt sampleRowWorld.vterm.width - 6)
    ∧ (canClearToEOL sampleTrimEnv sampleRowWorld 6 1 = true →
      (sampleRowWorld.vterm.line ((1 : Nat) : Int)).xmin = 6 →
      6 ≤ (sampleRowWorld.vterm.line ((1 : Nat) : Int)).xmax →
        ∃ w1, updateTerminalLine sampleTrimEnv 0 sampleRowWorld 1 = some w1
          ∧ w1.emitted
              = (setTermXY sampleTrimEnv.term sampleRowWorld (toInt 6) (toInt 1)).emitted
                ++ sampleTrimEnv.term.expand
                     (sampleTrimEnv.term.changeAttribute sampleRowWorld.term_attribute
                       (sampleRowWorld.vterm.cell (vtIndex sampleRowWorld 6 1))).1
                ++ sampleTrimEnv.term.expand sampleTrimEnv.term.t_clr_eol
          ∧ ∀ x : Nat, 6 ≤ x → x < toUInt sampleRowWorld.vterm.width →
              (w1.vterm.cell (vtIndex sampleRowWorld x 1)).printed = true) :=
  ⟨by decide, by decide,
   C29_clear_to_eol sampleTrimEnv 0 sampleRowWorld 6 1 (by decide) (by decide) (by decide)
     (by decide) (by decide)⟩

/-! ## The cost test of the trailing trim (fvterm.cpp, lines 2225-2260) -/

/-- Claim C31 (failing input).  Row 1 of the 10 x 4 terminal holds a letter
in column 5 and blanks in the columns 6 to 9, which are dirty; the
clear-to-end-of-line capability takes 12 bytes and clear-to-beginning-of-
line 4.  `canClearTrailingWS` accepts the trim of the four blanks, because
it compares `clr_bol_length` with a count that includes the last cell twice,
and `updateTerminalLine` then emits the 12 bytes of clear-to-end-of-line for
the four cells.  With a clear-to-end-of-line of 4 bytes the trim is accepted
as well, although 4 is not smaller than the four cells replaced. -/
theorem C31_trailing_trim_compares_wrong_cost :
    sampleSlowEolEnv.clr_eol_length = 12
    ∧ sampleSlowEolEnv.term.t_clr_eol = some [27, 91, 75, 0, 0, 0, 0, 0, 0, 0, 0, 0]
    ∧ canClearTrailingWS sampleSlowEolEnv sampleRowWorld 9 1 = (true, 5)
    ∧ (updateTerminalLine sampleSlowEolEnv 16 sampleRowWorld 1).map World.emitted
        = some [27, 91, 75, 0, 0, 0, 0, 0, 0, 0, 0, 0]
    ∧ canClearTrailingWS { sampleTrimEnv with clr_eol_length := 4 } sampleRowWorld 9 1
        = (true, 5) := by
  decide

/-! ## Full-width glyphs and the repeat capability (fvterm.cpp, lines 2297-2332 and 2577-2631) -/

/-- Claim C32 (failing input).  Row 1 of the 10 x 4 terminal holds a
full-width glyph in column 2 and its padding cell, with the same colours and
attributes, in column 3.  On a terminal without the repeat-character
capability `printRange` emits the glyph and nothing for the padding cell.
On a terminal with that capability `printRange` hands both cells to
`repeatCharacter`, which prints each of them: the code 0 of the padding cell
is emitted after the glyph. -/
theorem C32_repeat_capability_prints_padding_cell :
    fullWidthPair sampleWideCell samplePaddingCell = true
    ∧ (printRange sampleRenderEnv 16 sampleWideWorld 2 3 1 false).map World.emitted
        = some [0x4e2d]
    ∧ sampleRepeatEnv.t_repeat_char.isSome = true
    ∧ (printRange sampleRepeatEnv 16 sampleWideWorld 2 3 1 false).map World.emitted
        = some [0x4e2d, 0] := by
  decide

/-! ## A resize that keeps the totals (fvterm.cpp, lines 677-692) -/

/-- Claim C35 (failing input).  A surface of width 3 with a right shadow of
1 at offset (0, 0) is resized to width 2 with a right shadow of 2 at offset
(5, 1), height and bottom shadow staying 2 and 1.  The geometry is valid and
no allocation is made, but the total width is the one before, so
`resizeArea` returns through its last `else return;`: none of the six values
asked for is stored. -/
theorem C35_resizeArea_same_totals_ignored :
    resizeArea sampleAllocEnv 5 1 2 2 2 1 (some (sampleArea 0 0 3 2 1 1))
      = some (some (sampleArea 0 0 3 2 1 1))
    ∧ (sampleArea 0 0 3 2 1 1).offset_left ≠ 5 ∧ (sampleArea 0 0 3 2 1 1).width ≠ 2
    ∧ (sampleArea 0 0 3 2 1 1).right_shadow ≠ 2 := by
  decide

/-! ## `trans_count` under scrolling (fvterm.cpp, lines 1073-1185) -/

/-- Claim C36 (failing input).  A 2 x 2 window surface has one cell with
`transparent` set, in its second row, and `trans_count` 1 there and 0 in the
first row.  `scrollAreaForward` copies the cells of the second row over the
first one and leaves both `trans_count` values as they are: afterwards the
first row holds the cell and has `trans_count` 0.  The same happens in
`scrollAreaReverse` with the cell in the first row. -/
theorem C36_scroll_breaks_trans_count :
    (sampleTransRows 1).TransCountOK
    ∧ ((scrollAreaForward sampleScrollEnv (sampleWorld [⟨1, some (sampleTransRows 1)⟩])
          (AreaRef.window 0)).area? (AreaRef.window 0)).map
        (fun a => (decide a.TransCountOK, (a.at 0 0).transparent, (a.line 0).trans_count))
        = some (false, true, 0)
    ∧ (sampleTransRows 0).TransCountOK
    ∧ ((scrollAreaReverse sampleScrollEnv (sampleWorld [⟨1, some (sampleTransRows 0)⟩])
          (AreaRef.window 0)).area? (AreaRef.window 0)).map
        (fun a => (decide a.TransCountOK, (a.at 0 1).transparent, (a.line 1).trans_count))
        = some (false, true, 0) := by
  decide

/-! ## Cells left unprinted by `updateTerminalLine` (fvterm.cpp, lines 2514-2574) -/

/-- Claim C40 (failing input).  Row 1 of the 10 x 4 terminal holds ten
blanks that are not printed yet and is dirty over `[0, 9]`; the terminal has
the erase-characters capability.  `updateTerminalLine (1)` erases the ten
cells with one sequence, `eraseCharacters` returns
`line_completely_printed` before its `markAsPrinted`, and the row record is
reset: of the ten cells only the first is marked printed. -/
theorem C40_erase_leaves_cells_unprinted :
    sampleBlankRowWorld.vterm.line 1 = { xmin := 0, xmax := 9, trans_count := 0 }
    ∧ (updateTerminalLine sampleEraseEnv 16 sampleBlankRowWorld 1).map
        (fun w => (w.emitted,
                   (List.range 10).map fun x => (w.vterm.cell (vtIndex w x 1)).printed,
                   w.vterm.line 1))
        = some ([27, 91, 10, 88],
                [true, false, false, false, false, false, false, false, false, false],
                { xmin := 10, xmax := 0, trans_count := 0 }) := by
  decide

/-! ## Copying a block of the full-screen buffer into a surface (fvterm.cpp, lines 836-916) -/

/-- The surface the recording line loop of `getArea (const FPoint&,
FTermArea*)` ends with is the one `getAreaAt` stores. -/
theorem getAreaAtRowLog_fst (w : World) (ax ay length : Int) (ys : List Int)
    (st : FTermArea × List (Int × Int × Int)) :
    (ys.foldl (getAreaAtRowLog w ax ay length) st).1
      = ys.foldl (getAreaAtRow w ax ay length) st.1 :=
  foldl_fst (getAreaAtRow w ax ay length) (getAreaAtRowLog w ax ay length)
    (fun _ _ => rfl) ys st

/-- Claim C37 (failing input).  On the 10 x 4 terminal a window surface of
width 3 and height 6 is filled from the position (1, 2).  The surface does
not fit below that position, and `getArea` sets `y_end` to
`area->height - ay`, which is 5, where the terminal has 3 rows left: the
line loop reads the terminal rows 1 to 5, of which the rows 4 and 5 do not
exist.  For a surface of width 3 at the position (12, 1) the copy length is
`vterm->width - ax`, which is -1. -/
theorem C37_getArea_reads_below_terminal :
    (sampleWorld [⟨1, some (sampleArea 0 0 3 6 0 0)⟩]).vterm.height = 4
    ∧ getAreaAtEnd (sampleWorld [⟨1, some (sampleArea 0 0 3 6 0 0)⟩]) (1, 2)
        (sampleArea 0 0 3 6 0 0) = 5
    ∧ getAreaAtReads (sampleWorld [⟨1, some (sampleArea 0 0 3 6 0 0)⟩]) (1, 2)
        (AreaRef.window 0)
        = [(5, 0, 3), (4, 0, 3), (3, 0, 3), (2, 0, 3), (1, 0, 3)]
    ∧ getAreaAtLength (sampleWorld [⟨1, some (sampleArea 0 0 3 6 0 0)⟩]) (12, 1)
        (sampleArea 0 0 3 6 0 0) = -1 := by
  decide

/-- Claim C38 (failing input).  On the 10 x 4 terminal with the letter `A`
in column 5 of row 1 of the full-screen buffer, the box at (5, 1) of width 3
and height 2 lies inside the terminal and covers that cell.  `getArea` sets
`y_end` to `h - 1`, which is 1: only the first row of the box is copied to
the desktop surface and marked dirty there (row 2, columns 6 to 8), the row
3 of the surface keeps its clean record and the letter is not copied.  For a
box of height 1 no row is marked. -/
theorem C38_getArea_box_skips_last_row :
    5 - 1 + 3 ≤ sampleRowWorld.vterm.width ∧ 1 - 1 + 2 ≤ sampleRowWorld.vterm.height
    ∧ (sampleRowWorld.vterm.cell (1 * sampleRowWorld.vterm.width + 5)).ch = 65
    ∧ sampleRowWorld.vdesktop.changes
        = some (List.replicate 4 { xmin := 10, xmax := 0, trans_count := 0 })
    ∧ (getAreaBox sampleRowWorld 5 1 3 2 AreaRef.desktop).vdesktop.changes
        = some [{ xmin := 10, xmax := 0, trans_count := 0 },
                { xmin := 10, xmax := 0, trans_count := 0 },
                { xmin := 6, xmax := 8, trans_count := 0 },
                { xmin := 10, xmax := 0, trans_count := 0 }]
    ∧ ((getAreaBox sampleRowWorld 5 1 3 2 AreaRef.desktop).vdesktop.cell (3 * 10 + 7)).ch = 32
    ∧ (getAreaBox sampleRowWorld 5 1 3 1 AreaRef.desktop).vdesktop.changes
        = sampleRowWorld.vdesktop.changes := by
  decide

/-! ## The colour cube of `rgb2ColorIndex` (fvterm.cpp, lines 175-183) -/

/-- The level `(5 * c + 127) / 255` of a colour component is at most 5. -/
theorem cubeLevel_le (c : Nat) (h : c ≤ 255) : (c * 5 + 127) / 255 ≤ 5 := by
  omega

/-- The level of a colour component is monotone. -/
theorem cubeLevel_mono (c d : Nat) (h : c ≤ d) : (c * 5 + 127) / 255 ≤ (d * 5 + 127) / 255 :=
  Nat.div_le_div_right (by omega)

/-- For components up to 255 `rgb2ColorIndex` is the cube formula. -/
theorem rgb2ColorIndex_eq (r g b : Nat) (hr : r ≤ 255) (hg : g ≤ 255) (hb : b ≤ 255) :
    rgb2ColorIndex r g b
      = 16 + 36 * ((5 * r + 127) / 255) + 6 * ((5 * g + 127) / 255) + (5 * b + 127) / 255 := by
  unfold rgb2ColorIndex
  simp only []
  rw [Nat.mod_eq_of_lt (by omega : r < 256), Nat.mod_eq_of_lt (by omega : g < 256),
    Nat.mod_eq_of_lt (by omega : b < 256), Nat.mul_comm r 5, Nat.mul_comm g 5,
    Nat.mul_comm b 5, Nat.mul_comm _ 36, Nat.mul_comm _ 6]

/-- Claim C39.  For all `r`, `g`, `b` in 0..255, `rgb2ColorIndex r g b` is
`16 + 36 * R + 6 * G + B` with `R`, `G`, `B` the values
`(5 * c + 127) / 255`, each of which is at most 5; the result lies in
16..231; (0, 0, 0) goes to 16 and (255, 255, 255) to 231; and the result is
monotone non-decreasing in each component. -/
theorem C39_rgb2ColorIndex_cube (r g b : Nat) (hr : r ≤ 255) (hg : g ≤ 255) (hb : b ≤ 255) :
    rgb2ColorIndex r g b
        = 16 + 36 * ((5 * r + 127) / 255) + 6 * ((5 * g + 127) / 255) + (5 * b + 127) / 255
    ∧ (5 * r + 127) / 255 ≤ 5 ∧ (5 * g + 127) / 255 ≤ 5 ∧ (5 * b + 127) / 255 ≤ 5
    ∧ 16 ≤ rgb2ColorIndex r g b ∧ rgb2ColorIndex r g b ≤ 231
    ∧ rgb2ColorIndex 0 0 0 = 16 ∧ rgb2ColorIndex 255 255 255 = 231
    ∧ (∀ r2, r ≤ r2 → r2 ≤ 255 → rgb2ColorIndex r g b ≤ rgb2ColorIndex r2 g b)
    ∧ (∀ g2, g ≤ g2 → g2 ≤ 255 → rgb2ColorIndex r g b ≤ rgb2ColorIndex r g2 b)
    ∧ (∀ b2, b ≤ b2 → b2 ≤ 255 → rgb2ColorIndex r g b ≤ rgb2ColorIndex r g b2) := by
  have e := rgb2ColorIndex_eq r g b hr hg hb
  have lr : (5 * r + 127) / 255 ≤ 5 := by omega
  have lg : (5 * g + 127) / 255 ≤ 5 := by omega
  have lb : (5 * b + 127) / 255 ≤ 5 := by omega
  refine ⟨e, lr, lg, lb, by omega, by omega, by decide, by decide, ?_, ?_, ?_⟩
  · intro r2 h1 h2
    rw [e, rgb2ColorIndex_eq r2 g b h2 hg hb]
    have m : (5 * r + 127) / 255 ≤ (5 * r2 + 127) / 255 := Nat.div_le_div_right (by omega)
    omega
  · intro g2 h1 h2
    rw [e, rgb2ColorIndex_eq r g2 b hr h2 hb]
    have m : (5 * g + 127) / 255 ≤ (5 * g2 + 127) / 255 := Nat.div_le_div_right (by omega)
    omega
  · intro b2 h1 h2
    rw [e, rgb2ColorIndex_eq r g b2 hr hg h2]
    have m : (5 * b + 127) / 255 ≤ (5 * b2 + 127) / 255 := Nat.div_le_div_right (by omega)
    omega

/-- Witness for C39 at the colour (200, 100, 30), which goes to 16 + 36 * 4
+ 6 * 2 + 1. -/
theorem C39_rgb2ColorIndex_cube_witness :
    rgb2ColorIndex 200 100 30 = 173
    ∧ (rgb2ColorIndex 200 100 30
          = 16 + 36 * ((5 * 200 + 127) / 255) + 6 * ((5 * 100 + 127) / 255)
              + (5 * 30 + 127) / 255
        ∧ (5 * 200 + 127) / 255 ≤ 5 ∧ (5 * 100 + 127) / 255 ≤ 5 ∧ (5 * 30 + 127) / 255 ≤ 5
        ∧ 16 ≤ rgb2ColorIndex 200 100 30 ∧ rgb2ColorIndex 200 100 30 ≤ 231
        ∧ rgb2ColorIndex 0 0 0 = 16 ∧ rgb2ColorIndex 255 255 255 = 231
        ∧ (∀ r2, 200 ≤ r2 → r2 ≤ 255 → rgb2ColorIndex 200 100 30 ≤ rgb2ColorIndex r2 100 30)
        ∧ (∀ g2, 100 ≤ g2 → g2 ≤ 255 → rgb2ColorIndex 200 100 30 ≤ rgb2ColorIndex 200 g2 30)
        ∧ (∀ b2, 30 ≤ b2 → b2 ≤ 255 → rgb2ColorIndex 200 100 30 ≤ rgb2ColorIndex 200 100 b2)) :=
  ⟨by decide, C39_rgb2ColorIndex_cube 200 100 30 (by decide) (by decide) (by decide)⟩

/-! ## The fast path of `putArea (const FPoint&, FTermArea*)` (fvterm.cpp, lines 1040-1059) -/

/-- For a cell without `transparent`, `trans_shadow` and `inherit_bg`,
`putAreaCharacter` stores the cell itself. -/
theorem putAreaCharacter_opaque (env : CompEnv) (w : World) (pos : Int × Int)
    (obj : Option Nat) (ac : FChar) (ti : Int) (h : ac.isTrans = false) :
    putAreaCharacter env w pos obj ac ti = w.setVTermCell ti ac := by
  unfold FChar.isTrans at h
  have h1 : ac.transparent = false := by
    cases e : ac.transparent <;> simp_all
  have h2 : ac.trans_shadow = false := by
    cases e : ac.trans_shadow <;> simp_all
  have h3 : ac.inherit_bg = false := by
    cases e : ac.inherit_bg <;> simp_all
  unfold putAreaCharacter
  simp [h1, h2, h3]

/-- The column loop over opaque cells, taken over any list of columns, stores
the cells one by one as `memcpy` does. -/
theorem putAreaColumns_opaque (env : CompEnv) (area : FTermArea) (ax ay ol width y : Int)
    (ks : List Nat) :
    ∀ w : World, (∀ k ∈ ks, (area.cell (y * width + ol + (0 + (k : Int)))).isTrans = false) →
      (ks.map fun (k : Nat) => (0 : Int) + (k : Int)).foldl
        (fun acc x =>
          putAreaCharacter env acc (ax + x + 1, ay + y + 1) area.widget
            (area.cell (y * width + ol + x)) ((ay + y) * acc.vterm.width + (ax + x)))
        w
      = { w with vterm := { w.vterm with
            data := ks.foldl
              (fun acc (k : Nat) =>
                bufSet acc ((ay + y) * w.vterm.width + ax + (k : Int))
                  (bufGet area.data (y * width + ol + (k : Int))))
              w.vterm.data } } := by
  induction ks with
  | nil => intro w _; rfl
  | cons k rest ih =>
    intro w h
    rw [List.map_cons, List.foldl_cons, List.foldl_cons,
      putAreaCharacter_opaque env w _ _ _ _ (h k (List.mem_cons_self k rest)),
      ih _ (fun k2 hk2 => h k2 (List.mem_cons_of_mem k hk2))]
    have e1 : (ay + y) * w.vterm.width + (ax + (0 + (k : Int)))
        = (ay + y) * w.vterm.width + ax + (k : Int) := by omega
    have e2 : y * width + ol + (0 + (k : Int)) = y * width + ol + (k : Int) := by omega
    rw [e1, e2]
    rfl

/-- Claim C34.  For a row `y` of the surface all of whose `length` copied
cells are without `transparent`, `trans_shadow` and `inherit_bg`, and a
length that is a non-negative `int`, the column loop of `putArea (pos,
area)` with `putAreaCharacter` leaves the same state as `putAreaLine`, and
the pass of the line loop for the row gives that state with the dirty range
widened, whatever `trans_count` says. -/
theorem C34_putArea_fast_path (env : CompEnv) (area : FTermArea) (ax ay ol width length : Int)
    (w : World) (y : Int) (h0 : 0 ≤ length) (h31 : length < 2 ^ 31)
    (hcells : ∀ x ∈ forRange 0 (length - 1),
      (area.cell (y * width + ol + x)).isTrans = false) :
    putAreaAtColumns env area ax ay ol width length w y
        = putAreaLine w area.data (y * width + ol) ((ay + y) * w.vterm.width + ax) length
    ∧ putAreaAtRow env area ax ay ol width length w y
        = { putAreaLine w area.data (y * width + ol) ((ay + y) * w.vterm.width + ax) length with
            vterm := putAreaAtDirtyRange
              (putAreaLine w area.data (y * width + ol) ((ay + y) * w.vterm.width + ax)
                length).vterm (ay + y) ax length } := by
  have hu : ((toUInt length : Nat) : Int) = length := toUInt_cast h0 (by omega)
  have hcol : putAreaAtColumns env area ax ay ol width length w y
      = putAreaLine w area.data (y * width + ol) ((ay + y) * w.vterm.width + ax) length := by
    unfold putAreaAtColumns putAreaLine forRange
    rw [hu, putAreaColumns_opaque env area ax ay ol width y _ w ?_]
    · have e : (length - 1 - 0 + 1).toNat = length.toNat := by
        congr 1
        omega
      rw [e]
      rfl
    · intro k hk
      apply hcells
      unfold forRange
      exact List.mem_map_of_mem _ hk
  refine ⟨hcol, ?_⟩
  unfold putAreaAtRow
  simp only []
  split
  · unfold putAreaLine
    rw [hu]
  · have hcol2 := hcol
    unfold putAreaAtColumns at hcol2
    rw [hcol2]

/-- Witness for C34: the row of three opaque cells copied to the position
(3, 2) of the 10 x 4 terminal. -/
theorem C34_putArea_fast_path_witness :
    ((putAreaAtColumns sampleCompEnv sampleOpaqueArea 2 1 0 3 3 (sampleWorld []) 0).vterm.cell
        ((1 + 0) * 10 + 3)).ch = 65
    ∧ (putAreaAtColumns sampleCompEnv sampleOpaqueArea 2 1 0 3 3 (sampleWorld []) 0
        = putAreaLine (sampleWorld []) sampleOpaqueArea.data (0 * 3 + 0)
            ((1 + 0) * (sampleWorld []).vterm.width + 2) 3
      ∧ putAreaAtRow sampleCompEnv sampleOpaqueArea 2 1 0 3 3 (sampleWorld []) 0
        = { putAreaLine (sampleWorld []) sampleOpaqueArea.data (0 * 3 + 0)
              ((1 + 0) * (sampleWorld []).vterm.width + 2) 3 with
            vterm := putAreaAtDirtyRange
              (putAreaLine (sampleWorld []) sampleOpaqueArea.data (0 * 3 + 0)
                ((1 + 0) * (sampleWorld []).vterm.width + 2) 3).vterm (1 + 0) 2 3 }) :=
  ⟨by decide,
   C34_putArea_fast_path sampleCompEnv sampleOpaqueArea 2 1 0 3 3 (sampleWorld []) 0
     (by decide) (by decide) (by decide)⟩

/-! ## Shadow-blended cells (fvterm.cpp, lines 1427-1513 and 1968-2011) -/

/-- The cell read back from the full-screen buffer after a store inside the
array. -/
theorem cell_setVTermCell (w : World) (i : Int) (c : FChar) (h0 : 0 ≤ i)
    (h1 : i < bufSize w.vterm.data) : (w.setVTermCell i c).vterm.cell i = c := by
  unfold World.setVTermCell FTermArea.cell
  exact bufGet_bufSet_eq w.vterm.data c h0 h1

/-- One pass of the loop of `getCharacter` for the overlapped character:
another window of a higher layer that is visible and contains the position
is applied with `getAreaCharacter`, every other window is passed over. -/
theorem getCharacterLoop_overlapped_cons (env : CompEnv) (x y : Int) (obj : Option Nat)
    (layer : Int) (p : FWindow) (rest : List FWindow) (cc : FChar × Bool) :
    getCharacterLoop env character_type.overlapped_character x y obj layer (p :: rest) cc
      = if (obj.isSome && decide (some p.ident ≠ obj)
              && decide (layer < env.getWindowLayer (some p.ident))) = true then
          match p.vwin with
          | none =>
            getCharacterLoop env character_type.overlapped_character x y obj layer rest cc
          | some win =>
            if win.visible = false then
              getCharacterLoop env character_type.overlapped_character x y obj layer rest cc
            else if win.contains (x, y) then
              getCharacterLoop env character_type.overlapped_character x y obj layer rest
                (getAreaCharacter (x, y) win cc)
            else getCharacterLoop env character_type.overlapped_character x y obj layer rest cc
        else getCharacterLoop env character_type.overlapped_character x y obj layer rest cc := by
  have hne : ¬ (character_type.overlapped_character = character_type.covered_character) := by
    decide
  rw [getCharacterLoop]
  simp only [eq_false hne, if_false]

/-- The loop of `getCharacter` for the overlapped character has no `break`:
after a front part of the window list it goes on with the rest. -/
theorem getCharacterLoop_overlapped_append (env : CompEnv) (x y : Int) (obj : Option Nat)
    (layer : Int) (pre rest : List FWindow) :
    ∀ cc : FChar × Bool, ∃ cc1 : FChar × Bool,
      getCharacterLoop env character_type.overlapped_character x y obj layer (pre ++ rest) cc
        = getCharacterLoop env character_type.overlapped_character x y obj layer rest cc1 := by
  induction pre with
  | nil => intro cc; exact ⟨cc, rfl⟩
  | cons p pre1 ih =>
    intro cc
    rw [List.cons_append, getCharacterLoop_overlapped_cons]
    split
    · split
      · exact ih cc
      · split
        · exact ih cc
        · split
          · exact ih _
          · exact ih cc
    · exact ih cc

/-- The loop of `getCharacter` for the overlapped character leaves the
character as it is over windows each of which, when it is another window of
a higher layer that is visible and contains the position, has a transparent
cell there. -/
theorem getCharacterLoop_overlapped_passive (env : CompEnv) (x y : Int) (obj : Option Nat)
    (layer : Int) (post : List FWindow) :
    ∀ cc : FChar × Bool,
      (∀ p ∈ post, ∀ a, p.vwin = some a → a.visible = true → a.contains (x, y) = true →
        some p.ident ≠ obj → layer < env.getWindowLayer (some p.ident) →
        (a.cell ((y - a.offset_top) * (a.width + a.right_shadow)
          + (x - a.offset_left))).transparent = true) →
      getCharacterLoop env character_type.overlapped_character x y obj layer post cc = cc := by
  induction post with
  | nil => intro cc _; rfl
  | cons p post1 ih =>
    intro cc h
    have hrest := ih cc (fun q hq => h q (List.mem_cons_of_mem p hq))
    rw [getCharacterLoop_overlapped_cons]
    split
    · rename_i hsig
      split
      · exact hrest
      · rename_i a ha
        split
        · exact hrest
        · rename_i hvis
          split
          · rename_i hc
            simp only [Bool.and_eq_true, decide_eq_true_eq] at hsig
            have ht := h p (List.mem_cons_self p post1) a ha (by simpa using hvis) hc
              hsig.1.2 hsig.2
            have e : getAreaCharacter (x, y) a cc = cc := by
              unfold getAreaCharacter
              simp only []
              rw [if_neg (by rw [ht]; decide)]
            rw [e]
            exact hrest
          · exact hrest
    · exact hrest

/-- The overlapped character at a position under a shadow: when a window of
a higher layer than `obj` is visible, contains the position and has there a
cell with `trans_shadow` that is not `transparent`, and every window behind
it in the list that is of a higher layer, visible and contains the position
has a transparent cell there, `getOverlappedCharacter` returns a cell with
the colours of the shadow cell and with `reverse` and `standout` cleared. -/
theorem getOverlappedCharacter_shadow (env : CompEnv) (w : World) (tx ty : Int)
    (obj : Option Nat) (pre post : List FWindow) (win_obj : FWindow) (win : FTermArea)
    (hl : w.window_list = pre ++ win_obj :: post)
    (hobj : obj.isSome = true) (hne : some win_obj.ident ≠ obj)
    (hlayer : env.getWindowLayer obj < env.getWindowLayer (some win_obj.ident))
    (hv : win_obj.vwin = some win) (hvis : win.visible = true)
    (hc : win.contains (tx, ty) = true)
    (htr : (win.cell ((ty - win.offset_top) * (win.width + win.right_shadow)
              + (tx - win.offset_left))).transparent = false)
    (hsh : (win.cell ((ty - win.offset_top) * (win.width + win.right_shadow)
              + (tx - win.offset_left))).trans_shadow = true)
    (hpost : ∀ p ∈ post, ∀ a, p.vwin = some a → a.visible = true →
        a.contains (tx, ty) = true → some p.ident ≠ obj →
        env.getWindowLayer obj < env.getWindowLayer (some p.ident) →
        (a.cell ((ty - a.offset_top) * (a.width + a.right_shadow)
          + (tx - a.offset_left))).transparent = true) :
    (getOverlappedCharacter env w (tx + 1, ty + 1) obj).fg_color
        = (win.cell ((ty - win.offset_top) * (win.width + win.right_shadow)
            + (tx - win.offset_left))).fg_color
    ∧ (getOverlappedCharacter env w (tx + 1, ty + 1) obj).bg_color
        = (win.cell ((ty - win.offset_top) * (win.width + win.right_shadow)
            + (tx - win.offset_left))).bg_color
    ∧ (getOverlappedCharacter env w (tx + 1, ty + 1) obj).reverse = false
    ∧ (getOverlappedCharacter env w (tx + 1, ty + 1) obj).standout = false := by
  have hnil : ¬ (w.window_list = []) := by
    rw [hl]; simp
  unfold getOverlappedCharacter getCharacter
  simp only [add_sub_cancel_right]
  rw [if_neg hnil, hl]
  obtain ⟨cc1, e1⟩ := getCharacterLoop_overlapped_append env tx ty obj (env.getWindowLayer obj)
    pre (win_obj :: post) _
  rw [e1, getCharacterLoop_overlapped_cons, if_pos (by simp [hobj, hne, hlayer]), hv]
  simp only []
  rw [if_neg (by rw [hvis]; decide), if_pos hc,
    getCharacterLoop_overlapped_passive env tx ty obj _ post _ hpost]
  unfold getAreaCharacter
  simp only []
  rw [if_pos htr, if_pos hsh]
  exact ⟨rfl, rfl, rfl, rfl⟩

/-- Claim C33.  The cell written to the full-screen buffer by
`updateOverlappedColor`, by `updateShadedCharacter`, and by
`putAreaCharacter` for a surface cell with `trans_shadow` that is not
`transparent`, has `reverse` and `standout` cleared and holds the blended
glyph with the six block glyphs replaced by a space.  In
`updateOverlappedColor`, which `updateVTermCharacter` calls for a
half-covered position, the blended glyph is the one of the surface cell and
the colours are those of the overlapping cell: when a window of a higher
layer is visible, contains the position and has a shadow cell there, and the
windows behind it in the list do not overlap the position with a cell that
is not transparent, the cell written has the foreground and the background
colour of that shadow cell.  In the two other functions the blended glyph is
the one of the covered cell and the colours are those of the surface cell.
The positions written are inside the cell array. -/
theorem C33_shadow_blend (env : CompEnv) (w : World) (area : FTermArea)
    (area_pos terminal_pos pos : Int × Int) (obj : Option Nat) (ac : FChar) (tj : Int)
    (hi0 : 0 ≤ terminal_pos.2 * w.vterm.width + terminal_pos.1)
    (hi1 : terminal_pos.2 * w.vterm.width + terminal_pos.1 < bufSize w.vterm.data)
    (hj0 : 0 ≤ tj) (hj1 : tj < bufSize w.vterm.data)
    (htr : ac.transparent = false) (hsh : ac.trans_shadow = true) :
    let ti := terminal_pos.2 * w.vterm.width + terminal_pos.1
    let sc := area.cell (area_pos.2 * (area.width + area.right_shadow) + area_pos.1)
    let oc := getOverlappedCharacter env w (terminal_pos.1 + 1, terminal_pos.2 + 1) area.widget
    let cc := getCoveredCharacter env w (terminal_pos.1 + 1, terminal_pos.2 + 1) area.widget
    let c1 := (updateOverlappedColor env w area area_pos terminal_pos).vterm.cell ti
    let c2 := (updateShadedCharacter env w area area_pos terminal_pos).vterm.cell ti
    let c3 := (putAreaCharacter env w pos obj ac tj).vterm.cell tj
    (c1.reverse = false ∧ c1.standout = false ∧ c1.ch = blendGlyph env sc.ch
        ∧ c1.fg_color = oc.fg_color ∧ c1.bg_color = oc.bg_color)
    ∧ (c2.reverse = false ∧ c2.standout = false ∧ c2.ch = blendGlyph env cc.ch
        ∧ c2.fg_color = sc.fg_color ∧ c2.bg_color = sc.bg_color)
    ∧ (c3.reverse = false ∧ c3.standout = false
        ∧ c3.ch = blendGlyph env (getCoveredCharacter env w pos obj).ch
        ∧ c3.fg_color = ac.fg_color ∧ c3.bg_color = ac.bg_color)
    ∧ (∀ g : Int,
        (g = env.LowerHalfBlock ∨ g = env.UpperHalfBlock ∨ g = env.LeftHalfBlock
            ∨ g = env.RightHalfBlock ∨ g = env.MediumShade ∨ g = env.FullBlock
          → blendGlyph env g = 32)
        ∧ (¬ (g = env.LowerHalfBlock ∨ g = env.UpperHalfBlock ∨ g = env.LeftHalfBlock
            ∨ g = env.RightHalfBlock ∨ g = env.MediumShade ∨ g = env.FullBlock)
          → blendGlyph env g = g))
    ∧ (∀ (pre post : List FWindow) (win_obj : FWindow) (win : FTermArea),
        w.window_list = pre ++ win_obj :: post →
        area.widget.isSome = true → some win_obj.ident ≠ area.widget →
        env.getWindowLayer area.widget < env.getWindowLayer (some win_obj.ident) →
        win_obj.vwin = some win → win.visible = true → win.contains terminal_pos = true →
        (win.cell ((terminal_pos.2 - win.offset_top) * (win.width + win.right_shadow)
          + (terminal_pos.1 - win.offset_left))).transparent = false →
        (win.cell ((terminal_pos.2 - win.offset_top) * (win.width + win.right_shadow)
          + (terminal_pos.1 - win.offset_left))).trans_shadow = true →
        (∀ p ∈ post, ∀ a, p.vwin = some a → a.visible = true →
          a.contains terminal_pos = true → some p.ident ≠ area.widget →
          env.getWindowLayer area.widget < env.getWindowLayer (some p.ident) →
          (a.cell ((terminal_pos.2 - a.offset_top) * (a.width + a.right_shadow)
            + (terminal_pos.1 - a.offset_left))).transparent = true) →
        c1.fg_color
            = (win.cell ((terminal_pos.2 - win.offset_top) * (win.width + win.right_shadow)
                + (terminal_pos.1 - win.offset_left))).fg_color
        ∧ c1.bg_color
            = (win.cell ((terminal_pos.2 - win.offset_top) * (win.width + win.right_shadow)
                + (terminal_pos.1 - win.offset_left))).bg_color)
    ∧ (∀ r : AreaRef, w.area? r = some area →
        isCovered w terminal_pos r = covered_state.half_covered →
        updateVTermCharacter env w r area_pos terminal_pos
          = (true, updateOverlappedColor env w area area_pos terminal_pos)) := by
  intro ti sc oc cc c1 c2 c3
  have e1 : c1 = _ := cell_setVTermCell w ti _ hi0 hi1
  have e2 : c2 = _ := cell_setVTermCell w ti _ hi0 hi1
  have e3 : c3 = { getCoveredCharacter env w pos obj with
                   fg_color := ac.fg_color, bg_color := ac.bg_color, reverse := false,
                   standout := false,
                   ch := blendGlyph env (getCoveredCharacter env w pos obj).ch } := by
    show (putAreaCharacter env w pos obj ac tj).vterm.cell tj = _
    unfold putAreaCharacter
    rw [if_neg (by rw [htr]; decide), if_pos hsh]
    exact cell_setVTermCell w tj _ hj0 hj1
  have f1 : c1.fg_color = oc.fg_color ∧ c1.bg_color = oc.bg_color := by
    rw [e1]
    exact ⟨rfl, rfl⟩
  refine ⟨?_, ?_, ?_, ?_, ?_, ?_⟩
  · rw [e1]
    exact ⟨rfl, rfl, rfl, rfl, rfl⟩
  · rw [e2]
    exact ⟨rfl, rfl, rfl, rfl, rfl⟩
  · rw [e3]
    exact ⟨rfl, rfl, rfl, rfl, rfl⟩
  · intro g
    unfold blendGlyph
    exact ⟨fun h => if_pos h, fun h => if_neg h⟩
  · intro pre post win_obj win hl hobj hne hlayer hv hvis hc hwt hws hpost
    obtain ⟨g1, g2, _, _⟩ := getOverlappedCharacter_shadow env w terminal_pos.1 terminal_pos.2
      area.widget pre post win_obj win hl hobj hne hlayer hv hvis hc hwt hws hpost
    exact ⟨f1.1.trans g1, f1.2.trans g2⟩
  · intro r hr hcov
    unfold updateVTermCharacter
    rw [hr]
    simp only []
    rw [hcov, if_neg (by decide), if_pos rfl]

/-- Witness for C33 on the 10 x 4 terminal with the two windows of
`sampleShadeWorld`.  The position (0, 0) of window 1 is half-covered by the
shadow cell of window 2: `updateVTermCharacter` calls
`updateOverlappedColor`, and the full block of window 1 is written as a
space with the colours 7 and 1 of the shadow cell and without `reverse`.
For the shadow cell of window 2 itself `updateShadedCharacter` and
`putAreaCharacter` write the covered full block of window 1 as a space with
the colours of the shadow cell. -/
theorem C33_shadow_blend_witness :
    isCovered sampleShadeWorld (0, 0) (AreaRef.window 0) = covered_state.half_covered
    ∧ (updateVTermCharacter sampleLayerEnv sampleShadeWorld (AreaRef.window 0) (0, 0) (0, 0)
        = (true, updateOverlappedColor sampleLayerEnv sampleShadeWorld sampleUnderArea (0, 0)
                   (0, 0)))
    ∧ (((updateOverlappedColor sampleLayerEnv sampleShadeWorld sampleUnderArea (0, 0)
          (0, 0)).vterm.cell 0).fg_color = sampleShadeCell.fg_color
      ∧ ((updateOverlappedColor sampleLayerEnv sampleShadeWorld sampleUnderArea (0, 0)
          (0, 0)).vterm.cell 0).bg_color = sampleShadeCell.bg_color)
    ∧ ((updateOverlappedColor sampleLayerEnv sampleShadeWorld sampleUnderArea (0, 0)
          (0, 0)).vterm.cell 0 = { FChar.zero with ch := 32, fg_color := 7, bg_color := 1 })
    ∧ ((updateShadedCharacter sampleLayerEnv sampleShadeWorld sampleShadeArea (0, 0)
          (0, 0)).vterm.cell 0 = { FChar.zero with ch := 32, fg_color := 7, bg_color := 1 })
    ∧ ((putAreaCharacter sampleLayerEnv sampleShadeWorld (1, 1) (some 2) sampleShadeCell
          0).vterm.cell 0 = { FChar.zero with ch := 32, fg_color := 7, bg_color := 1 }) :=
  ⟨by decide,
   (C33_shadow_blend sampleLayerEnv sampleShadeWorld sampleUnderArea (0, 0) (0, 0) (1, 1)
      (some 2) sampleShadeCell 0 (by decide) (by decide) (by decide) (by decide) (by decide)
      (by decide)).2.2.2.2.2 (AreaRef.window 0) rfl (by decide),
   (C33_shadow_blend sampleLayerEnv sampleShadeWorld sampleUnderArea (0, 0) (0, 0) (1, 1)
      (some 2) sampleShadeCell 0 (by decide) (by decide) (by decide) (by decide) (by decide)
      (by decide)).2.2.2.2.1 [⟨1, some sampleUnderArea⟩] [] ⟨2, some sampleShadeArea⟩
      sampleShadeArea rfl (by decide) (by decide) (by decide) rfl (by decide) (by decide)
      (by decide) (by decide) (fun p hp => absurd hp (List.not_mem_nil p)),
   by decide, by decide, by decide⟩

/-! ## Termination of the loop of `printRange` (fvterm.cpp, lines 2297-2332) -/

/-- The loop of `printRange` in terms of its passes. -/
theorem printRangeLoop_succ (env : RenderEnv) (xmin xmax y : Nat) (d : Bool) (fuel : Nat)
    (w : World) (x : Nat) :
    printRangeLoop env xmin xmax y d (fuel + 1) w x
      = if x ≤ xmax then
          match (printRangePass env xmin xmax y d w x).2 with
          | none => some (printRangePass env xmin xmax y d w x).1
          | some x1 =>
            printRangeLoop env xmin xmax y d fuel (printRangePass env xmin xmax y d w x).1
              (uInc x1)
        else some w := by
  rw [printRangeLoop]
  unfold printRangePass printRangeRest printRangeMark
  simp only []
  split
  · split
    · rfl
    · split
      · split
        · rename_i h
          simp only [h, if_true]
        · rename_i h
          simp only [h, if_false]
      · split
        · rfl
        · rfl
  · rfl

theorem width_of_skeleton {w w1 : World} (h : w1.skeleton = w.skeleton) :
    w1.vterm.width = w.vterm.width :=
  congrArg (fun s => s.1.width) h

theorem term_pos_markAsPrinted (w : World) (pos line : Nat) :
    (markAsPrinted w pos line).term_pos = w.term_pos := rfl

theorem term_pos_markAsPrintedRange (w : World) (first last line : Nat) :
    (markAsPrintedRange w first last line).term_pos = w.term_pos := by
  unfold markAsPrintedRange
  generalize List.range' first (last + 1 - first) = l
  induction l generalizing w with
  | nil => rfl
  | cons a rest ih => rw [List.foldl_cons, ih, term_pos_markAsPrinted]

theorem term_pos_appendAttributes (env : RenderEnv) (w : World) (i : Int) :
    (appendAttributes env w i).term_pos = w.term_pos := by
  unfold appendAttributes
  simp only [term_pos_appendOutputOption]
  rfl

theorem term_pos_appendChar (env : RenderEnv) (w : World) (i : Int) :
    (appendChar env w i).term_pos = w.term_pos := by
  unfold appendChar
  simp only [term_pos_appendOutputChar]
  show (appendAttributes env _ i).term_pos = _
  rw [term_pos_appendAttributes]
  rfl

theorem term_pos_replaceNonPrintableFullwidth (env : RenderEnv) (w : World) (x : Nat)
    (i : Int) : (replaceNonPrintableFullwidth env w x i).term_pos = w.term_pos := by
  unfold replaceNonPrintableFullwidth
  simp only []
  split_ifs <;> rfl

/-- The column `setTermXY (x, y)` records is not right of `x`. -/
theorem setTermXY_column_le (env : TermEnv) (w : World) (x y : Int) :
    (setTermXY env w x y).term_pos.1 ≤ x := by
  unfold setTermXY
  split
  · rename_i h
    rw [h.1]
  · show (if x ≥ (env.columnNumber : Int) ∧ (env.columnNumber : Int) > 0
          then x % (env.columnNumber : Int) else x) ≤ x
    split
    · rename_i h
      have := Int.emod_lt_of_pos x h.2
      omega
    · exact le_refl x

/-- Away from the last column `appendCharacter` leaves its pointer as it is
and moves the recorded cursor one column to the right. -/
theorem appendCharacter_column (env : RenderEnv) (w : World) (i : Int)
    (h : w.term_pos.1 ≠ w.vterm.width - 1) :
    (appendCharacter env w i).2 = i
    ∧ (appendCharacter env w i).1.term_pos.1 = w.term_pos.1 + 1 := by
  unfold appendCharacter
  simp only []
  rw [if_neg (fun hh => h hh.1)]
  refine ⟨rfl, ?_⟩
  show (appendChar env w i).term_pos.1 + 1 = _
  rw [term_pos_appendChar]

/-- A run of `appendCharacter` that stays left of the last column moves the
recorded cursor by the number of its calls. -/
theorem appendCharacterN_column (env : RenderEnv) (n : Nat) (s : World × Int)
    (h : s.1.term_pos.1 + (n : Int) ≤ s.1.vterm.width - 1) :
    (appendCharacterN env n s).1.term_pos.1 = s.1.term_pos.1 + (n : Int) := by
  unfold appendCharacterN
  have key : ∀ (l : List Nat) (s : World × Int),
      s.1.term_pos.1 + (l.length : Int) ≤ s.1.vterm.width - 1 →
      (l.foldl (fun acc _ => appendCharacter env acc.1 acc.2) s).1.term_pos.1
        = s.1.term_pos.1 + (l.length : Int) := by
    intro l
    induction l with
    | nil => intro s _; simp
    | cons a rest ih =>
      intro s hs
      rw [List.length_cons] at hs
      push_cast at hs
      obtain ⟨_, e⟩ := appendCharacter_column env s.1 s.2 (by omega)
      have hw : (appendCharacter env s.1 s.2).1.vterm.width = s.1.vterm.width :=
        width_of_skeleton (skeleton_appendCharacter env s.1 s.2)
      rw [List.foldl_cons, ih _ (by rw [e, hw]; omega), e, List.length_cons]
      push_cast
      omega
  have := key (List.range n) s (by rw [List.length_range]; exact h)
  rw [List.length_range] at this
  exact this

theorem width_markAsPrinted (w : World) (pos line : Nat) :
    (markAsPrinted w pos line).vterm.width = w.vterm.width := rfl

/-- The count `1 + n` of a run that starts in column `x` and is counted over
the columns up to `xmax`: no wrap, and the run ends at `xmax` at the
latest. -/
theorem runCount_bounds (p : Nat → Bool) (x xmax : Nat) (hx : x ≤ xmax) (hmax : xmax + 1 < 2 ^ 31) :
    uAdd 1 (countWhile p (List.range' (uInc x) (xmax + 1 - uInc x)))
        = 1 + countWhile p (List.range' (uInc x) (xmax + 1 - uInc x))
    ∧ x + countWhile p (List.range' (uInc x) (xmax + 1 - uInc x)) ≤ xmax := by
  have h := countWhile_le p (List.range' (uInc x) (xmax + 1 - uInc x))
  rw [List.length_range'] at h
  have hi : uInc x = x + 1 := by unfold uInc; omega
  rw [hi] at h ⊢
  constructor
  · unfold uAdd; omega
  · omega

/-- The function `skipUnchangedCharacters` in a column `x <= xmax` with the
recorded cursor not right of `x`: the width of the buffer stays; when it
skips, `x` is left in the range and the recorded cursor is not right of the
column after it; when it does not skip, `x` stays and only the cell in
column `x` is marked. -/
theorem skipUnchangedCharacters_column (env : RenderEnv) (w : World) (x xmax y : Nat)
    (hx : x ≤ xmax) (hmax : xmax + 1 < 2 ^ 31) :
    (skipUnchangedCharacters env w x xmax y).2.1.vterm.width = w.vterm.width
    ∧ ((skipUnchangedCharacters env w x xmax y).1 = true →
        x ≤ (skipUnchangedCharacters env w x xmax y).2.2
        ∧ (skipUnchangedCharacters env w x xmax y).2.2 ≤ xmax
        ∧ (skipUnchangedCharacters env w x xmax y).2.1.term_pos.1
            ≤ ((skipUnchangedCharacters env w x xmax y).2.2 : Int) + 1)
    ∧ ((skipUnchangedCharacters env w x xmax y).1 = false →
        (skipUnchangedCharacters env w x xmax y).2.2 = x
        ∧ (skipUnchangedCharacters env w x xmax y).2.1 = markAsPrinted w x y) := by
  refine ⟨width_of_skeleton (skeleton_skipUnchangedCharacters env w x xmax y), ?_, ?_⟩
  · unfold skipUnchangedCharacters
    simp only []
    split
    · obtain ⟨e, hb⟩ := runCount_bounds
        (fun i => ((markAsPrinted w x y).vterm.cell (vtIndex (markAsPrinted w x y) i y)).no_changes)
        x xmax hx hmax
      rw [e]
      generalize countWhile
        (fun i => ((markAsPrinted w x y).vterm.cell (vtIndex (markAsPrinted w x y) i y)).no_changes)
        (List.range' (uInc x) (xmax + 1 - uInc x)) = n at hb ⊢
      split
      · intro _
        simp only []
        have e0 : uAdd x (1 + n) = x + n + 1 := by unfold uAdd; omega
        have e1 : uSub (x + n + 1) 1 = x + n := by unfold uSub; omega
        have e2 : toInt (x + n + 1) = ((x + n : Nat) : Int) + 1 := by
          have h31 : x + n + 1 < 2 ^ 31 := by omega
          rw [toInt_of_lt h31]
          push_cast
          rfl
        rw [e0, e1]
        refine ⟨by omega, hb, ?_⟩
        exact le_of_le_of_eq
          (setTermXY_column_le env.term (markAsPrinted w x y) (toInt (x + n + 1)) (toInt y)) e2
      · intro h; cases h
    · intro h; cases h
  · unfold skipUnchangedCharacters
    simp only []
    split
    · split
      · intro h; cases h
      · intro _; exact ⟨rfl, rfl⟩
    · intro _; exact ⟨rfl, rfl⟩

/-- The cursor column after one `appendCharacter` in the column `x`: not
right of the next column, unless `x` is the last column. -/
theorem appendCharacter_next (env : RenderEnv) (w : World) (i : Int) (x : Nat)
    (ht : w.term_pos.1 ≤ x) (hnext : (x : Int) + 1 < w.vterm.width) :
    (appendCharacter env w i).2 = i
    ∧ (appendCharacter env w i).1.term_pos.1 ≤ (x : Int) + 1 := by
  obtain ⟨e1, e2⟩ := appendCharacter_column env w i (by omega)
  exact ⟨e1, by rw [e2]; omega⟩

/-- The function `eraseCharacters` in a column `x <= xmax` of a row that
ends inside the buffer, with the recorded cursor not right of `x`: the width
of the buffer stays, and unless the line is completely printed `x` is left
in the range, not left of where it was, and the recorded cursor is not
right of the column after it when that column exists. -/
theorem eraseCharacters_column (env : RenderEnv) (w : World) (x xmax y : Nat) (d : Bool)
    (hx : x ≤ xmax) (hmax : (xmax : Int) < w.vterm.width) (hW : w.vterm.width < 2 ^ 31)
    (ht : w.term_pos.1 ≤ x) :
    (eraseCharacters env w x xmax y d).2.1.vterm.width = w.vterm.width
    ∧ ((eraseCharacters env w x xmax y d).1 ≠ exit_state.line_completely_printed →
        x ≤ (eraseCharacters env w x xmax y d).2.2
        ∧ (eraseCharacters env w x xmax y d).2.2 ≤ xmax
        ∧ (((eraseCharacters env w x xmax y d).2.2 : Int) + 1 < w.vterm.width →
            (eraseCharacters env w x xmax y d).2.1.term_pos.1
              ≤ ((eraseCharacters env w x xmax y d).2.2 : Int) + 1)) := by
  refine ⟨width_of_skeleton (skeleton_eraseCharacters env w x xmax y d), ?_⟩
  have stay : x ≤ x ∧ x ≤ xmax ∧ ((x : Int) + 1 < w.vterm.width → w.term_pos.1 ≤ (x : Int) + 1) :=
    ⟨le_refl x, hx, fun _ => by omega⟩
  unfold eraseCharacters
  simp only []
  split
  · intro _; exact stay
  · rename_i ec hec
    split
    · intro _; exact stay
    · obtain ⟨e, hb⟩ := runCount_bounds
        (fun k => FChar.eq (w.vterm.cell (vtIndex w x y)) (w.vterm.cell (vtIndex w k y)))
        x xmax hx (by omega)
      rw [e]
      generalize countWhile
        (fun k => FChar.eq (w.vterm.cell (vtIndex w x y)) (w.vterm.cell (vtIndex w k y)))
        (List.range' (uInc x) (xmax + 1 - uInc x)) = n at hb ⊢
      have e0 : uAdd x (1 + n) = x + n + 1 := by unfold uAdd; omega
      have e1 : uSub (x + n + 1) 1 = x + n := by unfold uSub; omega
      have e3 : uAdd (uDec x) (1 + n) = x + n := by unfold uAdd uDec; omega
      have e2 : toInt (x + n + 1) = ((x + n : Nat) : Int) + 1 := by
        have h31 : x + n + 1 < 2 ^ 31 := by omega
        rw [toInt_of_lt h31]
        push_cast
        rfl
      split
      · intro _
        refine ⟨le_refl x, hx, fun hn => ?_⟩
        show (markAsPrinted (appendCharacter env w (vtIndex w x y)).1 x y).term_pos.1 ≤ _
        rw [term_pos_markAsPrinted]
        exact (appendCharacter_next env w _ x ht hn).2
      · split
        · split
          · intro _
            simp only [e0, e1]
            refine ⟨by omega, hb, fun _ => ?_⟩
            rw [term_pos_markAsPrintedRange]
            exact le_of_le_of_eq (setTermXY_column_le env.term _ (toInt (x + n + 1)) (toInt y)) e2
          · intro h; exact absurd rfl h
        · intro _
          simp only [e3]
          refine ⟨by omega, hb, fun hn => ?_⟩
          rw [term_pos_markAsPrintedRange,
            appendCharacterN_column env (1 + n) (w, vtIndex w x y) (by
              show w.term_pos.1 + ((1 + n : Nat) : Int) ≤ w.vterm.width - 1
              push_cast at hn ⊢
              omega)]
          show w.term_pos.1 + ((1 + n : Nat) : Int) ≤ _
          push_cast
          omega

/-- The function `repeatCharacter` in a column `x <= xmax` of a row that
ends inside the buffer, with the recorded cursor not right of `x`: the width
of the buffer stays, `x` is left in the range, not left of where it was, and
the recorded cursor is not right of the column after it when that column
exists. -/
theorem repeatCharacter_column (env : RenderEnv) (w : World) (x xmax y : Nat)
    (hx : x ≤ xmax) (hmax : (xmax : Int) < w.vterm.width) (hW : w.vterm.width < 2 ^ 31)
    (ht : w.term_pos.1 ≤ x) :
    (repeatCharacter env w x xmax y).2.1.vterm.width = w.vterm.width
    ∧ x ≤ (repeatCharacter env w x xmax y).2.2
    ∧ (repeatCharacter env w x xmax y).2.2 ≤ xmax
    ∧ (((repeatCharacter env w x xmax y).2.2 : Int) + 1 < w.vterm.width →
        (repeatCharacter env w x xmax y).2.1.term_pos.1
          ≤ ((repeatCharacter env w x xmax y).2.2 : Int) + 1) := by
  refine ⟨width_of_skeleton (skeleton_repeatCharacter env w x xmax y), ?_⟩
  have stay : x ≤ x ∧ x ≤ xmax ∧ ((x : Int) + 1 < w.vterm.width → w.term_pos.1 ≤ (x : Int) + 1) :=
    ⟨le_refl x, hx, fun _ => by omega⟩
  unfold repeatCharacter
  simp only []
  split
  · exact stay
  · rename_i rp hrp
    obtain ⟨e, hb⟩ := runCount_bounds
      (fun k => FChar.eq (w.vterm.cell (vtIndex w x y)) (w.vterm.cell (vtIndex w k y)))
      x xmax hx (by omega)
    rw [e]
    generalize countWhile
      (fun k => FChar.eq (w.vterm.cell (vtIndex w x y)) (w.vterm.cell (vtIndex w k y)))
      (List.range' (uInc x) (xmax + 1 - uInc x)) = n at hb ⊢
    have e0 : uAdd x (1 + n) = x + n + 1 := by unfold uAdd; omega
    have e1 : uSub (x + n + 1) 1 = x + n := by unfold uSub; omega
    have e3 : uAdd (uDec x) (1 + n) = x + n := by unfold uAdd uDec; omega
    have e2 : toInt (1 + n) = ((n : Nat) : Int) + 1 := by
      have h31 : 1 + n < 2 ^ 31 := by omega
      rw [toInt_of_lt h31]
      push_cast
      omega
    split
    · refine ⟨le_refl x, hx, fun hn => ?_⟩
      show (markAsPrinted (appendCharacter env w (vtIndex w x y)).1 x y).term_pos.1 ≤ _
      rw [term_pos_markAsPrinted]
      exact (appendCharacter_next env w _ x ht hn).2
    · split
      · simp only [e0, e1]
        refine ⟨by omega, hb, fun _ => ?_⟩
        rw [term_pos_markAsPrintedRange]
        show (appendOutputBuffer env.term _ _).term_pos.1 + toInt (1 + n) ≤ _
        rw [term_pos_appendOutputBuffer, term_pos_appendAttributes, e2]
        show w.term_pos.1 + _ ≤ _
        push_cast
        omega
      · simp only [e3]
        refine ⟨by omega, hb, fun hn => ?_⟩
        rw [term_pos_markAsPrintedRange,
          appendCharacterN_column env (1 + n) (w, vtIndex w x y) (by
            show w.term_pos.1 + ((1 + n : Nat) : Int) ≤ w.vterm.width - 1
            push_cast at hn ⊢
            omega)]
        show w.term_pos.1 + ((1 + n : Nat) : Int) ≤ _
        push_cast
        omega

theorem width_moveTermX (w : World) (d : Int) : (w.moveTermX d).vterm.width = w.vterm.width :=
  rfl

theorem term_pos_printEllipsis (env : RenderEnv) (w : World) (x y : Nat) (i : Int) :
    (printEllipsis env w x y i).term_pos.1 = w.term_pos.1 + 1 := by
  unfold printEllipsis
  simp only []
  rw [term_pos_markAsPrinted]
  show (appendOutputChar env.term (appendAttributes env w i) _).term_pos.1 + 1 = _
  rw [term_pos_appendOutputChar, term_pos_appendAttributes]

theorem width_printEllipsis (env : RenderEnv) (w : World) (x y : Nat) (i : Int) :
    (printEllipsis env w x y i).vterm.width = w.vterm.width :=
  width_of_skeleton (skeleton_printEllipsis env w x y i)

/-- The function `skipPaddingCharacter`: either nothing changes, the cell
behind the pointer not being full-width, or `x` and the recorded cursor
move one column to the right. -/
theorem skipPaddingCharacter_column (w : World) (x y : Nat) (i : Int) (hx : x + 1 < 2 ^ 32) :
    (skipPaddingCharacter w x y i).1.vterm.width = w.vterm.width
    ∧ (((skipPaddingCharacter w x y i).2 = x ∧ (skipPaddingCharacter w x y i).1 = w
          ∧ isFullWidthChar (w.vterm.cell i) = false)
       ∨ ((skipPaddingCharacter w x y i).2 = x + 1
          ∧ (skipPaddingCharacter w x y i).1.term_pos.1 = w.term_pos.1 + 1)) := by
  unfold skipPaddingCharacter
  split
  · refine ⟨rfl, Or.inr ⟨?_, rfl⟩⟩
    show uInc x = x + 1
    unfold uInc; omega
  · rename_i h
    exact ⟨rfl, Or.inl ⟨rfl, rfl, by simpa using h⟩⟩

/-- The function `printFullWidthCharacter` in a column that is not the last
one, with the recorded cursor not right of it: `x` stays or moves one column
to the right, and the recorded cursor is not right of the column after
it. -/
theorem printFullWidthCharacter_column (env : RenderEnv) (w : World) (x y : Nat) (i : Int)
    (hx : (x : Int) + 1 < w.vterm.width) (hW : w.vterm.width < 2 ^ 31)
    (ht : w.term_pos.1 ≤ x) :
    (printFullWidthCharacter env w x y i).1.vterm.width = w.vterm.width
    ∧ x ≤ (printFullWidthCharacter env w x y i).2
    ∧ (printFullWidthCharacter env w x y i).2 ≤ x + 1
    ∧ (printFullWidthCharacter env w x y i).1.term_pos.1
        ≤ ((printFullWidthCharacter env w x y i).2 : Int) + 1 := by
  refine ⟨width_of_skeleton (skeleton_printFullWidthCharacter env w x y i), ?_⟩
  have hi : uInc x = x + 1 := by unfold uInc; omega
  unfold printFullWidthCharacter
  simp only []
  split
  · obtain ⟨e1, e2⟩ := appendCharacter_column env w i (by omega)
    obtain ⟨_, hs⟩ := skipPaddingCharacter_column
      (markAsPrinted (appendCharacter env w i).1 x y) x y (appendCharacter env w i).2 (by omega)
    rcases hs with ⟨a1, a2, _⟩ | ⟨a1, a2⟩
    · rw [a1, a2, term_pos_markAsPrinted, e2]
      exact ⟨le_refl x, by omega, by omega⟩
    · rw [a1, a2, term_pos_markAsPrinted, e2]
      refine ⟨by omega, le_refl _, ?_⟩
      push_cast
      omega
  · split
    · simp only [hi]
      refine ⟨by omega, le_refl _, ?_⟩
      rw [term_pos_printEllipsis, term_pos_printEllipsis]
      push_cast
      omega
    · refine ⟨le_refl x, by omega, ?_⟩
      rw [term_pos_printEllipsis]
      omega

/-- The index of the cell left of column `x`, as `printFullWidthPaddingCharacter`
computes it, is the index of column `x - 1`. -/
theorem vtIndex_left (w : World) (x y : Nat) (h0 : 0 < x) (hx : x < 2 ^ 32) :
    ((uSub (uAdd (uMul y (toUInt w.vterm.width)) x) 1 : Nat) : Int) = vtIndex w (x - 1) y := by
  have h : ∀ a : Nat, uSub (uAdd a x) 1 = uAdd a (x - 1) := by
    intro a
    unfold uSub uAdd
    omega
  unfold vtIndex
  rw [h]

theorem vtIndex_congr {w w1 : World} (h : w1.vterm.width = w.vterm.width) (pos line : Nat) :
    vtIndex w1 pos line = vtIndex w pos line := by
  unfold vtIndex
  rw [h]

theorem fullWidthPair_first (a b : FChar) (h : fullWidthPair a b = true) :
    isFullWidthChar a = true := by
  unfold fullWidthPair at h
  simp only [Bool.and_eq_true] at h
  exact h.1.2

/-- The function `printFullWidthPaddingCharacter` in a column `x > 0` that
is not the last one, with the recorded cursor not right of it.  The
recorded cursor ends not right of the column after `x`, and `x` stays or
moves one column to the right, or it moves one column to the left: that
happens only when the cell left of column `x` was full-width before and is
not full-width afterwards. -/
theorem printFullWidthPaddingCharacter_column (env : RenderEnv) (w : World) (x y : Nat)
    (i : Int) (h0 : 0 < x) (hx : (x : Int) + 1 < w.vterm.width) (hW : w.vterm.width < 2 ^ 31)
    (ht : w.term_pos.1 ≤ x) :
    (printFullWidthPaddingCharacter env w x y i).1.vterm.width = w.vterm.width
    ∧ (printFullWidthPaddingCharacter env w x y i).2 ≤ x + 1
    ∧ (printFullWidthPaddingCharacter env w x y i).1.term_pos.1
        ≤ ((printFullWidthPaddingCharacter env w x y i).2 : Int) + 1
    ∧ (x ≤ (printFullWidthPaddingCharacter env w x y i).2
       ∨ ((printFullWidthPaddingCharacter env w x y i).2 + 1 = x
          ∧ leftFullWidth w x y = 1
          ∧ leftFullWidth (printFullWidthPaddingCharacter env w x y i).1 x y = 0)) := by
  refine ⟨width_of_skeleton (skeleton_printFullWidthPaddingCharacter env w x y i), ?_⟩
  have hd : uDec x = x - 1 := by unfold uDec; omega
  have hprev := vtIndex_left w x y h0 (by omega)
  unfold printFullWidthPaddingCharacter
  simp only []
  rw [hprev]
  split
  · rename_i hpair
    have hfull := fullWidthPair_first _ _ hpair
    split
    · obtain ⟨_, hs⟩ := skipPaddingCharacter_column w x y (vtIndex w (x - 1) y) (by omega)
      rcases hs with ⟨a1, a2, _⟩ | ⟨a1, a2⟩
      · rw [a1, a2]
        exact ⟨by omega, by omega, Or.inl (le_refl x)⟩
      · rw [a1, a2]
        refine ⟨le_refl _, ?_, Or.inl (by omega)⟩
        push_cast
        omega
    · rename_i seq hseq
      rw [hd]
      have hw1 : ((appendOutputBuffer env.term w seq).moveTermX (-1)).vterm.width
          = w.vterm.width :=
        width_of_skeleton ((skeleton_moveTermX _ _).trans (skeleton_appendOutputBuffer _ _ _))
      have ht1 : ((appendOutputBuffer env.term w seq).moveTermX (-1)).term_pos.1
          = w.term_pos.1 - 1 := by
        show (appendOutputBuffer env.term w seq).term_pos.1 + -1 = _
        rw [term_pos_appendOutputBuffer]
        omega
      obtain ⟨e1, e2⟩ := appendCharacter_column env
        ((appendOutputBuffer env.term w seq).moveTermX (-1)) (vtIndex w (x - 1) y)
        (by rw [ht1, hw1]; omega)
      rw [e1]
      have hwr : (markAsPrinted (appendCharacter env
          ((appendOutputBuffer env.term w seq).moveTermX (-1)) (vtIndex w (x - 1) y)).1
          (x - 1) y).vterm.width = w.vterm.width := by
        rw [width_markAsPrinted, width_of_skeleton (skeleton_appendCharacter env _ _), hw1]
      obtain ⟨_, hs⟩ := skipPaddingCharacter_column
        (markAsPrinted (appendCharacter env
          ((appendOutputBuffer env.term w seq).moveTermX (-1)) (vtIndex w (x - 1) y)).1
          (x - 1) y) (x - 1) y (vtIndex w (x - 1) y) (by omega)
      rcases hs with ⟨a1, a2, a3⟩ | ⟨a1, a2⟩
      · rw [a1, a2, term_pos_markAsPrinted, e2, ht1]
        refine ⟨by omega, ?_, Or.inr ⟨by omega, ?_, ?_⟩⟩
        · have : ((x - 1 : Nat) : Int) = (x : Int) - 1 := by omega
          omega
        · unfold leftFullWidth
          rw [if_pos ⟨h0, hfull⟩]
        · unfold leftFullWidth
          have hv : vtIndex (markAsPrinted (appendCharacter env
              ((appendOutputBuffer env.term w seq).moveTermX (-1)) (vtIndex w (x - 1) y)).1
              (x - 1) y) (x - 1) y = vtIndex w (x - 1) y := by
            exact vtIndex_congr hwr _ _
          rw [hv, if_neg (by rw [a3]; exact fun h => by cases h.2)]
      · rw [a1, a2, term_pos_markAsPrinted, e2, ht1]
        have : x - 1 + 1 = x := by omega
        rw [this]
        exact ⟨by omega, by omega, Or.inl (le_refl x)⟩
  · refine ⟨by omega, ?_, Or.inl (le_refl x)⟩
    rw [term_pos_printEllipsis]
    omega

/-- The function `printHalfCovertFullWidthCharacter` in a column `x > 0`
with the recorded cursor not right of it: `x` stays, and the recorded cursor
ends not right of the column after `x` when that column exists. -/
theorem printHalfCovertFullWidthCharacter_column (env : RenderEnv) (w : World) (x y : Nat)
    (i : Int) (h0 : 0 < x) (hx : (x : Int) < w.vterm.width) (hW : w.vterm.width < 2 ^ 31)
    (ht : w.term_pos.1 ≤ x) :
    (printHalfCovertFullWidthCharacter env w x y i).1.vterm.width = w.vterm.width
    ∧ (printHalfCovertFullWidthCharacter env w x y i).2 = x
    ∧ ((x : Int) + 1 < w.vterm.width →
        (printHalfCovertFullWidthCharacter env w x y i).1.term_pos.1 ≤ (x : Int) + 1) := by
  refine ⟨width_of_skeleton (skeleton_printHalfCovertFullWidthCharacter env w x y i), ?_⟩
  have hd : uInc (uDec x) = x := by unfold uInc uDec; omega
  unfold printHalfCovertFullWidthCharacter
  simp only [hd, ite_self]
  refine ⟨trivial, fun hn => ?_⟩
  rw [term_pos_markAsPrinted]
  split
  · split
    · exact (appendCharacter_next env w i x ht hn).2
    · rename_i seq hseq
      refine (appendCharacter_next env _ i x ?_ ?_).2
      · rw [term_pos_printEllipsis]
        show (appendOutputBuffer env.term w seq).term_pos.1 + -1 + 1 ≤ _
        rw [term_pos_appendOutputBuffer]
        omega
      · rw [width_printEllipsis]
        show (x : Int) + 1 < (appendOutputBuffer env.term w seq).vterm.width
        rw [width_of_skeleton (skeleton_appendOutputBuffer _ _ _)]
        exact hn
  · exact (appendCharacter_next env w i x ht hn).2

/-- The function `printCharacter` in a column `x` inside the buffer, with
the recorded cursor not right of it.  The column `x` is left inside the
buffer, the recorded cursor ends not right of the column after `x` when
that column exists, and `x` does not move to the left, except by one column
when the cell left of column `x` was full-width before and is not
full-width afterwards. -/
theorem printCharacter_column (env : RenderEnv) (w : World) (x y : Nat) (flag : Bool)
    (i : Int) (hx : (x : Int) < w.vterm.width) (hW : w.vterm.width < 2 ^ 31)
    (ht : w.term_pos.1 ≤ x) :
    (printCharacter env w x y flag i).1.vterm.width = w.vterm.width
    ∧ ((printCharacter env w x y flag i).2 : Int) < w.vterm.width
    ∧ (((printCharacter env w x y flag i).2 : Int) + 1 < w.vterm.width →
        (printCharacter env w x y flag i).1.term_pos.1
          ≤ ((printCharacter env w x y flag i).2 : Int) + 1)
    ∧ (x ≤ (printCharacter env w x y flag i).2
       ∨ ((printCharacter env w x y flag i).2 + 1 = x
          ∧ leftFullWidth w x y = 1
          ∧ leftFullWidth (printCharacter env w x y flag i).1 x y = 0)) := by
  refine ⟨width_of_skeleton (skeleton_printCharacter env w x y flag i), ?_⟩
  have hu : toUInt (w.vterm.width - 1) = (w.vterm.width - 1).toNat :=
    toUInt_of_nonneg (by omega) (by omega)
  unfold printCharacter
  simp only []
  rw [hu]
  split
  · rename_i h
    obtain ⟨_, a1, a2, a3⟩ := printFullWidthCharacter_column env w x y i (by omega) hW ht
    exact ⟨by omega, fun _ => a3, Or.inl a1⟩
  · split
    · rename_i h
      obtain ⟨_, a1, a2, a3⟩ := printFullWidthPaddingCharacter_column env w x y i h.1
        (by omega) hW ht
      exact ⟨by omega, fun _ => a2, a3⟩
    · split
      · rename_i h
        obtain ⟨_, a1, a2⟩ := printHalfCovertFullWidthCharacter_column env w x y i h.1 hx hW ht
        rw [a1]
        exact ⟨hx, a2, Or.inl (le_refl x)⟩
      · refine ⟨hx, fun hn => ?_, Or.inl (le_refl x)⟩
        rw [term_pos_markAsPrinted]
        exact (appendCharacter_next env w i x ht hn).2

theorem cell_setVTermCell_ne (w : World) (i j : Int) (c : FChar) (h : j ≠ i) :
    (w.setVTermCell i c).vterm.cell j = w.vterm.cell j := by
  unfold World.setVTermCell FTermArea.cell
  exact bufGet_bufSet_ne _ _ (Ne.symm h)

theorem cell_replaceNonPrintableFullwidth_ne (env : RenderEnv) (w : World) (x : Nat)
    (i j : Int) (h : j ≠ i) :
    (replaceNonPrintableFullwidth env w x i).vterm.cell j = w.vterm.cell j := by
  unfold replaceNonPrintableFullwidth
  simp only []
  split_ifs
  · exact cell_setVTermCell_ne w i j _ h
  · exact cell_setVTermCell_ne w i j _ h
  · rfl

theorem leftFullWidth_le (w : World) (x y : Nat) : leftFullWidth w x y ≤ 1 := by
  unfold leftFullWidth
  split <;> omega

theorem width_printRangeMark (env : RenderEnv) (w : World) (x y : Nat) :
    (printRangeMark env w x y).vterm.width = w.vterm.width :=
  width_of_skeleton ((skeleton_replaceNonPrintableFullwidth env _ _ _).trans
    (skeleton_setVTermCell _ _ _))

theorem term_pos_printRangeMark (env : RenderEnv) (w : World) (x y : Nat) :
    (printRangeMark env w x y).term_pos = w.term_pos := by
  unfold printRangeMark
  simp only []
  rw [term_pos_replaceNonPrintableFullwidth]
  rfl

/-- The cell left of column `x` is not touched by the statements of the
loop body of `printRange` that come before the output functions: they write
the cell in column `x` only. -/
theorem leftFullWidth_pass_start (env : RenderEnv) (w : World) (x y : Nat) (hx : x < 2 ^ 31) :
    leftFullWidth (markAsPrinted (printRangeMark env w x y) x y) x y = leftFullWidth w x y := by
  have hw2 := width_printRangeMark env w x y
  unfold leftFullWidth
  by_cases h0 : 0 < x
  · have hne : vtIndex w (x - 1) y ≠ vtIndex w x y := by
      unfold vtIndex
      generalize uMul y (toUInt w.vterm.width) = a
      unfold uAdd
      omega
    have hc : (markAsPrinted (printRangeMark env w x y) x y).vterm.cell (vtIndex w (x - 1) y)
        = w.vterm.cell (vtIndex w (x - 1) y) := by
      unfold markAsPrinted
      rw [vtIndex_congr hw2, cell_setVTermCell_ne _ _ _ _ hne]
      unfold printRangeMark
      simp only []
      rw [cell_replaceNonPrintableFullwidth_ne env _ x _ _ hne, cell_setVTermCell_ne _ _ _ _ hne]
    rw [vtIndex_congr (show (markAsPrinted _ x y).vterm.width = w.vterm.width from hw2), hc]
  · rw [if_neg (fun h => h0 h.1), if_neg (fun h => h0 h.1)]

/-- The body of the loop of `printRange` from `skipUnchangedCharacters` on,
in a column `x <= xmax` of a row that ends inside the buffer, with the
recorded cursor not right of `x`.  The width of the buffer stays; when the
loop goes on, `x` is left inside the buffer, the recorded cursor is not
right of the column after it when that column exists, and `x` has not moved
to the left, except by one column when the cell left of column `x` was
full-width and is not full-width afterwards. -/
theorem printRangeRest_column (env : RenderEnv) (xmin xmax y : Nat) (d : Bool) (w : World)
    (x : Nat) (i : Int) (hx : x ≤ xmax) (hmax : (xmax : Int) < w.vterm.width)
    (hW : w.vterm.width < 2 ^ 31) (ht : w.term_pos.1 ≤ x) :
    (printRangeRest env xmin xmax y d w x i).1.vterm.width = w.vterm.width
    ∧ ∀ x1, (printRangeRest env xmin xmax y d w x i).2 = some x1 →
        (x1 : Int) < w.vterm.width
        ∧ ((x1 : Int) + 1 < w.vterm.width →
            (printRangeRest env xmin xmax y d w x i).1.term_pos.1 ≤ (x1 : Int) + 1)
        ∧ (x ≤ x1
           ∨ (x1 + 1 = x ∧ leftFullWidth (markAsPrinted w x y) x y = 1
              ∧ leftFullWidth (printRangeRest env xmin xmax y d w x i).1 x y = 0)) := by
  obtain ⟨s1, s2, s3⟩ := skipUnchangedCharacters_column env w x xmax y hx (by omega)
  unfold printRangeRest
  simp only []
  split
  · rename_i hs
    obtain ⟨b1, b2, b3⟩ := s2 hs
    refine ⟨s1, ?_⟩
    intro x1 h1
    cases h1
    exact ⟨by omega, fun _ => b3, Or.inl b1⟩
  · rename_i hs
    obtain ⟨b1, b2⟩ := s3 (by simpa using hs)
    rw [b1, b2]
    have hw3 : (markAsPrinted w x y).vterm.width = w.vterm.width := rfl
    have ht3 : (markAsPrinted w x y).term_pos.1 ≤ x := ht
    split
    · obtain ⟨c1, c2⟩ := eraseCharacters_column env (markAsPrinted w x y) x xmax y d hx hmax
        hW ht3
      split
      · refine ⟨c1, ?_⟩
        intro x1 h1
        cases h1
      · rename_i hne
        refine ⟨c1, ?_⟩
        intro x1 h1
        cases h1
        obtain ⟨d1, d2, d3⟩ := c2 hne
        exact ⟨by omega, d3, Or.inl d1⟩
    · split
      · obtain ⟨c1, d1, d2, d3⟩ := repeatCharacter_column env (markAsPrinted w x y) x xmax y hx
          hmax hW ht3
        refine ⟨c1, ?_⟩
        intro x1 h1
        cases h1
        exact ⟨by omega, d3, Or.inl d1⟩
      · obtain ⟨c1, d1, d2, d3⟩ := printCharacter_column env (markAsPrinted w x y) x y
          (decide (x = xmin) && decide (xmin ≠ xmax)) i
          (by rw [hw3]; omega) hW ht3
        refine ⟨c1, ?_⟩
        intro x1 h1
        cases h1
        exact ⟨d1, d2, d3⟩

/-- One pass of the loop of `printRange` in a column `x <= xmax` of a row
that ends inside the buffer, with the recorded cursor not right of `x`.
The width of the buffer stays; when the loop goes on, `x` is left inside the
buffer, the recorded cursor is not right of the column after it when that
column exists, and `x` has not moved to the left, except by one column when
the cell left of column `x` was full-width before the pass and is not
full-width after it. -/
theorem printRangePass_column (env : RenderEnv) (xmin xmax y : Nat) (d : Bool) (w : World)
    (x : Nat) (hx : x ≤ xmax) (hmax : (xmax : Int) < w.vterm.width)
    (hW : w.vterm.width < 2 ^ 31) (ht : w.term_pos.1 ≤ x) :
    (printRangePass env xmin xmax y d w x).1.vterm.width = w.vterm.width
    ∧ ∀ x1, (printRangePass env xmin xmax y d w x).2 = some x1 →
        (x1 : Int) < w.vterm.width
        ∧ ((x1 : Int) + 1 < w.vterm.width →
            (printRangePass env xmin xmax y d w x).1.term_pos.1 ≤ (x1 : Int) + 1)
        ∧ (x ≤ x1
           ∨ (x1 + 1 = x ∧ leftFullWidth w x y = 1
              ∧ leftFullWidth (printRangePass env xmin xmax y d w x).1 x y = 0)) := by
  have hw2 := width_printRangeMark env w x y
  have ht2 := term_pos_printRangeMark env w x y
  obtain ⟨r1, r2⟩ := printRangeRest_column env xmin xmax y d (printRangeMark env w x y) x
    (vtIndex w x y) hx (by rw [hw2]; exact hmax) (by rw [hw2]; exact hW) (by rw [ht2]; exact ht)
  unfold printRangePass
  refine ⟨r1.trans hw2, ?_⟩
  intro x1 h1
  obtain ⟨a1, a2, a3⟩ := r2 x1 h1
  rw [hw2] at a1 a2
  rw [leftFullWidth_pass_start env w x y (by omega)] at a3
  exact ⟨a1, a2, a3⟩

/-- The loop of `printRange` returns: in a row that ends inside the buffer,
with the recorded cursor not right of `x`, a fuel above twice the number of
columns left, plus one when the cell left of column `x` is full-width, is
enough. -/
theorem printRangeLoop_returns (env : RenderEnv) (xmin xmax y : Nat) (d : Bool) :
    ∀ (fuel : Nat) (w : World) (x : Nat),
      (xmax : Int) < w.vterm.width → w.vterm.width < 2 ^ 31 →
      (x ≤ xmax → w.term_pos.1 ≤ x) →
      (x ≤ xmax → 2 * (xmax + 1 - x) + leftFullWidth w x y < fuel) →
      (printRangeLoop env xmin xmax y d fuel w x).isSome = true := by
  intro fuel
  induction fuel with
  | zero =>
    intro w x _ _ _ hm
    unfold printRangeLoop
    split
    · rename_i hx
      exact absurd (hm hx) (Nat.not_lt_zero _)
    · rfl
  | succ n ih =>
    intro w x hmax hW ht hm
    rw [printRangeLoop_succ]
    split
    · rename_i hx
      obtain ⟨p1, p2⟩ := printRangePass_column env xmin xmax y d w x hx hmax hW (ht hx)
      cases hp : (printRangePass env xmin xmax y d w x).2 with
      | none => rfl
      | some x1 =>
        obtain ⟨a1, a2, a3⟩ := p2 x1 hp
        have hi : uInc x1 = x1 + 1 := by unfold uInc; omega
        simp only []
        rw [hi]
        apply ih
        · rw [p1]; exact hmax
        · rw [p1]; exact hW
        · intro hx1
          have := a2 (by omega)
          push_cast
          exact this
        · intro hx1
          have hl := leftFullWidth_le (printRangePass env xmin xmax y d w x).1 (x1 + 1) y
          have hmx := hm hx
          rcases a3 with a3 | ⟨b1, b2, b3⟩
          · omega
          · rw [b1, b3]
            rw [b2] at hmx
            omega
    · rfl

/-- The column returned by `canClearTrailingWS` lies inside the row when the
one handed over does. -/
theorem canClearTrailingWS_lt (env : RenderEnv) (w : World) (xmax y : Nat)
    (hW0 : 0 < w.vterm.width) (hW : w.vterm.width < 2 ^ 31)
    (hmax : (xmax : Int) < w.vterm.width) :
    ((canClearTrailingWS env w xmax y).2 : Int) < w.vterm.width := by
  have hu : toUInt w.vterm.width = w.vterm.width.toNat :=
    toUInt_of_nonneg (le_of_lt hW0) (by omega)
  unfold canClearTrailingWS
  simp only []
  rw [hu]
  have hs : uSub w.vterm.width.toNat 1 = w.vterm.width.toNat - 1 := by unfold uSub; omega
  rw [hs]
  split
  · split
    · have hc := countWhile_le
        (fun x => FChar.eq (w.vterm.cell ((uSub (uMul (uInc y) w.vterm.width.toNat) 1 : Nat) : Int))
          (w.vterm.cell (vtIndex w x y)))
        (List.range' 1 (w.vterm.width.toNat - 1)).reverse
      rw [List.length_reverse, List.length_range'] at hc
      generalize countWhile
        (fun x => FChar.eq (w.vterm.cell ((uSub (uMul (uInc y) w.vterm.width.toNat) 1 : Nat) : Int))
          (w.vterm.cell (vtIndex w x y)))
        (List.range' 1 (w.vterm.width.toNat - 1)).reverse = n at hc ⊢
      show ((uSub w.vterm.width.toNat (uAdd 1 n) : Nat) : Int) < w.vterm.width
      have : uSub w.vterm.width.toNat (uAdd 1 n) = w.vterm.width.toNat - (1 + n) := by
        unfold uSub uAdd; omega
      rw [this]
      omega
    · exact hmax
  · exact hmax

/-- The block of `updateTerminalLine` for a dirty row returns: for a row
record that ends inside a buffer of width `W`, a fuel above `2 * W + 1` is
enough. -/
theorem updateTerminalLineDirty_returns (env : RenderEnv) (fuel : Nat) (w : World) (y : Nat)
    (hW0 : 0 < w.vterm.width) (hW : w.vterm.width < 2 ^ 31)
    (hmax : ((w.vterm.line (y : Int)).xmax : Int) < w.vterm.width)
    (hfuel : 2 * w.vterm.width + 1 < fuel) :
    (updateTerminalLineDirty env fuel w y).isSome = true := by
  unfold updateTerminalLineDirty
  simp only []
  rw [Option.isSome_map']
  split
  · rfl
  · rename_i heol
    rw [Option.isSome_map']
    unfold printRange
    have hw1 : ∀ x : Int, (setTermXY env.term w x (toInt y)).vterm.width = w.vterm.width :=
      fun x => width_of_skeleton (skeleton_setTermXY env.term w x (toInt y))
    have htr := canClearTrailingWS_lt env w (w.vterm.line (y : Int)).xmax y hW0 hW hmax
    apply printRangeLoop_returns
    · split
      · rw [width_of_skeleton (skeleton_markAsPrintedRange _ _ _ _),
          width_of_skeleton (skeleton_appendOutputOption _ _ _),
          width_of_skeleton (skeleton_appendAttributes _ _ _), hw1]
        exact htr
      · rw [hw1]; exact htr
    · split
      · rw [width_of_skeleton (skeleton_markAsPrintedRange _ _ _ _),
          width_of_skeleton (skeleton_appendOutputOption _ _ _),
          width_of_skeleton (skeleton_appendAttributes _ _ _), hw1]
        exact hW
      · rw [hw1]; exact hW
    · intro hx
      have h31 : (canClearLeadingWS env w (w.vterm.line (y : Int)).xmin y).2 < 2 ^ 31 := by
        omega
      have ht := le_of_le_of_eq (setTermXY_column_le env.term w
        (toInt (canClearLeadingWS env w (w.vterm.line (y : Int)).xmin y).2) (toInt y))
        (toInt_of_lt h31)
      split
      · rw [term_pos_markAsPrintedRange, term_pos_appendOutputOption, term_pos_appendAttributes]
        exact ht
      · exact ht
    · intro hx
      have hl := leftFullWidth_le
        (if (canClearLeadingWS env w (w.vterm.line (y : Int)).xmin y).1 = true then
          markAsPrintedRange
            (appendOutputOption env.term
              (appendAttributes env
                (setTermXY env.term w
                  (toInt (canClearLeadingWS env w (w.vterm.line (y : Int)).xmin y).2) (toInt y))
                (vtIndex w 0 y))
              env.t_clr_bol)
            0 (canClearLeadingWS env w (w.vterm.line (y : Int)).xmin y).2 y
        else setTermXY env.term w
          (toInt (canClearLeadingWS env w (w.vterm.line (y : Int)).xmin y).2) (toInt y))
        (canClearLeadingWS env w (w.vterm.line (y : Int)).xmin y).2 y
      omega

/-- The function `updateTerminalLine` returns for a row record that ends
inside the buffer. -/
theorem updateTerminalLine_returns (env : RenderEnv) (fuel : Nat) (w : World) (y : Nat)
    (hW0 : 0 < w.vterm.width) (hW : w.vterm.width < 2 ^ 31)
    (hmax : ((w.vterm.line (y : Int)).xmax : Int) < w.vterm.width)
    (hfuel : 2 * w.vterm.width + 1 < fuel) :
    (updateTerminalLine env fuel w y).isSome = true := by
  unfold updateTerminalLine
  simp only []
  rw [Option.isSome_map']
  split
  · exact updateTerminalLineDirty_returns env fuel w y hW0 hW hmax hfuel
  · rfl

/-- The row loop of `updateTerminal` returns when every row record ends
inside the buffer. -/
theorem updateTerminalLines_returns (env : RenderEnv) (fuel : Nat) (ys : List Nat) :
    ∀ w : World, 0 < w.vterm.width → w.vterm.width < 2 ^ 31 →
      (∀ y1 : Int, ((w.vterm.line y1).xmax : Int) < w.vterm.width) →
      2 * w.vterm.width + 1 < fuel →
      (updateTerminalLines env fuel ys w).isSome = true := by
  induction ys with
  | nil => intro w _ _ _ _; rfl
  | cons y rest ih =>
    intro w hW0 hW hrows hfuel
    unfold updateTerminalLines
    cases hm : updateTerminalLine env fuel w y with
    | none =>
      have := updateTerminalLine_returns env fuel w y hW0 hW (hrows _) hfuel
      rw [hm] at this
      cases this
    | some wm =>
      simp only []
      obtain ⟨_, _, _, _, m5, _, _, m8⟩ := updateTerminalLine_spec env fuel w y wm hm
      apply ih wm (by rw [m5]; exact hW0) (by rw [m5]; exact hW) ?_ (by rw [m5]; exact hfuel)
      intro y1
      rw [m8 y1, m5]
      split
      · exact hW0
      · exact hrows y1

/-- Row records that end inside the buffer for the rows that have one do so
for every index: outside the array the record read is the zero record. -/
theorem rows_inside_of_records (vt : FTermArea) (hW0 : 0 < vt.width)
    (h : ∀ y : Nat, y < bufSize vt.changes → ((vt.line (y : Int)).xmax : Int) < vt.width) :
    ∀ y1 : Int, ((vt.line y1).xmax : Int) < vt.width := by
  intro y1
  by_cases hin : 0 ≤ y1 ∧ y1 < (bufSize vt.changes : Int)
  · have := h y1.toNat (by omega)
    rw [Int.toNat_of_nonneg hin.1] at this
    exact this
  · have e : vt.line y1 = default := by
      unfold FTermArea.line bufGet
      cases hc : vt.changes with
      | none => rfl
      | some l =>
        simp only []
        split
        · rename_i h0
          have hl : l.length ≤ y1.toNat := by
            simp only [bufSize, hc] at hin
            omega
          rw [List.getD_eq_default _ _ hl]
        · rfl
    rw [e]
    exact hW0

theorem rowsInside_of_changes {w w1 : World} (hc : w1.vterm.changes = w.vterm.changes)
    (hw : w1.vterm.width = w.vterm.width) (h : w.RowsInside) : w1.RowsInside := by
  intro y1
  have e : w1.vterm.line y1 = w.vterm.line y1 := congrArg (fun c => bufGet c y1) hc
  rw [e, hw]
  exact h y1

/-- The widening of a dirty range by `putArea` clips `xmax` at the last
column: row records that end inside the buffer keep doing so. -/
theorem putAreaDirtyRange_inside (vt : FTermArea) (row xmin xmax0 : Int)
    (hW : vt.width < 2 ^ 31)
    (h : ∀ y1 : Int, ((vt.line y1).xmax : Int) < vt.width) :
    ∀ y1 : Int, (((putAreaDirtyRange vt row xmin xmax0).line y1).xmax : Int) < vt.width := by
  have h1 : ∀ (c : FLineChanges) (y1 : Int), ((c.xmax : Int) < vt.width) →
      (((vt.setLine row c).line y1).xmax : Int) < vt.width := by
    intro c y1 hc
    rw [line_setLine]
    split
    · exact hc
    · exact h y1
  unfold putAreaDirtyRange
  simp only []
  intro y1
  have key : ∀ vt1 : FTermArea, vt1.width = vt.width →
      (∀ y2 : Int, ((vt1.line y2).xmax : Int) < vt.width) →
      (((if (if xmax0 ≥ vt1.width then vt1.width - 1 else xmax0) > toInt (vt1.line row).xmax then
          vt1.setLine row { vt1.line row with
            xmax := toUInt (if xmax0 ≥ vt1.width then vt1.width - 1 else xmax0) }
        else vt1).line y1).xmax : Int) < vt.width := by
    intro vt1 hw1 hv1
    have hxm : (if xmax0 ≥ vt1.width then vt1.width - 1 else xmax0) < vt1.width := by
      split <;> omega
    generalize (if xmax0 ≥ vt1.width then vt1.width - 1 else xmax0) = xm at hxm ⊢
    by_cases hgt : xm > toInt (vt1.line row).xmax
    · rw [if_pos hgt, line_setLine]
      split
      · show ((toUInt xm : Nat) : Int) < _
        have hcur := hv1 row
        have hti : toInt (vt1.line row).xmax = ((vt1.line row).xmax : Int) :=
          toInt_of_lt (by omega)
        rw [hti] at hgt
        rw [toUInt_cast (by omega) (by omega)]
        omega
      · exact hv1 y1
    · rw [if_neg hgt]
      exact hv1 y1
  split
  · apply key
    · rfl
    · intro y2
      exact h1 _ y2 (h row)
  · exact key vt rfl h

/-- One pass of the line loop of `putArea` keeps the row records of the
full-screen buffer inside the rows. -/
theorem putAreaRow_inside (env : CompEnv) (r : AreaRef) (ax ay ol width : Int) (w : World)
    (y : Int) (hW : w.vterm.width < 2 ^ 31) (h : w.RowsInside) :
    (putAreaRow env r ax ay ol width w y).RowsInside := by
  cases ha : w.area? r with
  | none =>
    have e : putAreaRow env r ax ay ol width w y = w := by
      unfold putAreaRow; rw [ha]
    rw [e]; exact h
  | some a =>
    by_cases h1 : toInt (a.line y).xmin > toInt (a.line y).xmax
    · have e : putAreaRow env r ax ay ol width w y = w := by
        unfold putAreaRow; rw [ha]; simp only []; rw [if_pos h1]
      rw [e]; exact h
    · by_cases h2 : ax + (if ax = 0 then ol else toInt (a.line y).xmin) ≥ w.vterm.width
      · have e : putAreaRow env r ax ay ol width w y = w := by
          unfold putAreaRow; rw [ha]; simp only []; rw [if_neg h1, if_pos h2]
        rw [e]; exact h
      · rw [putAreaRow_dirty env r ax ay ol width w y a ha h1 h2]
        obtain ⟨d, hd, _, _⟩ := columnLoop_world env r ax ay ol y w
          (if ax = 0 then ol else toInt (a.line y).xmin)
          (if width + ax - ol ≥ w.vterm.width then w.vterm.width + ol - ax - 1
           else toInt (a.line y).xmax)
        generalize columnLoop env r ax ay ol y w (if ax = 0 then ol else toInt (a.line y).xmin)
          (if width + ax - ol ≥ w.vterm.width then w.vterm.width + ol - ax - 1
           else toInt (a.line y).xmax) = st at hd ⊢
        intro y1
        rw [setArea_vterm]
        show ((((putAreaDirtyRange st.world.vterm _ _ _).line y1).xmax : Nat) : Int)
          < (putAreaDirtyRange st.world.vterm _ _ _).width
        have hwd : ∀ (a b c : Int), (putAreaDirtyRange st.world.vterm a b c).width
            = st.world.vterm.width := by
          intro a b c
          rw [putAreaDirtyRange_fields]
        have hsw : st.world.vterm.width = w.vterm.width := by rw [hd]; rfl
        have hsl : ∀ y2 : Int, st.world.vterm.line y2 = w.vterm.line y2 := by
          intro y2; rw [hd]; rfl
        rw [hwd]
        apply putAreaDirtyRange_inside st.world.vterm _ _ _ (by rw [hsw]; exact hW)
        intro y2
        rw [hsl, hsw]
        exact h y2

theorem foldl_inside {α : Type} (f : World → α → World)
    (h : ∀ (w : World) (a : α), w.vterm.width < 2 ^ 31 → w.RowsInside →
      (f w a).vterm.width = w.vterm.width ∧ (f w a).RowsInside)
    (l : List α) :
    ∀ w : World, w.vterm.width < 2 ^ 31 → w.RowsInside →
      (l.foldl f w).vterm.width = w.vterm.width ∧ (l.foldl f w).RowsInside := by
  induction l with
  | nil => intro w _ hr; exact ⟨rfl, hr⟩
  | cons a rest ih =>
    intro w hW hr
    rw [List.foldl_cons]
    obtain ⟨e1, r1⟩ := h w a hW hr
    obtain ⟨e2, r2⟩ := ih (f w a) (by rw [e1]; exact hW) r1
    exact ⟨e2.trans e1, r2⟩

/-- Compositing a surface without pre-render handlers keeps the row records
of the full-screen buffer inside the rows. -/
theorem putArea_inside (env : CompEnv) (w : World) (r : AreaRef)
    (hpre : ∀ a, w.area? r = some a → a.preproc_list = [])
    (hW : w.vterm.width < 2 ^ 31) (h : w.RowsInside) : (putArea env w r).RowsInside := by
  unfold putArea
  cases ha : w.area? r with
  | none => exact h
  | some a =>
    simp only []
    split
    · exact h
    · rw [callPreprocessingHandler_nil env w r a ha (hpre a ha)]
      obtain ⟨e1, r1⟩ := foldl_inside (putAreaRow env r
          (if a.offset_left < 0 then 0 else a.offset_left) a.offset_top
          (if a.offset_left < 0 then |a.offset_left| else 0) (a.width + a.right_shadow))
        (fun w2 y2 hW2 hr2 =>
          ⟨(putAreaRow_kept env r _ _ _ _ w2 y2).1, putAreaRow_inside env r _ _ _ _ w2 y2 hW2 hr2⟩)
        (forRange 0
          ((if a.height + a.bottom_shadow + a.offset_top > w.vterm.height
              then w.vterm.height - a.offset_top else a.height + a.bottom_shadow) - 1))
        w hW h
      refine rowsInside_of_changes ?_ ?_ r1
      · rw [updateVTermCursor_vterm_changes]
      · exact (updateVTermCursor_kept env _ r).1

theorem clearHasChanges_inside (w : World) (r : AreaRef) (h : w.RowsInside) :
    (w.clearHasChanges r).RowsInside := by
  unfold World.clearHasChanges
  cases w.area? r with
  | none => exact h
  | some a =>
    simp only []
    exact rowsInside_of_changes (by rw [setArea_vterm]) (by rw [setArea_vterm]) h

/-- One pass of the window loop of `updateVTerm` without pre-render handlers
on the window keeps the row records of the full-screen buffer inside the
rows. -/
theorem updateVTermWindow_inside (env : RenderEnv) (w : World) (i : Nat)
    (hpre : ∀ a, w.area? (AreaRef.window i) = some a → a.preproc_list = [])
    (hW : w.vterm.width < 2 ^ 31) (h : w.RowsInside) :
    (updateVTermWindow env w i).RowsInside := by
  unfold updateVTermWindow
  cases ha : w.area? (AreaRef.window i) with
  | none => exact h
  | some v_win =>
    simp only []
    split
    · exact h
    · split
      · exact clearHasChanges_inside _ _ (putArea_inside env.comp w _ hpre hW h)
      · rw [hasChildAreaChanges_nil env w v_win (hpre v_win ha)]
        exact h

theorem updateVTerm_windows_inside (env : RenderEnv) (l : List Nat) :
    ∀ w : World, (∀ i a, w.area? (AreaRef.window i) = some a → a.preproc_list = []) →
      w.vterm.width < 2 ^ 31 → w.RowsInside →
      (l.foldl (updateVTermWindow env) w).RowsInside := by
  induction l with
  | nil => intro w _ _ h; exact h
  | cons i rest ih =>
    intro w hpre hW h
    rw [List.foldl_cons]
    obtain ⟨k1, _⟩ := updateVTermWindow_spec env w i (hpre i)
    have hpre1 : ∀ j a, (updateVTermWindow env w i).area? (AreaRef.window j) = some a →
        a.preproc_list = [] := by
      intro j a hj
      obtain ⟨a0, h0, _, e, _⟩ := k1.2.2.2 _ a hj
      rw [e]
      exact hpre j a0 h0
    exact ih _ hpre1 (by rw [k1.1]; exact hW) (updateVTermWindow_inside env w i (hpre i) hW h)

/-- The function `updateVTerm` without pre-render handlers on the desktop
and the windows keeps the row records of the full-screen buffer inside the
rows. -/
theorem updateVTerm_inside (env : RenderEnv) (w : World)
    (hdesk : w.vdesktop.preproc_list = [])
    (hwin : ∀ i a, w.area? (AreaRef.window i) = some a → a.preproc_list = [])
    (hW : w.vterm.width < 2 ^ 31) (h : w.RowsInside) : (updateVTerm env w).RowsInside := by
  have hd : ∀ a, w.area? AreaRef.desktop = some a → a.preproc_list = [] := by
    intro a ha
    cases ha
    exact hdesk
  have key : ∀ w1 : World, w.Kept w1 → w1.RowsInside →
      (if w1.window_list = [] then w1
        else (List.range w1.window_list.length).foldl (updateVTermWindow env) w1).RowsInside := by
    intro w1 k1 r1
    split
    · exact r1
    · apply updateVTerm_windows_inside env _ w1 ?_ (by rw [k1.1]; exact hW) r1
      intro j a hj
      obtain ⟨a0, h0, _, e2, _⟩ := k1.2.2.2 _ a hj
      rw [e2]
      exact hwin j a0 h0
  unfold updateVTerm
  simp only []
  split
  · obtain ⟨k2, _⟩ := clearHasChanges_kept (putArea env.comp w AreaRef.desktop)
      AreaRef.desktop
    exact key _ ((putArea_kept env.comp w AreaRef.desktop hd).trans k2)
      (clearHasChanges_inside _ _ (putArea_inside env.comp w _ hd hW h))
  · exact key w (World.Kept.refl w) h

/-- A render pass of `updateTerminal ()` returns: with the gates passed,
every row record of the full-screen buffer ending inside the row and no
pre-render handler on the desktop or on a window, a fuel above
`2 * width + 1` is enough for every `printRange` of the pass. -/
theorem updateTerminal_returns (env : RenderEnv) (probe : TerminalProbe) (fuel : Nat)
    (s : UpdateState)
    (hquit : probe.isQuit = false) (hin : probe.isInputDataPending = false)
    (hres : probe.hasTermResized = false) (hsize : probe.isTermSizeChanged = false)
    (hstop : s.stop_terminal_updates = false)
    (hcomplete : s.force_terminal_update = true ∨ s.terminal_update_complete = true)
    (hhooks : s.world.NoHooks) (hrows : s.world.VTermRows)
    (hinside : ∀ y : Nat, y < bufSize s.world.vterm.changes →
      ((s.world.vterm.line (y : Int)).xmax : Int) < s.world.vterm.width)
    (hfuel : 2 * s.world.vterm.width + 1 < fuel) :
    (updateTerminal env probe fuel s).isSome = true := by
  rw [updateTerminal_pass env probe fuel s hquit hin hres hsize hstop hcomplete]
  obtain ⟨r1, r2, _⟩ := hrows
  obtain ⟨k, _, _⟩ := updateVTerm_spec env s.world hhooks.1 (noHooks_window _ hhooks)
  have hin1 := updateVTerm_inside env s.world hhooks.1 (noHooks_window _ hhooks) r2
    (rows_inside_of_records s.world.vterm r1 hinside)
  split
  · rfl
  · rw [Option.isSome_map']
    exact updateTerminalLines_returns env fuel _ _ (by rw [k.1]; exact r1)
      (by rw [k.1]; exact r2) hin1 (by rw [k.1]; exact hfuel)

/-- Claim C12 (render idempotence).  Let `updateTerminal ()` make a render
pass: no stop and no quit, the printing phase complete or the update
forced, no input pending, no resize, no pre-render handler on the desktop or
on a window, and the compositing reports changes.  The full-screen buffer
has a positive width and one row record per row, and every row record ends
inside its row.  Then the pass returns, for every fuel above
`2 * width + 1`; every row of the full-screen buffer is clean afterwards and
the flag `has_changes` of the buffer is false; and an `updateTerminal ()`
that follows at once returns the state it was given, whatever its fuel: it
finds no dirty row and emits nothing. -/
theorem C12_render_idempotence (env : RenderEnv) (probe : TerminalProbe) (fuel fuel2 : Nat)
    (s : UpdateState)
    (hquit : probe.isQuit = false) (hin : probe.isInputDataPending = false)
    (hres : probe.hasTermResized = false) (hsize : probe.isTermSizeChanged = false)
    (hstop : s.stop_terminal_updates = false)
    (hcomplete : s.force_terminal_update = true ∨ s.terminal_update_complete = true)
    (hhooks : s.world.NoHooks) (hrows : s.world.VTermRows)
    (hheight : s.world.vterm.height < 2 ^ 31)
    (hinside : ∀ y : Nat, y < bufSize s.world.vterm.changes →
      ((s.world.vterm.line (y : Int)).xmax : Int) < s.world.vterm.width)
    (hpass : (updateVTerm env s.world).vterm.has_changes = true)
    (hfuel : 2 * s.world.vterm.width + 1 < fuel) :
    ∃ s1, updateTerminal env probe fuel s = some s1
      ∧ (∀ y : Int, 0 ≤ y → y < s1.world.vterm.height →
          (s1.world.vterm.line y).xmax < (s1.world.vterm.line y).xmin)
      ∧ s1.world.vterm.has_changes = false
      ∧ updateTerminal env probe fuel2 s1 = some s1 :=
  render_idempotence_of_run env probe fuel fuel2 s hquit hin hres hsize hstop hcomplete hhooks
    hrows hheight hpass
    (updateTerminal_returns env probe fuel s hquit hin hres hsize hstop hcomplete hhooks hrows
      hinside hfuel)

/-- Witness for C12: the pass on the 10 x 4 terminal of `sampleDirtyState`,
with a dirty desktop and a dirty window, and the fuel 22. -/
theorem C12_render_idempotence_witness :
    (updateVTerm sampleRenderEnv sampleDirtyState.world).vterm.has_changes = true
    ∧ (updateTerminal sampleRenderEnv (sampleProbe false) 22 sampleDirtyState).isSome = true
    ∧ ∃ s1, updateTerminal sampleRenderEnv (sampleProbe false) 22 sampleDirtyState = some s1
      ∧ (∀ y : Int, 0 ≤ y → y < s1.world.vterm.height →
          (s1.world.vterm.line y).xmax < (s1.world.vterm.line y).xmin)
      ∧ s1.world.vterm.has_changes = false
      ∧ updateTerminal sampleRenderEnv (sampleProbe false) 0 s1 = some s1 :=
  ⟨by decide, by decide,
   C12_render_idempotence sampleRenderEnv (sampleProbe false) 22 0 sampleDirtyState rfl rfl rfl
     rfl rfl (Or.inr rfl) (by decide) (by decide) (by decide) (by decide) (by decide)
     (by decide)⟩

end finalcut
